import Mathlib

/-!
# AgentChat server: connection and room session manager

A shallow embedding of `src/server` (`protocol.js`, `db.js`, `auth.js`,
`rooms.js`, `messages.js`, `commands.js`, `commands/*.js`, `handler.js`).

Modelling conventions

* A WebSocket object `ws` is a `SessionId` (object identity); its mutable fields
  (`ws.user`, `ws.rooms`, `ws.isAlive`, `ws.readyState`) live in `State.sessions`.
* `ws.send(data)` appends to `State.outbox ws`; `JSON.stringify` is the
  structural embedding of the event object as a `Frame`.
* A JavaScript `Set` is `JSSet` (insertion ordered, no repetition); a `Map` is a
  function into `Option`.
* SQLite tables are lists of rows in rowid order; an `INSERT` that violates a
  `PRIMARY KEY`, `NOT NULL` or `FOREIGN KEY` constraint of the schema throws.
* Fields of an inbound frame are taken at their protocol types: strings
  (`none` for `undefined`/`null`), an integer for `limit`, JSON text for
  `metadata`; the `type` field keeps the distinction string / other value, and
  `roomNull` keeps `null` apart from `undefined` for `room`, the one field for
  which the handlers tell them apart (`command:send`).
* `uuidv4()` and `Date.now()` are inputs of the step that calls them; `bcrypt`
  and `HISTORY_LIMIT` are parameters (`Env`).
* `step` is one turn of the event loop in which the promises the handler awaits
  (`bcrypt`, `commands.execute`) settle before anything else is handled: it gives
  the state after the last continuation of the handler.
* `astep` is one turn of the event loop with handlers that stop at `await`: a
  frame is handled up to the first `await` (`handler.onMessageStart`), and every
  continuation (`handler.afterAwait`) is a turn of its own, which may come after
  any number of other turns.
-/

set_option autoImplicit false

namespace AgentChat

/-! ## JavaScript `Set` -/

/-- Model of a JavaScript `Set`: elements in insertion order, none repeated. -/
structure JSSet (α : Type) where
  elems : List α
  nodup : elems.Nodup

namespace JSSet

variable {α : Type} [DecidableEq α]

/-- The value of `new Set()`. -/
def empty : JSSet α := ⟨[], List.nodup_nil⟩

/-- The method `Set.prototype.has`. -/
def has (s : JSSet α) (a : α) : Bool := decide (a ∈ s.elems)

/-- The method `Set.prototype.add`: a new element goes last, a present one is kept in place. -/
def add (s : JSSet α) (a : α) : JSSet α :=
  if h : a ∈ s.elems then s
  else ⟨s.elems ++ [a], List.Nodup.append s.nodup (List.nodup_singleton a)
    (List.disjoint_singleton.mpr h)⟩

/-- The method `Set.prototype.delete`. -/
def delete (s : JSSet α) (a : α) : JSSet α :=
  ⟨s.elems.erase a, s.nodup.erase a⟩

/-- The property `Set.prototype.size`. -/
def size (s : JSSet α) : Nat := s.elems.length

/-- The value of `new Set(iterable)`: the elements are added one by one. -/
def ofList (l : List α) : JSSet α := l.foldl add empty

instance : Membership α (JSSet α) where
  mem s a := a ∈ s.elems

instance (a : α) (s : JSSet α) : Decidable (a ∈ s) :=
  inferInstanceAs (Decidable (a ∈ s.elems))

instance : DecidableEq (JSSet α) := fun s t =>
  if h : s.elems = t.elems then
    isTrue (by cases s; cases t; simp only [mk.injEq]; exact h)
  else isFalse (fun e => h (by rw [e]))

end JSSet

/-! ## JavaScript truthiness -/

/-- Truthiness of a value that is a string, `undefined` or `null`: only a
non-empty string is truthy. -/
def truthy : Option String → Bool
  | none => false
  | some s => decide (s ≠ "")

/-- The expression `x || d` for a string-or-undefined `x`. -/
def orElse (x : Option String) (d : String) : String :=
  if truthy x then x.getD d else d

/-- The expression `x ?? d` for a string-or-undefined `x`. -/
def nullish (x : Option String) (d : String) : String := x.getD d

/-- The text of the empty JSON object, the default of `metadata`. -/
def emptyObject : String := "\x7b\x7d"

/-! ## `db.js`: tables -/

/-- A row of table `users`. -/
structure UserRow where
  username : String
  password : String
  avatar : String
  about : String
  created_at : Nat
  deriving DecidableEq, Repr

/-- A row of table `rooms`; `metadata` is the stored JSON text. -/
structure RoomRow where
  name : String
  description : String
  metadata : String
  created_by : String
  created_at : Nat
  deriving DecidableEq, Repr

/-- A row of table `room_members`. -/
structure MemberRow where
  room : String
  username : String
  joined_at : Nat
  deriving DecidableEq, Repr

/-- A row of table `messages`. -/
structure MessageRow where
  id : String
  room : String
  sender : String
  message : String
  metadata : String
  timestamp : Nat
  deriving DecidableEq, Repr

/-- A row of table `direct_messages`. -/
structure DMRow where
  id : String
  sender : String
  recipient : String
  message : String
  metadata : String
  timestamp : Nat
  deriving DecidableEq, Repr

/-- The SQLite database: each table is the list of its rows in rowid order. -/
structure Db where
  users : List UserRow
  rooms : List RoomRow
  room_members : List MemberRow
  messages : List MessageRow
  direct_messages : List DMRow
  deriving DecidableEq, Repr

/-- The database right after `init()` on a new file. -/
def Db.init : Db := ⟨[], [], [], [], []⟩

namespace Db

/-- The function `getUser`: `SELECT * FROM users WHERE username = ?`. -/
def getUser (d : Db) (username : String) : Option UserRow :=
  d.users.find? (fun u => u.username = username)

/-- The function `createUser`: the `INSERT` throws (`none`) on a taken primary key. -/
def createUser (d : Db) (username hashedPassword : String) (now : Nat) : Option Db :=
  if (d.getUser username).isSome then none
  else some { d with users := d.users ++ [⟨username, hashedPassword, "", "", now⟩] }

/-- The function `updatePassword`. -/
def updatePassword (d : Db) (username hashedPassword : String) : Db :=
  let upd (u : UserRow) : UserRow :=
    if u.username = username then { u with password := hashedPassword } else u
  { d with users := d.users.map upd }

/-- The function `updateProfile`. -/
def updateProfile (d : Db) (username avatar about : String) : Db :=
  let upd (u : UserRow) : UserRow :=
    if u.username = username then { u with avatar := avatar, about := about } else u
  { d with users := d.users.map upd }

/-- The function `getRoom`: `SELECT * FROM rooms WHERE name = ?`. -/
def getRoom (d : Db) (name : String) : Option RoomRow :=
  d.rooms.find? (fun r => r.name = name)

/-- The function `getRooms`. -/
def getRooms (d : Db) : List RoomRow := d.rooms

/-- The function `createRoom`: the `INSERT` throws (`none`) on a taken name, on a
null creator (`NOT NULL`) and on a creator that is no user (`FOREIGN KEY`). -/
def createRoom (d : Db) (name description metadata : String) (createdBy : Option String)
    (now : Nat) : Option Db :=
  match createdBy with
  | none => none
  | some c =>
    if (d.getRoom name).isSome then none
    else if (d.getUser c).isNone then none
    else some { d with rooms := d.rooms ++ [⟨name, description, metadata, c, now⟩] }

/-- The membership test behind the primary key `(room, username)` of `room_members`. -/
def isRoomMember (d : Db) (room username : String) : Bool :=
  d.room_members.any (fun m => decide (m.room = room ∧ m.username = username))

/-- The function `addRoomMember`: `INSERT OR IGNORE`; a present pair is left as
it is, a null user or a missing parent row throws (`none`). -/
def addRoomMember (d : Db) (room : String) (username : Option String) (now : Nat) : Option Db :=
  match username with
  | none => none
  | some u =>
    if d.isRoomMember room u then some d
    else if (d.getRoom room).isNone then none
    else if (d.getUser u).isNone then none
    else some { d with room_members := d.room_members ++ [⟨room, u, now⟩] }

/-- The function `removeRoomMember`: `DELETE ... WHERE room = ? AND username = ?`;
a null user matches no row. -/
def removeRoomMember (d : Db) (room : String) (username : Option String) : Db :=
  match username with
  | none => d
  | some u =>
    { d with room_members :=
        d.room_members.filter (fun m => !decide (m.room = room ∧ m.username = u)) }

/-- The function `getRoomMembers`. -/
def getRoomMembers (d : Db) (room : String) : List String :=
  (d.room_members.filter (fun m => m.room = room)).map (fun m => m.username)

/-- The function `saveMessage`: the `INSERT` throws (`none`) on a taken id, a null
sender and a missing parent row. -/
def saveMessage (d : Db) (id room : String) (sender : Option String)
    (message metadata : String) (timestamp : Nat) : Option Db :=
  match sender with
  | none => none
  | some u =>
    if d.messages.any (fun m => m.id = id) then none
    else if (d.getRoom room).isNone then none
    else if (d.getUser u).isNone then none
    else some { d with messages := d.messages ++ [⟨id, room, u, message, metadata, timestamp⟩] }

/-- The function `saveDM`. -/
def saveDM (d : Db) (id : String) (sender : Option String) (recipient : String)
    (message metadata : String) (timestamp : Nat) : Option Db :=
  match sender with
  | none => none
  | some u =>
    if d.direct_messages.any (fun m => m.id = id) then none
    else if (d.getUser u).isNone then none
    else if (d.getUser recipient).isNone then none
    else some { d with direct_messages :=
                  d.direct_messages ++ [⟨id, u, recipient, message, metadata, timestamp⟩] }

/-- The clause `LIMIT n` of SQLite: a negative `n` puts no bound. -/
def sqlLimit {α : Type} (n : Int) (rows : List α) : List α :=
  if n < 0 then rows else rows.take n.toNat

/-- The order `ORDER BY timestamp DESC, rowid DESC` on (rowid, timestamp) keys. -/
def newerFirst (a b : Nat × Nat) : Prop :=
  b.2 < a.2 ∨ (a.2 = b.2 ∧ b.1 ≤ a.1)

instance : DecidableRel newerFirst := fun a b =>
  inferInstanceAs (Decidable (b.2 < a.2 ∨ (a.2 = b.2 ∧ b.1 ≤ a.1)))

/-- Rows sorted by `ORDER BY timestamp DESC, rowid DESC`; the rowid of a row is
its position in the table. -/
def orderNewestFirst {α : Type} (ts : α → Nat) (rows : List (Nat × α)) : List (Nat × α) :=
  rows.insertionSort (fun a b => newerFirst (a.1, ts a.2) (b.1, ts b.2))

/-- The function `getMessages`: select, order newest first, limit, reverse. -/
def getMessages (d : Db) (historyLimit : Int) (room : String) (limit : Int) : List MessageRow :=
  let selected := d.messages.enum.filter (fun p => p.2.room = room)
  let rows := sqlLimit (if limit = 0 then historyLimit else limit)
    (orderNewestFirst (fun m => m.timestamp) selected)
  rows.reverse.map (fun p => p.2)

/-- The function `getDMs`. -/
def getDMs (d : Db) (historyLimit : Int) (user1 : Option String) (user2 : String) (limit : Int) :
    List DMRow :=
  let selected := d.direct_messages.enum.filter (fun p =>
    decide ((some p.2.sender = user1 ∧ p.2.recipient = user2) ∨
      (p.2.sender = user2 ∧ some p.2.recipient = user1)))
  let rows := sqlLimit (if limit = 0 then historyLimit else limit)
    (orderNewestFirst (fun m => m.timestamp) selected)
  rows.reverse.map (fun p => p.2)

/-- The function `getDMConversations`: `SELECT DISTINCT` of the other party. -/
def getDMConversations (d : Db) (username : Option String) : List String :=
  ((d.direct_messages.filter (fun m =>
      decide (some m.sender = username ∨ some m.recipient = username))).map
    (fun m => if some m.sender = username then m.recipient else m.sender)).dedup

end Db

/-! ## Frames -/

/-- The public view `{ username, avatar, about }` of a user row. -/
structure UserView where
  username : String
  avatar : String
  about : String
  deriving DecidableEq, Repr

/-- An entry of the `room:list` reply. -/
structure RoomListing where
  name : String
  description : String
  metadata : String
  userCount : Nat
  deriving DecidableEq, Repr

/-- An entry of the `room:users` reply (`online` is always `true`). -/
structure RoomUser where
  username : String
  avatar : String
  deriving DecidableEq, Repr

/-- A field that holds a string, is JSON `null`, or is absent (`undefined`);
`JSON.stringify` leaves an absent field out and writes `null` for a null one. -/
inductive JField
  | absent
  | null
  | str (s : String)
  deriving DecidableEq, Repr

/-- The field as a key of a `Map` with string keys: `null` and `undefined` are no key. -/
def JField.toOption : JField → Option String
  | .str s => some s
  | _ => none

/-- The objects the server serialises and writes to a socket, one constructor
for each `type` (and shape) of outbound frame. -/
inductive Frame
  | systemError (message : String)
  | authError (message : String)
  | authSuccess (token : String) (user : UserView)
  | authPasswordChanged
  | authProfileUpdated (user : UserView)
  | roomError (message : String)
  | roomList (rooms : List RoomListing)
  | roomCreated (room : Option RoomRow)
  | roomJoined (room : String) (user : Option String)
  | roomLeft (room : String) (user : Option String)
  | roomUsers (room : String) (users : List RoomUser)
  | roomHistory (room : String) (messages : List MessageRow)
  | messageNew (id : String) (from_ : Option String) (room : Option String) (timestamp : Nat)
      (message : String) (metadata : String)
  | dmNew (id : String) (from_ : Option String) (to_ : String) (timestamp : Nat)
      (message : String) (metadata : String)
  | dmHistory (withUser : String) (messages : List DMRow)
  | dmList (conversations : List String)
  | commandError (command : Option String) (message : String)
  | commandResult (room : JField) (command : String) (result : String)
  | commandList (commands : List (String × String))
  | pong
  | presenceOffline (username : Option String) (room : String)
  deriving DecidableEq, Repr

/-- The `type` field of a parsed inbound value: missing, a string, or another
JSON value (of which only the truthiness matters). -/
inductive JType
  | absent
  | str (s : String)
  | other (isTruthy : Bool)
  deriving DecidableEq, Repr

/-- A parsed inbound value with the fields the handlers read; `none` stands for
`undefined` or `null`. `metadata` holds the JSON text of a truthy value; `roomNull`
says that the field `room` is JSON `null` (it is read only when `room` is `none`). -/
structure Msg where
  type : JType
  username : Option String := none
  password : Option String := none
  token : Option String := none
  oldPassword : Option String := none
  newPassword : Option String := none
  avatar : Option String := none
  about : Option String := none
  name : Option String := none
  description : Option String := none
  metadata : Option String := none
  room : Option String := none
  roomNull : Bool := false
  limit : Option Int := none
  message : Option String := none
  to_ : Option String := none
  withUser : Option String := none
  command : Option String := none
  args : Option String := none
  deriving DecidableEq, Repr

/-- The field `room` of a frame as JavaScript sees it: a string, `null` or `undefined`. -/
def Msg.roomField (msg : Msg) : JField :=
  match msg.room with
  | some r => .str r
  | none => if msg.roomNull then .null else .absent

/-- A raw inbound payload: text that `JSON.parse` rejects, the text `null`, or
the text of any other JSON value. -/
inductive Raw
  | unparseable
  | null
  | json (msg : Msg)
  deriving DecidableEq, Repr

/-! ## Server state -/

/-- Identity of a WebSocket object. -/
abbrev SessionId := Nat

/-- The fields the server keeps on a WebSocket object. -/
structure Session where
  user : Option String
  rooms : JSSet String
  isAlive : Bool
  readyState : Nat
  deriving DecidableEq

/-- The bound identity of a session: `ws.user` when it is truthy. -/
def Session.identity (s : Session) : Option String :=
  if truthy s.user then s.user else none

/-- Whether the socket is `OPEN` (`readyState === 1`). -/
def Session.isOpen (s : Session) : Bool := decide (s.readyState = 1)

/-- The whole server: the WebSocket objects, `wss.clients`, the module state of
`rooms.js` and `auth.js`, the database, and what was written to each socket. -/
structure State where
  sessions : SessionId → Session
  clients : JSSet SessionId
  nextWs : SessionId
  roomConnections : String → Option (JSSet SessionId)
  db : Db
  tokens : String → Option String
  outbox : SessionId → List Frame
  probes : SessionId → Nat
  terminations : SessionId → Nat

/-- The server right after start-up on a new database file. -/
def State.init : State where
  sessions := fun _ => ⟨none, JSSet.empty, true, 3⟩
  clients := JSSet.empty
  nextWs := 0
  roomConnections := fun _ => none
  db := Db.init
  tokens := fun _ => none
  outbox := fun _ => []
  probes := fun _ => 0
  terminations := fun _ => 0

/-- The result of running a handler: it returned, or an exception escaped it
(the state keeps what the handler did before the throw). -/
inductive Outcome
  | done (st : State)
  | threw (st : State)

/-- The state a handler leaves behind. -/
def Outcome.state : Outcome → State
  | .done st => st
  | .threw st => st

/-- Whether the handler returned normally. -/
def Outcome.returned : Outcome → Bool
  | .done _ => true
  | .threw _ => false

/-- The parameters of a deployment: `bcrypt` and `config.HISTORY_LIMIT`. -/
structure Env where
  hashPassword : String → String
  verifyPassword : String → String → Bool
  HISTORY_LIMIT : Int

/-! ## `protocol.js` -/

/-- The call `ws.send(data)`. -/
def wsSend (st : State) (ws : SessionId) (data : Frame) : State :=
  { st with outbox := Function.update st.outbox ws (st.outbox ws ++ [data]) }

namespace protocol

/-- The function `parse`: `JSON.parse` in a `try`, `null` on failure. -/
def parse : Raw → Option Msg
  | .unparseable => none
  | .null => none
  | .json msg => some msg

/-- The function `send`: writes only to an open socket. -/
def send (st : State) (ws : SessionId) (obj : Frame) : State :=
  if (st.sessions ws).readyState = 1 then wsSend st ws obj else st

end protocol

/-! ## `rooms.js` -/

namespace rooms

/-- The function `joinRoom`. -/
def joinRoom (st : State) (ws : SessionId) (roomName : String) : State :=
  let conns := (st.roomConnections roomName).getD JSSet.empty
  let session := st.sessions ws
  { st with
    roomConnections := Function.update st.roomConnections roomName (some (conns.add ws))
    sessions := Function.update st.sessions ws { session with rooms := session.rooms.add roomName } }

/-- The function `leaveRoom`. -/
def leaveRoom (st : State) (ws : SessionId) (roomName : String) : State :=
  let session := st.sessions ws
  let roomConnections :=
    match st.roomConnections roomName with
    | none => st.roomConnections
    | some conns =>
      if (conns.delete ws).size = 0 then Function.update st.roomConnections roomName none
      else Function.update st.roomConnections roomName (some (conns.delete ws))
  { st with
    roomConnections := roomConnections
    sessions := Function.update st.sessions ws
      { session with rooms := session.rooms.delete roomName } }

/-- The function `leaveAllRooms`: the new state and the returned array. -/
def leaveAllRooms (st : State) (ws : SessionId) : State × List String :=
  let rooms := (st.sessions ws).rooms.elems
  (rooms.foldl (fun acc room => leaveRoom acc ws room) st, rooms)

/-- The function `broadcastToRoom`. -/
def broadcastToRoom (st : State) (roomName : String) (obj : Frame)
    (excludeWs : Option SessionId) : State :=
  match st.roomConnections roomName with
  | none => st
  | some conns =>
    conns.elems.foldl
      (fun acc ws =>
        if some ws ≠ excludeWs ∧ (acc.sessions ws).readyState = 1 then wsSend acc ws obj
        else acc)
      st

/-- The function `getOnlineUsers`. -/
def getOnlineUsers (st : State) (roomName : String) : List String :=
  match st.roomConnections roomName with
  | none => []
  | some conns =>
    let users := conns.elems.filterMap (fun ws => (st.sessions ws).identity)
    (JSSet.ofList users).elems

/-- The function `findUserWs`. -/
def findUserWs (st : State) (username : String) (allClients : JSSet SessionId) :
    Option SessionId :=
  allClients.elems.find?
    (fun ws => decide ((st.sessions ws).user = some username ∧ (st.sessions ws).readyState = 1))

end rooms

/-! ## String helpers of the JavaScript runtime -/

/-- The method `String.prototype.startsWith`. -/
def startsWith (s pre : String) : Bool := pre.toList.isPrefixOf s.toList

/-- The method `String.prototype.toLowerCase` (on the ASCII letters, the only
characters whose lower case is a letter of a reserved name). -/
def toLowerCase (s : String) : String := String.mk (s.toList.map Char.toLower)

/-- The white space `String.prototype.trim` removes. -/
def isJsWhitespace (c : Char) : Bool :=
  let n := c.toNat
  (9 ≤ n && n ≤ 13) || n == 32 || n == 160 || n == 5760 || (8192 ≤ n && n ≤ 8202) ||
    n == 8232 || n == 8233 || n == 8239 || n == 8287 || n == 12288 || n == 65279

/-- The method `String.prototype.trim`. -/
def trim (s : String) : String :=
  String.mk ((s.toList.dropWhile isJsWhitespace).reverse.dropWhile isJsWhitespace).reverse

/-! ## `auth.js` -/

namespace auth

/-- The function `createToken`; `token` is the value `uuidv4()` returns. -/
def createToken (st : State) (token username : String) : State :=
  { st with tokens := Function.update st.tokens token (some username) }

/-- The function `verifyToken`: `tokens.get(token) || null`. -/
def verifyToken (st : State) (token : Option String) : Option String :=
  match token with
  | none => none
  | some t => if truthy (st.tokens t) then st.tokens t else none

/-- The function `revokeToken`. -/
def revokeToken (st : State) (token : String) : State :=
  { st with tokens := Function.update st.tokens token none }

end auth

/-! ## `commands.js` and the plugins of `commands/` -/

/-- The invocation context `{ username, room, db, broadcast }` as far as the
plugins read it. -/
structure CmdContext where
  username : Option String
  room : JField

/-- A registered command. The handler receives `commands.list()`, the
arguments, the context and the values of `uuidv4()` and `Date.now()`; it yields
the calls of `context.broadcast` it makes, in order, and its return value. -/
structure Command where
  name : String
  description : String
  handler : List (String × String) → String → CmdContext → String → Nat →
    List (Option String × Frame) × String

/-- The interpolation `${x}` of a string, `null` or `undefined` into a template literal. -/
def interpolate : JField → String
  | .absent => "undefined"
  | .null => "null"
  | .str s => s

namespace commands

/-- The plugin `commands/help.js`. -/
def help : Command where
  name := "help"
  description := "List available commands"
  handler := fun listing _ _ _ _ =>
    ([], "\n".intercalate (listing.map (fun c => "/" ++ c.1 ++ " - " ++ c.2)))

/-- The plugin `commands/system.js`. -/
def system : Command where
  name := "system"
  description := "Broadcast a system message to the room"
  handler := fun _ args context uuid now =>
    if args = "" ∨ trim args = "" then ([], "Usage: /system <message>")
    else
      ([(context.room.toOption,
          Frame.messageNew uuid (some "system") context.room.toOption now (trim args)
            "\x7b\"system\":true\x7d")],
        "System message sent to #" ++ interpolate context.room)

/-- The registry after the plugins of `commands/` were discovered. -/
def registry : List Command := [help, system]

/-- The function `list`. -/
def list : List (String × String) := registry.map (fun c => (c.name, c.description))

/-- The function `execute`: `none` is the `null` of an unknown name. -/
def execute (name args : String) (context : CmdContext) (uuid : String) (now : Nat) :
    Option (List (Option String × Frame) × String) :=
  match registry.find? (fun c => c.name = name) with
  | none => none
  | some cmd => some (cmd.handler list args context uuid now)

end commands

/-! ## `messages.js` -/

namespace messages

/-- The function `handleSendMessage`. -/
def handleSendMessage (st : State) (ws : SessionId) (msg : Msg) (uuid : String) (now : Nat) :
    Outcome :=
  if !truthy msg.room || !truthy msg.message then
    .done (protocol.send st ws (.systemError "Missing room or message"))
  else
    let room := msg.room.getD ""
    let message := msg.message.getD ""
    if !(st.sessions ws).rooms.has room then
      .done (protocol.send st ws (.systemError "You have not joined this room"))
    else
      let user := (st.sessions ws).user
      let metadata := msg.metadata.getD emptyObject
      let outMsg := Frame.messageNew uuid user (some room) now message metadata
      match st.db.saveMessage uuid room user message metadata now with
      | none => .threw st
      | some db => .done (rooms.broadcastToRoom { st with db := db } room outMsg none)

/-- The function `handleDMSend`. -/
def handleDMSend (st : State) (ws : SessionId) (msg : Msg) (allClients : JSSet SessionId)
    (uuid : String) (now : Nat) : Outcome :=
  if !truthy msg.to_ || !truthy msg.message then
    .done (protocol.send st ws (.systemError "Missing recipient or message"))
  else
    let to_ := msg.to_.getD ""
    let message := msg.message.getD ""
    if (st.db.getUser to_).isNone then
      .done (protocol.send st ws (.systemError "User not found"))
    else
      let user := (st.sessions ws).user
      let metadata := msg.metadata.getD emptyObject
      let outMsg := Frame.dmNew uuid user to_ now message metadata
      match st.db.saveDM uuid user to_ message metadata now with
      | none => .threw st
      | some db =>
        let st1 := { st with db := db }
        let st2 :=
          match rooms.findUserWs st1 to_ allClients with
          | none => st1
          | some recipientWs => protocol.send st1 recipientWs outMsg
        .done (protocol.send st2 ws outMsg)

end messages

/-! ## `handler.js` -/

namespace handler

/-- The constant `RESERVED_USERNAMES`. -/
def RESERVED_USERNAMES : List String := ["system"]

/-- The object `{ username, avatar, about }` built from a user row. -/
def userView (u : UserRow) : UserView := ⟨u.username, u.avatar, u.about⟩

/-- The assignment `ws.user = username`. -/
def setUser (st : State) (ws : SessionId) (username : String) : State :=
  { st with
    sessions := Function.update st.sessions ws { (st.sessions ws) with user := some username } }

/-- The function `handleAuth`. -/
def handleAuth (env : Env) (st : State) (ws : SessionId) (msg : Msg) (ty : String)
    (uuid : String) (now : Nat) : Outcome :=
  if ty = "auth:register" then
    if !truthy msg.username || !truthy msg.password then
      .done (protocol.send st ws (.authError "Username and password required"))
    else
      let username := msg.username.getD ""
      let password := msg.password.getD ""
      if RESERVED_USERNAMES.contains (toLowerCase username) then
        .done (protocol.send st ws (.authError "Username is reserved"))
      else if (st.db.getUser username).isSome then
        .done (protocol.send st ws (.authError "Username already taken"))
      else
        match st.db.createUser username (env.hashPassword password) now with
        | none => .threw st
        | some db =>
          let st1 := setUser (auth.createToken { st with db := db } uuid username) ws username
          match st1.db.getUser username with
          | none => .threw st1
          | some user => .done (protocol.send st1 ws (.authSuccess uuid (userView user)))
  else if ty = "auth:login" then
    if !truthy msg.username || !truthy msg.password then
      .done (protocol.send st ws (.authError "Username and password required"))
    else
      let username := msg.username.getD ""
      let password := msg.password.getD ""
      match st.db.getUser username with
      | none => .done (protocol.send st ws (.authError "Invalid credentials"))
      | some user =>
        if !env.verifyPassword password user.password then
          .done (protocol.send st ws (.authError "Invalid credentials"))
        else
          let st1 := setUser (auth.createToken st uuid username) ws username
          .done (protocol.send st1 ws (.authSuccess uuid (userView user)))
  else if ty = "auth:resume" then
    match auth.verifyToken st msg.token with
    | none => .done (protocol.send st ws (.authError "Invalid or expired token"))
    | some username =>
      let st1 := setUser st ws username
      match st1.db.getUser username with
      | none => .threw st1
      | some user =>
        .done (protocol.send st1 ws (.authSuccess (msg.token.getD "") (userView user)))
  else if ty = "auth:change_password" then
    if !truthy (st.sessions ws).user then
      .done (protocol.send st ws (.authError "Not authenticated"))
    else
      match st.db.getUser ((st.sessions ws).user.getD ""), msg.oldPassword with
      | some user, some oldPassword =>
        if !env.verifyPassword oldPassword user.password then
          .done (protocol.send st ws (.authError "Incorrect current password"))
        else
          match msg.newPassword with
          | none => .threw st
          | some newPassword =>
            let db := st.db.updatePassword ((st.sessions ws).user.getD "")
              (env.hashPassword newPassword)
            .done (protocol.send { st with db := db } ws .authPasswordChanged)
      | _, _ => .threw st
  else if ty = "auth:update_profile" then
    if !truthy (st.sessions ws).user then
      .done (protocol.send st ws (.authError "Not authenticated"))
    else
      let username := (st.sessions ws).user.getD ""
      match st.db.getUser username with
      | none => .threw st
      | some user =>
        let db := st.db.updateProfile username (nullish msg.avatar user.avatar)
          (nullish msg.about user.about)
        match db.getUser username with
        | none => .threw { st with db := db }
        | some updated =>
          .done (protocol.send { st with db := db } ws (.authProfileUpdated (userView updated)))
  else .done st

/-- The function `handleRoom`. -/
def handleRoom (env : Env) (st : State) (ws : SessionId) (msg : Msg) (ty : String)
    (now : Nat) : Outcome :=
  let user := (st.sessions ws).user
  if ty = "room:list" then
    let result := st.db.getRooms.map (fun r =>
      (⟨r.name, r.description, r.metadata, (rooms.getOnlineUsers st r.name).length⟩ :
        RoomListing))
    .done (protocol.send st ws (.roomList result))
  else if ty = "room:create" then
    if !truthy msg.name then
      .done (protocol.send st ws (.roomError "Room name required"))
    else
      let name := msg.name.getD ""
      if (st.db.getRoom name).isSome then
        .done (protocol.send st ws (.roomError "Room already exists"))
      else
        match st.db.createRoom name (orElse msg.description "")
            (msg.metadata.getD emptyObject) user now with
        | none => .threw st
        | some db => .done (protocol.send { st with db := db } ws (.roomCreated (db.getRoom name)))
  else if ty = "room:join" then
    if !truthy msg.room then
      .done (protocol.send st ws (.roomError "Room name required"))
    else
      let room := msg.room.getD ""
      if (st.db.getRoom room).isNone then
        .done (protocol.send st ws (.roomError "Room does not exist"))
      else
        match st.db.addRoomMember room user now with
        | none => .threw st
        | some db =>
          let st1 := rooms.joinRoom { st with db := db } ws room
          let st2 := rooms.broadcastToRoom st1 room (.roomJoined room user) none
          .done (protocol.send st2 ws (.roomJoined room user))
  else if ty = "room:leave" then
    if !truthy msg.room then
      .done (protocol.send st ws (.roomError "Room name required"))
    else
      let room := msg.room.getD ""
      let st1 := rooms.broadcastToRoom st room (.roomLeft room user) none
      let st2 := rooms.leaveRoom st1 ws room
      let st3 := { st2 with db := st2.db.removeRoomMember room user }
      .done (protocol.send st3 ws (.roomLeft room user))
  else if ty = "room:users" then
    if !truthy msg.room then
      .done (protocol.send st ws (.roomError "Room name required"))
    else
      let room := msg.room.getD ""
      let users := (rooms.getOnlineUsers st room).map (fun username =>
        (⟨username, match st.db.getUser username with
                    | some u => u.avatar
                    | none => ""⟩ : RoomUser))
      .done (protocol.send st ws (.roomUsers room users))
  else if ty = "room:history" then
    if !truthy msg.room then
      .done (protocol.send st ws (.roomError "Room name required"))
    else
      let room := msg.room.getD ""
      let limit := msg.limit.getD 0
      let history := st.db.getMessages env.HISTORY_LIMIT room
        (if limit = 0 then env.HISTORY_LIMIT else limit)
      .done (protocol.send st ws (.roomHistory room history))
  else .done st

/-- The function `handleMessage`. -/
def handleMessage (st : State) (ws : SessionId) (msg : Msg) (ty : String)
    (uuid : String) (now : Nat) : Outcome :=
  if ty = "message:send" then messages.handleSendMessage st ws msg uuid now
  else .done st

/-- The function `handleDM`. -/
def handleDM (env : Env) (st : State) (ws : SessionId) (msg : Msg) (ty : String)
    (allClients : JSSet SessionId) (uuid : String) (now : Nat) : Outcome :=
  if ty = "dm:send" then messages.handleDMSend st ws msg allClients uuid now
  else if ty = "dm:history" then
    if !truthy msg.withUser then
      .done (protocol.send st ws (.systemError "Missing user"))
    else
      let withUser := msg.withUser.getD ""
      let limit := msg.limit.getD 0
      let history := st.db.getDMs env.HISTORY_LIMIT (st.sessions ws).user withUser
        (if limit = 0 then env.HISTORY_LIMIT else limit)
      .done (protocol.send st ws (.dmHistory withUser history))
  else if ty = "dm:list" then
    .done (protocol.send st ws (.dmList (st.db.getDMConversations (st.sessions ws).user)))
  else .done st

/-- The capability `broadcast: (r, obj) => rooms.broadcastToRoom(r, obj)` of the
command context; no room is ever registered under `undefined`. -/
def contextBroadcast (st : State) (call : Option String × Frame) : State :=
  match call.1 with
  | none => st
  | some r => rooms.broadcastToRoom st r call.2 none

/-- The function `handleCommand`. -/
def handleCommand (st : State) (ws : SessionId) (msg : Msg) (ty : String)
    (uuid : String) (now : Nat) : Outcome :=
  if ty = "command:send" then
    if !truthy msg.command then
      .done (protocol.send st ws (.commandError none "Missing command"))
    else
      let command := msg.command.getD ""
      match commands.execute command (orElse msg.args "")
          ⟨(st.sessions ws).user, msg.roomField⟩ uuid now with
      | none => .done (protocol.send st ws (.commandError (some command) "Unknown command"))
      | some (calls, result) =>
        .done (protocol.send (calls.foldl contextBroadcast st) ws
          (.commandResult msg.roomField command result))
  else if ty = "command:list" then
    .done (protocol.send st ws (.commandList commands.list))
  else .done st

/-- The listener `ws.on('message', ...)`. -/
def onMessage (env : Env) (st : State) (ws : SessionId) (raw : Raw) (uuid : String)
    (now : Nat) : Outcome :=
  match protocol.parse raw with
  | none => .done (protocol.send st ws (.systemError "Invalid message"))
  | some msg =>
    match msg.type with
    | .absent => .done (protocol.send st ws (.systemError "Invalid message"))
    | .other false => .done (protocol.send st ws (.systemError "Invalid message"))
    | .other true => .threw st
    | .str ty =>
      if ty = "" then .done (protocol.send st ws (.systemError "Invalid message"))
      else if startsWith ty "auth:" then handleAuth env st ws msg ty uuid now
      else if !truthy (st.sessions ws).user then
        .done (protocol.send st ws (.systemError "Not authenticated"))
      else if startsWith ty "room:" then handleRoom env st ws msg ty now
      else if startsWith ty "message:" then handleMessage st ws msg ty uuid now
      else if startsWith ty "dm:" then handleDM env st ws msg ty st.clients uuid now
      else if startsWith ty "command:" then handleCommand st ws msg ty uuid now
      else if ty = "ping" then .done (protocol.send st ws .pong)
      else .done st

/-- The listener `ws.on('close', ...)`. -/
def onClose (st : State) (ws : SessionId) : State :=
  let left := rooms.leaveAllRooms st ws
  let user := (left.1.sessions ws).user
  if truthy user then
    left.2.foldl (fun acc room => rooms.broadcastToRoom acc room (.presenceOffline user room) none)
      left.1
  else left.1

/-- The listener `wss.on('connection', ...)` on a new WebSocket object. -/
def onConnection (st : State) : State :=
  { st with
    sessions := Function.update st.sessions st.nextWs ⟨none, JSSet.empty, true, 1⟩
    clients := st.clients.add st.nextWs
    nextWs := st.nextWs + 1 }

/-- The listener `ws.on('pong', ...)`. -/
def onPong (st : State) (ws : SessionId) : State :=
  { st with sessions := Function.update st.sessions ws { (st.sessions ws) with isAlive := true } }

/-- The call `ws.terminate()`: a socket that is not closed yet starts closing. -/
def terminate (st : State) (ws : SessionId) : State :=
  if (st.sessions ws).readyState = 3 then st
  else
    { st with
      sessions := Function.update st.sessions ws { (st.sessions ws) with readyState := 2 }
      terminations := Function.update st.terminations ws (st.terminations ws + 1) }

/-- The call `ws.ping()`: the probe goes out on an open socket. -/
def ping (st : State) (ws : SessionId) : State :=
  if (st.sessions ws).readyState = 1 then
    { st with probes := Function.update st.probes ws (st.probes ws + 1) }
  else st

/-- The body of the heartbeat loop for one client. -/
def heartbeatOne (st : State) (ws : SessionId) : State :=
  if !(st.sessions ws).isAlive then terminate st ws
  else
    ping
      { st with
        sessions := Function.update st.sessions ws { (st.sessions ws) with isAlive := false } }
      ws

/-- The heartbeat callback: one pass over `wss.clients`. -/
def heartbeat (st : State) : State :=
  st.clients.elems.foldl heartbeatOne st

end handler

/-! ## The event loop -/

/-- What the event loop can dispatch. -/
inductive Event
  | connection
  | message (ws : SessionId) (raw : Raw) (uuid : String) (now : Nat)
  | pong (ws : SessionId)
  | closing (ws : SessionId)
  | close (ws : SessionId)
  | heartbeat

/-- The socket starts closing (the peer sent a close frame): `readyState` leaves `OPEN`. -/
def beginClose (st : State) (ws : SessionId) : State :=
  { st with sessions := Function.update st.sessions ws { (st.sessions ws) with readyState := 2 } }

/-- The socket is closed: `readyState` becomes `CLOSED`, the server drops it from
`wss.clients`, and the close listener runs. -/
def closeSocket (st : State) (ws : SessionId) : State :=
  handler.onClose
    { st with
      sessions := Function.update st.sessions ws { (st.sessions ws) with readyState := 3 }
      clients := st.clients.delete ws } ws

/-- One turn of the event loop. Events of a socket exist only while it is in
`wss.clients`. -/
def step (env : Env) (st : State) : Event → State
  | .connection => handler.onConnection st
  | .message ws raw uuid now =>
    if ws ∈ st.clients then (handler.onMessage env st ws raw uuid now).state else st
  | .pong ws => if ws ∈ st.clients then handler.onPong st ws else st
  | .closing ws => if ws ∈ st.clients then beginClose st ws else st
  | .close ws => if ws ∈ st.clients then closeSocket st ws else st
  | .heartbeat => handler.heartbeat st

/-- The state after a sequence of events. -/
def run (env : Env) (st : State) (events : List Event) : State :=
  events.foldl (step env) st

/-- The states the server can be in: those a sequence of events leads to from start-up. -/
def Reachable (env : Env) (st : State) : Prop :=
  ∃ events, run env State.init events = st

/-! ## Vocabulary of the specification -/

/-- The live set of a room: the sessions `roomConnections` holds for it, none
when the room has no entry. -/
def live (st : State) (r : String) : List SessionId :=
  match st.roomConnections r with
  | none => []
  | some conns => conns.elems

/-- The state in which `obj` was written once to every socket that satisfies `p`. -/
def deliver (st : State) (p : SessionId → Prop) [DecidablePred p] (obj : Frame) : State :=
  { st with outbox := fun t => if p t then st.outbox t ++ [obj] else st.outbox t }

/-- The events of room `r` whose order the specification speaks of:
`room:joined`, `room:left`, `message:new` and `presence:offline` for `r`. -/
def Frame.isRoomEvent (r : String) : Frame → Bool
  | .roomJoined room _ => decide (room = r)
  | .roomLeft room _ => decide (room = r)
  | .messageNew _ _ room _ _ _ => decide (room = some r)
  | .presenceOffline _ room => decide (room = r)
  | _ => false

/-- The hash function of the examples: a tagged copy of the password. -/
def demoEnv : Env where
  hashPassword := fun p => "h:" ++ p
  verifyPassword := fun p h => decide (h = "h:" ++ p)
  HISTORY_LIMIT := 100

/-- The consistency conditions every state of a run satisfies. -/
structure Inv (st : State) : Prop where
  rooms_named : ∀ r, (st.db.getRoom r).isSome → r ≠ ""
  user_ok : ∀ ws u, (st.sessions ws).user = some u → u ≠ "" ∧ (st.db.getUser u).isSome
  tokens_ok : ∀ t u, st.tokens t = some u → u ≠ "" → (st.db.getUser u).isSome
  joined_exists : ∀ ws r, r ∈ (st.sessions ws).rooms → (st.db.getRoom r).isSome
  mirror : ∀ ws r, ws ∈ live st r ↔ r ∈ (st.sessions ws).rooms
  nonempty : ∀ r c, st.roomConnections r = some c → c.elems ≠ []
  joined_client : ∀ ws r, r ∈ (st.sessions ws).rooms → ws ∈ st.clients
  clients_lt : ∀ ws, ws ∈ st.clients → ws < st.nextWs

/-- The distinct identities bound to the sessions of the live set of `r`. -/
def onlineIdentities (st : State) (r : String) : Finset String :=
  ((live st r).filterMap (fun ws => (st.sessions ws).identity)).toFinset

/-- The frames the close of `ws` writes to socket `t`. -/
def offlineFrames (st : State) (ws t : SessionId) : List Frame :=
  if truthy (st.sessions ws).user then
    ((st.sessions ws).rooms.elems.filter (fun r =>
      decide (t ∈ live st r ∧ t ≠ ws ∧ (st.sessions t).readyState = 1))).map
      (fun r => Frame.presenceOffline (st.sessions ws).user r)
  else []

/-- Session `t` is open and in the live set of room `r`. -/
def present (st : State) (r : String) (t : SessionId) : Prop :=
  t ∈ live st r ∧ (st.sessions t).isOpen = true

instance (st : State) (r : String) (t : SessionId) : Decidable (present st r t) :=
  inferInstanceAs (Decidable (t ∈ live st r ∧ (st.sessions t).isOpen = true))

/-- Session `t` is present in room `r` in every state the run of `events` from
`st` goes through, the first and the last included. -/
def presentThroughout (env : Env) (r : String) (t : SessionId) : State → List Event → Prop
  | st, [] => present st r t
  | st, e :: es => present st r t ∧ presentThroughout env r t (step env st e) es

/-- Presence throughout a run is decidable, state by state. -/
def presentThroughout.decide (env : Env) (r : String) (t : SessionId) :
    (st : State) → (events : List Event) → Decidable (presentThroughout env r t st events)
  | st, [] => inferInstanceAs (Decidable (present st r t))
  | st, e :: es =>
    @instDecidableAnd _ _ _ (presentThroughout.decide env r t (step env st e) es)

instance (env : Env) (r : String) (t : SessionId) (st : State) (events : List Event) :
    Decidable (presentThroughout env r t st events) :=
  presentThroughout.decide env r t st events

/-- The events of room `r` written to socket `t` after state `st`, up to state `st'`. -/
def roomEventsSince (st st' : State) (r : String) (t : SessionId) : List Frame :=
  ((st'.outbox t).drop (st.outbox t).length).filter (Frame.isRoomEvent r)

/-- The event is a `room:join` frame for room `r` handled on session `t`. -/
def Event.isJoinBy (r : String) (t : SessionId) : Event → Prop
  | .message ws (.json msg) _ _ => ws = t ∧ msg.type = .str "room:join" ∧ msg.room = some r
  | _ => False

/-- Between `st` and `st'` the sockets `t1` and `t2` were written the same events of
room `r`, in the same order. -/
def Uniform (r : String) (t1 t2 : SessionId) (st st' : State) : Prop :=
  ∃ d1 d2, st'.outbox t1 = st.outbox t1 ++ d1 ∧ st'.outbox t2 = st.outbox t2 ++ d2 ∧
    d1.filter (Frame.isRoomEvent r) = d2.filter (Frame.isRoomEvent r)

/-! ## Example runs -/

/-- An `auth:register` payload of the examples. -/
def demoRegister (username : String) : Raw :=
  .json { type := .str "auth:register", username := some username, password := some "pw" }

/-- A `room:join` frame. -/
def demoJoin (room : String) : Msg := { type := .str "room:join", room := some room }

/-- A `room:leave` frame. -/
def demoLeave (room : String) : Msg := { type := .str "room:leave", room := some room }

/-- A `message:send` frame. -/
def demoSend (room message : String) : Msg :=
  { type := .str "message:send", room := some room, message := some message }

/-- Alice (socket 0) registers, creates and joins `general`; Bob (socket 1)
registers and joins it. -/
def demoEvents : List Event :=
  [.connection,
   .message 0 (demoRegister "alice") "t0" 1,
   .message 0 (.json { type := .str "room:create", name := some "general" }) "u1" 2,
   .message 0 (.json (demoJoin "general")) "u2" 3,
   .connection,
   .message 1 (demoRegister "bob") "t1" 4,
   .message 1 (.json (demoJoin "general")) "u3" 5]

/-- The state after `demoEvents`. -/
def demoState : State := run demoEnv State.init demoEvents

/-- Alice registers on socket 0, creates and joins `general`; then she logs in
again on socket 1 and joins `general` there too. -/
def twinEvents : List Event :=
  [.connection,
   .message 0 (demoRegister "alice") "t0" 1,
   .message 0 (.json { type := .str "room:create", name := some "general" }) "u1" 2,
   .message 0 (.json (demoJoin "general")) "u2" 3,
   .connection,
   .message 1 (.json { type := .str "auth:login", username := some "alice",
                       password := some "pw" }) "t1" 4,
   .message 1 (.json (demoJoin "general")) "u3" 5]

/-- The state after `twinEvents`. -/
def twinState : State := run demoEnv State.init twinEvents

/-- One connection, nothing else: socket 0 is open and unbound. -/
def freshState : State := run demoEnv State.init [.connection]

/-- Whether the type string names a family the dispatcher routes (`ping` included). -/
def recognizedFamily (ty : String) : Bool :=
  startsWith ty "auth:" || startsWith ty "room:" || startsWith ty "message:" ||
    startsWith ty "dm:" || startsWith ty "command:" || decide (ty = "ping")

/-- The type strings of the three binding requests. -/
def isBindType (ty : String) : Prop :=
  ty = "auth:register" ∨ ty = "auth:login" ∨ ty = "auth:resume"

/-- The event is a register, login or resume frame handled on socket `ws`. -/
def Event.isBindOn (ws : SessionId) : Event → Prop
  | .message t (.json msg) _ _ => t = ws ∧ ∃ ty, msg.type = .str ty ∧ isBindType ty
  | _ => False

/-- Every user name in the table is non-empty. -/
def UsersNamed (d : Db) : Prop := ∀ row ∈ d.users, row.username ≠ ""

/-- The rows a history query returns, with their rowids: the selected rows ordered
newest first, cut at the limit, and reversed. -/
def pickRows {α : Type} (ts : α → Nat) (n : Int) (sel : List (Nat × α)) : List (Nat × α) :=
  (Db.sqlLimit n (Db.orderNewestFirst ts sel)).reverse

/-- Row `a` comes before row `b` in chronological order: older timestamp, or the same
timestamp and inserted earlier. -/
def chronological {α : Type} (ts : α → Nat) (a b : Nat × α) : Prop :=
  ts a.2 < ts b.2 ∨ (ts a.2 = ts b.2 ∧ a.1 < b.1)

/-- The state after `demoEvents` and one message of Alice to `general`. -/
def histState : State :=
  run demoEnv demoState [.message 0 (.json (demoSend "general" "hi")) "m1" 6]

/-- Live membership lies within durable membership: every session of every live set is
bound to an identity whose pair with the room is in table `room_members`. -/
def LiveDurable (st : State) : Prop :=
  ∀ r s, s ∈ live st r →
    ∃ u, (st.sessions s).identity = some u ∧ st.db.isRoomMember r u = true

instance (ty : String) : Decidable (isBindType ty) :=
  inferInstanceAs (Decidable (ty = "auth:register" ∨ ty = "auth:login" ∨ ty = "auth:resume"))

/-- The frame of type `ty` on socket `ws` is neither a register, login or resume
request on a socket that is already bound, nor a `room:leave` for a room whose live
set holds another session bound to the identity of `ws`. -/
def frameKeepsDurable (st : State) (ws : SessionId) (msg : Msg) : JType → Prop
  | .str ty =>
    (isBindType ty → (st.sessions ws).identity = none) ∧
      (ty = "room:leave" → ∀ t ∈ live st (msg.room.getD ""), t ≠ ws →
        (st.sessions t).identity ≠ (st.sessions ws).identity)
  | _ => True

/-- The event, handled in state `st`, is not one of the two kinds of frame of
`frameKeepsDurable`. -/
def Event.keepsDurable (st : State) : Event → Prop
  | .message ws (.json msg) _ _ => frameKeepsDurable st ws msg msg.type
  | _ => True

/-- A call of one of the three functions of `rooms.js` that change the registry. -/
inductive RoomCall
  | join (ws : SessionId) (roomName : String)
  | leave (ws : SessionId) (roomName : String)
  | leaveAll (ws : SessionId)

/-- The state after a call of `joinRoom`, `leaveRoom` or `leaveAllRooms`. -/
def RoomCall.apply (st : State) : RoomCall → State
  | .join ws r => rooms.joinRoom st ws r
  | .leave ws r => rooms.leaveRoom st ws r
  | .leaveAll ws => (rooms.leaveAllRooms st ws).1

/-- Alice registers, creates and joins `general`, and disconnects; then she logs in on
a new connection (socket 1), which has not joined `general`. -/
def rejoinState : State :=
  run demoEnv State.init
    [.connection,
     .message 0 (demoRegister "alice") "t0" 1,
     .message 0 (.json { type := .str "room:create", name := some "general" }) "u1" 2,
     .message 0 (.json (demoJoin "general")) "u2" 3,
     .close 0,
     .connection,
     .message 1 (.json { type := .str "auth:login", username := some "alice",
                         password := some "pw" }) "t1" 4]

/-- What the liveness monitor reads and writes of a socket: `isAlive`, `readyState`,
the probes sent to it and the calls of `terminate` that closed it. -/
def monitorView (st : State) (t : SessionId) : Bool × Nat × Nat × Nat :=
  ((st.sessions t).isAlive, (st.sessions t).readyState, st.probes t, st.terminations t)

/-- Every probe of socket `ws` is answered: started with the flag `b` (a pong of `ws`
arrived since the last tick), the events bring a pong of `ws` between any two heartbeat
ticks. -/
def answersEvery (ws : SessionId) : Bool → List Event → Prop
  | _, [] => True
  | b, .heartbeat :: es => b = true ∧ answersEvery ws false es
  | b, .pong t :: es => answersEvery ws (b || decide (t = ws)) es
  | b, .connection :: es => answersEvery ws b es
  | b, .message _ _ _ _ :: es => answersEvery ws b es
  | b, .closing _ :: es => answersEvery ws b es
  | b, .close _ :: es => answersEvery ws b es

/-- No socket of `wss.clients` is in state `CLOSED`. -/
def ClientsNotClosed (st : State) : Prop :=
  ∀ t ∈ st.clients, (st.sessions t).readyState ≠ 3

/-- The event is an inbound frame for which `uuidv4()` would return `t`. -/
def Event.usesUuid (t : String) : Event → Prop
  | .message _ _ uuid _ => uuid = t
  | _ => False

/-- The event is an `auth:update_profile` frame. -/
def Event.isProfileUpdate : Event → Prop
  | .message _ (.json msg) _ _ => msg.type = .str "auth:update_profile"
  | _ => False

/-- The user `u` is stored with avatar `a` and about text `b`. -/
def HasProfile (d : Db) (u a b : String) : Prop :=
  ∃ row, d.getUser u = some row ∧ row.avatar = a ∧ row.about = b

/-- The state after `demoEvents` and Alice's change of password from `pw` to the empty
string. -/
def emptyPasswordState : State :=
  run demoEnv demoState
    [.message 0 (.json { type := .str "auth:change_password", oldPassword := some "pw",
                         newPassword := some "" }) "x1" 8]

/-! ## Handlers that stop at `await` -/

/-- The rest of a handler that stopped at an `await`, with the values it holds in local
variables: `register` waits for `auth.hashPassword` in `auth:register`, `login` for
`auth.verifyPassword` in `auth:login`, `changeVerify` and `changeHash` for the two awaits
of `auth:change_password`, `commandReply` for `await commands.execute` in `command:send`. -/
inductive Pending
  | register (ws : SessionId) (username password : String)
  | login (ws : SessionId) (username password : String) (user : UserRow)
  | changeVerify (ws : SessionId) (oldPassword : Option String) (hash : String)
      (newPassword : Option String)
  | changeHash (ws : SessionId) (newPassword : Option String)
  | commandReply (ws : SessionId) (reply : Frame)
  deriving DecidableEq

/-- The function `handleAuth` up to its first `await`: the state the turn leaves and
the continuation that is suspended, if any. The cases `auth:resume` and
`auth:update_profile` hold no `await` and run to their end. -/
def handler.handleAuthStart (env : Env) (st : State) (ws : SessionId) (msg : Msg) (ty : String)
    (uuid : String) (now : Nat) : Outcome × Option Pending :=
  if ty = "auth:register" then
    if !truthy msg.username || !truthy msg.password then
      (.done (protocol.send st ws (.authError "Username and password required")), none)
    else
      let username := msg.username.getD ""
      let password := msg.password.getD ""
      if handler.RESERVED_USERNAMES.contains (toLowerCase username) then
        (.done (protocol.send st ws (.authError "Username is reserved")), none)
      else if (st.db.getUser username).isSome then
        (.done (protocol.send st ws (.authError "Username already taken")), none)
      else (.done st, some (.register ws username password))
  else if ty = "auth:login" then
    if !truthy msg.username || !truthy msg.password then
      (.done (protocol.send st ws (.authError "Username and password required")), none)
    else
      let username := msg.username.getD ""
      let password := msg.password.getD ""
      match st.db.getUser username with
      | none => (.done (protocol.send st ws (.authError "Invalid credentials")), none)
      | some user => (.done st, some (.login ws username password user))
  else if ty = "auth:change_password" then
    if !truthy (st.sessions ws).user then
      (.done (protocol.send st ws (.authError "Not authenticated")), none)
    else
      match st.db.getUser ((st.sessions ws).user.getD "") with
      | none => (.threw st, none)
      | some user =>
        (.done st, some (.changeVerify ws msg.oldPassword user.password msg.newPassword))
  else (handler.handleAuth env st ws msg ty uuid now, none)

/-- The function `handleCommand` up to `await commands.execute(...)`: `execute` has run,
the reply is still to be written. -/
def handler.handleCommandStart (st : State) (ws : SessionId) (msg : Msg) (ty : String)
    (uuid : String) (now : Nat) : Outcome × Option Pending :=
  if ty = "command:send" then
    if !truthy msg.command then
      (.done (protocol.send st ws (.commandError none "Missing command")), none)
    else
      let command := msg.command.getD ""
      match commands.execute command (orElse msg.args "")
          ⟨(st.sessions ws).user, msg.roomField⟩ uuid now with
      | none =>
        (.done st, some (.commandReply ws (.commandError (some command) "Unknown command")))
      | some (calls, result) =>
        (.done (calls.foldl handler.contextBroadcast st),
          some (.commandReply ws (.commandResult msg.roomField command result)))
  else (handler.handleCommand st ws msg ty uuid now, none)

/-- The listener `ws.on('message', ...)` up to the first `await` it reaches. -/
def handler.onMessageStart (env : Env) (st : State) (ws : SessionId) (raw : Raw) (uuid : String)
    (now : Nat) : Outcome × Option Pending :=
  match protocol.parse raw with
  | none => (.done (protocol.send st ws (.systemError "Invalid message")), none)
  | some msg =>
    match msg.type with
    | .absent => (.done (protocol.send st ws (.systemError "Invalid message")), none)
    | .other false => (.done (protocol.send st ws (.systemError "Invalid message")), none)
    | .other true => (.threw st, none)
    | .str ty =>
      if ty = "" then (.done (protocol.send st ws (.systemError "Invalid message")), none)
      else if startsWith ty "auth:" then handler.handleAuthStart env st ws msg ty uuid now
      else if !truthy (st.sessions ws).user then
        (.done (protocol.send st ws (.systemError "Not authenticated")), none)
      else if startsWith ty "room:" then (handler.handleRoom env st ws msg ty now, none)
      else if startsWith ty "message:" then (handler.handleMessage st ws msg ty uuid now, none)
      else if startsWith ty "dm:" then
        (handler.handleDM env st ws msg ty st.clients uuid now, none)
      else if startsWith ty "command:" then handler.handleCommandStart st ws msg ty uuid now
      else if ty = "ping" then (.done (protocol.send st ws .pong), none)
      else (.done st, none)

/-- The continuation `p` runs, in state `st`, after its promise settled: what it does up
to its end or to its next `await`. `uuid` and `now` are what `uuidv4()` and `Date.now()`
return in that turn. `bcrypt` rejects an `undefined` password. -/
def handler.afterAwait (env : Env) (st : State) (p : Pending) (uuid : String) (now : Nat) :
    Outcome × Option Pending :=
  match p with
  | .register ws username password =>
    match st.db.createUser username (env.hashPassword password) now with
    | none => (.threw st, none)
    | some db =>
      let st1 := handler.setUser (auth.createToken { st with db := db } uuid username) ws username
      match st1.db.getUser username with
      | none => (.threw st1, none)
      | some user =>
        (.done (protocol.send st1 ws (.authSuccess uuid (handler.userView user))), none)
  | .login ws username password user =>
    if !env.verifyPassword password user.password then
      (.done (protocol.send st ws (.authError "Invalid credentials")), none)
    else
      let st1 := handler.setUser (auth.createToken st uuid username) ws username
      (.done (protocol.send st1 ws (.authSuccess uuid (handler.userView user))), none)
  | .changeVerify ws oldPassword hash newPassword =>
    match oldPassword with
    | none => (.threw st, none)
    | some old =>
      if !env.verifyPassword old hash then
        (.done (protocol.send st ws (.authError "Incorrect current password")), none)
      else (.done st, some (.changeHash ws newPassword))
  | .changeHash ws newPassword =>
    match newPassword with
    | none => (.threw st, none)
    | some new =>
      let db :=
        match (st.sessions ws).user with
        | none => st.db
        | some u => st.db.updatePassword u (env.hashPassword new)
      (.done (protocol.send { st with db := db } ws .authPasswordChanged), none)
  | .commandReply ws reply => (.done (protocol.send st ws reply), none)

/-- The server between two turns of the event loop: its state and the continuations
that wait for a promise. -/
structure AState where
  st : State
  pending : List Pending

/-- The server right after start-up: nothing is suspended. -/
def AState.init : AState := ⟨State.init, []⟩

/-- A turn of the event loop: an event of a socket or of the timer, or the completion
of a promise a handler waits for. -/
inductive AEvent
  | ev (e : Event)
  | settle (p : Pending) (uuid : String) (now : Nat)

/-- One turn of the event loop, with handlers that stop at `await`: a frame is handled up
to the first `await`; a continuation that is suspended runs when its promise settles, in
any later turn. -/
def astep (env : Env) (a : AState) : AEvent → AState
  | .ev (.message ws raw uuid now) =>
    if ws ∈ a.st.clients then
      ⟨(handler.onMessageStart env a.st ws raw uuid now).1.state,
        a.pending ++ (handler.onMessageStart env a.st ws raw uuid now).2.toList⟩
    else a
  | .ev .connection => ⟨step env a.st .connection, a.pending⟩
  | .ev (.pong ws) => ⟨step env a.st (.pong ws), a.pending⟩
  | .ev (.closing ws) => ⟨step env a.st (.closing ws), a.pending⟩
  | .ev (.close ws) => ⟨step env a.st (.close ws), a.pending⟩
  | .ev .heartbeat => ⟨step env a.st .heartbeat, a.pending⟩
  | .settle p uuid now =>
    if p ∈ a.pending then
      ⟨(handler.afterAwait env a.st p uuid now).1.state,
        a.pending.erase p ++ (handler.afterAwait env a.st p uuid now).2.toList⟩
    else a

/-- The state after a sequence of turns. -/
def arun (env : Env) (a : AState) (events : List AEvent) : AState :=
  events.foldl (astep env) a

/-- The states the server can be in between two turns. -/
def AReachable (env : Env) (a : AState) : Prop :=
  ∃ events, arun env AState.init events = a

/-- The types of frame whose handling reaches an `await`. -/
def suspendingType (ty : String) : Prop :=
  ty = "auth:register" ∨ ty = "auth:login" ∨ ty = "auth:change_password" ∨ ty = "command:send"

/-- The two states differ at most in what was written to the sockets. -/
def Quiet (st st' : State) : Prop :=
  st'.sessions = st.sessions ∧ st'.clients = st.clients ∧ st'.nextWs = st.nextWs ∧
    st'.roomConnections = st.roomConnections ∧ st'.db = st.db ∧ st'.tokens = st.tokens

/-- What a suspended continuation relies on: the name it will bind is non-empty, and the
user a login found is stored. -/
def Pending.ok (d : Db) : Pending → Prop
  | .register _ u _ => u ≠ ""
  | .login _ u _ _ => u ≠ "" ∧ (d.getUser u).isSome
  | _ => True

/-- The continuation sets `ws.user` of socket `ws` when it completes with success: it is
the rest of a register or of a login on `ws`. -/
def Pending.bindsOn (ws : SessionId) : Pending → Prop
  | .register t _ _ => t = ws
  | .login t _ _ _ => t = ws
  | _ => False

instance (ws : SessionId) : (p : Pending) → Decidable (p.bindsOn ws)
  | .register t _ _ => inferInstanceAs (Decidable (t = ws))
  | .login t _ _ _ => inferInstanceAs (Decidable (t = ws))
  | .changeVerify _ _ _ _ => isFalse (fun h => h)
  | .changeHash _ _ => isFalse (fun h => h)
  | .commandReply _ _ => isFalse (fun h => h)

/-- The turn can bind socket `ws`: an `auth:resume` frame is handled on it, or a register
or a login of it completes. -/
def AEvent.isBindOn (ws : SessionId) : AEvent → Prop
  | .ev (.message t (.json msg) _ _) => t = ws ∧ msg.type = .str "auth:resume"
  | .settle p _ _ => p.bindsOn ws
  | _ => False

/-- The invariant of the server between two turns. -/
def AInv (a : AState) : Prop := Inv a.st ∧ ∀ p ∈ a.pending, p.ok a.st.db

/-- The turn, taken in state `st`, is none of these: an `auth:resume` frame handled on a
socket that is bound, the completion of a register or login of a socket that is bound, a
`room:leave` frame for a room whose live set holds another session bound to the identity
of the socket. -/
def AEvent.keepsDurable (st : State) : AEvent → Prop
  | .ev (.message ws (.json msg) _ _) =>
    (msg.type = .str "auth:resume" → (st.sessions ws).identity = none) ∧
      (msg.type = .str "room:leave" → ∀ t ∈ live st (msg.room.getD ""), t ≠ ws →
        (st.sessions t).identity ≠ (st.sessions ws).identity)
  | .settle (.register ws _ _) _ _ => (st.sessions ws).identity = none
  | .settle (.login ws _ _ _) _ _ => (st.sessions ws).identity = none
  | _ => True

/-- The condition of `AEvent.keepsDurable` is decidable. -/
def AEvent.keepsDurable.decide (st : State) : (e : AEvent) → Decidable (e.keepsDurable st)
  | .ev (.message ws (.json msg) _ _) =>
    inferInstanceAs (Decidable
      ((msg.type = .str "auth:resume" → (st.sessions ws).identity = none) ∧
        (msg.type = .str "room:leave" → ∀ t ∈ live st (msg.room.getD ""), t ≠ ws →
          (st.sessions t).identity ≠ (st.sessions ws).identity)))
  | .ev (.message _ .unparseable _ _) => isTrue trivial
  | .ev (.message _ .null _ _) => isTrue trivial
  | .ev .connection => isTrue trivial
  | .ev (.pong _) => isTrue trivial
  | .ev (.closing _) => isTrue trivial
  | .ev (.close _) => isTrue trivial
  | .ev .heartbeat => isTrue trivial
  | .settle (.register ws _ _) _ _ =>
    inferInstanceAs (Decidable ((st.sessions ws).identity = none))
  | .settle (.login ws _ _ _) _ _ =>
    inferInstanceAs (Decidable ((st.sessions ws).identity = none))
  | .settle (.changeVerify _ _ _ _) _ _ => isTrue trivial
  | .settle (.changeHash _ _) _ _ => isTrue trivial
  | .settle (.commandReply _ _) _ _ => isTrue trivial

/-- Every turn of the run satisfies `AEvent.keepsDurable` in the state it is taken in. -/
def durableTurns (env : Env) : AState → List AEvent → Prop
  | _, [] => True
  | a, e :: es => e.keepsDurable a.st ∧ durableTurns env (astep env a e) es

/-- The condition `durableTurns` is decidable, turn by turn. -/
def durableTurns.decide (env : Env) :
    (a : AState) → (events : List AEvent) → Decidable (durableTurns env a events)
  | _, [] => isTrue trivial
  | a, e :: es =>
    @instDecidableAnd _ _ (AEvent.keepsDurable.decide a.st e)
      (durableTurns.decide env (astep env a e) es)

instance (env : Env) (a : AState) (events : List AEvent) :
    Decidable (durableTurns env a events) :=
  durableTurns.decide env a events

/-- Whether a turn can bind a socket is decidable. -/
def AEvent.isBindOn.decide (ws : SessionId) : (e : AEvent) → Decidable (e.isBindOn ws)
  | .ev (.message t (.json msg) _ _) =>
    inferInstanceAs (Decidable (t = ws ∧ msg.type = .str "auth:resume"))
  | .ev (.message _ .unparseable _ _) => isFalse (fun h => h)
  | .ev (.message _ .null _ _) => isFalse (fun h => h)
  | .ev .connection => isFalse (fun h => h)
  | .ev (.pong _) => isFalse (fun h => h)
  | .ev (.closing _) => isFalse (fun h => h)
  | .ev (.close _) => isFalse (fun h => h)
  | .ev .heartbeat => isFalse (fun h => h)
  | .settle p _ _ => inferInstanceAs (Decidable (p.bindsOn ws))

instance (ws : SessionId) (e : AEvent) : Decidable (e.isBindOn ws) :=
  AEvent.isBindOn.decide ws e

/-- Two sockets connect and send `auth:register` for Alice and for Bob; Bob's hash is
ready first, then Alice's; Alice creates `general` and both join it. -/
def demoTurns : List AEvent :=
  [.ev .connection,
   .ev (.message 0 (demoRegister "alice") "n0" 1),
   .ev .connection,
   .ev (.message 1 (demoRegister "bob") "n1" 2),
   .settle (.register 1 "bob" "pw") "k1" 3,
   .settle (.register 0 "alice" "pw") "k0" 4,
   .ev (.message 0 (.json { type := .str "room:create", name := some "general" }) "u1" 5),
   .ev (.message 0 (.json (demoJoin "general")) "u2" 6),
   .ev (.message 1 (.json (demoJoin "general")) "u3" 7)]

/-- The server after `demoTurns`. -/
def demoTurnsState : AState := arun demoEnv AState.init demoTurns

/-- The row of Alice after `demoTurns`. -/
def aliceRow : UserRow := ⟨"alice", "h:pw", "", "", 4⟩

/-- After `demoTurns`, a third socket sends four frames back to back: `auth:login` with
Alice's credentials, `auth:resume` with Bob's token, `room:create` and `room:join` for
`lobby`. The comparison of the password is still running when the later frames are
handled. -/
def raceTurns : List AEvent :=
  [.ev .connection,
   .ev (.message 2 (.json { type := .str "auth:login", username := some "alice",
                            password := some "pw" }) "n2" 8),
   .ev (.message 2 (.json { type := .str "auth:resume", token := some "k1" }) "n3" 9),
   .ev (.message 2 (.json { type := .str "room:create", name := some "lobby" }) "u4" 10),
   .ev (.message 2 (.json (demoJoin "lobby")) "u5" 11)]

/-- The server after `demoTurns` and `raceTurns`: socket 2 is bound to Bob and the login
is suspended. -/
def raceState : AState := arun demoEnv demoTurnsState raceTurns

/-- The second socket of Alice: after `demoTurns`, Bob's socket logs in as Alice, the
login completes, and Alice leaves `general` on socket 0. -/
def twinTurns : List AEvent :=
  [.ev (.message 1 (.json { type := .str "auth:login", username := some "alice",
                            password := some "pw" }) "n2" 8),
   .settle (.login 1 "alice" "pw" aliceRow) "k2" 9,
   .ev (.message 0 (.json (demoLeave "general")) "u4" 10)]

/-! # Lemmas -/

namespace JSSet

theorem mem_iff {α : Type} (s : JSSet α) (a : α) : a ∈ s ↔ a ∈ s.elems := Iff.rfl

variable {α : Type} [DecidableEq α]

omit [DecidableEq α] in
theorem not_mem_empty (a : α) : a ∉ (JSSet.empty : JSSet α) := by
  simp [mem_iff, JSSet.empty]

theorem elems_add (s : JSSet α) (a : α) :
    (s.add a).elems = if a ∈ s.elems then s.elems else s.elems ++ [a] := by
  unfold JSSet.add
  split <;> simp_all

theorem mem_add (s : JSSet α) (a b : α) : b ∈ s.add a ↔ b ∈ s ∨ b = a := by
  rw [mem_iff, elems_add, mem_iff]
  split
  · constructor
    · exact Or.inl
    · rintro (h | rfl) <;> assumption
  · simp

theorem mem_delete (s : JSSet α) (a b : α) : b ∈ s.delete a ↔ b ∈ s ∧ b ≠ a := by
  rw [mem_iff, mem_iff]
  show b ∈ s.elems.erase a ↔ _
  rw [s.nodup.mem_erase_iff]
  tauto

theorem has_iff (s : JSSet α) (a : α) : s.has a = true ↔ a ∈ s := by
  simp [JSSet.has, mem_iff]

theorem mem_foldl_add (l : List α) (s : JSSet α) (a : α) :
    a ∈ l.foldl JSSet.add s ↔ a ∈ s ∨ a ∈ l := by
  induction l generalizing s with
  | nil => simp
  | cons x xs ih =>
    rw [List.foldl_cons, ih, mem_add]
    simp only [List.mem_cons]
    tauto

theorem mem_ofList (l : List α) (a : α) : a ∈ JSSet.ofList l ↔ a ∈ l := by
  unfold JSSet.ofList
  rw [mem_foldl_add]
  simp [not_mem_empty]

end JSSet

theorem live_nodup (st : State) (r : String) : (live st r).Nodup := by
  unfold live
  split
  · exact List.nodup_nil
  · next c _ => exact c.nodup

/-- The loop of `broadcastToRoom` over a duplicate-free list, in closed form. -/
theorem foldl_bcast (obj : Frame) (ex : Option SessionId) (l : List SessionId) (hnd : l.Nodup)
    (st : State) :
    l.foldl (fun acc ws =>
        if some ws ≠ ex ∧ (acc.sessions ws).readyState = 1 then wsSend acc ws obj else acc) st
      = deliver st (fun t => t ∈ l ∧ some t ≠ ex ∧ (st.sessions t).readyState = 1) obj := by
  induction l generalizing st with
  | nil => simp [deliver]
  | cons x xs ih =>
    rw [List.nodup_cons] at hnd
    rw [List.foldl_cons, ih hnd.2]
    by_cases hx : some x ≠ ex ∧ (st.sessions x).readyState = 1
    · rw [if_pos hx]
      simp only [deliver, wsSend]
      congr 1
      funext t
      by_cases htx : t = x
      · subst htx
        simp [hnd.1, hx.1, hx.2]
      · simp [htx, Function.update_noteq htx]
    · rw [if_neg hx]
      simp only [deliver]
      congr 1
      funext t
      by_cases htx : t = x
      · subst htx
        have : ¬ (some t ≠ ex ∧ (st.sessions t).readyState = 1) := hx
        simp [hnd.1, this]
      · simp [htx]

/-- The function `broadcastToRoom` in closed form. -/
theorem broadcastToRoom_eq (st : State) (r : String) (obj : Frame) (ex : Option SessionId) :
    rooms.broadcastToRoom st r obj ex
      = deliver st (fun t => t ∈ live st r ∧ some t ≠ ex ∧ (st.sessions t).readyState = 1)
          obj := by
  unfold rooms.broadcastToRoom
  cases h : st.roomConnections r with
  | none => simp [deliver, live, h]
  | some c =>
    simp only []
    rw [foldl_bcast obj ex c.elems c.nodup st]
    simp [live, h]

/-- The function `protocol.send` in closed form. -/
theorem send_eq (st : State) (ws : SessionId) (obj : Frame) :
    protocol.send st ws obj
      = deliver st (fun t => t = ws ∧ (st.sessions t).readyState = 1) obj := by
  unfold protocol.send
  split
  · next h =>
    simp only [deliver, wsSend]
    congr 1
    funext t
    by_cases ht : t = ws
    · subst ht; simp [h]
    · simp [ht, Function.update_noteq ht]
  · next h =>
    have hout : (fun t => if t = ws ∧ (st.sessions t).readyState = 1 then st.outbox t ++ [obj]
        else st.outbox t) = st.outbox := by
      funext t
      by_cases ht : t = ws
      · subst ht; simp [h]
      · simp [ht]
    simp only [deliver, hout]

theorem Inv_init : Inv State.init := by
  refine ⟨?_, ?_, ?_, ?_, ?_, ?_, ?_, ?_⟩ <;>
    simp [State.init, Db.init, Db.getRoom, live, JSSet.mem_iff, JSSet.empty]

/-- A state that agrees with `st` on identities, joined rooms, registry, clients and
tokens, and keeps its users and rooms, satisfies the invariant with it. -/
theorem Inv_congr {st st' : State} (h : Inv st)
    (huser : ∀ ws, (st'.sessions ws).user = (st.sessions ws).user)
    (hrooms : ∀ ws, (st'.sessions ws).rooms = (st.sessions ws).rooms)
    (hc : st'.clients = st.clients) (hn : st'.nextWs = st.nextWs)
    (hrc : st'.roomConnections = st.roomConnections)
    (hu : ∀ u, (st.db.getUser u).isSome → (st'.db.getUser u).isSome)
    (hr : ∀ r, (st.db.getRoom r).isSome → (st'.db.getRoom r).isSome)
    (hnamed : ∀ r, (st'.db.getRoom r).isSome → r ≠ "")
    (htok : st'.tokens = st.tokens) : Inv st' := by
  have hlive : ∀ r, live st' r = live st r := fun r => by simp [live, hrc]
  refine ⟨hnamed, ?_, ?_, ?_, ?_, ?_, ?_, ?_⟩
  · intro ws u h1
    rw [huser] at h1
    exact ⟨(h.user_ok ws u h1).1, hu u (h.user_ok ws u h1).2⟩
  · intro t u h1 h2
    rw [htok] at h1
    exact hu u (h.tokens_ok t u h1 h2)
  · intro ws r h1
    rw [hrooms] at h1
    exact hr r (h.joined_exists ws r h1)
  · intro ws r
    rw [hlive, hrooms]; exact h.mirror ws r
  · intro r c h1
    rw [hrc] at h1; exact h.nonempty r c h1
  · intro ws r h1
    rw [hrooms] at h1; rw [hc]; exact h.joined_client ws r h1
  · intro ws h1
    rw [hc] at h1; rw [hn]; exact h.clients_lt ws h1

theorem Inv_deliver {st : State} (h : Inv st) (p : SessionId → Prop) [DecidablePred p]
    (obj : Frame) : Inv (deliver st p obj) :=
  Inv_congr h (fun _ => rfl) (fun _ => rfl) rfl rfl rfl (fun _ hu => hu) (fun _ hr => hr)
    h.rooms_named rfl

theorem Inv_send {st : State} (h : Inv st) (ws : SessionId) (obj : Frame) :
    Inv (protocol.send st ws obj) := by
  rw [send_eq]; exact Inv_deliver h _ obj

theorem Inv_broadcast {st : State} (h : Inv st) (r : String) (obj : Frame)
    (ex : Option SessionId) : Inv (rooms.broadcastToRoom st r obj ex) := by
  rw [broadcastToRoom_eq]; exact Inv_deliver h _ obj

theorem Inv_setDb {st : State} (h : Inv st) (db : Db)
    (hu : ∀ u, (st.db.getUser u).isSome → (db.getUser u).isSome)
    (hr : ∀ r, (db.getRoom r).isSome ↔ (st.db.getRoom r).isSome) :
    Inv { st with db := db } :=
  Inv_congr h (fun _ => rfl) (fun _ => rfl) rfl rfl rfl hu (fun r => (hr r).mpr)
    (fun r h1 => h.rooms_named r ((hr r).mp h1)) rfl


theorem not_isNone_of_isSome {α : Type} {o : Option α} (h : o.isSome) : ¬ o.isNone = true := by
  cases o <;> simp_all

theorem getUser_isSome_iff (d : Db) (u : String) :
    (d.getUser u).isSome ↔ ∃ row ∈ d.users, row.username = u := by
  simp [Db.getUser, List.find?_isSome]

theorem getRoom_isSome_iff (d : Db) (r : String) :
    (d.getRoom r).isSome ↔ ∃ row ∈ d.rooms, row.name = r := by
  simp [Db.getRoom, List.find?_isSome]

theorem getUser_of_users_eq {d d' : Db} (h : d'.users = d.users) (u : String) :
    d'.getUser u = d.getUser u := by
  simp [Db.getUser, h]

theorem getRoom_of_rooms_eq {d d' : Db} (h : d'.rooms = d.rooms) (r : String) :
    d'.getRoom r = d.getRoom r := by
  simp [Db.getRoom, h]

theorem createUser_spec {d d' : Db} {u hp : String} {now : Nat}
    (h : d.createUser u hp now = some d') :
    d' = { d with users := d.users ++ [⟨u, hp, "", "", now⟩] } ∧ d.getUser u = none := by
  unfold Db.createUser at h
  split at h
  · exact absurd h (by simp)
  · next hn =>
    simp only [Option.some.injEq] at h
    refine ⟨h.symm, ?_⟩
    simpa using hn

theorem updatePassword_getUser_isSome (d : Db) (u hp x : String) :
    ((d.updatePassword u hp).getUser x).isSome ↔ (d.getUser x).isSome := by
  rw [getUser_isSome_iff, getUser_isSome_iff]
  simp only [Db.updatePassword, List.mem_map]
  constructor
  · rintro ⟨row, ⟨row0, hmem, rfl⟩, hx⟩
    refine ⟨row0, hmem, ?_⟩
    split at hx <;> exact hx
  · rintro ⟨row, hmem, hx⟩
    refine ⟨_, ⟨row, hmem, rfl⟩, ?_⟩
    split <;> exact hx

theorem updateProfile_getUser_isSome (d : Db) (u a b x : String) :
    ((d.updateProfile u a b).getUser x).isSome ↔ (d.getUser x).isSome := by
  rw [getUser_isSome_iff, getUser_isSome_iff]
  simp only [Db.updateProfile, List.mem_map]
  constructor
  · rintro ⟨row, ⟨row0, hmem, rfl⟩, hx⟩
    refine ⟨row0, hmem, ?_⟩
    split at hx <;> exact hx
  · rintro ⟨row, hmem, hx⟩
    refine ⟨_, ⟨row, hmem, rfl⟩, ?_⟩
    split <;> exact hx

theorem createRoom_spec {d d' : Db} {name desc meta : String} {c : Option String} {now : Nat}
    (h : d.createRoom name desc meta c now = some d') :
    ∃ cu, c = some cu ∧ d' = { d with rooms := d.rooms ++ [⟨name, desc, meta, cu, now⟩] } := by
  unfold Db.createRoom at h
  split at h
  · exact absurd h (by simp)
  · next cu =>
    split at h
    · exact absurd h (by simp)
    · split at h
      · exact absurd h (by simp)
      · simp only [Option.some.injEq] at h
        exact ⟨cu, rfl, h.symm⟩

theorem addRoomMember_spec {d d' : Db} {room : String} {u : Option String} {now : Nat}
    (h : d.addRoomMember room u now = some d') :
    ∃ x, u = some x ∧ d'.users = d.users ∧ d'.rooms = d.rooms ∧
      d'.messages = d.messages ∧ d'.direct_messages = d.direct_messages ∧
      d'.room_members =
        if d.isRoomMember room x then d.room_members else d.room_members ++ [⟨room, x, now⟩] := by
  unfold Db.addRoomMember at h
  split at h
  · exact absurd h (by simp)
  · next x =>
    refine ⟨x, rfl, ?_⟩
    split at h
    · next hm =>
      simp only [Option.some.injEq] at h
      subst h; simp [hm]
    · next hm =>
      split at h
      · exact absurd h (by simp)
      · split at h
        · exact absurd h (by simp)
        · simp only [Option.some.injEq] at h
          subst h; simp [hm]

theorem addRoomMember_ok (d : Db) (room x : String) (now : Nat)
    (hr : (d.getRoom room).isSome) (hu : (d.getUser x).isSome) :
    ∃ d', d.addRoomMember room (some x) now = some d' := by
  unfold Db.addRoomMember
  simp only []
  split
  · exact ⟨_, rfl⟩
  · rw [if_neg (not_isNone_of_isSome hr), if_neg (not_isNone_of_isSome hu)]
    exact ⟨_, rfl⟩

theorem saveMessage_spec {d d' : Db} {id room message meta : String} {u : Option String}
    {ts : Nat} (h : d.saveMessage id room u message meta ts = some d') :
    ∃ x, u = some x ∧
      d' = { d with messages := d.messages ++ [⟨id, room, x, message, meta, ts⟩] } := by
  unfold Db.saveMessage at h
  split at h
  · exact absurd h (by simp)
  · next x =>
    split at h
    · exact absurd h (by simp)
    · split at h
      · exact absurd h (by simp)
      · split at h
        · exact absurd h (by simp)
        · simp only [Option.some.injEq] at h
          exact ⟨x, rfl, h.symm⟩

theorem saveMessage_ok (d : Db) (id room x message meta : String) (ts : Nat)
    (hid : ∀ row ∈ d.messages, row.id ≠ id)
    (hr : (d.getRoom room).isSome) (hu : (d.getUser x).isSome) :
    d.saveMessage id room (some x) message meta ts =
      some { d with messages := d.messages ++ [⟨id, room, x, message, meta, ts⟩] } := by
  unfold Db.saveMessage
  simp only []
  rw [if_neg (by simpa using hid), if_neg (not_isNone_of_isSome hr), if_neg (not_isNone_of_isSome hu)]

theorem saveDM_spec {d d' : Db} {id to_ message meta : String} {u : Option String}
    {ts : Nat} (h : d.saveDM id u to_ message meta ts = some d') :
    ∃ x, u = some x ∧
      d' = { d with direct_messages :=
                d.direct_messages ++ [⟨id, x, to_, message, meta, ts⟩] } := by
  unfold Db.saveDM at h
  split at h
  · exact absurd h (by simp)
  · next x =>
    split at h
    · exact absurd h (by simp)
    · split at h
      · exact absurd h (by simp)
      · split at h
        · exact absurd h (by simp)
        · simp only [Option.some.injEq] at h
          exact ⟨x, rfl, h.symm⟩


theorem live_joinRoom (st : State) (ws : SessionId) (r0 r : String) :
    live (rooms.joinRoom st ws r0) r =
      if r = r0 then (if ws ∈ live st r0 then live st r0 else live st r0 ++ [ws])
      else live st r := by
  unfold live rooms.joinRoom
  by_cases hr : r = r0
  · subst hr
    simp only [Function.update_same, if_true]
    rw [JSSet.elems_add]
    cases h : st.roomConnections r <;> simp [JSSet.empty]
  · simp only [Function.update_noteq hr, if_neg hr]

theorem mem_live_joinRoom (st : State) (ws t : SessionId) (r0 r : String) :
    t ∈ live (rooms.joinRoom st ws r0) r ↔ t ∈ live st r ∨ (r = r0 ∧ t = ws) := by
  rw [live_joinRoom]
  by_cases hr : r = r0
  · subst hr
    by_cases hm : ws ∈ live st r
    · simp only [if_true, if_pos hm, true_and]
      constructor
      · exact Or.inl
      · rintro (h | rfl) <;> assumption
    · simp [hm]
  · simp [hr]

theorem joinRoom_session (st : State) (ws t : SessionId) (r0 : String) :
    (rooms.joinRoom st ws r0).sessions t =
      if t = ws then { (st.sessions ws) with rooms := (st.sessions ws).rooms.add r0 }
      else st.sessions t := by
  unfold rooms.joinRoom
  by_cases h : t = ws
  · subst h; simp
  · simp [h, Function.update_noteq h]

theorem mem_rooms_joinRoom (st : State) (ws t : SessionId) (r0 r : String) :
    r ∈ ((rooms.joinRoom st ws r0).sessions t).rooms ↔
      r ∈ (st.sessions t).rooms ∨ (t = ws ∧ r = r0) := by
  rw [joinRoom_session]
  by_cases h : t = ws
  · subst h
    simp only [if_true, JSSet.mem_add, true_and]
  · simp [h]

theorem joinRoom_user (st : State) (ws t : SessionId) (r0 : String) :
    ((rooms.joinRoom st ws r0).sessions t).user = (st.sessions t).user := by
  rw [joinRoom_session]; split
  · next h => subst h; rfl
  · rfl

theorem joinRoom_readyState (st : State) (ws t : SessionId) (r0 : String) :
    ((rooms.joinRoom st ws r0).sessions t).readyState = (st.sessions t).readyState := by
  rw [joinRoom_session]; split
  · next h => subst h; rfl
  · rfl

theorem leaveRoom_rc_ne (st : State) (ws : SessionId) {r0 r : String} (hr : r ≠ r0) :
    (rooms.leaveRoom st ws r0).roomConnections r = st.roomConnections r := by
  unfold rooms.leaveRoom
  simp only []
  cases h0 : st.roomConnections r0 with
  | none => rfl
  | some c =>
    simp only []
    split <;> exact Function.update_noteq hr _ _

theorem live_leaveRoom (st : State) (ws : SessionId) (r0 r : String) :
    live (rooms.leaveRoom st ws r0) r =
      if r = r0 then (live st r0).erase ws else live st r := by
  by_cases hr : r = r0
  swap
  · simp only [if_neg hr, live, leaveRoom_rc_ne st ws hr]
  unfold live rooms.leaveRoom
  by_cases hr : r = r0
  · subst hr
    simp only [if_true]
    cases h : st.roomConnections r with
    | none => simp [h]
    | some c =>
      simp only []
      by_cases hs : (c.delete ws).size = 0
      · rw [if_pos hs]
        simp only [Function.update_same]
        have : (c.delete ws).elems = [] := List.length_eq_zero.mp hs
        exact this.symm
      · rw [if_neg hs]
        simp only [Function.update_same]
        rfl
  · exact absurd ‹r = r0› hr

theorem mem_live_leaveRoom (st : State) (ws t : SessionId) (r0 r : String) :
    t ∈ live (rooms.leaveRoom st ws r0) r ↔ t ∈ live st r ∧ ¬ (r = r0 ∧ t = ws) := by
  rw [live_leaveRoom]
  by_cases hr : r = r0
  · subst hr
    rw [if_pos rfl, (live_nodup st r).mem_erase_iff]
    tauto
  · simp [hr]

theorem leaveRoom_session (st : State) (ws t : SessionId) (r0 : String) :
    (rooms.leaveRoom st ws r0).sessions t =
      if t = ws then { (st.sessions ws) with rooms := (st.sessions ws).rooms.delete r0 }
      else st.sessions t := by
  unfold rooms.leaveRoom
  by_cases h : t = ws
  · subst h; simp
  · simp [h, Function.update_noteq h]

theorem mem_rooms_leaveRoom (st : State) (ws t : SessionId) (r0 r : String) :
    r ∈ ((rooms.leaveRoom st ws r0).sessions t).rooms ↔
      r ∈ (st.sessions t).rooms ∧ ¬ (t = ws ∧ r = r0) := by
  rw [leaveRoom_session]
  by_cases h : t = ws
  · subst h
    simp only [if_true, JSSet.mem_delete, true_and]
  · simp [h]

theorem leaveRoom_user (st : State) (ws t : SessionId) (r0 : String) :
    ((rooms.leaveRoom st ws r0).sessions t).user = (st.sessions t).user := by
  rw [leaveRoom_session]; split
  · next h => subst h; rfl
  · rfl

theorem leaveRoom_readyState (st : State) (ws t : SessionId) (r0 : String) :
    ((rooms.leaveRoom st ws r0).sessions t).readyState = (st.sessions t).readyState := by
  rw [leaveRoom_session]; split
  · next h => subst h; rfl
  · rfl

theorem leaveRoom_nonempty (st : State) (ws : SessionId) (r0 : String)
    (h : ∀ r c, st.roomConnections r = some c → c.elems ≠ []) :
    ∀ r c, (rooms.leaveRoom st ws r0).roomConnections r = some c → c.elems ≠ [] := by
  intro r c hc
  unfold rooms.leaveRoom at hc
  simp only [] at hc
  cases h0 : st.roomConnections r0 with
  | none =>
    rw [h0] at hc
    exact h r c hc
  | some c0 =>
    rw [h0] at hc
    simp only [] at hc
    by_cases hr : r = r0
    · subst hr
      by_cases hs : (c0.delete ws).size = 0
      · rw [if_pos hs] at hc
        simp at hc
      · rw [if_neg hs] at hc
        simp only [Function.update_same, Option.some.injEq] at hc
        subst hc
        intro he
        exact hs (by simp [JSSet.size, he])
    · split at hc
      · rw [Function.update_noteq hr] at hc; exact h r c hc
      · rw [Function.update_noteq hr] at hc; exact h r c hc

theorem joinRoom_nonempty (st : State) (ws : SessionId) (r0 : String)
    (h : ∀ r c, st.roomConnections r = some c → c.elems ≠ []) :
    ∀ r c, (rooms.joinRoom st ws r0).roomConnections r = some c → c.elems ≠ [] := by
  intro r c hc
  unfold rooms.joinRoom at hc
  simp only [] at hc
  by_cases hr : r = r0
  · subst hr
    simp only [Function.update_same, Option.some.injEq] at hc
    subst hc
    intro he
    have : ws ∈ ((st.roomConnections r).getD JSSet.empty).add ws :=
      (JSSet.mem_add _ _ _).mpr (Or.inr rfl)
    rw [JSSet.mem_iff, he] at this
    simp at this
  · rw [Function.update_noteq hr] at hc; exact h r c hc

theorem Inv_joinRoom {st : State} (h : Inv st) (ws : SessionId) (r0 : String)
    (hr0 : (st.db.getRoom r0).isSome) (hc : ws ∈ st.clients) :
    Inv (rooms.joinRoom st ws r0) := by
  refine ⟨h.rooms_named, ?_, h.tokens_ok, ?_, ?_, joinRoom_nonempty st ws r0 h.nonempty, ?_,
    h.clients_lt⟩
  · intro t u hu
    rw [joinRoom_user] at hu
    exact h.user_ok t u hu
  · intro t r hm
    rw [mem_rooms_joinRoom] at hm
    rcases hm with hm | ⟨_, rfl⟩
    · exact h.joined_exists t r hm
    · exact hr0
  · intro t r
    rw [mem_live_joinRoom, mem_rooms_joinRoom, h.mirror t r]
    tauto
  · intro t r hm
    rw [mem_rooms_joinRoom] at hm
    rcases hm with hm | ⟨rfl, _⟩
    · exact h.joined_client t r hm
    · exact hc

theorem Inv_leaveRoom {st : State} (h : Inv st) (ws : SessionId) (r0 : String) :
    Inv (rooms.leaveRoom st ws r0) := by
  refine ⟨h.rooms_named, ?_, h.tokens_ok, ?_, ?_, leaveRoom_nonempty st ws r0 h.nonempty, ?_,
    h.clients_lt⟩
  · intro t u hu
    rw [leaveRoom_user] at hu
    exact h.user_ok t u hu
  · intro t r hm
    rw [mem_rooms_leaveRoom] at hm
    exact h.joined_exists t r hm.1
  · intro t r
    rw [mem_live_leaveRoom, mem_rooms_leaveRoom, h.mirror t r]
    tauto
  · intro t r hm
    rw [mem_rooms_leaveRoom] at hm
    exact h.joined_client t r hm.1

theorem Inv_users_rooms {st : State} (h : Inv st) (db : Db)
    (hu : db.users = st.db.users) (hr : db.rooms = st.db.rooms) :
    Inv { st with db := db } :=
  Inv_setDb h db (fun u hx => by rw [getUser_of_users_eq hu]; exact hx)
    (fun r => by rw [getRoom_of_rooms_eq hr])

theorem Inv_setUser {st : State} (h : Inv st) (ws : SessionId) (u : String) (hu : u ≠ "")
    (hrow : (st.db.getUser u).isSome) : Inv (handler.setUser st ws u) := by
  have hs : ∀ t, ((handler.setUser st ws u).sessions t).rooms = (st.sessions t).rooms := by
    intro t
    unfold handler.setUser
    by_cases ht : t = ws
    · subst ht; simp
    · simp [Function.update_noteq ht]
  refine ⟨h.rooms_named, ?_, h.tokens_ok, ?_, ?_, h.nonempty, ?_, h.clients_lt⟩
  · intro t x hx
    unfold handler.setUser at hx
    by_cases ht : t = ws
    · subst ht
      simp only [Function.update_same, Option.some.injEq] at hx
      subst hx
      exact ⟨hu, hrow⟩
    · simp only [Function.update_noteq ht] at hx
      exact h.user_ok t x hx
  · intro t r hm
    rw [hs] at hm; exact h.joined_exists t r hm
  · intro t r
    rw [hs]; exact h.mirror t r
  · intro t r hm
    rw [hs] at hm; exact h.joined_client t r hm

theorem Inv_createToken {st : State} (h : Inv st) (tok u : String)
    (hrow : (st.db.getUser u).isSome) : Inv (auth.createToken st tok u) := by
  refine ⟨h.rooms_named, h.user_ok, ?_, h.joined_exists, h.mirror, h.nonempty, h.joined_client,
    h.clients_lt⟩
  intro t x hx hne
  unfold auth.createToken at hx
  by_cases ht : t = tok
  · subst ht
    simp only [Function.update_same, Option.some.injEq] at hx
    subst hx; exact hrow
  · simp only [Function.update_noteq ht] at hx
    exact h.tokens_ok t x hx hne

theorem Inv_handleSendMessage {st : State} (h : Inv st) (ws : SessionId) (msg : Msg)
    (uuid : String) (now : Nat) :
    Inv (messages.handleSendMessage st ws msg uuid now).state := by
  unfold messages.handleSendMessage
  split
  · exact Inv_send h _ _
  · simp only []
    split
    · exact Inv_send h _ _
    · split
      · exact h
      · next db hdb =>
        obtain ⟨x, _, rfl⟩ := saveMessage_spec hdb
        show Inv (rooms.broadcastToRoom _ _ _ _)
        apply Inv_broadcast
        exact Inv_users_rooms h _ rfl rfl

theorem Inv_handleDMSend {st : State} (h : Inv st) (ws : SessionId) (msg : Msg)
    (cl : JSSet SessionId) (uuid : String) (now : Nat) :
    Inv (messages.handleDMSend st ws msg cl uuid now).state := by
  unfold messages.handleDMSend
  split
  · exact Inv_send h _ _
  · simp only []
    split
    · exact Inv_send h _ _
    · split
      · exact h
      · next db hdb =>
        obtain ⟨x, _, rfl⟩ := saveDM_spec hdb
        have h1 := Inv_users_rooms h
          { st.db with direct_messages := st.db.direct_messages ++
              [⟨uuid, x, msg.to_.getD "", msg.message.getD "", msg.metadata.getD emptyObject, now⟩] }
          rfl rfl
        show Inv (protocol.send _ ws _)
        apply Inv_send
        split
        · exact h1
        · exact Inv_send h1 _ _

theorem truthy_iff (x : Option String) : truthy x = true ↔ ∃ s, x = some s ∧ s ≠ "" := by
  cases x <;> simp [truthy]

theorem Inv_handleAuth (env : Env) {st : State} (h : Inv st) (ws : SessionId) (msg : Msg)
    (ty uuid : String) (now : Nat) :
    Inv (handler.handleAuth env st ws msg ty uuid now).state := by
  unfold handler.handleAuth
  split
  · -- register
    split
    · exact Inv_send h _ _
    · next hreq =>
      simp only []
      have hname : msg.username.getD "" ≠ "" := by
        simp only [Bool.or_eq_true, Bool.not_eq_true', not_or, Bool.not_eq_false] at hreq
        obtain ⟨s, hs, hne⟩ := (truthy_iff _).mp hreq.1
        simpa [hs] using hne
      split
      · exact Inv_send h _ _
      · split
        · exact Inv_send h _ _
        · split
          · exact h
          · next db hdb =>
            obtain ⟨rfl, _⟩ := createUser_spec hdb
            have hrow : (Db.getUser { st.db with users := st.db.users ++
                [⟨msg.username.getD "", env.hashPassword (msg.password.getD ""), "", "", now⟩] }
                (msg.username.getD "")).isSome := by
              rw [getUser_isSome_iff]
              exact ⟨_, List.mem_append_right _ (List.mem_singleton.mpr rfl), rfl⟩
            have h1 : Inv { st with db := { st.db with users := st.db.users ++
                [⟨msg.username.getD "", env.hashPassword (msg.password.getD ""), "", "", now⟩] } } :=
              Inv_setDb h _ (fun u hu => by
                rw [getUser_isSome_iff] at hu ⊢
                obtain ⟨row, hm, hx⟩ := hu
                exact ⟨row, List.mem_append_left _ hm, hx⟩) (fun r => Iff.rfl)
            have h2 := Inv_setUser (Inv_createToken h1 uuid _ hrow) ws _ hname hrow
            split
            · exact h2
            · exact Inv_send h2 _ _
  · split
    · -- login
      split
      · exact Inv_send h _ _
      · next hreq =>
        simp only []
        have hname : msg.username.getD "" ≠ "" := by
          simp only [Bool.or_eq_true, Bool.not_eq_true', not_or, Bool.not_eq_false] at hreq
          obtain ⟨s, hs, hne⟩ := (truthy_iff _).mp hreq.1
          simpa [hs] using hne
        split
        · exact Inv_send h _ _
        · next user huser =>
          have hrow : (st.db.getUser (msg.username.getD "")).isSome := by simp [huser]
          split
          · exact Inv_send h _ _
          · exact Inv_send (Inv_setUser (Inv_createToken h uuid _ hrow) ws _ hname hrow) _ _
    · split
      · -- resume
        split
        · exact Inv_send h _ _
        · next username hv =>
          have hv2 : ∃ t, st.tokens t = some username ∧ username ≠ "" := by
            unfold auth.verifyToken at hv
            split at hv
            · exact absurd hv (by simp)
            · next t _ =>
              split at hv
              · next htr =>
                obtain ⟨s, hs, hne⟩ := (truthy_iff _).mp htr
                rw [hs] at hv
                simp only [Option.some.injEq] at hv
                subst hv
                exact ⟨t, hs, hne⟩
              · exact absurd hv (by simp)
          obtain ⟨t, ht, hne⟩ := hv2
          have hrow := h.tokens_ok t username ht hne
          have h1 := Inv_setUser h ws username hne hrow
          simp only []
          split
          · exact h1
          · exact Inv_send h1 _ _
      · split
        · -- change_password
          split
          · exact Inv_send h _ _
          · split
            · split
              · exact Inv_send h _ _
              · split
                · exact h
                · exact Inv_send (Inv_setDb h _
                    (fun u hu => (updatePassword_getUser_isSome _ _ _ _).mpr hu)
                    (fun r => Iff.rfl)) _ _
            · exact h
        · split
          · -- update_profile
            split
            · exact Inv_send h _ _
            · simp only []
              split
              · exact h
              · have h1 := Inv_setDb h
                  (st.db.updateProfile ((st.sessions ws).user.getD "")
                    (nullish msg.avatar ‹UserRow›.avatar) (nullish msg.about ‹UserRow›.about))
                  (fun u hu => (updateProfile_getUser_isSome _ _ _ _ _).mpr hu)
                  (fun r => Iff.rfl)
                split
                · exact h1
                · exact Inv_send h1 _ _
          · exact h


theorem getD_ne_of_truthy {x : Option String} (h : truthy x = true) : x.getD "" ≠ "" := by
  obtain ⟨s, hs, hne⟩ := (truthy_iff _).mp h
  simpa [hs] using hne

theorem Inv_handleRoom (env : Env) {st : State} (h : Inv st) (ws : SessionId)
    (hc : ws ∈ st.clients) (msg : Msg) (ty : String) (now : Nat) :
    Inv (handler.handleRoom env st ws msg ty now).state := by
  unfold handler.handleRoom
  simp only []
  split
  · exact Inv_send h _ _
  · split
    · -- create
      split
      · exact Inv_send h _ _
      · next hreq =>
        have hname : msg.name.getD "" ≠ "" :=
          getD_ne_of_truthy (by simpa using hreq)
        split
        · exact Inv_send h _ _
        · split
          · exact h
          · next db hdb =>
            obtain ⟨cu, _, rfl⟩ := createRoom_spec hdb
            show Inv (protocol.send _ _ _)
            apply Inv_send
            refine Inv_congr h (fun _ => rfl) (fun _ => rfl) rfl rfl rfl (fun u hu => hu) ?_ ?_ rfl
            · intro r hr
              rw [getRoom_isSome_iff] at hr ⊢
              obtain ⟨row, hm, hx⟩ := hr
              exact ⟨row, List.mem_append_left _ hm, hx⟩
            · intro r hr
              rw [getRoom_isSome_iff] at hr
              obtain ⟨row, hm, hx⟩ := hr
              rcases List.mem_append.mp hm with hm | hm
              · exact h.rooms_named r ((getRoom_isSome_iff _ _).mpr ⟨row, hm, hx⟩)
              · rw [List.mem_singleton] at hm
                subst hm; subst hx; exact hname
    · split
      · -- join
        split
        · exact Inv_send h _ _
        · split
          · exact Inv_send h _ _
          · next hroom =>
            split
            · exact h
            · next db hdb =>
              obtain ⟨x, _, hu, hr, _⟩ := addRoomMember_spec hdb
              show Inv (protocol.send _ _ _)
              apply Inv_send
              apply Inv_broadcast
              apply Inv_joinRoom (Inv_users_rooms h db hu hr) ws _ _ hc
              show (db.getRoom _).isSome
              rw [getRoom_of_rooms_eq hr]
              cases hg : st.db.getRoom (msg.room.getD "") with
              | none => simp [hg] at hroom
              | some _ => rfl
      · split
        · -- leave
          split
          · exact Inv_send h _ _
          · show Inv (protocol.send _ _ _)
            apply Inv_send
            have h2 := Inv_leaveRoom (Inv_broadcast h (msg.room.getD "")
              (.roomLeft (msg.room.getD "") (st.sessions ws).user) none) ws (msg.room.getD "")
            refine Inv_users_rooms h2 _ ?_ ?_
            · unfold Db.removeRoomMember; split <;> rfl
            · unfold Db.removeRoomMember; split <;> rfl
        · split
          · split
            · exact Inv_send h _ _
            · exact Inv_send h _ _
          · split
            · split
              · exact Inv_send h _ _
              · exact Inv_send h _ _
            · exact h

theorem Inv_handleMessage {st : State} (h : Inv st) (ws : SessionId) (msg : Msg)
    (ty uuid : String) (now : Nat) :
    Inv (handler.handleMessage st ws msg ty uuid now).state := by
  unfold handler.handleMessage
  split
  · exact Inv_handleSendMessage h ws msg uuid now
  · exact h

theorem Inv_handleDM (env : Env) {st : State} (h : Inv st) (ws : SessionId) (msg : Msg)
    (ty : String) (cl : JSSet SessionId) (uuid : String) (now : Nat) :
    Inv (handler.handleDM env st ws msg ty cl uuid now).state := by
  unfold handler.handleDM
  split
  · exact Inv_handleDMSend h ws msg cl uuid now
  · split
    · split
      · exact Inv_send h _ _
      · exact Inv_send h _ _
    · split
      · exact Inv_send h _ _
      · exact h

theorem Inv_contextBroadcasts {st : State} (h : Inv st) (calls : List (Option String × Frame)) :
    Inv (calls.foldl handler.contextBroadcast st) := by
  induction calls generalizing st with
  | nil => exact h
  | cons c cs ih =>
    rw [List.foldl_cons]
    apply ih
    unfold handler.contextBroadcast
    split
    · exact h
    · exact Inv_broadcast h _ _ _

theorem Inv_handleCommand {st : State} (h : Inv st) (ws : SessionId) (msg : Msg)
    (ty uuid : String) (now : Nat) :
    Inv (handler.handleCommand st ws msg ty uuid now).state := by
  unfold handler.handleCommand
  split
  · split
    · exact Inv_send h _ _
    · simp only []
      split
      · exact Inv_send h _ _
      · exact Inv_send (Inv_contextBroadcasts h _) _ _
  · split
    · exact Inv_send h _ _
    · exact h

theorem Inv_onMessage (env : Env) {st : State} (h : Inv st) (ws : SessionId)
    (hc : ws ∈ st.clients) (raw : Raw) (uuid : String) (now : Nat) :
    Inv (handler.onMessage env st ws raw uuid now).state := by
  unfold handler.onMessage
  split
  · exact Inv_send h _ _
  · split
    · exact Inv_send h _ _
    · exact Inv_send h _ _
    · exact h
    · split
      · exact Inv_send h _ _
      · split
        · exact Inv_handleAuth env h ws _ _ uuid now
        · split
          · exact Inv_send h _ _
          · split
            · exact Inv_handleRoom env h ws hc _ _ now
            · split
              · exact Inv_handleMessage h ws _ _ uuid now
              · split
                · exact Inv_handleDM env h ws _ _ _ uuid now
                · split
                  · exact Inv_handleCommand h ws _ _ uuid now
                  · split
                    · exact Inv_send h _ _
                    · exact h

/-- The loop of `leaveAllRooms`. -/
theorem leaveMany_core (ws : SessionId) (l : List String) (st : State) :
    let st' := l.foldl (fun acc room => rooms.leaveRoom acc ws room) st
    st'.clients = st.clients ∧ st'.nextWs = st.nextWs ∧ st'.db = st.db ∧
      st'.tokens = st.tokens ∧ st'.outbox = st.outbox ∧ st'.probes = st.probes ∧
      st'.terminations = st.terminations ∧
      (∀ t, (st'.sessions t).user = (st.sessions t).user) ∧
      (∀ t, (st'.sessions t).readyState = (st.sessions t).readyState) ∧
      (∀ t, (st'.sessions t).isAlive = (st.sessions t).isAlive) ∧
      (∀ t r, t ∈ live st' r ↔ t ∈ live st r ∧ ¬ (r ∈ l ∧ t = ws)) ∧
      (∀ t r, r ∈ (st'.sessions t).rooms ↔ r ∈ (st.sessions t).rooms ∧ ¬ (t = ws ∧ r ∈ l)) ∧
      ((∀ r c, st.roomConnections r = some c → c.elems ≠ []) →
        ∀ r c, st'.roomConnections r = some c → c.elems ≠ []) := by
  induction l generalizing st with
  | nil => simp
  | cons x xs ih =>
    simp only [List.foldl_cons]
    have h := ih (rooms.leaveRoom st ws x)
    simp only [] at h
    obtain ⟨h1, h2, h3, h4, h5, h6, h7, h8, h9, h10, h11, h12, h13⟩ := h
    refine ⟨h1, h2, h3, h4, h5, h6, h7, ?_, ?_, ?_, ?_, ?_, ?_⟩
    · intro t; rw [h8, leaveRoom_user]
    · intro t; rw [h9, leaveRoom_readyState]
    · intro t; rw [h10, leaveRoom_session]; split
      · next e => subst e; rfl
      · rfl
    · intro t r
      rw [h11, mem_live_leaveRoom]
      simp only [List.mem_cons]
      tauto
    · intro t r
      rw [h12, mem_rooms_leaveRoom]
      simp only [List.mem_cons]
      tauto
    · intro hne
      exact h13 (leaveRoom_nonempty st ws x hne)

/-- A loop of room broadcasts in closed form: each socket receives, in order, the
frames of the rooms in whose live set it is while open. -/
theorem foldl_broadcast_eq (f : String → Frame) (l : List String) (st : State) :
    l.foldl (fun acc room => rooms.broadcastToRoom acc room (f room) none) st =
      { st with outbox := fun t => st.outbox t ++
          (l.filter (fun r => decide (t ∈ live st r ∧ (st.sessions t).readyState = 1))).map f } := by
  induction l generalizing st with
  | nil => simp
  | cons x xs ih =>
    rw [List.foldl_cons, ih, broadcastToRoom_eq]
    simp only [deliver]
    congr 1
    funext t
    by_cases hx : t ∈ live st x ∧ (st.sessions t).readyState = 1
    · have hx' : t ∈ live st x ∧ some t ≠ none ∧ (st.sessions t).readyState = 1 :=
        ⟨hx.1, by simp, hx.2⟩
      rw [if_pos hx', List.filter_cons_of_pos (by simpa using hx)]
      simp [live]
    · have hx' : ¬ (t ∈ live st x ∧ some t ≠ none ∧ (st.sessions t).readyState = 1) :=
        fun h => hx ⟨h.1, h.2.2⟩
      rw [if_neg hx', List.filter_cons_of_neg (by simpa using hx)]
      simp [live]


theorem closeSocket_spec (st : State) (ws : SessionId) :
    (closeSocket st ws).db = st.db ∧ (closeSocket st ws).tokens = st.tokens ∧
      (closeSocket st ws).nextWs = st.nextWs ∧
      (closeSocket st ws).clients = st.clients.delete ws ∧
      (∀ t, ((closeSocket st ws).sessions t).user = (st.sessions t).user) ∧
      (∀ t, ((closeSocket st ws).sessions t).readyState =
        if t = ws then 3 else (st.sessions t).readyState) ∧
      (∀ t r, t ∈ live (closeSocket st ws) r ↔
        t ∈ live st r ∧ ¬ (r ∈ (st.sessions ws).rooms ∧ t = ws)) ∧
      (∀ t r, r ∈ ((closeSocket st ws).sessions t).rooms ↔
        r ∈ (st.sessions t).rooms ∧ t ≠ ws) ∧
      ((∀ r c, st.roomConnections r = some c → c.elems ≠ []) →
        ∀ r c, (closeSocket st ws).roomConnections r = some c → c.elems ≠ []) ∧
      (∀ t, (closeSocket st ws).outbox t = st.outbox t ++ offlineFrames st ws t) := by
  have hl := leaveMany_core ws (st.sessions ws).rooms.elems
    { st with
      sessions := Function.update st.sessions ws { (st.sessions ws) with readyState := 3 }
      clients := st.clients.delete ws }
  simp only [] at hl
  obtain ⟨h1, h2, h3, h4, h5, _, _, h8, h9, _, h11, h12, h13⟩ := hl
  have hs0 : ∀ t, (Function.update st.sessions ws { (st.sessions ws) with readyState := 3 } t)
      = if t = ws then { (st.sessions ws) with readyState := 3 } else st.sessions t := by
    intro t
    by_cases ht : t = ws
    · subst ht; simp
    · simp [ht, Function.update_noteq ht]
  have hsrooms : (Function.update st.sessions ws { (st.sessions ws) with readyState := 3 } ws).rooms
      = (st.sessions ws).rooms := by simp
  have huser : ∀ t, (Function.update st.sessions ws { (st.sessions ws) with readyState := 3 } t).user
      = (st.sessions t).user := by
    intro t; rw [hs0]; split
    · next e => subst e; rfl
    · rfl
  have hrs : ∀ t, (Function.update st.sessions ws { (st.sessions ws) with readyState := 3 } t).readyState
      = if t = ws then 3 else (st.sessions t).readyState := by
    intro t; rw [hs0]; split <;> rfl
  have hrm : ∀ t, (Function.update st.sessions ws { (st.sessions ws) with readyState := 3 } t).rooms
      = (st.sessions t).rooms := by
    intro t; rw [hs0]; split
    · next e => subst e; rfl
    · rfl
  -- the state after `leaveAllRooms`
  have hclose : closeSocket st ws =
      if truthy (st.sessions ws).user then
        (st.sessions ws).rooms.elems.foldl
          (fun acc room => rooms.broadcastToRoom acc room
            (Frame.presenceOffline (st.sessions ws).user room) none)
          ((st.sessions ws).rooms.elems.foldl (fun acc room => rooms.leaveRoom acc ws room)
            { st with
              sessions := Function.update st.sessions ws { (st.sessions ws) with readyState := 3 }
              clients := st.clients.delete ws })
      else
        (st.sessions ws).rooms.elems.foldl (fun acc room => rooms.leaveRoom acc ws room)
            { st with
              sessions := Function.update st.sessions ws { (st.sessions ws) with readyState := 3 }
              clients := st.clients.delete ws } := by
    unfold closeSocket handler.onClose rooms.leaveAllRooms
    simp only [hsrooms, h8 ws, huser ws]
  have hlive0 : ∀ r, live { st with
      sessions := Function.update st.sessions ws { (st.sessions ws) with readyState := 3 }
      clients := st.clients.delete ws } r = live st r := fun r => rfl
  have hmemR : ∀ r, r ∈ (st.sessions ws).rooms.elems ↔ r ∈ (st.sessions ws).rooms :=
    fun r => Iff.rfl
  by_cases hu : truthy (st.sessions ws).user = true
  · rw [hclose, if_pos hu, foldl_broadcast_eq]
    refine ⟨h3, h4, h2, h1, ?_, ?_, ?_, ?_, ?_, ?_⟩
    · intro t; exact (h8 t).trans (huser t)
    · intro t; exact (h9 t).trans (hrs t)
    · intro t r
      show t ∈ live _ r ↔ _
      have := h11 t r
      rw [hlive0] at this
      exact this
    · intro t r
      have := h12 t r
      simp only [hrm] at this
      rw [this]
      constructor
      · rintro ⟨hm, hn⟩
        refine ⟨hm, fun e => hn ⟨e, ?_⟩⟩
        subst e; exact hm
      · rintro ⟨hm, hn⟩
        exact ⟨hm, fun e => hn e.1⟩
    · intro hne; exact h13 hne
    · intro t
      show _ ++ _ = _
      rw [h5]
      congr 1
      unfold offlineFrames
      rw [if_pos hu]
      congr 1
      apply List.filter_congr
      intro r hr
      have hm := h11 t r
      rw [hlive0] at hm
      simp only [hm, h9 t, hrs t, decide_eq_decide]
      constructor
      · rintro ⟨⟨hlv, hn⟩, hopen⟩
        have hne : t ≠ ws := fun e => hn ⟨hr, e⟩
        rw [if_neg hne] at hopen
        exact ⟨hlv, hne, hopen⟩
      · rintro ⟨hlv, hne, hopen⟩
        rw [if_neg hne]
        exact ⟨⟨hlv, fun e => hne e.2⟩, hopen⟩
  · rw [hclose, if_neg hu]
    refine ⟨h3, h4, h2, h1, ?_, ?_, ?_, ?_, ?_, ?_⟩
    · intro t; exact (h8 t).trans (huser t)
    · intro t; exact (h9 t).trans (hrs t)
    · intro t r
      have := h11 t r
      rw [hlive0] at this
      exact this
    · intro t r
      have := h12 t r
      simp only [hrm] at this
      rw [this]
      constructor
      · rintro ⟨hm, hn⟩
        refine ⟨hm, fun e => hn ⟨e, ?_⟩⟩
        subst e; exact hm
      · rintro ⟨hm, hn⟩
        exact ⟨hm, fun e => hn e.1⟩
    · intro hne; exact h13 hne
    · intro t
      rw [h5]
      unfold offlineFrames
      rw [if_neg hu]
      simp

theorem Inv_closeSocket {st : State} (h : Inv st) (ws : SessionId) :
    Inv (closeSocket st ws) := by
  obtain ⟨h1, h2, h3, h4, h5, _, h7, h8, h9, _⟩ := closeSocket_spec st ws
  refine ⟨?_, ?_, ?_, ?_, ?_, h9 h.nonempty, ?_, ?_⟩
  · intro r hr; rw [h1] at hr; exact h.rooms_named r hr
  · intro t u hu
    rw [h5] at hu; rw [h1]; exact h.user_ok t u hu
  · intro t u ht hne
    rw [h2] at ht; rw [h1]; exact h.tokens_ok t u ht hne
  · intro t r hm
    rw [h8] at hm; rw [h1]; exact h.joined_exists t r hm.1
  · intro t r
    rw [h7, h8, h.mirror t r]
    constructor
    · rintro ⟨hm, hn⟩
      refine ⟨hm, fun e => hn ⟨?_, e⟩⟩
      subst e; exact hm
    · rintro ⟨hm, hn⟩
      exact ⟨hm, fun e => hn e.2⟩
  · intro t r hm
    rw [h8] at hm
    rw [h4, JSSet.mem_delete]
    exact ⟨h.joined_client t r hm.1, hm.2⟩
  · intro t ht
    rw [h4, JSSet.mem_delete] at ht
    rw [h3]; exact h.clients_lt t ht.1

theorem Inv_onConnection {st : State} (h : Inv st) : Inv (handler.onConnection st) := by
  have hfresh : ∀ r, r ∉ (st.sessions st.nextWs).rooms := fun r hm =>
    absurd (h.clients_lt _ (h.joined_client _ r hm)) (lt_irrefl _)
  have hs : ∀ t, (handler.onConnection st).sessions t =
      if t = st.nextWs then ⟨none, JSSet.empty, true, 1⟩ else st.sessions t := by
    intro t
    unfold handler.onConnection
    by_cases ht : t = st.nextWs
    · subst ht; simp
    · simp [ht, Function.update_noteq ht]
  have hrooms : ∀ t r, r ∈ ((handler.onConnection st).sessions t).rooms ↔
      r ∈ (st.sessions t).rooms := by
    intro t r
    rw [hs]
    split
    · next e =>
      subst e
      constructor
      · intro hm; exact absurd hm (JSSet.not_mem_empty r)
      · intro hm; exact absurd hm (hfresh r)
    · rfl
  refine ⟨h.rooms_named, ?_, h.tokens_ok, ?_, ?_, h.nonempty, ?_, ?_⟩
  · intro t u hu
    rw [hs] at hu
    split at hu
    · simp at hu
    · exact h.user_ok t u hu
  · intro t r hm
    exact h.joined_exists t r ((hrooms t r).mp hm)
  · intro t r
    rw [hrooms]; exact h.mirror t r
  · intro t r hm
    show t ∈ st.clients.add st.nextWs
    rw [JSSet.mem_add]
    exact Or.inl (h.joined_client t r ((hrooms t r).mp hm))
  · intro t ht
    change t ∈ st.clients.add st.nextWs at ht
    show t < st.nextWs + 1
    rw [JSSet.mem_add] at ht
    rcases ht with ht | rfl
    · exact Nat.lt_succ_of_lt (h.clients_lt t ht)
    · exact Nat.lt_succ_self _

/-- An update of `isAlive` or `readyState` of one socket keeps the invariant. -/
theorem Inv_touch {st : State} (h : Inv st) (ws : SessionId) (s : Session)
    (hu : s.user = (st.sessions ws).user) (hr : s.rooms = (st.sessions ws).rooms)
    (p q : SessionId → Nat) :
    Inv { st with sessions := Function.update st.sessions ws s, probes := p,
                  terminations := q } := by
  refine Inv_congr h ?_ ?_ rfl rfl rfl (fun _ hx => hx) (fun _ hx => hx) h.rooms_named rfl
  · intro t
    show (Function.update st.sessions ws s t).user = _
    by_cases ht : t = ws
    · subst ht; simp [hu]
    · simp [Function.update_noteq ht]
  · intro t
    show (Function.update st.sessions ws s t).rooms = _
    by_cases ht : t = ws
    · subst ht; simp [hr]
    · simp [Function.update_noteq ht]

theorem Inv_onPong {st : State} (h : Inv st) (ws : SessionId) : Inv (handler.onPong st ws) := by
  unfold handler.onPong
  apply Inv_touch h ws <;> rfl

theorem Inv_beginClose {st : State} (h : Inv st) (ws : SessionId) : Inv (beginClose st ws) := by
  unfold beginClose
  apply Inv_touch h ws <;> rfl

theorem Inv_heartbeatOne {st : State} (h : Inv st) (ws : SessionId) :
    Inv (handler.heartbeatOne st ws) := by
  unfold handler.heartbeatOne
  split
  · unfold handler.terminate
    split
    · exact h
    · apply Inv_touch h ws <;> rfl
  · unfold handler.ping
    split
    · apply Inv_touch h ws <;> rfl
    · apply Inv_touch h ws <;> rfl

theorem Inv_heartbeat {st : State} (h : Inv st) : Inv (handler.heartbeat st) := by
  unfold handler.heartbeat
  generalize st.clients.elems = l
  induction l generalizing st with
  | nil => exact h
  | cons x xs ih => exact ih (Inv_heartbeatOne h x)

theorem Inv_step (env : Env) {st : State} (h : Inv st) (e : Event) : Inv (step env st e) := by
  cases e with
  | connection => exact Inv_onConnection h
  | message ws raw uuid now =>
    simp only [step]
    split
    · next hc => exact Inv_onMessage env h ws hc raw uuid now
    · exact h
  | pong ws =>
    simp only [step]
    split
    · exact Inv_onPong h ws
    · exact h
  | closing ws =>
    simp only [step]
    split
    · exact Inv_beginClose h ws
    · exact h
  | close ws =>
    simp only [step]
    split
    · exact Inv_closeSocket h ws
    · exact h
  | heartbeat => exact Inv_heartbeat h

theorem Inv_run (env : Env) {st : State} (h : Inv st) (events : List Event) :
    Inv (run env st events) := by
  induction events generalizing st with
  | nil => exact h
  | cons e es ih => exact ih (Inv_step env h e)

theorem Inv_of_reachable {env : Env} {st : State} (h : Reachable env st) : Inv st := by
  obtain ⟨events, rfl⟩ := h
  exact Inv_run env Inv_init events

theorem truthy_of_identity {s : Session} {u : String} (h : s.identity = some u) :
    s.user = some u ∧ u ≠ "" ∧ truthy s.user = true := by
  unfold Session.identity at h
  split at h
  · next ht =>
    obtain ⟨x, hx, hne⟩ := (truthy_iff _).mp ht
    rw [hx] at h
    simp only [Option.some.injEq] at h
    subst h
    exact ⟨hx, hne, ht⟩
  · exact absurd h (by simp)

theorem onMessage_message_send (env : Env) (st : State) (ws : SessionId) (msg : Msg)
    (uuid : String) (now : Nat) (hty : msg.type = .str "message:send")
    (hauth : truthy (st.sessions ws).user = true) :
    handler.onMessage env st ws (.json msg) uuid now =
      messages.handleSendMessage st ws msg uuid now := by
  have h1 : startsWith "message:send" "auth:" = false := by decide
  have h2 : startsWith "message:send" "room:" = false := by decide
  have h3 : startsWith "message:send" "message:" = true := by decide
  simp [handler.onMessage, protocol.parse, hty, h1, h2, h3, hauth, handler.handleMessage]

theorem onMessage_room (env : Env) (st : State) (ws : SessionId) (msg : Msg)
    (uuid : String) (now : Nat) (ty : String) (hty : msg.type = .str ty)
    (hne : ty ≠ "") (h1 : startsWith ty "auth:" = false) (h2 : startsWith ty "room:" = true)
    (hauth : truthy (st.sessions ws).user = true) :
    handler.onMessage env st ws (.json msg) uuid now =
      handler.handleRoom env st ws msg ty now := by
  simp [handler.onMessage, protocol.parse, hty, h1, h2, hauth, hne]


theorem deliver_outbox (st : State) (p : SessionId → Prop) [DecidablePred p] (obj : Frame)
    (t : SessionId) :
    (deliver st p obj).outbox t = if p t then st.outbox t ++ [obj] else st.outbox t := rfl

theorem broadcast_outbox (st : State) (r : String) (obj : Frame) (t : SessionId) :
    (rooms.broadcastToRoom st r obj none).outbox t =
      if t ∈ live st r ∧ (st.sessions t).isOpen = true then st.outbox t ++ [obj]
      else st.outbox t := by
  rw [broadcastToRoom_eq, deliver_outbox]
  simp only [Session.isOpen, decide_eq_true_eq]
  by_cases h : t ∈ live st r ∧ (st.sessions t).readyState = 1
  · rw [if_pos h, if_pos ⟨h.1, by simp, h.2⟩]
  · rw [if_neg h, if_neg (fun h2 => h ⟨h2.1, h2.2.2⟩)]

theorem send_outbox (st : State) (ws : SessionId) (obj : Frame) (t : SessionId) :
    (protocol.send st ws obj).outbox t =
      if t = ws ∧ (st.sessions ws).isOpen = true then st.outbox t ++ [obj]
      else st.outbox t := by
  rw [send_eq, deliver_outbox]
  simp only [Session.isOpen, decide_eq_true_eq]
  by_cases h : t = ws
  · subst h; simp
  · simp [h]

theorem isRoomMember_removeRoomMember (d : Db) (r u : String) :
    (d.removeRoomMember r (some u)).isRoomMember r u = false := by
  simp only [Db.removeRoomMember, Db.isRoomMember, List.any_eq_false, List.mem_filter,
    Bool.not_eq_true', decide_eq_false_iff_not, decide_eq_true_eq]
  intro x hx
  exact hx.2

theorem isRoomMember_addRoomMember {d d' : Db} {r u : String} {now : Nat}
    (h : d.addRoomMember r (some u) now = some d') : d'.isRoomMember r u = true := by
  obtain ⟨x, hx, _, _, _, _, hm⟩ := addRoomMember_spec h
  simp only [Option.some.injEq] at hx
  subst hx
  unfold Db.isRoomMember
  rw [hm]
  by_cases hmem : d.isRoomMember r u = true
  · rw [if_pos hmem]; exact hmem
  · rw [if_neg hmem]
    simp

theorem getOnlineUsers_mem (st : State) (r u : String) :
    u ∈ rooms.getOnlineUsers st r ↔ ∃ ws ∈ live st r, (st.sessions ws).identity = some u := by
  unfold rooms.getOnlineUsers live
  cases h : st.roomConnections r with
  | none => simp
  | some c =>
    simp only []
    rw [← JSSet.mem_iff, JSSet.mem_ofList, List.mem_filterMap]

theorem getOnlineUsers_nodup (st : State) (r : String) : (rooms.getOnlineUsers st r).Nodup := by
  unfold rooms.getOnlineUsers
  split
  · exact List.nodup_nil
  · exact (JSSet.ofList _).nodup

theorem getOnlineUsers_length (st : State) (r : String) :
    (rooms.getOnlineUsers st r).length = (onlineIdentities st r).card := by
  rw [← List.toFinset_card_of_nodup (getOnlineUsers_nodup st r)]
  congr 1
  ext u
  rw [List.mem_toFinset, getOnlineUsers_mem, onlineIdentities, List.mem_toFinset,
    List.mem_filterMap]

theorem sw_room_list : startsWith "room:list" "auth:" = false ∧ startsWith "room:list" "room:" = true := by
  decide

theorem identity_congr {a b : Session} (h : a.user = b.user) : a.identity = b.identity := by
  unfold Session.identity; rw [h]

theorem Uniform_refl (r : String) (t1 t2 : SessionId) (st : State) : Uniform r t1 t2 st st :=
  ⟨[], [], by simp, by simp, by simp⟩

theorem Uniform_of_outbox {r : String} {t1 t2 : SessionId} {st st0 st1 : State}
    (hU : Uniform r t1 t2 st st0) (h : st1.outbox = st0.outbox) : Uniform r t1 t2 st st1 := by
  obtain ⟨d1, d2, h1, h2, h3⟩ := hU
  exact ⟨d1, d2, by rw [h, h1], by rw [h, h2], h3⟩

theorem Uniform_trans {r : String} {t1 t2 : SessionId} {st st0 st1 : State}
    (hU : Uniform r t1 t2 st st0) (hV : Uniform r t1 t2 st0 st1) : Uniform r t1 t2 st st1 := by
  obtain ⟨d1, d2, h1, h2, h3⟩ := hU
  obtain ⟨e1, e2, g1, g2, g3⟩ := hV
  refine ⟨d1 ++ e1, d2 ++ e2, ?_, ?_, ?_⟩
  · rw [g1, h1, List.append_assoc]
  · rw [g2, h2, List.append_assoc]
  · rw [List.filter_append, List.filter_append, h3, g3]

theorem Uniform_deliver {r : String} {t1 t2 : SessionId} {st st1 : State}
    (hU : Uniform r t1 t2 st st1) (p : SessionId → Prop) [DecidablePred p] (obj : Frame)
    (h : Frame.isRoomEvent r obj = true → (p t1 ↔ p t2)) :
    Uniform r t1 t2 st (deliver st1 p obj) := by
  apply Uniform_trans hU
  refine ⟨if p t1 then [obj] else [], if p t2 then [obj] else [], ?_, ?_, ?_⟩
  · rw [deliver_outbox]; split <;> simp
  · rw [deliver_outbox]; split <;> simp
  · by_cases he : Frame.isRoomEvent r obj = true
    · have hp := h he
      by_cases h1 : p t1
      · rw [if_pos h1, if_pos (hp.mp h1)]
      · rw [if_neg h1, if_neg (fun h2 => h1 (hp.mpr h2))]
    · have he' : Frame.isRoomEvent r obj = false := by simpa using he
      split <;> split <;> simp [List.filter, he']

theorem Uniform_send {r : String} {t1 t2 : SessionId} {st st1 : State}
    (hU : Uniform r t1 t2 st st1) (ws : SessionId) (obj : Frame)
    (h : Frame.isRoomEvent r obj = true → ws ≠ t1 ∧ ws ≠ t2) :
    Uniform r t1 t2 st (protocol.send st1 ws obj) := by
  rw [send_eq]
  apply Uniform_deliver hU
  intro he
  obtain ⟨n1, n2⟩ := h he
  constructor
  · intro hp; exact absurd hp.1.symm n1
  · intro hp; exact absurd hp.1.symm n2

theorem Uniform_broadcast {r : String} {t1 t2 : SessionId} {st st1 : State}
    (hU : Uniform r t1 t2 st st1) (r0 : String) (obj : Frame)
    (h : Frame.isRoomEvent r obj = true → present st1 r0 t1 ∧ present st1 r0 t2) :
    Uniform r t1 t2 st (rooms.broadcastToRoom st1 r0 obj none) := by
  rw [broadcastToRoom_eq]
  apply Uniform_deliver hU
  intro he
  obtain ⟨p1, p2⟩ := h he
  simp only [present, Session.isOpen, decide_eq_true_eq] at p1 p2
  constructor
  · intro _; exact ⟨p2.1, by simp, p2.2⟩
  · intro _; exact ⟨p1.1, by simp, p1.2⟩

/-- A reply that is no room event keeps the two sockets level. -/
theorem Uniform_reply {r : String} {t1 t2 : SessionId} {st st1 : State}
    (hU : Uniform r t1 t2 st st1) (ws : SessionId) (obj : Frame)
    (h : Frame.isRoomEvent r obj = false) :
    Uniform r t1 t2 st (protocol.send st1 ws obj) :=
  Uniform_send hU ws obj (fun he => by rw [h] at he; exact absurd he (by simp))

theorem Uniform_handleAuth (env : Env) (r : String) (t1 t2 : SessionId) (st : State)
    (ws : SessionId) (msg : Msg) (ty uuid : String) (now : Nat) :
    Uniform r t1 t2 st (handler.handleAuth env st ws msg ty uuid now).state := by
  have h0 := Uniform_refl r t1 t2 st
  unfold handler.handleAuth
  simp only []
  repeat' split
  all_goals first
    | exact h0
    | (refine Uniform_reply ?_ _ _ rfl
       exact h0)

theorem Uniform_handleDM (env : Env) (r : String) (t1 t2 : SessionId) (st : State)
    (ws : SessionId) (msg : Msg) (ty : String) (cl : JSSet SessionId) (uuid : String)
    (now : Nat) :
    Uniform r t1 t2 st (handler.handleDM env st ws msg ty cl uuid now).state := by
  have h0 := Uniform_refl r t1 t2 st
  unfold handler.handleDM messages.handleDMSend
  simp only []
  repeat' split
  all_goals first
    | exact h0
    | exact Uniform_of_outbox h0 rfl
    | (refine Uniform_reply ?_ _ _ rfl
       first
         | exact h0
         | exact Uniform_of_outbox h0 rfl
         | (refine Uniform_reply ?_ _ _ rfl
            exact Uniform_of_outbox h0 rfl))

theorem present_of_core {st st1 : State} {r : String} {t : SessionId}
    (h : present st r t) (hl : live st1 r = live st r)
    (hs : (st1.sessions t).readyState = (st.sessions t).readyState) : present st1 r t := by
  unfold present Session.isOpen at *
  rw [hl, hs]; exact h

theorem isRoomEvent_messageNew {r : String} {id : String} {f room : Option String} {ts : Nat}
    {m md : String} (h : Frame.isRoomEvent r (.messageNew id f room ts m md) = true) :
    room = some r := by
  simpa [Frame.isRoomEvent] using h

theorem Uniform_handleMessage (r : String) (t1 t2 : SessionId) (st : State)
    (ws : SessionId) (msg : Msg) (ty uuid : String) (now : Nat)
    (h1 : present st r t1) (h2 : present st r t2) :
    Uniform r t1 t2 st (handler.handleMessage st ws msg ty uuid now).state := by
  have h0 := Uniform_refl r t1 t2 st
  unfold handler.handleMessage messages.handleSendMessage
  simp only []
  repeat' split
  all_goals first
    | exact h0
    | (refine Uniform_reply ?_ _ _ rfl
       exact h0)
    | skip
  next db _ =>
    refine Uniform_broadcast ?_ _ _ ?_
    · exact Uniform_of_outbox h0 rfl
    intro he
    have hr := isRoomEvent_messageNew he
    simp only [Option.some.injEq] at hr
    rw [hr]
    exact ⟨h1, h2⟩

theorem execute_calls {name args : String} {ctx : CmdContext} {uuid : String} {now : Nat}
    {calls : List (Option String × Frame)} {res : String}
    (h : commands.execute name args ctx uuid now = some (calls, res)) :
    ∀ c ∈ calls, ∃ id f ts m md, c.2 = Frame.messageNew id f c.1 ts m md := by
  unfold commands.execute at h
  split at h
  · exact absurd h (by simp)
  · next cmd hfind =>
    have hmem := List.mem_of_find?_eq_some hfind
    simp only [Option.some.injEq] at h
    simp only [commands.registry, List.mem_cons, List.mem_singleton, List.not_mem_nil,
      or_false] at hmem
    rcases hmem with rfl | rfl
    · simp only [commands.help, Prod.mk.injEq] at h
      intro c hc
      rw [← h.1] at hc
      exact absurd hc (List.not_mem_nil c)
    · simp only [commands.system] at h
      split at h
      · simp only [Prod.mk.injEq] at h
        intro c hc
        rw [← h.1] at hc
        exact absurd hc (List.not_mem_nil c)
      · simp only [Prod.mk.injEq] at h
        intro c hc
        rw [← h.1, List.mem_singleton] at hc
        subst hc
        exact ⟨_, _, _, _, _, rfl⟩

theorem Uniform_contextBroadcasts (r : String) (t1 t2 : SessionId) (st : State)
    (calls : List (Option String × Frame))
    (hcalls : ∀ c ∈ calls, ∃ id f ts m md, c.2 = Frame.messageNew id f c.1 ts m md)
    (st1 : State) (hU : Uniform r t1 t2 st st1)
    (h1 : present st1 r t1) (h2 : present st1 r t2) :
    Uniform r t1 t2 st (calls.foldl handler.contextBroadcast st1) ∧
      present (calls.foldl handler.contextBroadcast st1) r t1 ∧
      present (calls.foldl handler.contextBroadcast st1) r t2 := by
  induction calls generalizing st1 with
  | nil => exact ⟨hU, h1, h2⟩
  | cons c cs ih =>
    rw [List.foldl_cons]
    have hc := hcalls c (List.mem_cons_self _ _)
    have hcs : ∀ c ∈ cs, ∃ id f ts m md, c.2 = Frame.messageNew id f c.1 ts m md :=
      fun x hx => hcalls x (List.mem_cons_of_mem _ hx)
    obtain ⟨id, f, ts, m, md, hc2⟩ := hc
    cases hroom : c.1 with
    | none =>
      have : handler.contextBroadcast st1 c = st1 := by
        unfold handler.contextBroadcast; rw [hroom]
      rw [this]
      exact ih hcs st1 hU h1 h2
    | some r0 =>
      have hcb : handler.contextBroadcast st1 c = rooms.broadcastToRoom st1 r0 c.2 none := by
        unfold handler.contextBroadcast; rw [hroom]
      rw [hcb]
      apply ih hcs
      · apply Uniform_broadcast hU
        intro he
        rw [hc2, hroom] at he
        have := isRoomEvent_messageNew he
        simp only [Option.some.injEq] at this
        rw [this]
        exact ⟨h1, h2⟩
      · rw [broadcastToRoom_eq]; exact present_of_core h1 rfl rfl
      · rw [broadcastToRoom_eq]; exact present_of_core h2 rfl rfl

theorem Uniform_handleCommand (r : String) (t1 t2 : SessionId) (st : State)
    (ws : SessionId) (msg : Msg) (ty uuid : String) (now : Nat)
    (h1 : present st r t1) (h2 : present st r t2) :
    Uniform r t1 t2 st (handler.handleCommand st ws msg ty uuid now).state := by
  have h0 := Uniform_refl r t1 t2 st
  unfold handler.handleCommand
  simp only []
  repeat' split
  all_goals first
    | exact h0
    | (refine Uniform_reply ?_ _ _ rfl
       exact h0)
    | skip
  next calls result hex =>
    refine Uniform_reply ?_ _ _ rfl
    exact (Uniform_contextBroadcasts r t1 t2 st calls (execute_calls hex) st h0 h1 h2).1

theorem isRoomEvent_roomJoined {r room : String} {u : Option String}
    (h : Frame.isRoomEvent r (.roomJoined room u) = true) : room = r := by
  simpa [Frame.isRoomEvent] using h

theorem isRoomEvent_roomLeft {r room : String} {u : Option String}
    (h : Frame.isRoomEvent r (.roomLeft room u) = true) : room = r := by
  simpa [Frame.isRoomEvent] using h

theorem eq_some_of_truthy {x : Option String} (h : truthy x = true) : x = some (x.getD "") := by
  obtain ⟨s, hs, _⟩ := (truthy_iff _).mp h
  rw [hs]; rfl

theorem Uniform_handleRoom (env : Env) (r : String) (t1 t2 : SessionId) (st : State)
    (ws : SessionId) (msg : Msg) (ty : String) (now : Nat)
    (h1 : present st r t1) (h2 : present st r t2)
    (h1' : present (handler.handleRoom env st ws msg ty now).state r t1)
    (h2' : present (handler.handleRoom env st ws msg ty now).state r t2)
    (hnj : ¬ (ty = "room:join" ∧ msg.room = some r ∧ (ws = t1 ∨ ws = t2))) :
    Uniform r t1 t2 st (handler.handleRoom env st ws msg ty now).state := by
  have h0 := Uniform_refl r t1 t2 st
  revert h1' h2'
  unfold handler.handleRoom
  simp only []
  split
  · intro _ _; exact Uniform_reply h0 _ _ rfl
  · split
    · -- create
      split
      · intro _ _; exact Uniform_reply h0 _ _ rfl
      · split
        · intro _ _; exact Uniform_reply h0 _ _ rfl
        · split
          · intro _ _; exact h0
          · intro _ _
            refine Uniform_reply ?_ _ _ rfl
            exact h0
    · split
      · -- join
        next hty =>
        split
        · intro _ _; exact Uniform_reply h0 _ _ rfl
        · next htruthy =>
          split
          · intro _ _; exact Uniform_reply h0 _ _ rfl
          · split
            · intro _ _; exact h0
            · next db hdb =>
              intro h1' h2'
              have hroom : msg.room = some (msg.room.getD "") :=
                eq_some_of_truthy (by simpa using htruthy)
              have p1 : present (rooms.joinRoom { st with db := db } ws (msg.room.getD "")) r t1 := by
                change present (protocol.send (rooms.broadcastToRoom _ _ _ _) _ _) r t1 at h1'
                rw [send_eq, broadcastToRoom_eq] at h1'
                exact present_of_core h1' rfl rfl
              have p2 : present (rooms.joinRoom { st with db := db } ws (msg.room.getD "")) r t2 := by
                change present (protocol.send (rooms.broadcastToRoom _ _ _ _) _ _) r t2 at h2'
                rw [send_eq, broadcastToRoom_eq] at h2'
                exact present_of_core h2' rfl rfl
              show Uniform r t1 t2 st (protocol.send (rooms.broadcastToRoom _ _ _ _) _ _)
              apply Uniform_send
              · refine Uniform_broadcast ?_ _ _ ?_
                · exact Uniform_of_outbox h0 rfl
                · intro he
                  have hr := isRoomEvent_roomJoined he
                  rw [hr] at p1 p2 ⊢
                  exact ⟨p1, p2⟩
              · intro he
                have hr := isRoomEvent_roomJoined he
                rw [hr] at hroom
                constructor
                · intro e; exact hnj ⟨hty, hroom, Or.inl e⟩
                · intro e; exact hnj ⟨hty, hroom, Or.inr e⟩
      · split
        · -- leave
          split
          · intro _ _; exact Uniform_reply h0 _ _ rfl
          · intro h1' h2'
            have hU1 : Uniform r t1 t2 st (rooms.broadcastToRoom st (msg.room.getD "")
                (.roomLeft (msg.room.getD "") (st.sessions ws).user) none) := by
              apply Uniform_broadcast h0
              intro he
              rw [isRoomEvent_roomLeft he]
              exact ⟨h1, h2⟩
            have key : ∀ t, present (Outcome.done (protocol.send
                { rooms.leaveRoom (rooms.broadcastToRoom st (msg.room.getD "")
                    (.roomLeft (msg.room.getD "") (st.sessions ws).user) none) ws
                    (msg.room.getD "") with
                  db := (rooms.leaveRoom (rooms.broadcastToRoom st (msg.room.getD "")
                    (.roomLeft (msg.room.getD "") (st.sessions ws).user) none) ws
                    (msg.room.getD "")).db.removeRoomMember (msg.room.getD "")
                      (st.sessions ws).user } ws
                (.roomLeft (msg.room.getD "") (st.sessions ws).user))).state r t →
                msg.room.getD "" = r → ws ≠ t := by
              intro t hp hr e
              change present (protocol.send _ _ _) r t at hp
              rw [send_eq] at hp
              have hm : t ∈ live (rooms.leaveRoom (rooms.broadcastToRoom st (msg.room.getD "")
                    (.roomLeft (msg.room.getD "") (st.sessions ws).user) none) ws
                    (msg.room.getD "")) r := hp.1
              rw [mem_live_leaveRoom] at hm
              exact hm.2 ⟨hr.symm, e.symm⟩
            show Uniform r t1 t2 st (protocol.send _ _ _)
            apply Uniform_send
            · exact Uniform_of_outbox hU1 rfl
            · intro he
              have hr := isRoomEvent_roomLeft he
              exact ⟨key t1 h1' hr, key t2 h2' hr⟩
        · split
          · split
            · intro _ _; exact Uniform_reply h0 _ _ rfl
            · intro _ _; exact Uniform_reply h0 _ _ rfl
          · split
            · split
              · intro _ _; exact Uniform_reply h0 _ _ rfl
              · intro _ _; exact Uniform_reply h0 _ _ rfl
            · intro _ _; exact h0

theorem Uniform_onMessage (env : Env) (r : String) (t1 t2 : SessionId) (st : State)
    (ws : SessionId) (raw : Raw) (uuid : String) (now : Nat)
    (h1 : present st r t1) (h2 : present st r t2)
    (h1' : present (handler.onMessage env st ws raw uuid now).state r t1)
    (h2' : present (handler.onMessage env st ws raw uuid now).state r t2)
    (hnj : ¬ (Event.message ws raw uuid now).isJoinBy r t1 ∧
      ¬ (Event.message ws raw uuid now).isJoinBy r t2) :
    Uniform r t1 t2 st (handler.onMessage env st ws raw uuid now).state := by
  have h0 := Uniform_refl r t1 t2 st
  revert h1' h2'
  unfold handler.onMessage
  split
  · intro _ _; exact Uniform_reply h0 _ _ rfl
  · next msg hparse =>
    have hraw : raw = .json msg := by
      cases raw with
      | unparseable => simp [protocol.parse] at hparse
      | null => simp [protocol.parse] at hparse
      | json m => simp only [protocol.parse, Option.some.injEq] at hparse; rw [hparse]
    subst hraw
    split
    · intro _ _; exact Uniform_reply h0 _ _ rfl
    · intro _ _; exact Uniform_reply h0 _ _ rfl
    · intro _ _; exact h0
    · next ty hty =>
      split
      · intro _ _; exact Uniform_reply h0 _ _ rfl
      · split
        · intro _ _; exact Uniform_handleAuth env r t1 t2 st ws msg ty uuid now
        · split
          · intro _ _; exact Uniform_reply h0 _ _ rfl
          · split
            · intro h1' h2'
              apply Uniform_handleRoom env r t1 t2 st ws msg ty now h1 h2 h1' h2'
              rintro ⟨e1, e2, e3 | e3⟩
              · exact hnj.1 ⟨e3, by rw [hty, e1], e2⟩
              · exact hnj.2 ⟨e3, by rw [hty, e1], e2⟩
            · split
              · intro _ _; exact Uniform_handleMessage r t1 t2 st ws msg ty uuid now h1 h2
              · split
                · intro _ _; exact Uniform_handleDM env r t1 t2 st ws msg ty _ uuid now
                · split
                  · intro _ _; exact Uniform_handleCommand r t1 t2 st ws msg ty uuid now h1 h2
                  · split
                    · intro _ _; exact Uniform_reply h0 _ _ rfl
                    · intro _ _; exact h0

theorem Uniform_closeSocket (r : String) (t1 t2 : SessionId) (st : State) (ws : SessionId)
    (h1 : present st r t1) (h2 : present st r t2)
    (h1' : present (closeSocket st ws) r t1) (h2' : present (closeSocket st ws) r t2) :
    Uniform r t1 t2 st (closeSocket st ws) := by
  obtain ⟨_, _, _, _, _, h6, _, _, _, h10⟩ := closeSocket_spec st ws
  have hne : ∀ t, present (closeSocket st ws) r t → t ≠ ws := by
    intro t hp e
    have := hp.2
    unfold Session.isOpen at this
    rw [h6 t, if_pos e] at this
    simp at this
  have n1 := hne t1 h1'
  have n2 := hne t2 h2'
  refine ⟨offlineFrames st ws t1, offlineFrames st ws t2, h10 t1, h10 t2, ?_⟩
  unfold offlineFrames
  split
  · rw [List.filter_map, List.filter_map, List.filter_filter, List.filter_filter]
    congr 1
    apply List.filter_congr
    intro r0 _
    by_cases hr : r0 = r
    · subst hr
      have c1 : decide (t1 ∈ live st r0 ∧ t1 ≠ ws ∧ (st.sessions t1).readyState = 1) = true := by
        have := h1.2
        unfold Session.isOpen at this
        simp only [decide_eq_true_eq] at this ⊢
        exact ⟨h1.1, n1, this⟩
      have c2 : decide (t2 ∈ live st r0 ∧ t2 ≠ ws ∧ (st.sessions t2).readyState = 1) = true := by
        have := h2.2
        unfold Session.isOpen at this
        simp only [decide_eq_true_eq] at this ⊢
        exact ⟨h2.1, n2, this⟩
      rw [c1, c2]
    · simp [Function.comp, Frame.isRoomEvent, hr]
  · rfl

theorem heartbeatOne_outbox (st : State) (ws : SessionId) :
    (handler.heartbeatOne st ws).outbox = st.outbox := by
  unfold handler.heartbeatOne handler.terminate handler.ping
  repeat' split
  all_goals rfl

theorem heartbeat_outbox (st : State) : (handler.heartbeat st).outbox = st.outbox := by
  unfold handler.heartbeat
  generalize st.clients.elems = l
  induction l generalizing st with
  | nil => rfl
  | cons x xs ih =>
    rw [List.foldl_cons, ih, heartbeatOne_outbox]

theorem present_head {env : Env} {r : String} {t : SessionId} {st : State} {events : List Event}
    (h : presentThroughout env r t st events) : present st r t := by
  cases events with
  | nil => exact h
  | cons e es => exact h.1

theorem Uniform_step (env : Env) (r : String) (t1 t2 : SessionId) (st : State) (e : Event)
    (h1 : present st r t1) (h2 : present st r t2)
    (h1' : present (step env st e) r t1) (h2' : present (step env st e) r t2)
    (hnj : ¬ e.isJoinBy r t1 ∧ ¬ e.isJoinBy r t2) :
    Uniform r t1 t2 st (step env st e) := by
  have h0 := Uniform_refl r t1 t2 st
  cases e with
  | connection => exact Uniform_of_outbox h0 rfl
  | message ws raw uuid now =>
    revert h1' h2'
    simp only [step]
    split
    · intro h1' h2'
      exact Uniform_onMessage env r t1 t2 st ws raw uuid now h1 h2 h1' h2' hnj
    · intro _ _; exact h0
  | pong ws =>
    simp only [step]
    split
    · exact Uniform_of_outbox h0 rfl
    · exact h0
  | closing ws =>
    simp only [step]
    split
    · exact Uniform_of_outbox h0 rfl
    · exact h0
  | close ws =>
    revert h1' h2'
    simp only [step]
    split
    · intro h1' h2'
      exact Uniform_closeSocket r t1 t2 st ws h1 h2 h1' h2'
    · intro _ _; exact h0
  | heartbeat => exact Uniform_of_outbox h0 (heartbeat_outbox st)

theorem Uniform_run (env : Env) (r : String) (t1 t2 : SessionId) (events : List Event)
    (st : State)
    (h1 : presentThroughout env r t1 st events) (h2 : presentThroughout env r t2 st events)
    (hj : ∀ e ∈ events, ¬ e.isJoinBy r t1 ∧ ¬ e.isJoinBy r t2) :
    Uniform r t1 t2 st (run env st events) := by
  induction events generalizing st with
  | nil => exact Uniform_refl r t1 t2 st
  | cons e es ih =>
    have hstep := Uniform_step env r t1 t2 st e h1.1 h2.1 (present_head h1.2) (present_head h2.2)
      (hj e (List.mem_cons_self _ _))
    have hrest := ih (step env st e) h1.2 h2.2 (fun x hx => hj x (List.mem_cons_of_mem _ hx))
    exact Uniform_trans hstep hrest

/-- The dispatcher on a parsed value whose `type` is the string `ty`. -/
theorem onMessage_str (env : Env) (st : State) (ws : SessionId) (msg : Msg)
    (uuid : String) (now : Nat) (ty : String) (hty : msg.type = .str ty) :
    handler.onMessage env st ws (.json msg) uuid now =
      if ty = "" then .done (protocol.send st ws (.systemError "Invalid message"))
      else if startsWith ty "auth:" then handler.handleAuth env st ws msg ty uuid now
      else if !truthy (st.sessions ws).user then
        .done (protocol.send st ws (.systemError "Not authenticated"))
      else if startsWith ty "room:" then handler.handleRoom env st ws msg ty now
      else if startsWith ty "message:" then handler.handleMessage st ws msg ty uuid now
      else if startsWith ty "dm:" then handler.handleDM env st ws msg ty st.clients uuid now
      else if startsWith ty "command:" then handler.handleCommand st ws msg ty uuid now
      else if ty = "ping" then .done (protocol.send st ws .pong)
      else .done st := by
  simp only [handler.onMessage, protocol.parse, hty]

theorem startsWith_cons (c : Char) (cs : List Char) (s : String) :
    startsWith s (String.mk (c :: cs)) = true →
      ∃ rest, s.toList = c :: rest := by
  unfold startsWith
  intro h
  cases hs : s.toList with
  | nil => rw [hs] at h; simp [List.isPrefixOf] at h
  | cons d ds =>
    rw [hs] at h
    simp only [List.isPrefixOf, Bool.and_eq_true, beq_iff_eq] at h
    exact ⟨ds, by rw [h.1]⟩

/-- A type of the room, message, dm or command family is not of the auth family. -/
theorem not_auth_of_family (ty : String)
    (h : startsWith ty "room:" = true ∨ startsWith ty "message:" = true ∨
      startsWith ty "dm:" = true ∨ startsWith ty "command:" = true) :
    ty ≠ "" ∧ startsWith ty "auth:" = false := by
  have key : ∀ c cs, c ≠ 'a' → startsWith ty (String.mk (c :: cs)) = true →
      ty ≠ "" ∧ startsWith ty "auth:" = false := by
    intro c cs hc hs
    obtain ⟨rest, hrest⟩ := startsWith_cons c cs ty hs
    constructor
    · intro e
      rw [e] at hrest
      simp at hrest
    · unfold startsWith
      rw [hrest]
      show List.isPrefixOf ('a' :: _) (c :: rest) = false
      simp only [List.isPrefixOf, Bool.and_eq_false_imp, beq_iff_eq]
      intro e
      exact absurd e.symm hc
  rcases h with h | h | h | h
  · exact key 'r' _ (by decide) h
  · exact key 'm' _ (by decide) h
  · exact key 'd' _ (by decide) h
  · exact key 'c' _ (by decide) h

theorem not_truthy_of_identity_none {s : Session} (h : s.identity = none) :
    truthy s.user = false := by
  unfold Session.identity at h
  by_contra hc
  have ht : truthy s.user = true := by simpa using hc
  rw [if_pos ht] at h
  obtain ⟨x, hx, _⟩ := (truthy_iff _).mp ht
  rw [hx] at h
  exact absurd h (by simp)

/-- A reply through `protocol.send`, spelled out field by field. -/
theorem send_frame (st : State) (ws : SessionId) (f : Frame) :
    (protocol.send st ws f).roomConnections = st.roomConnections ∧
      (protocol.send st ws f).sessions = st.sessions ∧
      (protocol.send st ws f).db = st.db ∧
      (protocol.send st ws f).tokens = st.tokens ∧
      (protocol.send st ws f).clients = st.clients ∧
      ∀ t, (protocol.send st ws f).outbox t =
        if t = ws ∧ (st.sessions ws).isOpen = true then st.outbox t ++ [f] else st.outbox t := by
  refine ⟨?_, ?_, ?_, ?_, ?_, fun t => send_outbox st ws f t⟩ <;> (rw [send_eq]; rfl)

theorem user_send (st : State) (ws : SessionId) (f : Frame) (t : SessionId) :
    ((protocol.send st ws f).sessions t).user = (st.sessions t).user := by
  rw [send_eq]; rfl

theorem user_broadcast (st : State) (r : String) (f : Frame) (x : Option SessionId)
    (t : SessionId) :
    ((rooms.broadcastToRoom st r f x).sessions t).user = (st.sessions t).user := by
  rw [broadcastToRoom_eq]; rfl

theorem user_contextBroadcasts (calls : List (Option String × Frame)) (st : State)
    (t : SessionId) :
    ((calls.foldl handler.contextBroadcast st).sessions t).user = (st.sessions t).user := by
  induction calls generalizing st with
  | nil => rfl
  | cons c cs ih =>
    rw [List.foldl_cons, ih]
    unfold handler.contextBroadcast
    split
    · rfl
    · exact user_broadcast _ _ _ _ _

theorem user_setUser (st : State) (ws : SessionId) (u : String) (t : SessionId) :
    ((handler.setUser st ws u).sessions t).user =
      if t = ws then some u else (st.sessions t).user := by
  unfold handler.setUser
  by_cases h : t = ws
  · subst h; simp
  · simp [h, Function.update_noteq h]

theorem handleAuth_user (env : Env) (st : State) (ws : SessionId) (msg : Msg)
    (ty uuid : String) (now : Nat) (t : SessionId) :
    ((handler.handleAuth env st ws msg ty uuid now).state.sessions t).user =
        (st.sessions t).user ∨
      (t = ws ∧ isBindType ty ∧
        ∃ u, u ≠ "" ∧ ((handler.handleAuth env st ws msg ty uuid now).state.sessions t).user
          = some u) := by
  unfold handler.handleAuth
  simp only []
  split
  · -- register
    next hty =>
    split
    · exact Or.inl (user_send _ _ _ _)
    · next hreq =>
      have hname : msg.username.getD "" ≠ "" := by
        simp only [Bool.or_eq_true, Bool.not_eq_true', not_or, Bool.not_eq_false] at hreq
        exact getD_ne_of_truthy hreq.1
      split
      · exact Or.inl (user_send _ _ _ _)
      · split
        · exact Or.inl (user_send _ _ _ _)
        · split
          · exact Or.inl rfl
          · by_cases ht : t = ws
            · refine Or.inr ⟨ht, Or.inl hty, msg.username.getD "", hname, ?_⟩
              split
              · simp only [Outcome.state, user_setUser, if_pos ht]
              · simp only [Outcome.state, user_send, user_setUser, if_pos ht]
            · left
              split
              · simp only [Outcome.state, user_setUser, if_neg ht]; rfl
              · simp only [Outcome.state, user_send, user_setUser, if_neg ht]; rfl
  · split
    · -- login
      next hty =>
      split
      · exact Or.inl (user_send _ _ _ _)
      · next hreq =>
        have hname : msg.username.getD "" ≠ "" := by
          simp only [Bool.or_eq_true, Bool.not_eq_true', not_or, Bool.not_eq_false] at hreq
          exact getD_ne_of_truthy hreq.1
        split
        · exact Or.inl (user_send _ _ _ _)
        · split
          · exact Or.inl (user_send _ _ _ _)
          · by_cases ht : t = ws
            · refine Or.inr ⟨ht, Or.inr (Or.inl hty), msg.username.getD "", hname, ?_⟩
              simp only [Outcome.state, user_send, user_setUser, if_pos ht]
            · left
              simp only [Outcome.state, user_send, user_setUser, if_neg ht]; rfl
    · split
      · -- resume
        next hty =>
        split
        · exact Or.inl (user_send _ _ _ _)
        · next username hv =>
          have hne : username ≠ "" := by
            unfold auth.verifyToken at hv
            split at hv
            · exact absurd hv (by simp)
            · split at hv
              · next htr =>
                obtain ⟨s, hs, hne⟩ := (truthy_iff _).mp htr
                rw [hs] at hv
                simp only [Option.some.injEq] at hv
                subst hv; exact hne
              · exact absurd hv (by simp)
          by_cases ht : t = ws
          · refine Or.inr ⟨ht, Or.inr (Or.inr hty), username, hne, ?_⟩
            split
            · simp only [Outcome.state, user_setUser, if_pos ht]
            · simp only [Outcome.state, user_send, user_setUser, if_pos ht]
          · left
            split
            · simp only [Outcome.state, user_setUser, if_neg ht]
            · simp only [Outcome.state, user_send, user_setUser, if_neg ht]
      · left
        repeat' split
        all_goals first
          | rfl
          | exact user_send _ _ _ _

theorem handleRoom_user (env : Env) (st : State) (ws : SessionId) (msg : Msg)
    (ty : String) (now : Nat) (t : SessionId) :
    ((handler.handleRoom env st ws msg ty now).state.sessions t).user = (st.sessions t).user := by
  unfold handler.handleRoom
  simp only []
  repeat' split
  all_goals first
    | rfl
    | exact user_send _ _ _ _
    | simp only [Outcome.state, user_send, user_broadcast, joinRoom_user, leaveRoom_user]

theorem handleMessage_user (st : State) (ws : SessionId) (msg : Msg)
    (ty uuid : String) (now : Nat) (t : SessionId) :
    ((handler.handleMessage st ws msg ty uuid now).state.sessions t).user =
      (st.sessions t).user := by
  unfold handler.handleMessage messages.handleSendMessage
  simp only []
  repeat' split
  all_goals first
    | rfl
    | exact user_send _ _ _ _
    | exact user_broadcast _ _ _ _ _

theorem handleDM_user (env : Env) (st : State) (ws : SessionId) (msg : Msg)
    (ty : String) (cl : JSSet SessionId) (uuid : String) (now : Nat) (t : SessionId) :
    ((handler.handleDM env st ws msg ty cl uuid now).state.sessions t).user =
      (st.sessions t).user := by
  unfold handler.handleDM messages.handleDMSend
  simp only []
  repeat' split
  all_goals first
    | rfl
    | exact user_send _ _ _ _
    | simp only [Outcome.state, user_send]

theorem handleCommand_user (st : State) (ws : SessionId) (msg : Msg)
    (ty uuid : String) (now : Nat) (t : SessionId) :
    ((handler.handleCommand st ws msg ty uuid now).state.sessions t).user =
      (st.sessions t).user := by
  unfold handler.handleCommand
  simp only []
  repeat' split
  all_goals first
    | rfl
    | exact user_send _ _ _ _
    | simp only [Outcome.state, user_send, user_contextBroadcasts]

theorem onMessage_user (env : Env) (st : State) (ws : SessionId) (raw : Raw)
    (uuid : String) (now : Nat) (t : SessionId) :
    ((handler.onMessage env st ws raw uuid now).state.sessions t).user = (st.sessions t).user ∨
      (t = ws ∧ (∃ msg ty, raw = .json msg ∧ msg.type = .str ty ∧ isBindType ty) ∧
        ∃ u, u ≠ "" ∧ ((handler.onMessage env st ws raw uuid now).state.sessions t).user
          = some u) := by
  unfold handler.onMessage
  split
  · exact Or.inl (user_send _ _ _ _)
  · next msg hparse =>
    have hraw : raw = .json msg := by
      cases raw with
      | unparseable => simp [protocol.parse] at hparse
      | null => simp [protocol.parse] at hparse
      | json m => simp only [protocol.parse, Option.some.injEq] at hparse; rw [hparse]
    split
    · exact Or.inl (user_send _ _ _ _)
    · exact Or.inl (user_send _ _ _ _)
    · exact Or.inl rfl
    · next ty hty =>
      split
      · exact Or.inl (user_send _ _ _ _)
      · split
        · rcases handleAuth_user env st ws msg ty uuid now t with h | ⟨h1, h2, h3⟩
          · exact Or.inl h
          · exact Or.inr ⟨h1, ⟨msg, ty, hraw, hty, h2⟩, h3⟩
        · split
          · exact Or.inl (user_send _ _ _ _)
          · split
            · exact Or.inl (handleRoom_user env st ws msg ty now t)
            · split
              · exact Or.inl (handleMessage_user st ws msg ty uuid now t)
              · split
                · exact Or.inl (handleDM_user env st ws msg ty _ uuid now t)
                · split
                  · exact Or.inl (handleCommand_user st ws msg ty uuid now t)
                  · split
                    · exact Or.inl (user_send _ _ _ _)
                    · exact Or.inl rfl

theorem nextWs_send (st : State) (ws : SessionId) (f : Frame) :
    (protocol.send st ws f).nextWs = st.nextWs := by
  rw [send_eq]; rfl

theorem nextWs_broadcast (st : State) (r : String) (f : Frame) (x : Option SessionId) :
    (rooms.broadcastToRoom st r f x).nextWs = st.nextWs := by
  rw [broadcastToRoom_eq]; rfl

theorem nextWs_contextBroadcasts (calls : List (Option String × Frame)) (st : State) :
    (calls.foldl handler.contextBroadcast st).nextWs = st.nextWs := by
  induction calls generalizing st with
  | nil => rfl
  | cons c cs ih =>
    rw [List.foldl_cons, ih]
    unfold handler.contextBroadcast
    split
    · rfl
    · exact nextWs_broadcast _ _ _ _

theorem nextWs_leaveRoom (st : State) (ws : SessionId) (r : String) :
    (rooms.leaveRoom st ws r).nextWs = st.nextWs := rfl

theorem nextWs_joinRoom (st : State) (ws : SessionId) (r : String) :
    (rooms.joinRoom st ws r).nextWs = st.nextWs := rfl

theorem handleAuth_nextWs (env : Env) (st : State) (ws : SessionId) (msg : Msg)
    (ty uuid : String) (now : Nat) :
    (handler.handleAuth env st ws msg ty uuid now).state.nextWs = st.nextWs := by
  unfold handler.handleAuth
  simp only []
  repeat' split
  all_goals first
    | rfl
    | exact nextWs_send _ _ _

theorem handleRoom_nextWs (env : Env) (st : State) (ws : SessionId) (msg : Msg)
    (ty : String) (now : Nat) :
    (handler.handleRoom env st ws msg ty now).state.nextWs = st.nextWs := by
  unfold handler.handleRoom
  simp only []
  repeat' split
  all_goals first
    | rfl
    | exact nextWs_send _ _ _
    | simp only [Outcome.state, nextWs_send, nextWs_broadcast, nextWs_leaveRoom,
        nextWs_joinRoom]

theorem handleMessage_nextWs (st : State) (ws : SessionId) (msg : Msg)
    (ty uuid : String) (now : Nat) :
    (handler.handleMessage st ws msg ty uuid now).state.nextWs = st.nextWs := by
  unfold handler.handleMessage messages.handleSendMessage
  simp only []
  repeat' split
  all_goals first
    | rfl
    | exact nextWs_send _ _ _
    | exact nextWs_broadcast _ _ _ _

theorem handleDM_nextWs (env : Env) (st : State) (ws : SessionId) (msg : Msg)
    (ty : String) (cl : JSSet SessionId) (uuid : String) (now : Nat) :
    (handler.handleDM env st ws msg ty cl uuid now).state.nextWs = st.nextWs := by
  unfold handler.handleDM messages.handleDMSend
  simp only []
  repeat' split
  all_goals first
    | rfl
    | exact nextWs_send _ _ _
    | simp only [Outcome.state, nextWs_send]

theorem handleCommand_nextWs (st : State) (ws : SessionId) (msg : Msg)
    (ty uuid : String) (now : Nat) :
    (handler.handleCommand st ws msg ty uuid now).state.nextWs = st.nextWs := by
  unfold handler.handleCommand
  simp only []
  repeat' split
  all_goals first
    | rfl
    | exact nextWs_send _ _ _
    | simp only [Outcome.state, nextWs_send, nextWs_contextBroadcasts]

theorem onMessage_nextWs (env : Env) (st : State) (ws : SessionId) (raw : Raw)
    (uuid : String) (now : Nat) :
    (handler.onMessage env st ws raw uuid now).state.nextWs = st.nextWs := by
  unfold handler.onMessage
  repeat' split
  all_goals first
    | rfl
    | exact nextWs_send _ _ _
    | exact handleAuth_nextWs _ _ _ _ _ _ _
    | exact handleRoom_nextWs _ _ _ _ _ _
    | exact handleMessage_nextWs _ _ _ _ _ _
    | exact handleDM_nextWs _ _ _ _ _ _ _ _
    | exact handleCommand_nextWs _ _ _ _ _ _

theorem heartbeat_core (st : State) :
    (handler.heartbeat st).nextWs = st.nextWs ∧
      ∀ t, ((handler.heartbeat st).sessions t).user = (st.sessions t).user := by
  unfold handler.heartbeat
  generalize st.clients.elems = l
  induction l generalizing st with
  | nil => exact ⟨rfl, fun _ => rfl⟩
  | cons x xs ih =>
    rw [List.foldl_cons]
    obtain ⟨h1, h2⟩ := ih (handler.heartbeatOne st x)
    have hone : (handler.heartbeatOne st x).nextWs = st.nextWs ∧
        ∀ t, ((handler.heartbeatOne st x).sessions t).user = (st.sessions t).user := by
      unfold handler.heartbeatOne handler.terminate handler.ping
      repeat' split
      all_goals
        refine ⟨rfl, fun t => ?_⟩
        by_cases ht : t = x
        · subst ht; simp
        · simp [Function.update_noteq ht]
    exact ⟨h1.trans hone.1, fun t => (h2 t).trans (hone.2 t)⟩

theorem step_nextWs (env : Env) (st : State) (e : Event) :
    st.nextWs ≤ (step env st e).nextWs := by
  cases e with
  | connection => exact Nat.le_succ _
  | message ws raw uuid now =>
    simp only [step]
    split
    · rw [onMessage_nextWs]
    · exact le_refl _
  | pong ws => simp only [step]; split <;> exact le_refl _
  | closing ws => simp only [step]; split <;> exact le_refl _
  | close ws =>
    simp only [step]
    split
    · rw [(closeSocket_spec st ws).2.2.1]
    · exact le_refl _
  | heartbeat => exact le_of_eq (heartbeat_core st).1.symm

theorem step_user (env : Env) (st : State) (e : Event) (ws : SessionId)
    (hlt : ws < st.nextWs) :
    ((step env st e).sessions ws).user = (st.sessions ws).user ∨
      (e.isBindOn ws ∧ ∃ u, u ≠ "" ∧ ((step env st e).sessions ws).user = some u) := by
  cases e with
  | connection =>
    left
    show (Function.update st.sessions st.nextWs _ ws).user = _
    rw [Function.update_noteq (Nat.ne_of_lt hlt)]
  | message t raw uuid now =>
    simp only [step]
    split
    · rcases onMessage_user env st t raw uuid now ws with h | ⟨h1, ⟨msg, ty, h2, h3, h4⟩, h5⟩
      · exact Or.inl h
      · subst h2
        exact Or.inr ⟨⟨h1.symm, ty, h3, h4⟩, h5⟩
    · exact Or.inl rfl
  | pong t =>
    left
    simp only [step]
    split
    · unfold handler.onPong
      by_cases ht : ws = t
      · subst ht; simp
      · simp [Function.update_noteq ht]
    · rfl
  | closing t =>
    left
    simp only [step]
    split
    · unfold beginClose
      by_cases ht : ws = t
      · subst ht; simp
      · simp [Function.update_noteq ht]
    · rfl
  | close t =>
    left
    simp only [step]
    split
    · exact (closeSocket_spec st t).2.2.2.2.1 ws
    · rfl
  | heartbeat => exact Or.inl ((heartbeat_core st).2 ws)

theorem db_send (st : State) (ws : SessionId) (f : Frame) :
    (protocol.send st ws f).db = st.db := by
  rw [send_eq]; rfl

theorem db_broadcast (st : State) (r : String) (f : Frame) (x : Option SessionId) :
    (rooms.broadcastToRoom st r f x).db = st.db := by
  rw [broadcastToRoom_eq]; rfl

theorem db_contextBroadcasts (calls : List (Option String × Frame)) (st : State) :
    (calls.foldl handler.contextBroadcast st).db = st.db := by
  induction calls generalizing st with
  | nil => rfl
  | cons c cs ih =>
    rw [List.foldl_cons, ih]
    unfold handler.contextBroadcast
    split
    · rfl
    · exact db_broadcast _ _ _ _

theorem createRoom_users {d d' : Db} {name desc meta : String} {c : Option String} {now : Nat}
    (h : d.createRoom name desc meta c now = some d') : d'.users = d.users := by
  obtain ⟨_, _, rfl⟩ := createRoom_spec h
  rfl

theorem addRoomMember_users {d d' : Db} {room : String} {u : Option String} {now : Nat}
    (h : d.addRoomMember room u now = some d') : d'.users = d.users := by
  obtain ⟨_, _, hu, _⟩ := addRoomMember_spec h
  exact hu

theorem saveMessage_users {d d' : Db} {id room message meta : String} {u : Option String}
    {ts : Nat} (h : d.saveMessage id room u message meta ts = some d') : d'.users = d.users := by
  obtain ⟨_, _, rfl⟩ := saveMessage_spec h
  rfl

theorem saveDM_users {d d' : Db} {id to_ message meta : String} {u : Option String}
    {ts : Nat} (h : d.saveDM id u to_ message meta ts = some d') : d'.users = d.users := by
  obtain ⟨_, _, rfl⟩ := saveDM_spec h
  rfl

theorem removeRoomMember_users (d : Db) (r : String) (u : Option String) :
    (d.removeRoomMember r u).users = d.users := by
  unfold Db.removeRoomMember; split <;> rfl

theorem handleRoom_users (env : Env) (st : State) (ws : SessionId) (msg : Msg)
    (ty : String) (now : Nat) :
    (handler.handleRoom env st ws msg ty now).state.db.users = st.db.users := by
  unfold handler.handleRoom
  simp only []
  repeat' split
  all_goals
    simp only [Outcome.state, db_send, db_broadcast, removeRoomMember_users]
  all_goals first
    | rfl
    | exact createRoom_users ‹_›
    | exact addRoomMember_users ‹_›
    | skip
  all_goals
    show (rooms.leaveRoom _ _ _).db.users = _
    show (rooms.broadcastToRoom _ _ _ _).db.users = _
    rw [db_broadcast]

theorem handleMessage_users (st : State) (ws : SessionId) (msg : Msg)
    (ty uuid : String) (now : Nat) :
    (handler.handleMessage st ws msg ty uuid now).state.db.users = st.db.users := by
  unfold handler.handleMessage messages.handleSendMessage
  simp only []
  repeat' split
  all_goals
    simp only [Outcome.state, db_send, db_broadcast]
  all_goals first
    | rfl
    | exact saveMessage_users ‹_›

theorem handleDM_users (env : Env) (st : State) (ws : SessionId) (msg : Msg)
    (ty : String) (cl : JSSet SessionId) (uuid : String) (now : Nat) :
    (handler.handleDM env st ws msg ty cl uuid now).state.db.users = st.db.users := by
  unfold handler.handleDM messages.handleDMSend
  simp only []
  repeat' split
  all_goals
    simp only [Outcome.state, db_send, db_broadcast]
  all_goals first
    | rfl
    | exact saveDM_users ‹_›

theorem handleCommand_users (st : State) (ws : SessionId) (msg : Msg)
    (ty uuid : String) (now : Nat) :
    (handler.handleCommand st ws msg ty uuid now).state.db.users = st.db.users := by
  unfold handler.handleCommand
  simp only []
  repeat' split
  all_goals
    simp only [Outcome.state, db_send, db_contextBroadcasts]

theorem usersNamed_map {d : Db} (h : UsersNamed d) (f : UserRow → UserRow)
    (hf : ∀ row, (f row).username = row.username) :
    UsersNamed { d with users := d.users.map f } := by
  intro row hrow
  simp only [List.mem_map] at hrow
  obtain ⟨row0, hm, rfl⟩ := hrow
  rw [hf]; exact h row0 hm

theorem handleAuth_usersNamed (env : Env) (st : State) (ws : SessionId) (msg : Msg)
    (ty uuid : String) (now : Nat) (h : UsersNamed st.db) :
    UsersNamed (handler.handleAuth env st ws msg ty uuid now).state.db := by
  unfold handler.handleAuth
  simp only []
  split
  · -- register
    split
    · rw [Outcome.state, db_send]; exact h
    · next hreq =>
      have hname : msg.username.getD "" ≠ "" := by
        simp only [Bool.or_eq_true, Bool.not_eq_true', not_or, Bool.not_eq_false] at hreq
        exact getD_ne_of_truthy hreq.1
      split
      · rw [Outcome.state, db_send]; exact h
      · split
        · rw [Outcome.state, db_send]; exact h
        · split
          · exact h
          · next db hdb =>
            obtain ⟨rfl, _⟩ := createUser_spec hdb
            have h1 : UsersNamed { st.db with users := st.db.users ++
                [⟨msg.username.getD "", env.hashPassword (msg.password.getD ""), "", "", now⟩] } := by
              intro row hrow
              rcases List.mem_append.mp hrow with hm | hm
              · exact h row hm
              · rw [List.mem_singleton] at hm
                subst hm; exact hname
            split
            · exact h1
            · rw [Outcome.state, db_send]; exact h1
  · split
    · -- login
      repeat' split
      all_goals (simp only [Outcome.state, db_send]; exact h)
    · split
      · -- resume
        repeat' split
        all_goals (simp only [Outcome.state, db_send]; exact h)
      · split
        · -- change_password
          repeat' split
          all_goals first
            | (simp only [Outcome.state, db_send]; exact h)
            | exact h
            | skip
          all_goals
            simp only [Outcome.state, db_send]
            exact usersNamed_map h _ (fun row => by split <;> rfl)
        · split
          · -- update_profile
            repeat' split
            all_goals first
              | (simp only [Outcome.state, db_send]; exact h)
              | exact h
              | skip
            all_goals
              simp only [Outcome.state, db_send]
              exact usersNamed_map h _ (fun row => by split <;> rfl)
          · exact h

theorem usersNamed_of_eq {d d' : Db} (h : UsersNamed d) (e : d'.users = d.users) :
    UsersNamed d' := by
  intro row hrow
  rw [e] at hrow; exact h row hrow

theorem onMessage_usersNamed (env : Env) (st : State) (ws : SessionId) (raw : Raw)
    (uuid : String) (now : Nat) (h : UsersNamed st.db) :
    UsersNamed (handler.onMessage env st ws raw uuid now).state.db := by
  unfold handler.onMessage
  repeat' split
  all_goals first
    | exact h
    | (simp only [Outcome.state, db_send]; exact h)
    | exact handleAuth_usersNamed _ _ _ _ _ _ _ h
    | exact usersNamed_of_eq h (handleRoom_users _ _ _ _ _ _)
    | exact usersNamed_of_eq h (handleMessage_users _ _ _ _ _ _)
    | exact usersNamed_of_eq h (handleDM_users _ _ _ _ _ _ _ _)
    | exact usersNamed_of_eq h (handleCommand_users _ _ _ _ _ _)

theorem heartbeat_db (st : State) : (handler.heartbeat st).db = st.db := by
  unfold handler.heartbeat
  generalize st.clients.elems = l
  induction l generalizing st with
  | nil => rfl
  | cons x xs ih =>
    rw [List.foldl_cons, ih]
    unfold handler.heartbeatOne handler.terminate handler.ping
    repeat' split
    all_goals rfl

theorem step_usersNamed (env : Env) (st : State) (e : Event) (h : UsersNamed st.db) :
    UsersNamed (step env st e).db := by
  cases e with
  | connection => exact h
  | message ws raw uuid now =>
    simp only [step]
    split
    · exact onMessage_usersNamed env st ws raw uuid now h
    · exact h
  | pong ws => simp only [step]; split <;> exact h
  | closing ws => simp only [step]; split <;> exact h
  | close ws =>
    simp only [step]
    split
    · rw [(closeSocket_spec st ws).1]; exact h
    · exact h
  | heartbeat =>
    show UsersNamed (handler.heartbeat st).db
    rw [heartbeat_db]; exact h

theorem usersNamed_of_reachable {env : Env} {st : State} (h : Reachable env st) :
    UsersNamed st.db := by
  obtain ⟨events, rfl⟩ := h
  have key : ∀ (l : List Event) (s : State), UsersNamed s.db → UsersNamed (run env s l).db := by
    intro l
    induction l with
    | nil => intro s hs; exact hs
    | cons e es ih => intro s hs; exact ih (step env s e) (step_usersNamed env s e hs)
  exact key events State.init (fun row hrow => by simp [State.init, Db.init] at hrow)

theorem onMessage_dm_send (env : Env) (st : State) (ws : SessionId) (msg : Msg)
    (uuid : String) (now : Nat) (hty : msg.type = .str "dm:send")
    (hauth : truthy (st.sessions ws).user = true) :
    handler.onMessage env st ws (.json msg) uuid now =
      messages.handleDMSend st ws msg st.clients uuid now := by
  have h1 : startsWith "dm:send" "auth:" = false := by decide
  have h2 : startsWith "dm:send" "room:" = false := by decide
  have h3 : startsWith "dm:send" "message:" = false := by decide
  have h4 : startsWith "dm:send" "dm:" = true := by decide
  simp [handler.onMessage, protocol.parse, hty, h1, h2, h3, h4, hauth, handler.handleDM]

theorem saveDM_ok (d : Db) (id x to_ message meta : String) (ts : Nat)
    (hid : ∀ row ∈ d.direct_messages, row.id ≠ id)
    (hu : (d.getUser x).isSome) (hr : (d.getUser to_).isSome) :
    d.saveDM id (some x) to_ message meta ts =
      some { d with direct_messages :=
               d.direct_messages ++ [⟨id, x, to_, message, meta, ts⟩] } := by
  unfold Db.saveDM
  simp only []
  rw [if_neg (by simpa using hid), if_neg (not_isNone_of_isSome hu),
    if_neg (not_isNone_of_isSome hr)]

theorem findUserWs_spec (st : State) (t : String) (cl : JSSet SessionId) :
    (∀ y, rooms.findUserWs st t cl = some y →
        y ∈ cl ∧ (st.sessions y).user = some t ∧ (st.sessions y).isOpen = true) ∧
      ((∃ y ∈ cl, (st.sessions y).user = some t ∧ (st.sessions y).isOpen = true) →
        (rooms.findUserWs st t cl).isSome = true) := by
  unfold rooms.findUserWs
  constructor
  · intro y hy
    have hm := List.mem_of_find?_eq_some hy
    have hp := List.find?_some hy
    simp only [decide_eq_true_eq] at hp
    exact ⟨hm, hp.1, by simp [Session.isOpen, hp.2]⟩
  · rintro ⟨y, hy, h1, h2⟩
    rw [List.find?_isSome]
    refine ⟨y, hy, ?_⟩
    simp only [Session.isOpen, decide_eq_true_eq] at h2
    simp [h1, h2]

theorem newer_total {α : Type} (ts : α → Nat) (a b : Nat × α) :
    Db.newerFirst (a.1, ts a.2) (b.1, ts b.2) ∨ Db.newerFirst (b.1, ts b.2) (a.1, ts a.2) := by
  unfold Db.newerFirst
  simp only
  omega

theorem newer_trans {α : Type} (ts : α → Nat) (a b c : Nat × α)
    (h1 : Db.newerFirst (a.1, ts a.2) (b.1, ts b.2))
    (h2 : Db.newerFirst (b.1, ts b.2) (c.1, ts c.2)) :
    Db.newerFirst (a.1, ts a.2) (c.1, ts c.2) := by
  unfold Db.newerFirst at *
  simp only at *
  omega

theorem orderNewestFirst_sorted {α : Type} (ts : α → Nat) (sel : List (Nat × α)) :
    (Db.orderNewestFirst ts sel).Pairwise
      (fun a b => Db.newerFirst (a.1, ts a.2) (b.1, ts b.2)) := by
  unfold Db.orderNewestFirst
  haveI : IsTotal (Nat × α) (fun a b => Db.newerFirst (a.1, ts a.2) (b.1, ts b.2)) :=
    ⟨newer_total ts⟩
  haveI : IsTrans (Nat × α) (fun a b => Db.newerFirst (a.1, ts a.2) (b.1, ts b.2)) :=
    ⟨newer_trans ts⟩
  exact List.sorted_insertionSort _ sel

theorem orderNewestFirst_perm {α : Type} (ts : α → Nat) (sel : List (Nat × α)) :
    (Db.orderNewestFirst ts sel).Perm sel := by
  unfold Db.orderNewestFirst
  exact List.perm_insertionSort _ sel

theorem sqlLimit_sublist {α : Type} (n : Int) (l : List α) : (Db.sqlLimit n l).Sublist l := by
  unfold Db.sqlLimit
  split
  · exact List.Sublist.refl l
  · exact List.take_sublist _ _

theorem sqlLimit_length {α : Type} (n : Int) (l : List α) :
    (Db.sqlLimit n l).length = if n < 0 then l.length else min n.toNat l.length := by
  unfold Db.sqlLimit
  split
  · rfl
  · simp [List.length_take]

/-- What the limit leaves out of a list sorted newest first is not newer than what it keeps. -/
theorem sqlLimit_top {α : Type} (r : α → α → Prop) (n : Int) (l : List α)
    (hs : l.Pairwise r) :
    ∀ a ∈ Db.sqlLimit n l, ∀ b ∈ l, b ∉ Db.sqlLimit n l → r a b := by
  unfold Db.sqlLimit
  split
  · intro a _ b hb hnb; exact absurd hb hnb
  · intro a ha b hb hnb
    have hsplit : l = l.take n.toNat ++ l.drop n.toNat := (List.take_append_drop _ _).symm
    rw [hsplit] at hs hb
    rw [List.pairwise_append] at hs
    rcases List.mem_append.mp hb with h | h
    · exact absurd h hnb
    · exact hs.2.2 a ha b h

theorem pickRows_spec {α : Type} (ts : α → Nat) (n : Int) (sel : List (Nat × α))
    (hidx : sel.Pairwise (fun a b => a.1 < b.1)) :
    (∀ p ∈ pickRows ts n sel, p ∈ sel) ∧
      (pickRows ts n sel).Pairwise (chronological ts) ∧
      (pickRows ts n sel).length = (if n < 0 then sel.length else min n.toNat sel.length) ∧
      (∀ a ∈ pickRows ts n sel, ∀ b ∈ sel, b ∉ pickRows ts n sel → chronological ts b a) := by
  have hperm := orderNewestFirst_perm ts sel
  have hsorted := orderNewestFirst_sorted ts sel
  have hne0 : sel.Pairwise (fun a b => a.1 ≠ b.1) := hidx.imp (fun h => Nat.ne_of_lt h)
  have hne : (Db.orderNewestFirst ts sel).Pairwise (fun a b => a.1 ≠ b.1) :=
    (hperm.pairwise_iff (fun {a b} (h : a.1 ≠ b.1) => h.symm)).mpr hne0
  have hstrict : (Db.orderNewestFirst ts sel).Pairwise (fun a b => chronological ts b a) := by
    refine (hsorted.and hne).imp ?_
    intro a b h
    obtain ⟨h1, h2⟩ := h
    unfold Db.newerFirst at h1
    unfold chronological
    simp only at h1
    omega
  refine ⟨?_, ?_, ?_, ?_⟩
  · intro p hp
    unfold pickRows at hp
    rw [List.mem_reverse] at hp
    exact hperm.subset ((sqlLimit_sublist n _).subset hp)
  · unfold pickRows
    rw [List.pairwise_reverse]
    exact hstrict.sublist (sqlLimit_sublist n _)
  · unfold pickRows
    rw [List.length_reverse, sqlLimit_length, hperm.length_eq]
  · intro a ha b hb hnb
    unfold pickRows at ha hnb
    rw [List.mem_reverse] at ha hnb
    exact sqlLimit_top (fun a b => chronological ts b a) n _ hstrict a ha b
      (hperm.symm.subset hb) hnb

theorem enum_filter_idx {α : Type} (p : Nat × α → Bool) (l : List α) :
    (l.enum.filter p).Pairwise (fun a b => a.1 < b.1) := by
  have h : (l.enum).Pairwise (fun a b => a.1 < b.1) := by
    rw [← List.pairwise_map (f := Prod.fst) (R := fun a b : Nat => a < b), List.enum_map_fst]
    exact List.pairwise_lt_range _
  exact h.sublist (List.filter_sublist _)

theorem getMessages_eq (d : Db) (hl : Int) (room : String) (limit : Int) :
    d.getMessages hl room limit =
      (pickRows (fun m => m.timestamp) (if limit = 0 then hl else limit)
        (d.messages.enum.filter (fun p => decide (p.2.room = room)))).map (fun p => p.2) := rfl

theorem getDMs_eq (d : Db) (hl : Int) (user1 : Option String) (user2 : String) (limit : Int) :
    d.getDMs hl user1 user2 limit =
      (pickRows (fun m => m.timestamp) (if limit = 0 then hl else limit)
        (d.direct_messages.enum.filter (fun p =>
          decide ((some p.2.sender = user1 ∧ p.2.recipient = user2) ∨
            (p.2.sender = user2 ∧ some p.2.recipient = user1))))).map (fun p => p.2) := rfl

theorem orderedInsert_last {α : Type} (r : α → α → Prop) [DecidableRel r] (a : α) (l : List α)
    (h : ∀ b ∈ l, ¬ r a b) : l.orderedInsert r a = l ++ [a] := by
  induction l with
  | nil => rfl
  | cons b l ih =>
    rw [List.orderedInsert, if_neg (h b (List.mem_cons_self _ _)),
      ih (fun c hc => h c (List.mem_cons_of_mem _ hc))]
    rfl

theorem insertionSort_eq_reverse {α : Type} (r : α → α → Prop) [DecidableRel r] (l : List α)
    (h : l.Pairwise (fun a b => ¬ r a b)) : l.insertionSort r = l.reverse := by
  induction l with
  | nil => rfl
  | cons a l ih =>
    rw [List.pairwise_cons] at h
    rw [List.insertionSort, ih h.2, orderedInsert_last, List.reverse_cons]
    intro b hb
    exact h.1 b (List.mem_reverse.mp hb)

/-- When timestamps do not decrease along the table, a history query returns the
last rows of the selection. -/
theorem pickRows_mono {α : Type} (ts : α → Nat) (n : Int) (sel : List (Nat × α))
    (hn : 0 ≤ n) (hidx : sel.Pairwise (fun a b => a.1 < b.1))
    (hts : sel.Pairwise (fun a b => ts a.2 ≤ ts b.2)) :
    pickRows ts n sel = sel.drop (sel.length - n.toNat) := by
  have hsort : Db.orderNewestFirst ts sel = sel.reverse := by
    unfold Db.orderNewestFirst
    apply insertionSort_eq_reverse
    refine (hidx.and hts).imp ?_
    intro a b h
    obtain ⟨h1, h2⟩ := h
    unfold Db.newerFirst
    simp only
    omega
  unfold pickRows
  rw [hsort]
  unfold Db.sqlLimit
  rw [if_neg (by omega), List.take_reverse, List.reverse_reverse]

theorem enum_filter_map_snd {α : Type} (p : α → Bool) (l : List α) :
    (l.enum.filter (fun q => p q.2)).map (fun q => q.2) = l.filter p := by
  have h : ∀ (n : Nat) (l : List α),
      ((l.enumFrom n).filter (fun q => p q.2)).map (fun q => q.2) = l.filter p := by
    intro n l
    induction l generalizing n with
    | nil => rfl
    | cons a l ih =>
      rw [List.enumFrom_cons, List.filter_cons, List.filter_cons]
      by_cases hp : p a = true
      · simp only [hp, if_true, List.map_cons, ih]
      · simp only [hp, if_false]
        exact ih (n + 1)
  exact h 0 l

theorem mem_enum_filter {α : Type} (p : α → Bool) (l : List α) (q : Nat × α) :
    q ∈ l.enum.filter (fun q => p q.2) ↔ l[q.1]? = some q.2 ∧ p q.2 = true := by
  rw [List.mem_filter]
  obtain ⟨i, x⟩ := q
  rw [List.mk_mem_enum_iff_getElem?]

/-- The closed form of a `room:history` reply. -/
theorem onMessage_room_history (env : Env) (st : State) (s : SessionId) (msg : Msg)
    (r u uuid : String) (now : Nat)
    (hty : msg.type = .str "room:history") (hroom : msg.room = some r) (hr : r ≠ "")
    (hu : (st.sessions s).identity = some u) :
    handler.onMessage env st s (.json msg) uuid now =
      .done (protocol.send st s (.roomHistory r
        (st.db.getMessages env.HISTORY_LIMIT r
          (if msg.limit.getD 0 = 0 then env.HISTORY_LIMIT else msg.limit.getD 0)))) := by
  rw [onMessage_room env st s msg uuid now "room:history" hty (by decide) (by decide) (by decide)
    (truthy_of_identity hu).2.2]
  have ht : truthy (some r) = true := (truthy_iff _).mpr ⟨r, rfl, hr⟩
  simp [handler.handleRoom, ht, hroom]

theorem rc_send (st : State) (ws : SessionId) (f : Frame) :
    (protocol.send st ws f).roomConnections = st.roomConnections := by
  rw [send_eq]; rfl

theorem rc_broadcast (st : State) (r : String) (f : Frame) (x : Option SessionId) :
    (rooms.broadcastToRoom st r f x).roomConnections = st.roomConnections := by
  rw [broadcastToRoom_eq]; rfl

theorem rc_contextBroadcasts (calls : List (Option String × Frame)) (st : State) :
    (calls.foldl handler.contextBroadcast st).roomConnections = st.roomConnections := by
  induction calls generalizing st with
  | nil => rfl
  | cons c cs ih =>
    rw [List.foldl_cons, ih]
    unfold handler.contextBroadcast
    split
    · rfl
    · exact rc_broadcast _ _ _ _

theorem handleAuth_rc (env : Env) (st : State) (ws : SessionId) (msg : Msg)
    (ty uuid : String) (now : Nat) :
    (handler.handleAuth env st ws msg ty uuid now).state.roomConnections =
      st.roomConnections := by
  unfold handler.handleAuth
  simp only []
  repeat' split
  all_goals first
    | rfl
    | exact rc_send _ _ _

theorem handleMessage_rc (st : State) (ws : SessionId) (msg : Msg)
    (ty uuid : String) (now : Nat) :
    (handler.handleMessage st ws msg ty uuid now).state.roomConnections =
      st.roomConnections := by
  unfold handler.handleMessage messages.handleSendMessage
  simp only []
  repeat' split
  all_goals first
    | rfl
    | exact rc_send _ _ _
    | exact rc_broadcast _ _ _ _

theorem handleDM_rc (env : Env) (st : State) (ws : SessionId) (msg : Msg)
    (ty : String) (cl : JSSet SessionId) (uuid : String) (now : Nat) :
    (handler.handleDM env st ws msg ty cl uuid now).state.roomConnections =
      st.roomConnections := by
  unfold handler.handleDM messages.handleDMSend
  simp only []
  repeat' split
  all_goals first
    | rfl
    | exact rc_send _ _ _
    | simp only [Outcome.state, rc_send]

theorem handleCommand_rc (st : State) (ws : SessionId) (msg : Msg)
    (ty uuid : String) (now : Nat) :
    (handler.handleCommand st ws msg ty uuid now).state.roomConnections =
      st.roomConnections := by
  unfold handler.handleCommand
  simp only []
  repeat' split
  all_goals first
    | rfl
    | exact rc_send _ _ _
    | simp only [Outcome.state, rc_send, rc_contextBroadcasts]

theorem handleAuth_members (env : Env) (st : State) (ws : SessionId) (msg : Msg)
    (ty uuid : String) (now : Nat) :
    (handler.handleAuth env st ws msg ty uuid now).state.db.room_members =
      st.db.room_members := by
  unfold handler.handleAuth
  simp only []
  repeat' split
  all_goals
    simp only [Outcome.state, db_send]
  all_goals first
    | rfl
    | (obtain ⟨rfl, _⟩ := createUser_spec ‹_›; rfl)

theorem handleMessage_members (st : State) (ws : SessionId) (msg : Msg)
    (ty uuid : String) (now : Nat) :
    (handler.handleMessage st ws msg ty uuid now).state.db.room_members =
      st.db.room_members := by
  unfold handler.handleMessage messages.handleSendMessage
  simp only []
  repeat' split
  all_goals
    simp only [Outcome.state, db_send, db_broadcast]
  all_goals first
    | rfl
    | (obtain ⟨_, _, rfl⟩ := saveMessage_spec ‹_›; rfl)

theorem handleDM_members (env : Env) (st : State) (ws : SessionId) (msg : Msg)
    (ty : String) (cl : JSSet SessionId) (uuid : String) (now : Nat) :
    (handler.handleDM env st ws msg ty cl uuid now).state.db.room_members =
      st.db.room_members := by
  unfold handler.handleDM messages.handleDMSend
  simp only []
  repeat' split
  all_goals
    simp only [Outcome.state, db_send, db_broadcast]
  all_goals first
    | rfl
    | (obtain ⟨_, _, rfl⟩ := saveDM_spec ‹_›; rfl)

theorem handleCommand_members (st : State) (ws : SessionId) (msg : Msg)
    (ty uuid : String) (now : Nat) :
    (handler.handleCommand st ws msg ty uuid now).state.db.room_members =
      st.db.room_members := by
  unfold handler.handleCommand
  simp only []
  repeat' split
  all_goals
    simp only [Outcome.state, db_send, db_contextBroadcasts]

theorem heartbeat_rc (st : State) :
    (handler.heartbeat st).roomConnections = st.roomConnections := by
  unfold handler.heartbeat
  generalize st.clients.elems = l
  induction l generalizing st with
  | nil => rfl
  | cons x xs ih =>
    rw [List.foldl_cons, ih]
    unfold handler.heartbeatOne handler.terminate handler.ping
    repeat' split
    all_goals rfl

theorem isRoomMember_remove_iff (d : Db) (r0 u0 r u : String) :
    (d.removeRoomMember r0 (some u0)).isRoomMember r u = true ↔
      d.isRoomMember r u = true ∧ ¬ (r = r0 ∧ u = u0) := by
  simp only [Db.removeRoomMember, Db.isRoomMember, List.any_eq_true, List.mem_filter,
    Bool.not_eq_true', decide_eq_false_iff_not, decide_eq_true_eq]
  constructor
  · rintro ⟨x, ⟨hx, hn⟩, h1, h2⟩
    refine ⟨⟨x, hx, h1, h2⟩, ?_⟩
    rintro ⟨rfl, rfl⟩
    exact hn ⟨h1, h2⟩
  · rintro ⟨⟨x, hx, h1, h2⟩, hn⟩
    refine ⟨x, ⟨hx, ?_⟩, h1, h2⟩
    rintro ⟨h3, h4⟩
    exact hn ⟨h1.symm.trans h3, h2.symm.trans h4⟩

theorem isRoomMember_add_mono {d d' : Db} {r0 : String} {u0 : Option String} {now : Nat}
    (h : d.addRoomMember r0 u0 now = some d') (r u : String)
    (hm : d.isRoomMember r u = true) : d'.isRoomMember r u = true := by
  obtain ⟨x, _, _, _, _, _, hrm⟩ := addRoomMember_spec h
  unfold Db.isRoomMember at hm ⊢
  rw [hrm]
  split
  · exact hm
  · rw [List.any_append, hm]; rfl

/-- A state with the same registry, the same identities and the same membership table. -/
theorem LD_congr {st st' : State} (h : LiveDurable st)
    (hrc : st'.roomConnections = st.roomConnections)
    (huser : ∀ ws, (st'.sessions ws).user = (st.sessions ws).user)
    (hm : st'.db.room_members = st.db.room_members) : LiveDurable st' := by
  intro r s hs
  have hl : live st' r = live st r := by simp [live, hrc]
  rw [hl] at hs
  obtain ⟨u, hu, hmem⟩ := h r s hs
  refine ⟨u, ?_, ?_⟩
  · rw [identity_congr (huser s)]; exact hu
  · unfold Db.isRoomMember at hmem ⊢
    rw [hm]; exact hmem

theorem LD_send {st : State} (h : LiveDurable st) (ws : SessionId) (obj : Frame) :
    LiveDurable (protocol.send st ws obj) :=
  LD_congr h (rc_send _ _ _) (fun _ => user_send _ _ _ _) (by rw [db_send])

theorem LD_broadcast {st : State} (h : LiveDurable st) (r : String) (obj : Frame)
    (ex : Option SessionId) : LiveDurable (rooms.broadcastToRoom st r obj ex) :=
  LD_congr h (rc_broadcast _ _ _ _) (fun _ => user_broadcast _ _ _ _ _) (by rw [db_broadcast])

theorem LD_handleAuth (env : Env) {st : State} (h : LiveDurable st) (ws : SessionId)
    (msg : Msg) (ty uuid : String) (now : Nat)
    (hg : isBindType ty → (st.sessions ws).identity = none) :
    LiveDurable (handler.handleAuth env st ws msg ty uuid now).state := by
  intro r s hs
  have hl : live (handler.handleAuth env st ws msg ty uuid now).state r = live st r := by
    simp [live, handleAuth_rc]
  rw [hl] at hs
  obtain ⟨u, hu, hmem⟩ := h r s hs
  refine ⟨u, ?_, ?_⟩
  · rcases handleAuth_user env st ws msg ty uuid now s with hsame | ⟨hws, hb, _⟩
    · rw [identity_congr hsame]; exact hu
    · subst hws
      rw [hg hb] at hu
      exact absurd hu (by simp)
  · unfold Db.isRoomMember at hmem ⊢
    rw [handleAuth_members]; exact hmem

theorem LD_handleRoom (env : Env) {st : State} (h : LiveDurable st) (ws : SessionId)
    (msg : Msg) (ty : String) (now : Nat) (hauth : truthy (st.sessions ws).user = true)
    (hg : ty = "room:leave" → ∀ t ∈ live st (msg.room.getD ""), t ≠ ws →
      (st.sessions t).identity ≠ (st.sessions ws).identity) :
    LiveDurable (handler.handleRoom env st ws msg ty now).state := by
  unfold handler.handleRoom
  simp only []
  split
  · exact LD_send h _ _
  · split
    · -- create
      split
      · exact LD_send h _ _
      · split
        · exact LD_send h _ _
        · split
          · exact h
          · next db hdb =>
            obtain ⟨cu, _, rfl⟩ := createRoom_spec hdb
            show LiveDurable (protocol.send _ _ _)
            apply LD_send
            exact LD_congr h rfl (fun _ => rfl) rfl
    · split
      · -- join
        split
        · exact LD_send h _ _
        · split
          · exact LD_send h _ _
          · split
            · exact h
            · next db hdb =>
              show LiveDurable (protocol.send _ _ _)
              apply LD_send
              apply LD_broadcast
              intro r s hs
              rw [mem_live_joinRoom] at hs
              have hid : ∀ t, ((rooms.joinRoom { st with db := db } ws (msg.room.getD "")).sessions
                  t).identity = (st.sessions t).identity :=
                fun t => identity_congr (joinRoom_user _ _ _ _)
              rw [hid]
              show ∃ u, (st.sessions s).identity = some u ∧ db.isRoomMember r u = true
              rcases hs with hs | ⟨rfl, rfl⟩
              · obtain ⟨u, hu, hmem⟩ := h r s hs
                exact ⟨u, hu, isRoomMember_add_mono hdb r u hmem⟩
              · have hsome := eq_some_of_truthy hauth
                refine ⟨(st.sessions s).user.getD "", ?_, ?_⟩
                · unfold Session.identity
                  rw [if_pos hauth]; exact hsome
                · rw [hsome] at hdb
                  exact isRoomMember_addRoomMember hdb
      · split
        · -- leave
          next hty =>
          split
          · exact LD_send h _ _
          · show LiveDurable (protocol.send _ _ _)
            apply LD_send
            intro r s hs
            change s ∈ live (rooms.leaveRoom (rooms.broadcastToRoom st (msg.room.getD "")
              (.roomLeft (msg.room.getD "") (st.sessions ws).user) none) ws (msg.room.getD "")) r
              at hs
            rw [mem_live_leaveRoom] at hs
            obtain ⟨hs1, hs2⟩ := hs
            have hl : live (rooms.broadcastToRoom st (msg.room.getD "")
                (.roomLeft (msg.room.getD "") (st.sessions ws).user) none) r = live st r := by
              simp [live, rc_broadcast]
            rw [hl] at hs1
            obtain ⟨u, hu, hmem⟩ := h r s hs1
            have hsome := eq_some_of_truthy hauth
            have hidws : (st.sessions ws).identity = some ((st.sessions ws).user.getD "") := by
              unfold Session.identity
              rw [if_pos hauth]; exact hsome
            refine ⟨u, ?_, ?_⟩
            · have hus : ((rooms.leaveRoom (rooms.broadcastToRoom st (msg.room.getD "")
                  (.roomLeft (msg.room.getD "") (st.sessions ws).user) none) ws
                  (msg.room.getD "")).sessions s).user = (st.sessions s).user := by
                rw [leaveRoom_user, user_broadcast]
              exact (identity_congr hus).trans hu
            · show (Db.removeRoomMember (rooms.leaveRoom (rooms.broadcastToRoom st
                (msg.room.getD "") (.roomLeft (msg.room.getD "") (st.sessions ws).user) none) ws
                (msg.room.getD "")).db (msg.room.getD "") (st.sessions ws).user).isRoomMember r u
                = true
              have hdb : (rooms.leaveRoom (rooms.broadcastToRoom st (msg.room.getD "")
                  (.roomLeft (msg.room.getD "") (st.sessions ws).user) none) ws
                  (msg.room.getD "")).db = st.db := by
                show (rooms.broadcastToRoom _ _ _ _).db = _
                rw [db_broadcast]
              rw [hdb, hsome, isRoomMember_remove_iff]
              refine ⟨hmem, ?_⟩
              rintro ⟨hr, hux⟩
              have hne : s ≠ ws := fun e => hs2 ⟨hr, e⟩
              rw [hr] at hs1
              refine hg hty s hs1 hne ?_
              rw [hu, hidws, hux]
        · split
          · split
            · exact LD_send h _ _
            · exact LD_send h _ _
          · split
            · split
              · exact LD_send h _ _
              · exact LD_send h _ _
            · exact h

theorem LD_handleMessage {st : State} (h : LiveDurable st) (ws : SessionId) (msg : Msg)
    (ty uuid : String) (now : Nat) :
    LiveDurable (handler.handleMessage st ws msg ty uuid now).state :=
  LD_congr h (handleMessage_rc _ _ _ _ _ _) (fun _ => handleMessage_user _ _ _ _ _ _ _)
    (handleMessage_members _ _ _ _ _ _)

theorem LD_handleDM (env : Env) {st : State} (h : LiveDurable st) (ws : SessionId) (msg : Msg)
    (ty : String) (cl : JSSet SessionId) (uuid : String) (now : Nat) :
    LiveDurable (handler.handleDM env st ws msg ty cl uuid now).state :=
  LD_congr h (handleDM_rc _ _ _ _ _ _ _ _) (fun _ => handleDM_user _ _ _ _ _ _ _ _ _)
    (handleDM_members _ _ _ _ _ _ _ _)

theorem LD_handleCommand {st : State} (h : LiveDurable st) (ws : SessionId) (msg : Msg)
    (ty uuid : String) (now : Nat) :
    LiveDurable (handler.handleCommand st ws msg ty uuid now).state :=
  LD_congr h (handleCommand_rc _ _ _ _ _ _) (fun _ => handleCommand_user _ _ _ _ _ _ _)
    (handleCommand_members _ _ _ _ _ _)

theorem LD_onMessage (env : Env) {st : State} (h : LiveDurable st) (ws : SessionId)
    (raw : Raw) (uuid : String) (now : Nat)
    (hg : (Event.message ws raw uuid now).keepsDurable st) :
    LiveDurable (handler.onMessage env st ws raw uuid now).state := by
  unfold handler.onMessage
  split
  · exact LD_send h _ _
  · next msg hparse =>
    have hraw : raw = .json msg := by
      cases raw with
      | unparseable => simp [protocol.parse] at hparse
      | null => simp [protocol.parse] at hparse
      | json m => simp only [protocol.parse, Option.some.injEq] at hparse; rw [hparse]
    subst hraw
    split
    · exact LD_send h _ _
    · exact LD_send h _ _
    · exact h
    · next ty hty =>
      have hg2 : frameKeepsDurable st ws msg (.str ty) := by
        have hg1 : frameKeepsDurable st ws msg msg.type := hg
        rw [hty] at hg1
        exact hg1
      split
      · exact LD_send h _ _
      · split
        · exact LD_handleAuth env h ws _ _ uuid now hg2.1
        · split
          · exact LD_send h _ _
          · next hauth =>
            have hauth2 : truthy (st.sessions ws).user = true := by simpa using hauth
            split
            · exact LD_handleRoom env h ws _ _ now hauth2 hg2.2
            · split
              · exact LD_handleMessage h ws _ _ uuid now
              · split
                · exact LD_handleDM env h ws _ _ _ uuid now
                · split
                  · exact LD_handleCommand h ws _ _ uuid now
                  · split
                    · exact LD_send h _ _
                    · exact h

theorem LD_closeSocket {st : State} (h : LiveDurable st) (ws : SessionId) :
    LiveDurable (closeSocket st ws) := by
  obtain ⟨h1, _, _, _, h5, _, h7, _⟩ := closeSocket_spec st ws
  intro r s hs
  rw [h7] at hs
  obtain ⟨u, hu, hmem⟩ := h r s hs.1
  refine ⟨u, ?_, ?_⟩
  · rw [identity_congr (h5 s)]; exact hu
  · rw [h1]; exact hmem

theorem LD_onConnection {st : State} (hinv : Inv st) (h : LiveDurable st) :
    LiveDurable (handler.onConnection st) := by
  intro r s hs
  have hs0 : s ∈ live st r := hs
  have hlt : s < st.nextWs :=
    hinv.clients_lt s (hinv.joined_client s r ((hinv.mirror s r).mp hs0))
  obtain ⟨u, hu, hmem⟩ := h r s hs0
  refine ⟨u, ?_, hmem⟩
  show (Function.update st.sessions st.nextWs _ s).identity = some u
  rw [Function.update_noteq (Nat.ne_of_lt hlt)]
  exact hu

/-- An update of `isAlive` or `readyState` of one socket keeps live within durable. -/
theorem LD_touch {st : State} (h : LiveDurable st) (ws : SessionId) (s : Session)
    (hu : s.user = (st.sessions ws).user) (p q : SessionId → Nat) :
    LiveDurable { st with sessions := Function.update st.sessions ws s, probes := p,
                          terminations := q } := by
  refine LD_congr h rfl ?_ rfl
  intro t
  show (Function.update st.sessions ws s t).user = _
  by_cases ht : t = ws
  · subst ht; simp [hu]
  · simp [Function.update_noteq ht]

theorem LD_heartbeat {st : State} (h : LiveDurable st) : LiveDurable (handler.heartbeat st) :=
  LD_congr h (heartbeat_rc st) (heartbeat_core st).2 (by rw [heartbeat_db])

theorem LD_step (env : Env) {st : State} (hinv : Inv st) (h : LiveDurable st) (e : Event)
    (hg : e.keepsDurable st) : LiveDurable (step env st e) := by
  cases e with
  | connection => exact LD_onConnection hinv h
  | message ws raw uuid now =>
    simp only [step]
    split
    · exact LD_onMessage env h ws raw uuid now hg
    · exact h
  | pong ws =>
    simp only [step]
    split
    · unfold handler.onPong
      apply LD_touch h ws; rfl
    · exact h
  | closing ws =>
    simp only [step]
    split
    · unfold beginClose
      apply LD_touch h ws; rfl
    · exact h
  | close ws =>
    simp only [step]
    split
    · exact LD_closeSocket h ws
    · exact h
  | heartbeat => exact LD_heartbeat h

theorem LD_init : LiveDurable State.init := by
  intro r s hs
  simp [State.init, live] at hs

theorem filter_length_le_of_subset {α : Type} [DecidableEq α] (p : α → Bool) (l1 l2 : List α)
    (hnd : l1.Nodup) (hsub : ∀ a ∈ l1, a ∈ l2) :
    (l1.filter p).length ≤ (l2.filter p).length := by
  apply List.Subperm.length_le
  apply List.subperm_of_subset (hnd.filter p)
  intro a ha
  rw [List.mem_filter] at ha ⊢
  exact ⟨hsub a ha.1, ha.2⟩

theorem handleAuth_dbrooms (env : Env) (st : State) (ws : SessionId) (msg : Msg)
    (ty uuid : String) (now : Nat) :
    (handler.handleAuth env st ws msg ty uuid now).state.db.rooms = st.db.rooms := by
  unfold handler.handleAuth
  simp only []
  repeat' split
  all_goals
    simp only [Outcome.state, db_send]
  all_goals first
    | rfl
    | (obtain ⟨rfl, _⟩ := createUser_spec ‹_›; rfl)

theorem handleMessage_dbrooms (st : State) (ws : SessionId) (msg : Msg)
    (ty uuid : String) (now : Nat) :
    (handler.handleMessage st ws msg ty uuid now).state.db.rooms = st.db.rooms := by
  unfold handler.handleMessage messages.handleSendMessage
  simp only []
  repeat' split
  all_goals
    simp only [Outcome.state, db_send, db_broadcast]
  all_goals first
    | rfl
    | (obtain ⟨_, _, rfl⟩ := saveMessage_spec ‹_›; rfl)

theorem handleDM_dbrooms (env : Env) (st : State) (ws : SessionId) (msg : Msg)
    (ty : String) (cl : JSSet SessionId) (uuid : String) (now : Nat) :
    (handler.handleDM env st ws msg ty cl uuid now).state.db.rooms = st.db.rooms := by
  unfold handler.handleDM messages.handleDMSend
  simp only []
  repeat' split
  all_goals
    simp only [Outcome.state, db_send, db_broadcast]
  all_goals first
    | rfl
    | (obtain ⟨_, _, rfl⟩ := saveDM_spec ‹_›; rfl)

theorem handleCommand_dbrooms (st : State) (ws : SessionId) (msg : Msg)
    (ty uuid : String) (now : Nat) :
    (handler.handleCommand st ws msg ty uuid now).state.db.rooms = st.db.rooms := by
  unfold handler.handleCommand
  simp only []
  repeat' split
  all_goals
    simp only [Outcome.state, db_send, db_contextBroadcasts]

theorem removeRoomMember_rooms (d : Db) (r : String) (u : Option String) :
    (d.removeRoomMember r u).rooms = d.rooms := by
  unfold Db.removeRoomMember; split <;> rfl

theorem createRoom_rooms_ext {d d' : Db} {name desc meta : String} {c : Option String}
    {now : Nat} (h : d.createRoom name desc meta c now = some d') :
    ∃ extra, d'.rooms = d.rooms ++ extra := by
  obtain ⟨_, _, rfl⟩ := createRoom_spec h
  exact ⟨_, rfl⟩

theorem addRoomMember_rooms_ext {d d' : Db} {room : String} {u : Option String} {now : Nat}
    (h : d.addRoomMember room u now = some d') : ∃ extra, d'.rooms = d.rooms ++ extra := by
  obtain ⟨_, _, _, hr, _⟩ := addRoomMember_spec h
  exact ⟨[], by rw [List.append_nil]; exact hr⟩

/-- Table `rooms` only grows at its end. -/
theorem handleRoom_dbrooms (env : Env) (st : State) (ws : SessionId) (msg : Msg)
    (ty : String) (now : Nat) :
    ∃ extra, (handler.handleRoom env st ws msg ty now).state.db.rooms = st.db.rooms ++ extra := by
  unfold handler.handleRoom
  simp only []
  repeat' split
  all_goals
    simp only [Outcome.state, db_send, db_broadcast, removeRoomMember_rooms]
  all_goals first
    | exact ⟨[], (List.append_nil _).symm⟩
    | exact createRoom_rooms_ext ‹_›
    | exact addRoomMember_rooms_ext ‹_›
    | skip
  all_goals
    refine ⟨[], ?_⟩
    rw [List.append_nil]
    show (rooms.leaveRoom _ _ _).db.rooms = _
    show (rooms.broadcastToRoom _ _ _ _).db.rooms = _
    rw [db_broadcast]

theorem onMessage_dbrooms (env : Env) (st : State) (ws : SessionId) (raw : Raw)
    (uuid : String) (now : Nat) :
    ∃ extra, (handler.onMessage env st ws raw uuid now).state.db.rooms =
      st.db.rooms ++ extra := by
  have hnil : ∀ s : State, s.db.rooms = st.db.rooms → ∃ extra, s.db.rooms = st.db.rooms ++ extra :=
    fun s h => ⟨[], by rw [List.append_nil]; exact h⟩
  unfold handler.onMessage
  repeat' split
  all_goals first
    | exact hnil _ rfl
    | exact hnil _ (by rw [Outcome.state, db_send])
    | exact hnil _ (handleAuth_dbrooms _ _ _ _ _ _ _)
    | exact handleRoom_dbrooms _ _ _ _ _ _
    | exact hnil _ (handleMessage_dbrooms _ _ _ _ _ _)
    | exact hnil _ (handleDM_dbrooms _ _ _ _ _ _ _ _)
    | exact hnil _ (handleCommand_dbrooms _ _ _ _ _ _)

theorem step_dbrooms (env : Env) (st : State) (e : Event) :
    ∃ extra, (step env st e).db.rooms = st.db.rooms ++ extra := by
  have hnil : ∀ s : State, s.db = st.db → ∃ extra, s.db.rooms = st.db.rooms ++ extra :=
    fun s h => ⟨[], by rw [List.append_nil, h]⟩
  cases e with
  | connection => exact hnil _ rfl
  | message ws raw uuid now =>
    simp only [step]
    split
    · exact onMessage_dbrooms env st ws raw uuid now
    · exact hnil _ rfl
  | pong ws => simp only [step]; split <;> exact hnil _ rfl
  | closing ws => simp only [step]; split <;> exact hnil _ rfl
  | close ws =>
    simp only [step]
    split
    · exact hnil _ (closeSocket_spec st ws).1
    · exact hnil _ rfl
  | heartbeat => exact hnil _ (heartbeat_db st)

theorem run_dbrooms (env : Env) (events : List Event) (st : State) :
    ∃ extra, (run env st events).db.rooms = st.db.rooms ++ extra := by
  induction events generalizing st with
  | nil => exact ⟨[], (List.append_nil _).symm⟩
  | cons e es ih =>
    obtain ⟨x1, h1⟩ := step_dbrooms env st e
    obtain ⟨x2, h2⟩ := ih (step env st e)
    refine ⟨x1 ++ x2, ?_⟩
    show (run env (step env st e) es).db.rooms = _
    rw [h2, h1, List.append_assoc]

/-- A stored room stays as it is along every run. -/
theorem run_getRoom (env : Env) (events : List Event) (st : State) (n : String) (row : RoomRow)
    (h : st.db.getRoom n = some row) : (run env st events).db.getRoom n = some row := by
  obtain ⟨extra, hx⟩ := run_dbrooms env events st
  unfold Db.getRoom at h ⊢
  rw [hx, List.find?_append, h]
  rfl

/-- The closed form of `room:create` for a name that is taken. -/
theorem onMessage_create_taken (env : Env) (st : State) (s : SessionId) (msg : Msg)
    (n u uuid : String) (now : Nat) (hty : msg.type = .str "room:create")
    (hname : msg.name = some n) (hn : n ≠ "") (hu : (st.sessions s).identity = some u)
    (hex : (st.db.getRoom n).isSome = true) :
    handler.onMessage env st s (.json msg) uuid now =
      .done (protocol.send st s (.roomError "Room already exists")) := by
  rw [onMessage_room env st s msg uuid now "room:create" hty (by decide) (by decide) (by decide)
    (truthy_of_identity hu).2.2]
  have ht : truthy (some n) = true := (truthy_iff _).mpr ⟨n, rfl, hn⟩
  have e1 : ¬ ("room:create" = "room:list") := by decide
  simp [handler.handleRoom, e1, ht, hname, hex]

/-- The closed form of `room:create` for a free name. -/
theorem onMessage_create_free (env : Env) (st : State) (s : SessionId) (msg : Msg)
    (n u uuid : String) (now : Nat) (hty : msg.type = .str "room:create")
    (hname : msg.name = some n) (hn : n ≠ "") (hu : (st.sessions s).identity = some u)
    (hrow : (st.db.getUser u).isSome = true) (hfree : st.db.getRoom n = none) :
    handler.onMessage env st s (.json msg) uuid now =
      .done (protocol.send
        { st with db := { st.db with rooms := st.db.rooms ++
            [⟨n, orElse msg.description "", msg.metadata.getD emptyObject, u, now⟩] } } s
        (.roomCreated (some ⟨n, orElse msg.description "", msg.metadata.getD emptyObject, u,
          now⟩))) := by
  rw [onMessage_room env st s msg uuid now "room:create" hty (by decide) (by decide) (by decide)
    (truthy_of_identity hu).2.2]
  have ht : truthy (some n) = true := (truthy_iff _).mpr ⟨n, rfl, hn⟩
  have e1 : ¬ ("room:create" = "room:list") := by decide
  have hnone : (st.db.getUser u).isNone = false := by
    cases hg : st.db.getUser u with
    | none => simp [hg] at hrow
    | some _ => rfl
  have hfind : List.find? (fun r : RoomRow => decide (r.name = n)) st.db.rooms = none := hfree
  simp [handler.handleRoom, e1, ht, hname, hfree, (truthy_of_identity hu).1, Db.createRoom,
    hnone, Db.getRoom, List.find?_append, hfind]

/-- The closed form of a failed `auth:login`: unknown user, or a password that does not
verify. -/
theorem onMessage_login_failed (env : Env) (st : State) (ws : SessionId) (msg : Msg)
    (u p uuid : String) (now : Nat) (hty : msg.type = .str "auth:login")
    (hu : msg.username = some u) (hune : u ≠ "") (hp : msg.password = some p) (hpne : p ≠ "")
    (hfail : st.db.getUser u = none ∨
      ∃ row, st.db.getUser u = some row ∧ env.verifyPassword p row.password = false) :
    handler.onMessage env st ws (.json msg) uuid now =
      .done (protocol.send st ws (.authError "Invalid credentials")) := by
  rw [onMessage_str env st ws msg uuid now "auth:login" hty]
  have h0 : ¬ ("auth:login" = "") := by decide
  have h1 : startsWith "auth:login" "auth:" = true := by decide
  have e1 : ¬ ("auth:login" = "auth:register") := by decide
  have t1 : truthy (some u) = true := (truthy_iff _).mpr ⟨u, rfl, hune⟩
  have t2 : truthy (some p) = true := (truthy_iff _).mpr ⟨p, rfl, hpne⟩
  rcases hfail with h | ⟨row, h, hv⟩
  · simp [h0, h1, handler.handleAuth, e1, hu, hp, t1, t2, h]
  · simp [h0, h1, handler.handleAuth, e1, hu, hp, t1, t2, h, hv]

theorem JSSet.ext_elems {α : Type} {s t : JSSet α} (h : s.elems = t.elems) : s = t := by
  cases s; cases t
  simp only [JSSet.mk.injEq]
  exact h

theorem JSSet.delete_add {α : Type} [DecidableEq α] (s : JSSet α) (a : α) (h : a ∉ s) :
    (s.add a).delete a = s := by
  apply JSSet.ext_elems
  show (s.add a).elems.erase a = s.elems
  have h' : a ∉ s.elems := h
  rw [JSSet.elems_add, if_neg h', List.erase_append_right _ h']
  simp

theorem JSSet.delete_of_not_mem {α : Type} [DecidableEq α] (s : JSSet α) (a : α) (h : a ∉ s) :
    s.delete a = s := by
  apply JSSet.ext_elems
  show s.elems.erase a = s.elems
  exact List.erase_of_not_mem h

/-- The function `leaveRoom` on a session that is not in the room changes neither the
registry nor the session records, when no room is mapped to an empty set. -/
theorem leaveRoom_not_member (st : State) (s : SessionId) (r : String)
    (hnot : s ∉ live st r) (hr : r ∉ (st.sessions s).rooms)
    (hne : ∀ c, st.roomConnections r = some c → c.elems ≠ []) :
    (rooms.leaveRoom st s r).roomConnections = st.roomConnections ∧
      (rooms.leaveRoom st s r).sessions = st.sessions := by
  unfold rooms.leaveRoom
  simp only []
  constructor
  · cases hc : st.roomConnections r with
    | none => rfl
    | some c =>
      simp only []
      have hmem : s ∉ c := by
        intro hm
        apply hnot
        unfold live
        rw [hc]
        exact hm
      rw [JSSet.delete_of_not_mem c s hmem]
      have hsize : ¬ c.size = 0 := fun h0 => hne c hc (List.length_eq_zero.mp h0)
      rw [if_neg hsize, ← hc]
      exact Function.update_eq_self r st.roomConnections
  · rw [JSSet.delete_of_not_mem _ r hr]
    exact Function.update_eq_self s st.sessions

/-- The function `leaveRoom` right after `joinRoom` on a session that was not in the
room gives back the registry and the session records. -/
theorem leaveRoom_joinRoom (st x : State) (s : SessionId) (r : String)
    (hrc : x.roomConnections = (rooms.joinRoom st s r).roomConnections)
    (hss : x.sessions = (rooms.joinRoom st s r).sessions)
    (hnot : s ∉ live st r) (hr : r ∉ (st.sessions s).rooms)
    (hne : ∀ c, st.roomConnections r = some c → c.elems ≠ []) :
    (rooms.leaveRoom x s r).roomConnections = st.roomConnections ∧
      (rooms.leaveRoom x s r).sessions = st.sessions := by
  unfold rooms.leaveRoom
  simp only []
  rw [hrc, hss]
  unfold rooms.joinRoom
  simp only [Function.update_same, Function.update_idem]
  constructor
  · cases hc : st.roomConnections r with
    | none =>
      have h1 : ((none : Option (JSSet SessionId)).getD JSSet.empty).add s =
          (JSSet.empty : JSSet SessionId).add s := rfl
      rw [h1, JSSet.delete_add _ _ (JSSet.not_mem_empty s)]
      have hsize : (JSSet.empty : JSSet SessionId).size = 0 := rfl
      rw [if_pos hsize, ← hc]
      exact Function.update_eq_self r st.roomConnections
    | some c =>
      have hmem : s ∉ c := by
        intro hm
        apply hnot
        unfold live
        rw [hc]
        exact hm
      have h1 : ((some c).getD JSSet.empty).add s = c.add s := rfl
      rw [h1, JSSet.delete_add _ _ hmem]
      have hsize : ¬ c.size = 0 := fun h0 => hne c hc (List.length_eq_zero.mp h0)
      rw [if_neg hsize, ← hc]
      exact Function.update_eq_self r st.roomConnections
  · rw [JSSet.delete_add _ _ hr]
    exact Function.update_eq_self s st.sessions

/-- The closed form of `room:leave` for an authenticated session and a non-empty name. -/
theorem onMessage_leave_eq (env : Env) (st : State) (s : SessionId) (msg : Msg)
    (r u uuid : String) (now : Nat) (hty : msg.type = .str "room:leave")
    (hroom : msg.room = some r) (hr : r ≠ "") (hu : (st.sessions s).identity = some u) :
    handler.onMessage env st s (.json msg) uuid now =
      .done (protocol.send
        { rooms.leaveRoom (rooms.broadcastToRoom st r (.roomLeft r (some u)) none) s r with
          db := st.db.removeRoomMember r (some u) } s (.roomLeft r (some u))) := by
  obtain ⟨huser, _, htr⟩ := truthy_of_identity hu
  rw [onMessage_room env st s msg uuid now "room:leave" hty (by decide) (by decide) (by decide)
    htr]
  unfold handler.handleRoom
  have e1 : ¬ ("room:leave" = "room:list") := by decide
  have e2 : ¬ ("room:leave" = "room:create") := by decide
  have e3 : ¬ ("room:leave" = "room:join") := by decide
  have hc1 : truthy (some r) = true := by simp [truthy, hr]
  simp only [e1, e2, e3, if_false, if_true, hc1, Bool.not_true, Bool.false_eq_true, hroom,
    Option.getD_some, huser]
  have hdb : (rooms.leaveRoom (rooms.broadcastToRoom st r (.roomLeft r (some u)) none) s r).db
      = st.db := by
    rw [broadcastToRoom_eq]; rfl
  rw [hdb]

/-- The closed form of `room:join` for an authenticated session and a stored room. -/
theorem onMessage_join_eq (env : Env) (st : State) (s : SessionId) (msg : Msg)
    (r u uuid : String) (now : Nat) (d' : Db) (hty : msg.type = .str "room:join")
    (hroom : msg.room = some r) (hr : r ≠ "") (hu : (st.sessions s).identity = some u)
    (hdur : (st.db.getRoom r).isSome) (hadd : st.db.addRoomMember r (some u) now = some d') :
    handler.onMessage env st s (.json msg) uuid now =
      .done (protocol.send
        (rooms.broadcastToRoom (rooms.joinRoom { st with db := d' } s r) r
          (.roomJoined r (some u)) none) s (.roomJoined r (some u))) := by
  obtain ⟨huser, _, htr⟩ := truthy_of_identity hu
  rw [onMessage_room env st s msg uuid now "room:join" hty (by decide) (by decide) (by decide) htr]
  unfold handler.handleRoom
  have e1 : ¬ ("room:join" = "room:list") := by decide
  have e2 : ¬ ("room:join" = "room:create") := by decide
  have hc1 : truthy (some r) = true := by simp [truthy, hr]
  have hc2 : (st.db.getRoom r).isNone = false := by
    cases hg : st.db.getRoom r with
    | none => simp [hg] at hdur
    | some _ => rfl
  simp only [e1, e2, if_false, if_true, hc1, Bool.not_true, Bool.false_eq_true, hroom,
    Option.getD_some, hc2, huser, hadd]

theorem removeRoomMember_append_new (d : Db) (r u : String) (now : Nat)
    (hnew : d.isRoomMember r u = false) :
    Db.removeRoomMember { d with room_members := d.room_members ++ [⟨r, u, now⟩] } r (some u)
      = d := by
  unfold Db.removeRoomMember
  simp only []
  have hfilter : List.filter (fun m : MemberRow => !decide (m.room = r ∧ m.username = u))
      (d.room_members ++ [⟨r, u, now⟩]) = d.room_members := by
    rw [List.filter_append]
    have h1 : List.filter (fun m : MemberRow => !decide (m.room = r ∧ m.username = u))
        d.room_members = d.room_members := by
      rw [List.filter_eq_self]
      intro m hm
      simp only [Db.isRoomMember, List.any_eq_false] at hnew
      have h2 := hnew m hm
      simp only [decide_eq_true_eq] at h2
      simp only [Bool.not_eq_true', decide_eq_false_iff_not]
      exact h2
    rw [h1]
    simp
  rw [hfilter]

theorem sessions_broadcast (st : State) (r : String) (f : Frame) (x : Option SessionId) :
    (rooms.broadcastToRoom st r f x).sessions = st.sessions := by
  rw [broadcastToRoom_eq]; rfl

theorem mem_live_iff (st : State) (r : String) (ws : SessionId) :
    ws ∈ live st r ↔ ∃ c, st.roomConnections r = some c ∧ ws ∈ c := by
  unfold live
  cases h : st.roomConnections r with
  | none => simp
  | some c => simp [JSSet.mem_iff]

/-- One call of `joinRoom`, `leaveRoom` or `leaveAllRooms` keeps the registry and the
joined-room sets mirrored and keeps empty sets out of the registry. -/
theorem mirror_apply (st : State) (call : RoomCall)
    (hm : ∀ ws r, ws ∈ live st r ↔ r ∈ (st.sessions ws).rooms)
    (hne : ∀ r c, st.roomConnections r = some c → c.elems ≠ []) :
    (∀ ws r, ws ∈ live (call.apply st) r ↔ r ∈ ((call.apply st).sessions ws).rooms) ∧
      (∀ r c, (call.apply st).roomConnections r = some c → c.elems ≠ []) := by
  cases call with
  | join t r0 =>
    refine ⟨fun ws r => ?_, joinRoom_nonempty st t r0 hne⟩
    show ws ∈ live (rooms.joinRoom st t r0) r ↔ r ∈ ((rooms.joinRoom st t r0).sessions ws).rooms
    rw [mem_live_joinRoom, mem_rooms_joinRoom, hm ws r]
    tauto
  | leave t r0 =>
    refine ⟨fun ws r => ?_, leaveRoom_nonempty st t r0 hne⟩
    show ws ∈ live (rooms.leaveRoom st t r0) r ↔ r ∈ ((rooms.leaveRoom st t r0).sessions ws).rooms
    rw [mem_live_leaveRoom, mem_rooms_leaveRoom, hm ws r]
    tauto
  | leaveAll t =>
    have hcore := leaveMany_core t (st.sessions t).rooms.elems st
    simp only [] at hcore
    obtain ⟨_, _, _, _, _, _, _, _, _, _, h11, h12, h13⟩ := hcore
    refine ⟨fun ws r => ?_, h13 hne⟩
    show ws ∈ live (List.foldl (fun acc room => rooms.leaveRoom acc t room) st
        (st.sessions t).rooms.elems) r ↔
      r ∈ ((List.foldl (fun acc room => rooms.leaveRoom acc t room) st
        (st.sessions t).rooms.elems).sessions ws).rooms
    rw [h11, h12, hm ws r]
    tauto

theorem clients_send (st : State) (ws : SessionId) (f : Frame) :
    (protocol.send st ws f).clients = st.clients := by
  rw [send_eq]; rfl

theorem clients_broadcast (st : State) (r : String) (f : Frame) (x : Option SessionId) :
    (rooms.broadcastToRoom st r f x).clients = st.clients := by
  rw [broadcastToRoom_eq]; rfl

theorem clients_contextBroadcasts (calls : List (Option String × Frame)) (st : State) :
    (calls.foldl handler.contextBroadcast st).clients = st.clients := by
  induction calls generalizing st with
  | nil => rfl
  | cons c cs ih =>
    rw [List.foldl_cons, ih]
    unfold handler.contextBroadcast
    split
    · rfl
    · exact clients_broadcast _ _ _ _

theorem mv_send (st : State) (ws : SessionId) (f : Frame) (t : SessionId) :
    monitorView (protocol.send st ws f) t = monitorView st t := by
  rw [send_eq]; rfl

theorem mv_broadcast (st : State) (r : String) (f : Frame) (x : Option SessionId)
    (t : SessionId) :
    monitorView (rooms.broadcastToRoom st r f x) t = monitorView st t := by
  rw [broadcastToRoom_eq]; rfl

theorem mv_contextBroadcasts (calls : List (Option String × Frame)) (st : State)
    (t : SessionId) :
    monitorView (calls.foldl handler.contextBroadcast st) t = monitorView st t := by
  induction calls generalizing st with
  | nil => rfl
  | cons c cs ih =>
    rw [List.foldl_cons, ih]
    unfold handler.contextBroadcast
    split
    · rfl
    · exact mv_broadcast _ _ _ _ _

theorem mv_joinRoom (st : State) (ws : SessionId) (r : String) (t : SessionId) :
    monitorView (rooms.joinRoom st ws r) t = monitorView st t := by
  unfold monitorView
  rw [joinRoom_session]
  split
  · next h => subst h; rfl
  · rfl

theorem mv_leaveRoom (st : State) (ws : SessionId) (r : String) (t : SessionId) :
    monitorView (rooms.leaveRoom st ws r) t = monitorView st t := by
  unfold monitorView
  rw [leaveRoom_session]
  split
  · next h => subst h; rfl
  · rfl

theorem mv_setUser (st : State) (ws : SessionId) (u : String) (t : SessionId) :
    monitorView (handler.setUser st ws u) t = monitorView st t := by
  unfold monitorView handler.setUser
  by_cases h : t = ws
  · subst h; simp
  · simp [Function.update_noteq h]

theorem handleAuth_mv (env : Env) (st : State) (ws : SessionId) (msg : Msg)
    (ty uuid : String) (now : Nat) :
    (handler.handleAuth env st ws msg ty uuid now).state.clients = st.clients ∧
      ∀ t, monitorView (handler.handleAuth env st ws msg ty uuid now).state t =
        monitorView st t := by
  unfold handler.handleAuth
  simp only []
  repeat' split
  all_goals
    refine ⟨?_, fun t => ?_⟩
  all_goals
    simp only [Outcome.state, clients_send, mv_send, mv_setUser]
  all_goals rfl

theorem handleRoom_mv (env : Env) (st : State) (ws : SessionId) (msg : Msg)
    (ty : String) (now : Nat) :
    (handler.handleRoom env st ws msg ty now).state.clients = st.clients ∧
      ∀ t, monitorView (handler.handleRoom env st ws msg ty now).state t =
        monitorView st t := by
  unfold handler.handleRoom
  simp only []
  repeat' split
  all_goals
    refine ⟨?_, fun t => ?_⟩
  all_goals
    simp only [Outcome.state, clients_send, clients_broadcast, mv_send, mv_broadcast,
      mv_joinRoom]
  all_goals first
    | rfl
    | (show (rooms.leaveRoom _ _ _).clients = _
       show (rooms.broadcastToRoom _ _ _ _).clients = _
       rw [clients_broadcast])
    | (show monitorView (rooms.leaveRoom _ _ _) _ = _
       rw [mv_leaveRoom, mv_broadcast])

theorem handleMessage_mv (st : State) (ws : SessionId) (msg : Msg)
    (ty uuid : String) (now : Nat) :
    (handler.handleMessage st ws msg ty uuid now).state.clients = st.clients ∧
      ∀ t, monitorView (handler.handleMessage st ws msg ty uuid now).state t =
        monitorView st t := by
  unfold handler.handleMessage messages.handleSendMessage
  simp only []
  repeat' split
  all_goals
    refine ⟨?_, fun t => ?_⟩
  all_goals
    simp only [Outcome.state, clients_send, clients_broadcast, mv_send, mv_broadcast]
  all_goals rfl

theorem handleDM_mv (env : Env) (st : State) (ws : SessionId) (msg : Msg)
    (ty : String) (cl : JSSet SessionId) (uuid : String) (now : Nat) :
    (handler.handleDM env st ws msg ty cl uuid now).state.clients = st.clients ∧
      ∀ t, monitorView (handler.handleDM env st ws msg ty cl uuid now).state t =
        monitorView st t := by
  unfold handler.handleDM messages.handleDMSend
  simp only []
  repeat' split
  all_goals
    refine ⟨?_, fun t => ?_⟩
  all_goals
    simp only [Outcome.state, clients_send, clients_broadcast, mv_send, mv_broadcast]
  all_goals rfl

theorem handleCommand_mv (st : State) (ws : SessionId) (msg : Msg)
    (ty uuid : String) (now : Nat) :
    (handler.handleCommand st ws msg ty uuid now).state.clients = st.clients ∧
      ∀ t, monitorView (handler.handleCommand st ws msg ty uuid now).state t =
        monitorView st t := by
  unfold handler.handleCommand
  simp only []
  repeat' split
  all_goals
    refine ⟨?_, fun t => ?_⟩
  all_goals
    simp only [Outcome.state, clients_send, clients_contextBroadcasts, mv_send,
      mv_contextBroadcasts]

theorem onMessage_mv (env : Env) (st : State) (ws : SessionId) (raw : Raw)
    (uuid : String) (now : Nat) :
    (handler.onMessage env st ws raw uuid now).state.clients = st.clients ∧
      ∀ t, monitorView (handler.onMessage env st ws raw uuid now).state t =
        monitorView st t := by
  unfold handler.onMessage
  repeat' split
  all_goals first
    | exact ⟨rfl, fun _ => rfl⟩
    | exact ⟨clients_send _ _ _, fun t => mv_send _ _ _ t⟩
    | exact handleAuth_mv _ _ _ _ _ _ _
    | exact handleRoom_mv _ _ _ _ _ _
    | exact handleMessage_mv _ _ _ _ _ _
    | exact handleDM_mv _ _ _ _ _ _ _ _
    | exact handleCommand_mv _ _ _ _ _ _

theorem heartbeatOne_clients (st : State) (x : SessionId) :
    (handler.heartbeatOne st x).clients = st.clients := by
  unfold handler.heartbeatOne handler.terminate handler.ping
  repeat' split
  all_goals rfl

theorem heartbeat_clients (st : State) : (handler.heartbeat st).clients = st.clients := by
  unfold handler.heartbeat
  generalize st.clients.elems = l
  induction l generalizing st with
  | nil => rfl
  | cons x xs ih => rw [List.foldl_cons, ih, heartbeatOne_clients]

/-- The heartbeat body for one client leaves the other sockets as they are. -/
theorem heartbeatOne_other (st : State) (x t : SessionId) (h : t ≠ x) :
    monitorView (handler.heartbeatOne st x) t = monitorView st t := by
  unfold handler.heartbeatOne handler.terminate handler.ping monitorView
  repeat' split
  all_goals simp [Function.update_noteq h]

/-- What the heartbeat body does to a client depends only on the monitor's view of it. -/
theorem heartbeatOne_self (st : State) (t : SessionId) :
    monitorView (handler.heartbeatOne st t) t =
      if (monitorView st t).1 = false then
        (if (monitorView st t).2.1 = 3 then monitorView st t
         else (false, 2, (monitorView st t).2.2.1, (monitorView st t).2.2.2 + 1))
      else (false, (monitorView st t).2.1,
        (if (monitorView st t).2.1 = 1 then (monitorView st t).2.2.1 + 1
         else (monitorView st t).2.2.1), (monitorView st t).2.2.2) := by
  unfold handler.heartbeatOne handler.terminate handler.ping monitorView
  cases ha : (st.sessions t).isAlive <;> simp [ha] <;> split <;> simp_all

/-- One pass of the heartbeat treats every client by the heartbeat body, on the state
the pass started from, and touches no other socket. -/
theorem heartbeat_view (st : State) (t : SessionId) :
    monitorView (handler.heartbeat st) t =
      if t ∈ st.clients then monitorView (handler.heartbeatOne st t) t
      else monitorView st t := by
  have key : ∀ (l : List SessionId), l.Nodup → ∀ st : State,
      monitorView (l.foldl handler.heartbeatOne st) t =
        if t ∈ l then monitorView (handler.heartbeatOne st t) t else monitorView st t := by
    intro l
    induction l with
    | nil => intro _ st; simp
    | cons x xs ih =>
      intro hnd st
      rw [List.foldl_cons, ih (List.nodup_cons.mp hnd).2 (handler.heartbeatOne st x)]
      by_cases hx : t = x
      · subst hx
        rw [if_neg (List.nodup_cons.mp hnd).1, if_pos (List.mem_cons_self _ _)]
      · have hsame := heartbeatOne_other st x t hx
        have hself : monitorView (handler.heartbeatOne (handler.heartbeatOne st x) t) t =
            monitorView (handler.heartbeatOne st t) t := by
          rw [heartbeatOne_self, heartbeatOne_self, hsame]
        by_cases hin : t ∈ xs
        · rw [if_pos hin, if_pos (List.mem_cons_of_mem _ hin), hself]
        · rw [if_neg hin, if_neg (by simp [hx, hin]), hsame]
  exact key st.clients.elems st.clients.nodup st

theorem closeSocket_view (st : State) (ws t : SessionId) :
    monitorView (closeSocket st ws) t =
      if t = ws then ((st.sessions ws).isAlive, 3, st.probes ws, st.terminations ws)
      else monitorView st t := by
  have hl := leaveMany_core ws
    ((Function.update st.sessions ws { (st.sessions ws) with readyState := 3 } ws).rooms.elems)
    { st with
      sessions := Function.update st.sessions ws { (st.sessions ws) with readyState := 3 }
      clients := st.clients.delete ws }
  simp only [] at hl
  obtain ⟨_, _, _, _, _, h6, h7, _, h9, h10, _⟩ := hl
  have hbase : monitorView ((Function.update st.sessions ws
      { (st.sessions ws) with readyState := 3 } ws).rooms.elems.foldl
      (fun acc room => rooms.leaveRoom acc ws room)
      { st with
        sessions := Function.update st.sessions ws { (st.sessions ws) with readyState := 3 }
        clients := st.clients.delete ws }) t =
      if t = ws then ((st.sessions ws).isAlive, 3, st.probes ws, st.terminations ws)
      else monitorView st t := by
    unfold monitorView
    rw [h9 t, h10 t, h6, h7]
    by_cases ht : t = ws
    · subst ht; simp
    · simp [ht, Function.update_noteq ht]
  unfold closeSocket handler.onClose rooms.leaveAllRooms
  simp only []
  split
  · rw [foldl_broadcast_eq]
    exact hbase
  · exact hbase

theorem mv_isAlive {st st' : State} {t : SessionId} (h : monitorView st' t = monitorView st t) :
    (st'.sessions t).isAlive = (st.sessions t).isAlive := congrArg (fun v => v.1) h

theorem mv_readyState {st st' : State} {t : SessionId}
    (h : monitorView st' t = monitorView st t) :
    (st'.sessions t).readyState = (st.sessions t).readyState := congrArg (fun v => v.2.1) h

theorem mv_probes {st st' : State} {t : SessionId} (h : monitorView st' t = monitorView st t) :
    st'.probes t = st.probes t := congrArg (fun v => v.2.2.1) h

theorem mv_terminations {st st' : State} {t : SessionId}
    (h : monitorView st' t = monitorView st t) :
    st'.terminations t = st.terminations t := congrArg (fun v => v.2.2.2) h

/-- The effect of one event on the client set and on the monitor's view of a socket,
for the events other than the heartbeat. -/
theorem step_view (env : Env) (st : State) (e : Event) (t : SessionId) (he : e ≠ .heartbeat) :
    (step env st e).terminations t = st.terminations t ∧
      (step env st e).probes t = st.probes t ∧
      (t ∈ (step env st e).clients → t ∈ st.clients ∨ (e = .connection ∧ t = st.nextWs)) ∧
      (t ∈ (step env st e).clients →
        ((step env st e).sessions t).readyState = 3 → (st.sessions t).readyState = 3) ∧
      (((step env st e).sessions t).isAlive = (st.sessions t).isAlive ∨
        (((step env st e).sessions t).isAlive = true ∧
          ((e = .pong t ∧ t ∈ st.clients) ∨ (e = .connection ∧ t = st.nextWs)))) ∧
      (e = .pong t → t ∈ st.clients → ((step env st e).sessions t).isAlive = true) ∧
      (e = .connection → t = st.nextWs → ((step env st e).sessions t).isAlive = true) := by
  cases e with
  | connection =>
    refine ⟨rfl, rfl, ?_, ?_, ?_, by simp, ?_⟩
    rotate_right
    · intro _ ht
      subst ht
      show (Function.update st.sessions st.nextWs _ st.nextWs).isAlive = true
      simp
    · intro h
      change t ∈ st.clients.add st.nextWs at h
      rw [JSSet.mem_add] at h
      rcases h with h | h
      · exact Or.inl h
      · exact Or.inr ⟨rfl, h⟩
    · intro _ h
      change (Function.update st.sessions st.nextWs _ t).readyState = 3 at h
      by_cases ht : t = st.nextWs
      · subst ht; simp at h
      · rw [Function.update_noteq ht] at h; exact h
    · show (Function.update st.sessions st.nextWs _ t).isAlive = _ ∨ _
      by_cases ht : t = st.nextWs
      · subst ht; right
        refine ⟨?_, Or.inr ⟨rfl, rfl⟩⟩
        show (Function.update st.sessions st.nextWs _ st.nextWs).isAlive = true
        simp
      · left; rw [Function.update_noteq ht]
  | message ws raw uuid now =>
    simp only [step]
    split
    · obtain ⟨hc, hv⟩ := onMessage_mv env st ws raw uuid now
      refine ⟨mv_terminations (hv t), mv_probes (hv t), ?_, ?_, Or.inl (mv_isAlive (hv t)),
        by simp, by simp⟩
      · intro h; rw [hc] at h; exact Or.inl h
      · intro _ h; rw [mv_readyState (hv t)] at h; exact h
    · exact ⟨rfl, rfl, Or.inl, fun _ h => h, Or.inl rfl, by simp, by simp⟩
  | pong ws =>
    simp only [step]
    split
    · next hc =>
      refine ⟨rfl, rfl, Or.inl, ?_, ?_, ?_, by simp⟩
      · intro _ h
        change (Function.update st.sessions ws _ t).readyState = 3 at h
        by_cases ht : t = ws
        · subst ht; simpa using h
        · rw [Function.update_noteq ht] at h; exact h
      · show (Function.update st.sessions ws _ t).isAlive = _ ∨ _
        by_cases ht : t = ws
        · subst ht; right
          refine ⟨?_, Or.inl ⟨rfl, hc⟩⟩
          show (Function.update st.sessions t _ t).isAlive = true
          simp
        · left; rw [Function.update_noteq ht]
      · intro h _
        have ht : ws = t := by injection h
        subst ht
        show (Function.update st.sessions ws _ ws).isAlive = true
        simp
    · next hc =>
      refine ⟨rfl, rfl, Or.inl, fun _ h => h, Or.inl rfl, ?_, by simp⟩
      intro h hc2
      have ht : ws = t := by injection h
      subst ht
      exact absurd hc2 hc
  | closing ws =>
    simp only [step]
    split
    · refine ⟨rfl, rfl, Or.inl, ?_, ?_, by simp, by simp⟩
      · intro _ h
        change (Function.update st.sessions ws _ t).readyState = 3 at h
        by_cases ht : t = ws
        · subst ht; simp at h
        · rw [Function.update_noteq ht] at h; exact h
      · left
        show (Function.update st.sessions ws _ t).isAlive = _
        by_cases ht : t = ws
        · subst ht; simp
        · rw [Function.update_noteq ht]
    · exact ⟨rfl, rfl, Or.inl, fun _ h => h, Or.inl rfl, by simp, by simp⟩
  | close ws =>
    simp only [step]
    split
    · have hv := closeSocket_view st ws t
      have hcl := (closeSocket_spec st ws).2.2.2.1
      by_cases ht : t = ws
      · subst ht
        rw [if_pos rfl] at hv
        refine ⟨congrArg (fun v => v.2.2.2) hv, congrArg (fun v => v.2.2.1) hv, ?_, ?_,
          Or.inl (congrArg (fun v => v.1) hv), by simp, by simp⟩
        · intro h; rw [hcl, JSSet.mem_delete] at h; exact Or.inl h.1
        · intro h; rw [hcl, JSSet.mem_delete] at h; exact absurd rfl h.2
      · rw [if_neg ht] at hv
        refine ⟨mv_terminations hv, mv_probes hv, ?_, ?_, Or.inl (mv_isAlive hv), by simp,
          by simp⟩
        · intro h; rw [hcl, JSSet.mem_delete] at h; exact Or.inl h.1
        · intro _ h; rw [mv_readyState hv] at h; exact h
    · exact ⟨rfl, rfl, Or.inl, fun _ h => h, Or.inl rfl, by simp, by simp⟩
  | heartbeat => exact absurd rfl he

/-- The heartbeat tick on one client, field by field. -/
theorem heartbeat_client (st : State) (t : SessionId) (hc : t ∈ st.clients) :
    ((handler.heartbeat st).sessions t).isAlive = false ∧
      ((st.sessions t).isAlive = false →
        (handler.heartbeat st).probes t = st.probes t ∧
        (handler.heartbeat st).terminations t =
          st.terminations t + (if (st.sessions t).readyState = 3 then 0 else 1) ∧
        ((handler.heartbeat st).sessions t).readyState =
          (if (st.sessions t).readyState = 3 then 3 else 2)) ∧
      ((st.sessions t).isAlive = true →
        (handler.heartbeat st).probes t =
          st.probes t + (if (st.sessions t).readyState = 1 then 1 else 0) ∧
        (handler.heartbeat st).terminations t = st.terminations t ∧
        ((handler.heartbeat st).sessions t).readyState = (st.sessions t).readyState) := by
  have hv := heartbeat_view st t
  rw [if_pos hc, heartbeatOne_self] at hv
  have h1 := congrArg (fun v => v.1) hv
  have h2 := congrArg (fun v => v.2.1) hv
  have h3 := congrArg (fun v => v.2.2.1) hv
  have h4 := congrArg (fun v => v.2.2.2) hv
  simp only [monitorView] at h1 h2 h3 h4
  cases ha : (st.sessions t).isAlive
  · simp only [ha, if_true] at h1 h2 h3 h4
    by_cases hr : (st.sessions t).readyState = 3
    · simp only [hr, if_true] at h1 h2 h3 h4
      simp [h1, h2, h3, h4, hr, ha]
    · simp only [hr, if_false] at h1 h2 h3 h4
      simp [h1, h2, h3, h4, hr]
  · simp only [ha, Bool.true_eq_false, if_false] at h1 h2 h3 h4
    refine ⟨h1, fun h => absurd h (by simp), fun _ => ⟨?_, h4, h2⟩⟩
    rw [h3]
    split <;> rfl

theorem heartbeat_nonclient (st : State) (t : SessionId) (hc : t ∉ st.clients) :
    monitorView (handler.heartbeat st) t = monitorView st t := by
  rw [heartbeat_view, if_neg hc]

theorem notClosed_step (env : Env) (st : State) (e : Event) (h : ClientsNotClosed st) :
    ClientsNotClosed (step env st e) := by
  intro t ht h3
  by_cases he : e = .heartbeat
  · subst he
    change t ∈ (handler.heartbeat st).clients at ht
    change ((handler.heartbeat st).sessions t).readyState = 3 at h3
    rw [heartbeat_clients] at ht
    obtain ⟨_, hf, htrue⟩ := heartbeat_client st t ht
    cases ha : (st.sessions t).isAlive
    · rw [(hf ha).2.2, if_neg (h t ht)] at h3
      exact absurd h3 (by decide)
    · rw [(htrue ha).2.2] at h3
      exact h t ht h3
  · obtain ⟨_, _, hcl, hrs, _, _⟩ := step_view env st e t he
    rcases hcl ht with hc | ⟨rfl, rfl⟩
    · exact h t hc (hrs ht h3)
    · change (Function.update st.sessions st.nextWs _ st.nextWs).readyState = 3 at h3
      simp at h3

theorem notClosed_of_reachable {env : Env} {st : State} (h : Reachable env st) :
    ClientsNotClosed st := by
  obtain ⟨events, rfl⟩ := h
  have hgen : ∀ (events : List Event) (st : State), ClientsNotClosed st →
      ClientsNotClosed (run env st events) := by
    intro events
    induction events with
    | nil => exact fun _ h => h
    | cons e es ih => exact fun st h => ih (step env st e) (notClosed_step env st e h)
  apply hgen
  intro t ht
  exact absurd ht (JSSet.not_mem_empty t)

/-- Without a pong of `ws`, its liveness flag stays false. -/
theorem quiet_run (env : Env) (ws : SessionId) (events : List Event) (st : State)
    (hlt : ws < st.nextWs) (ha : (st.sessions ws).isAlive = false)
    (hq : ∀ e ∈ events, e ≠ Event.pong ws) :
    ((run env st events).sessions ws).isAlive = false := by
  induction events generalizing st with
  | nil => exact ha
  | cons e es ih =>
    have hlt' : ws < (step env st e).nextWs := lt_of_lt_of_le hlt (step_nextWs env st e)
    refine ih (step env st e) hlt' ?_ (fun x hx => hq x (List.mem_cons_of_mem _ hx))
    by_cases he : e = .heartbeat
    · subst he
      show ((handler.heartbeat st).sessions ws).isAlive = false
      by_cases hc : ws ∈ st.clients
      · exact (heartbeat_client st ws hc).1
      · rw [mv_isAlive (heartbeat_nonclient st ws hc)]; exact ha
    · obtain ⟨_, _, _, _, h5, _, _⟩ := step_view env st e ws he
      rcases h5 with h | ⟨_, ⟨h, _⟩ | ⟨_, h⟩⟩
      · rw [h]; exact ha
      · exact absurd h (hq e (List.mem_cons_self _ _))
      · exact absurd h (Nat.ne_of_lt hlt)

/-- An event other than the heartbeat does not clear the liveness flag of a client. -/
theorem alive_keep (env : Env) (st : State) (e : Event) (ws : SessionId)
    (he : e ≠ .heartbeat) (h : ws ∈ st.clients → (st.sessions ws).isAlive = true) :
    ws ∈ (step env st e).clients → ((step env st e).sessions ws).isAlive = true := by
  intro hc
  obtain ⟨_, _, h3, _, h5, _, h7⟩ := step_view env st e ws he
  rcases h3 hc with hin | ⟨h1, h2⟩
  · rcases h5 with h0 | ⟨h0, _⟩
    · rw [h0]; exact h hin
    · exact h0
  · exact h7 h1 h2

/-- A socket that answers every probe is never terminated by the monitor. -/
theorem answered_run (env : Env) (ws : SessionId) (events : List Event) (st : State)
    (b : Bool) (hP : b = true → ws ∈ st.clients → (st.sessions ws).isAlive = true)
    (hans : answersEvery ws b events) :
    (run env st events).terminations ws = st.terminations ws := by
  induction events generalizing st b with
  | nil => rfl
  | cons e es ih =>
    show (run env (step env st e) es).terminations ws = _
    cases e with
    | heartbeat =>
      obtain ⟨hb, hrest⟩ := hans
      rw [ih (step env st .heartbeat) false (fun h => absurd h (by simp)) hrest]
      show (handler.heartbeat st).terminations ws = _
      by_cases hc : ws ∈ st.clients
      · exact ((heartbeat_client st ws hc).2.2 (hP hb hc)).2.1
      · exact mv_terminations (heartbeat_nonclient st ws hc)
    | pong t =>
      have hrest : answersEvery ws (b || decide (t = ws)) es := hans
      have hne : Event.pong t ≠ .heartbeat := fun h => by cases h
      rw [ih (step env st (.pong t)) _ ?_ hrest, (step_view env st (.pong t) ws hne).1]
      intro hb'
      by_cases ht : t = ws
      · subst ht
        intro hc
        obtain ⟨_, _, h3, _, _, h6, _⟩ := step_view env st (.pong t) t hne
        rcases h3 hc with hin | ⟨h1, _⟩
        · exact h6 rfl hin
        · cases h1
      · have hb : b = true := by simpa [ht] using hb'
        exact alive_keep env st _ ws hne (hP hb)
    | connection =>
      have hne : Event.connection ≠ .heartbeat := fun h => by cases h
      rw [ih (step env st .connection) b (fun hb => alive_keep env st _ ws hne (hP hb)) hans,
        (step_view env st .connection ws hne).1]
    | message s raw uuid now =>
      have hne : Event.message s raw uuid now ≠ .heartbeat := fun h => by cases h
      rw [ih (step env st (.message s raw uuid now)) b
          (fun hb => alive_keep env st _ ws hne (hP hb)) hans,
        (step_view env st (.message s raw uuid now) ws hne).1]
    | closing s =>
      have hne : Event.closing s ≠ .heartbeat := fun h => by cases h
      rw [ih (step env st (.closing s)) b (fun hb => alive_keep env st _ ws hne (hP hb)) hans,
        (step_view env st (.closing s) ws hne).1]
    | close s =>
      have hne : Event.close s ≠ .heartbeat := fun h => by cases h
      rw [ih (step env st (.close s)) b (fun hb => alive_keep env st _ ws hne (hP hb)) hans,
        (step_view env st (.close s) ws hne).1]

theorem reachable_run {env : Env} {st : State} (h : Reachable env st) (events : List Event) :
    Reachable env (run env st events) := by
  obtain ⟨ev0, rfl⟩ := h
  refine ⟨ev0 ++ events, ?_⟩
  unfold run
  rw [List.foldl_append]

theorem tokens_send (st : State) (ws : SessionId) (f : Frame) :
    (protocol.send st ws f).tokens = st.tokens := (send_frame st ws f).2.2.2.1

theorem tokens_broadcast (st : State) (r : String) (f : Frame) (x : Option SessionId) :
    (rooms.broadcastToRoom st r f x).tokens = st.tokens := by
  rw [broadcastToRoom_eq]; rfl

theorem tokens_contextBroadcasts (calls : List (Option String × Frame)) (st : State) :
    (calls.foldl handler.contextBroadcast st).tokens = st.tokens := by
  induction calls generalizing st with
  | nil => rfl
  | cons c cs ih =>
    rw [List.foldl_cons, ih]
    unfold handler.contextBroadcast
    split
    · rfl
    · exact tokens_broadcast _ _ _ _

theorem tokens_createToken (st : State) (uuid u t : String) (h : uuid ≠ t) :
    (auth.createToken st uuid u).tokens t = st.tokens t := by
  unfold auth.createToken
  exact Function.update_noteq (Ne.symm h) _ _

theorem handleAuth_tokens (env : Env) (st : State) (ws : SessionId) (msg : Msg)
    (ty uuid : String) (now : Nat) (t : String) (h : uuid ≠ t) :
    (handler.handleAuth env st ws msg ty uuid now).state.tokens t = st.tokens t := by
  unfold handler.handleAuth
  simp only []
  repeat' split
  all_goals
    simp only [Outcome.state, tokens_send]
  all_goals first
    | rfl
    | exact tokens_createToken _ _ _ _ h

theorem handleRoom_tokens (env : Env) (st : State) (ws : SessionId) (msg : Msg)
    (ty : String) (now : Nat) :
    (handler.handleRoom env st ws msg ty now).state.tokens = st.tokens := by
  unfold handler.handleRoom
  simp only []
  repeat' split
  all_goals
    simp only [Outcome.state, tokens_send, tokens_broadcast]
  all_goals first
    | rfl
    | (show (rooms.leaveRoom _ _ _).tokens = _
       show (rooms.broadcastToRoom _ _ _ _).tokens = _
       rw [tokens_broadcast])

theorem handleMessage_tokens (st : State) (ws : SessionId) (msg : Msg)
    (ty uuid : String) (now : Nat) :
    (handler.handleMessage st ws msg ty uuid now).state.tokens = st.tokens := by
  unfold handler.handleMessage messages.handleSendMessage
  simp only []
  repeat' split
  all_goals
    simp only [Outcome.state, tokens_send, tokens_broadcast]

theorem handleDM_tokens (env : Env) (st : State) (ws : SessionId) (msg : Msg)
    (ty : String) (cl : JSSet SessionId) (uuid : String) (now : Nat) :
    (handler.handleDM env st ws msg ty cl uuid now).state.tokens = st.tokens := by
  unfold handler.handleDM messages.handleDMSend
  simp only []
  repeat' split
  all_goals
    simp only [Outcome.state, tokens_send, tokens_broadcast]

theorem handleCommand_tokens (st : State) (ws : SessionId) (msg : Msg)
    (ty uuid : String) (now : Nat) :
    (handler.handleCommand st ws msg ty uuid now).state.tokens = st.tokens := by
  unfold handler.handleCommand
  simp only []
  repeat' split
  all_goals
    simp only [Outcome.state, tokens_send, tokens_contextBroadcasts]

theorem onMessage_tokens (env : Env) (st : State) (ws : SessionId) (raw : Raw)
    (uuid : String) (now : Nat) (t : String) (h : uuid ≠ t) :
    (handler.onMessage env st ws raw uuid now).state.tokens t = st.tokens t := by
  unfold handler.onMessage
  repeat' split
  all_goals first
    | rfl
    | (rw [Outcome.state, tokens_send])
    | exact handleAuth_tokens _ _ _ _ _ _ _ t h
    | (rw [handleRoom_tokens])
    | (rw [handleMessage_tokens])
    | (rw [handleDM_tokens])
    | (rw [handleCommand_tokens])

theorem heartbeat_tokens (st : State) : (handler.heartbeat st).tokens = st.tokens := by
  unfold handler.heartbeat
  generalize st.clients.elems = l
  induction l generalizing st with
  | nil => rfl
  | cons x xs ih =>
    rw [List.foldl_cons, ih]
    unfold handler.heartbeatOne handler.terminate handler.ping
    repeat' split
    all_goals rfl

theorem step_tokens (env : Env) (st : State) (e : Event) (t : String) (h : ¬ e.usesUuid t) :
    (step env st e).tokens t = st.tokens t := by
  cases e with
  | connection => rfl
  | message ws raw uuid now =>
    simp only [step]
    split
    · exact onMessage_tokens env st ws raw uuid now t h
    · rfl
  | pong ws => simp only [step]; split <;> rfl
  | closing ws => simp only [step]; split <;> rfl
  | close ws =>
    simp only [step]
    split
    · rw [(closeSocket_spec st ws).2.1]
    · rfl
  | heartbeat =>
    show (handler.heartbeat st).tokens t = _
    rw [heartbeat_tokens]

theorem hasProfile_of_users_eq {d d' : Db} {u a b : String} (h : HasProfile d u a b)
    (e : d'.users = d.users) : HasProfile d' u a b := by
  obtain ⟨row, h1, h2⟩ := h
  exact ⟨row, by rw [getUser_of_users_eq e]; exact h1, h2⟩

theorem hasProfile_append {d : Db} {u a b : String} (h : HasProfile d u a b)
    (extra : List UserRow) : HasProfile { d with users := d.users ++ extra } u a b := by
  obtain ⟨row, h1, h2⟩ := h
  refine ⟨row, ?_, h2⟩
  unfold Db.getUser at h1 ⊢
  simp only []
  rw [List.find?_append, h1]
  rfl

/-- An update that keeps user name, avatar and about text of every row keeps profiles. -/
theorem hasProfile_map {d : Db} {u a b : String} (h : HasProfile d u a b)
    (f : UserRow → UserRow) (hn : ∀ row, (f row).username = row.username)
    (ha : ∀ row, (f row).avatar = row.avatar) (hb : ∀ row, (f row).about = row.about) :
    HasProfile { d with users := d.users.map f } u a b := by
  obtain ⟨row, h1, h2, h3⟩ := h
  refine ⟨f row, ?_, by rw [ha]; exact h2, by rw [hb]; exact h3⟩
  unfold Db.getUser at h1 ⊢
  simp only []
  rw [List.find?_map]
  have hcomp : ((fun x : UserRow => decide (x.username = u)) ∘ f) =
      (fun x : UserRow => decide (x.username = u)) := by
    funext x
    simp [hn]
  rw [hcomp, h1]
  rfl

theorem handleAuth_profile (env : Env) (st : State) (ws : SessionId) (msg : Msg)
    (ty uuid : String) (now : Nat) (u a b : String) (hty : ty ≠ "auth:update_profile")
    (h : HasProfile st.db u a b) :
    HasProfile (handler.handleAuth env st ws msg ty uuid now).state.db u a b := by
  unfold handler.handleAuth
  simp only []
  split
  · -- register
    repeat' split
    all_goals first
      | (simp only [Outcome.state, db_send]; exact h)
      | exact h
      | skip
    all_goals
      obtain ⟨rfl, _⟩ := createUser_spec ‹_›
      first
        | exact hasProfile_append h _
        | (simp only [Outcome.state, db_send]; exact hasProfile_append h _)
  · split
    · -- login
      repeat' split
      all_goals (simp only [Outcome.state, db_send]; exact h)
    · split
      · -- resume
        repeat' split
        all_goals (simp only [Outcome.state, db_send]; exact h)
      · split
        · -- change_password
          repeat' split
          all_goals first
            | (simp only [Outcome.state, db_send]; exact h)
            | exact h
            | skip
          all_goals
            simp only [Outcome.state, db_send]
            exact hasProfile_map h _ (fun row => by split <;> rfl) (fun row => by split <;> rfl)
              (fun row => by split <;> rfl)
        · exact h

theorem onMessage_profile (env : Env) (st : State) (ws : SessionId) (msg : Msg)
    (uuid : String) (now : Nat) (u a b : String)
    (hty : msg.type ≠ .str "auth:update_profile") (h : HasProfile st.db u a b) :
    HasProfile (handler.onMessage env st ws (.json msg) uuid now).state.db u a b := by
  unfold handler.onMessage
  simp only [protocol.parse]
  repeat' split
  all_goals first
    | exact h
    | (simp only [Outcome.state, db_send]; exact h)
    | exact hasProfile_of_users_eq h (handleRoom_users _ _ _ _ _ _)
    | exact hasProfile_of_users_eq h (handleMessage_users _ _ _ _ _ _)
    | exact hasProfile_of_users_eq h (handleDM_users _ _ _ _ _ _ _ _)
    | exact hasProfile_of_users_eq h (handleCommand_users _ _ _ _ _ _)
    | skip
  all_goals
    next ty hty2 _ _ =>
    exact handleAuth_profile env st ws msg ty uuid now u a b
      (fun e => hty (by rw [hty2, e])) h

theorem step_profile (env : Env) (st : State) (e : Event) (u a b : String)
    (he : ¬ e.isProfileUpdate) (h : HasProfile st.db u a b) :
    HasProfile (step env st e).db u a b := by
  cases e with
  | connection => exact h
  | message ws raw uuid now =>
    simp only [step]
    split
    · cases raw with
      | unparseable => exact hasProfile_of_users_eq h (by rw [show (handler.onMessage env st ws
          .unparseable uuid now).state = protocol.send st ws (.systemError "Invalid message")
          from rfl, db_send])
      | null => exact hasProfile_of_users_eq h (by rw [show (handler.onMessage env st ws
          .null uuid now).state = protocol.send st ws (.systemError "Invalid message")
          from rfl, db_send])
      | json msg => exact onMessage_profile env st ws msg uuid now u a b he h
    · exact h
  | pong ws => simp only [step]; split <;> exact h
  | closing ws => simp only [step]; split <;> exact h
  | close ws =>
    simp only [step]
    split
    · rw [(closeSocket_spec st ws).1]; exact h
    · exact h
  | heartbeat =>
    show HasProfile (handler.heartbeat st).db u a b
    rw [heartbeat_db]; exact h

theorem run_tokens (env : Env) (events : List Event) (st : State) (t : String)
    (h : ∀ e ∈ events, ¬ e.usesUuid t) : (run env st events).tokens t = st.tokens t := by
  induction events generalizing st with
  | nil => rfl
  | cons e es ih =>
    show (run env (step env st e) es).tokens t = _
    rw [ih (step env st e) (fun x hx => h x (List.mem_cons_of_mem _ hx)),
      step_tokens env st e t (h e (List.mem_cons_self _ _))]

theorem run_profile (env : Env) (events : List Event) (st : State) (u a b : String)
    (he : ∀ e ∈ events, ¬ e.isProfileUpdate) (h : HasProfile st.db u a b) :
    HasProfile (run env st events).db u a b := by
  induction events generalizing st with
  | nil => exact h
  | cons e es ih =>
    exact ih (step env st e) (fun x hx => he x (List.mem_cons_of_mem _ hx))
      (step_profile env st e u a b (he e (List.mem_cons_self _ _)) h)

/-- The closed form of a successful `auth:register`. -/
theorem onMessage_register_ok (env : Env) (st : State) (ws : SessionId) (msg : Msg)
    (u p uuid : String) (now : Nat) (hty : msg.type = .str "auth:register")
    (hu : msg.username = some u) (hune : u ≠ "") (hp : msg.password = some p) (hpne : p ≠ "")
    (hres : handler.RESERVED_USERNAMES.contains (toLowerCase u) = false)
    (hfree : st.db.getUser u = none) :
    handler.onMessage env st ws (.json msg) uuid now =
      .done (protocol.send
        (handler.setUser (auth.createToken
          { st with db := { st.db with users := st.db.users ++
              [⟨u, env.hashPassword p, "", "", now⟩] } } uuid u) ws u) ws
        (.authSuccess uuid ⟨u, "", ""⟩)) := by
  rw [onMessage_str env st ws msg uuid now "auth:register" hty]
  have h0 : ¬ ("auth:register" = "") := by decide
  have h1 : startsWith "auth:register" "auth:" = true := by decide
  have t1 : truthy (some u) = true := (truthy_iff _).mpr ⟨u, rfl, hune⟩
  have t2 : truthy (some p) = true := (truthy_iff _).mpr ⟨p, rfl, hpne⟩
  have hres2 : toLowerCase u ∉ handler.RESERVED_USERNAMES := by simpa using hres
  have hfind : List.find? (fun x : UserRow => decide (x.username = u)) st.db.users = none :=
    hfree
  have hget : (handler.setUser (auth.createToken
      { st with db := { st.db with users := st.db.users ++
          [⟨u, env.hashPassword p, "", "", now⟩] } } uuid u) ws u).db.getUser u =
      some ⟨u, env.hashPassword p, "", "", now⟩ := by
    show Db.getUser { st.db with users := st.db.users ++
      [⟨u, env.hashPassword p, "", "", now⟩] } u = _
    simp [Db.getUser, List.find?_append, hfind]
  simp only [h0, h1, if_false, if_true, handler.handleAuth, hu, hp, t1, t2, Bool.not_true,
    Bool.or_self, Bool.false_eq_true, Option.getD_some, hres, hfree,
    Option.isSome_none, Db.createUser, hget]
  rfl

/-- The closed form of a successful `auth:resume`. -/
theorem onMessage_resume_ok (env : Env) (st : State) (ws : SessionId) (msg : Msg)
    (t u uuid : String) (now : Nat) (row : UserRow) (hty : msg.type = .str "auth:resume")
    (htok : msg.token = some t) (hmap : st.tokens t = some u) (hune : u ≠ "")
    (hrow : st.db.getUser u = some row) :
    handler.onMessage env st ws (.json msg) uuid now =
      .done (protocol.send (handler.setUser st ws u) ws
        (.authSuccess t (handler.userView row))) := by
  rw [onMessage_str env st ws msg uuid now "auth:resume" hty]
  have h0 : ¬ ("auth:resume" = "") := by decide
  have h1 : startsWith "auth:resume" "auth:" = true := by decide
  have e1 : ¬ ("auth:resume" = "auth:register") := by decide
  have e2 : ¬ ("auth:resume" = "auth:login") := by decide
  have t1 : truthy (some u) = true := (truthy_iff _).mpr ⟨u, rfl, hune⟩
  have hget : (handler.setUser st ws u).db.getUser u = some row := hrow
  simp only [h0, h1, e1, e2, if_false, if_true, handler.handleAuth, htok, auth.verifyToken,
    hmap, t1, hget, Option.getD_some]

theorem getUser_username {d : Db} {u : String} {row : UserRow} (h : d.getUser u = some row) :
    row.username = u := by
  unfold Db.getUser at h
  have := List.find?_some h
  simpa using this

/-- A token that maps to a stored user resumes to that user after any events that
neither reuse the token value nor update a profile. -/
theorem resume_after (env : Env) (st1 : State) (ws2 : SessionId) (rmsg : Msg)
    (u a b t uuid2 : String) (now2 : Nat) (events : List Event) (hune : u ≠ "")
    (htok : st1.tokens t = some u) (hprof : HasProfile st1.db u a b)
    (hev : ∀ e ∈ events, ¬ e.usesUuid t ∧ ¬ e.isProfileUpdate)
    (hrty : rmsg.type = .str "auth:resume") (hrtok : rmsg.token = some t) :
    handler.onMessage env (run env st1 events) ws2 (.json rmsg) uuid2 now2 =
      .done (protocol.send (handler.setUser (run env st1 events) ws2 u) ws2
        (.authSuccess t ⟨u, a, b⟩)) := by
  have htok2 := run_tokens env events st1 t (fun e he => (hev e he).1)
  rw [htok] at htok2
  obtain ⟨row, hrow, hav, hab⟩ := run_profile env events st1 u a b (fun e he => (hev e he).2)
    hprof
  have hview : handler.userView row = ⟨u, a, b⟩ := by
    unfold handler.userView
    rw [getUser_username hrow, hav, hab]
  rw [onMessage_resume_ok env _ ws2 rmsg t u uuid2 now2 row hrty hrtok htok2 hune hrow, hview]

theorem getUser_updatePassword {d : Db} {u hp : String} {row : UserRow}
    (h : d.getUser u = some row) :
    (d.updatePassword u hp).getUser u = some { row with password := hp } := by
  have hname : row.username = u := by
    unfold Db.getUser at h
    simpa using List.find?_some h
  unfold Db.getUser at h ⊢
  unfold Db.updatePassword
  simp only []
  rw [List.find?_map]
  have hcomp : ((fun x : UserRow => decide (x.username = u)) ∘
      (fun x : UserRow => if x.username = u then { x with password := hp } else x)) =
      (fun x : UserRow => decide (x.username = u)) := by
    funext x
    simp only [Function.comp]
    split <;> rfl
  rw [hcomp, h]
  simp [hname]

/-- The closed form of `auth:change_password` on an authenticated session. -/
theorem onMessage_change_password (env : Env) (st : State) (ws : SessionId) (msg : Msg)
    (u p1 p2 uuid : String) (now : Nat) (row : UserRow)
    (hty : msg.type = .str "auth:change_password") (hold : msg.oldPassword = some p1)
    (hnew : msg.newPassword = some p2) (hu : (st.sessions ws).identity = some u)
    (hrow : st.db.getUser u = some row) :
    handler.onMessage env st ws (.json msg) uuid now =
      if env.verifyPassword p1 row.password = true then
        .done (protocol.send { st with db := st.db.updatePassword u (env.hashPassword p2) } ws
          .authPasswordChanged)
      else .done (protocol.send st ws (.authError "Incorrect current password")) := by
  obtain ⟨huser, _, htr⟩ := truthy_of_identity hu
  rw [onMessage_str env st ws msg uuid now "auth:change_password" hty]
  have h0 : ¬ ("auth:change_password" = "") := by decide
  have h1 : startsWith "auth:change_password" "auth:" = true := by decide
  have e1 : ¬ ("auth:change_password" = "auth:register") := by decide
  have e2 : ¬ ("auth:change_password" = "auth:login") := by decide
  have e3 : ¬ ("auth:change_password" = "auth:resume") := by decide
  have hget : st.db.getUser ((st.sessions ws).user.getD "") = some row := by
    rw [huser]; exact hrow
  have hd : (st.sessions ws).user.getD "" = u := by rw [huser]; rfl
  simp only [h0, h1, e1, e2, e3, if_false, if_true, handler.handleAuth, htr, Bool.not_true,
    Bool.false_eq_true, hget, hold, hnew, hd]
  cases hv : env.verifyPassword p1 row.password <;> simp [hrow, hv]

/-- The closed form of a successful `auth:login`. -/
theorem onMessage_login_ok (env : Env) (st : State) (ws : SessionId) (msg : Msg)
    (u p uuid : String) (now : Nat) (row : UserRow) (hty : msg.type = .str "auth:login")
    (hu : msg.username = some u) (hune : u ≠ "") (hp : msg.password = some p) (hpne : p ≠ "")
    (hrow : st.db.getUser u = some row) (hv : env.verifyPassword p row.password = true) :
    handler.onMessage env st ws (.json msg) uuid now =
      .done (protocol.send (handler.setUser (auth.createToken st uuid u) ws u) ws
        (.authSuccess uuid (handler.userView row))) := by
  rw [onMessage_str env st ws msg uuid now "auth:login" hty]
  have h0 : ¬ ("auth:login" = "") := by decide
  have h1 : startsWith "auth:login" "auth:" = true := by decide
  have e1 : ¬ ("auth:login" = "auth:register") := by decide
  have t1 : truthy (some u) = true := (truthy_iff _).mpr ⟨u, rfl, hune⟩
  have t2 : truthy (some p) = true := (truthy_iff _).mpr ⟨p, rfl, hpne⟩
  simp [h0, h1, handler.handleAuth, e1, hu, hp, t1, t2, hrow, hv]

/-- With a hasher for which `verify x (hash y)` holds exactly when `x = y`: after a
successful change of password from p1 to a non-empty p2 different from p1, a login with
p1 is answered `Invalid credentials` and a login with p2 binds the same identity; a
change whose old password does not verify is answered `Incorrect current password` and
changes no state besides the reply. -/
theorem change_password_then_login (env : Env)
    (hhash : ∀ x y, env.verifyPassword x (env.hashPassword y) = true ↔ x = y)
    (st : State) (ws ws2 : SessionId) (cmsg lmsg1 lmsg2 : Msg)
    (u p0 p1 p2 uuid uuid2 : String) (now now2 : Nat) (row : UserRow)
    (hty : cmsg.type = .str "auth:change_password") (hold : cmsg.oldPassword = some p0)
    (hnew : cmsg.newPassword = some p2) (hu : (st.sessions ws).identity = some u)
    (hrow : st.db.getUser u = some row) (hstored : row.password = env.hashPassword p1)
    (hp1 : p1 ≠ "") (hp2 : p2 ≠ "") (hne : p2 ≠ p1)
    (hl1 : lmsg1.type = .str "auth:login") (hl1u : lmsg1.username = some u)
    (hl1p : lmsg1.password = some p1)
    (hl2 : lmsg2.type = .str "auth:login") (hl2u : lmsg2.username = some u)
    (hl2p : lmsg2.password = some p2) :
    (p0 ≠ p1 → handler.onMessage env st ws (.json cmsg) uuid now =
        .done (protocol.send st ws (.authError "Incorrect current password"))) ∧
      (p0 = p1 →
        handler.onMessage env st ws (.json cmsg) uuid now =
          .done (protocol.send { st with db := st.db.updatePassword u (env.hashPassword p2) } ws
            .authPasswordChanged) ∧
        handler.onMessage env
            (protocol.send { st with db := st.db.updatePassword u (env.hashPassword p2) } ws
              .authPasswordChanged) ws2 (.json lmsg1) uuid2 now2 =
          .done (protocol.send
            (protocol.send { st with db := st.db.updatePassword u (env.hashPassword p2) } ws
              .authPasswordChanged) ws2 (.authError "Invalid credentials")) ∧
        ∃ st', handler.onMessage env
            (protocol.send { st with db := st.db.updatePassword u (env.hashPassword p2) } ws
              .authPasswordChanged) ws2 (.json lmsg2) uuid2 now2 = .done st' ∧
          (st'.sessions ws2).identity = some u) := by
  have hune := (truthy_of_identity hu).2.1
  have hchange := onMessage_change_password env st ws cmsg u p0 p2 uuid now row hty hold hnew
    hu hrow
  rw [hstored] at hchange
  constructor
  · intro h0
    have hv : ¬ env.verifyPassword p0 (env.hashPassword p1) = true := fun h =>
      h0 ((hhash p0 p1).mp h)
    rw [hchange, if_neg hv]
  · intro h0
    subst h0
    rw [hchange, if_pos ((hhash p0 p0).mpr rfl)]
    have hrow2 : (protocol.send { st with db := st.db.updatePassword u (env.hashPassword p2) } ws
        .authPasswordChanged).db.getUser u = some { row with password := env.hashPassword p2 } := by
      rw [db_send]
      exact getUser_updatePassword hrow
    refine ⟨rfl, ?_, ?_⟩
    · exact onMessage_login_failed env _ ws2 lmsg1 u p0 uuid2 now2 hl1 hl1u hune hl1p hp1
        (Or.inr ⟨_, hrow2, by
          cases hv : env.verifyPassword p0 (env.hashPassword p2)
          · rfl
          · exact absurd ((hhash p0 p2).mp hv) (Ne.symm hne)⟩)
    · refine ⟨_, onMessage_login_ok env _ ws2 lmsg2 u p2 uuid2 now2 _ hl2 hl2u hune hl2p hp2
        hrow2 ((hhash p2 p2).mpr rfl), ?_⟩
      unfold Session.identity
      rw [user_send, user_setUser, if_pos rfl]
      simp [truthy, hune]

/-! ## The event loop with suspended handlers -/

theorem Quiet_refl (st : State) : Quiet st st := ⟨rfl, rfl, rfl, rfl, rfl, rfl⟩

theorem Quiet_send (st : State) (ws : SessionId) (f : Frame) : Quiet st (protocol.send st ws f) := by
  rw [send_eq]; exact ⟨rfl, rfl, rfl, rfl, rfl, rfl⟩

theorem Quiet_broadcast (st : State) (r : String) (f : Frame) (x : Option SessionId) :
    Quiet st (rooms.broadcastToRoom st r f x) := by
  rw [broadcastToRoom_eq]; exact ⟨rfl, rfl, rfl, rfl, rfl, rfl⟩

theorem Quiet_trans {a b c : State} (h1 : Quiet a b) (h2 : Quiet b c) : Quiet a c :=
  ⟨h2.1.trans h1.1, h2.2.1.trans h1.2.1, h2.2.2.1.trans h1.2.2.1,
    h2.2.2.2.1.trans h1.2.2.2.1, h2.2.2.2.2.1.trans h1.2.2.2.2.1,
    h2.2.2.2.2.2.trans h1.2.2.2.2.2⟩

theorem Quiet_contextBroadcasts (calls : List (Option String × Frame)) (st : State) :
    Quiet st (calls.foldl handler.contextBroadcast st) := by
  induction calls generalizing st with
  | nil => exact Quiet_refl st
  | cons c cs ih =>
    rw [List.foldl_cons]
    refine Quiet_trans ?_ (ih _)
    unfold handler.contextBroadcast
    split
    · exact Quiet_refl st
    · exact Quiet_broadcast _ _ _ _

theorem Inv_quiet {st st' : State} (h : Inv st) (q : Quiet st st') : Inv st' := by
  obtain ⟨h1, h2, h3, h4, h5, h6⟩ := q
  refine Inv_congr h (fun ws => by rw [h1]) (fun ws => by rw [h1]) h2 h3 h4
    (fun u hu => by rw [h5]; exact hu) (fun r hr => by rw [h5]; exact hr)
    (fun r hr => h.rooms_named r (by rw [h5] at hr; exact hr)) h6

/-- A frame whose type is none of the suspending ones is handled to its end in the turn
it arrives in. -/
theorem onMessageStart_sync (env : Env) (st : State) (ws : SessionId) (raw : Raw)
    (uuid : String) (now : Nat)
    (h : ∀ msg ty, raw = .json msg → msg.type = .str ty → ¬ suspendingType ty) :
    handler.onMessageStart env st ws raw uuid now =
      (handler.onMessage env st ws raw uuid now, none) := by
  cases raw with
  | unparseable => rfl
  | null => rfl
  | json msg =>
    unfold handler.onMessageStart handler.onMessage
    simp only [protocol.parse]
    cases hty : msg.type with
    | absent => rfl
    | other b => cases b <;> rfl
    | str ty =>
      have hs := h msg ty rfl hty
      simp only [suspendingType, not_or] at hs
      obtain ⟨h1, h2, h3, h4⟩ := hs
      simp only []
      split
      · rfl
      · split
        · unfold handler.handleAuthStart
          simp only [h1, h2, h3, if_false]
        · split
          · rfl
          · split
            · rfl
            · split
              · rfl
              · split
                · rfl
                · split
                  · unfold handler.handleCommandStart
                    simp only [h4, if_false]
                  · split
                    · rfl
                    · rfl

theorem handleAuthStart_susp (env : Env) (st : State) (ws : SessionId) (msg : Msg)
    (ty uuid : String) (now : Nat)
    (hty : ty = "auth:register" ∨ ty = "auth:login" ∨ ty = "auth:change_password") :
    Quiet st (handler.handleAuthStart env st ws msg ty uuid now).1.state ∧
      ∀ p, (handler.handleAuthStart env st ws msg ty uuid now).2 = some p → p.ok st.db := by
  unfold handler.handleAuthStart
  rcases hty with rfl | rfl | rfl
  · simp only [if_true]
    split
    · exact ⟨Quiet_send _ _ _, fun p hp => by simp at hp⟩
    · next hreq =>
      split
      · exact ⟨Quiet_send _ _ _, fun p hp => by simp at hp⟩
      · split
        · exact ⟨Quiet_send _ _ _, fun p hp => by simp at hp⟩
        · refine ⟨Quiet_refl _, fun p hp => ?_⟩
          simp only [Option.some.injEq] at hp
          subst hp
          simp only [Bool.or_eq_true, Bool.not_eq_true', not_or, Bool.not_eq_false] at hreq
          obtain ⟨x, hx, hne⟩ := (truthy_iff _).mp hreq.1
          show msg.username.getD "" ≠ ""
          rw [hx]; exact hne
  · simp only [show ("auth:login" = "auth:register") = False from by decide, if_false, if_true]
    split
    · exact ⟨Quiet_send _ _ _, fun p hp => by simp at hp⟩
    · next hreq =>
      split
      · exact ⟨Quiet_send _ _ _, fun p hp => by simp at hp⟩
      · next user hrow =>
        refine ⟨Quiet_refl _, fun p hp => ?_⟩
        simp only [Option.some.injEq] at hp
        subst hp
        simp only [Bool.or_eq_true, Bool.not_eq_true', not_or, Bool.not_eq_false] at hreq
        obtain ⟨x, hx, hne⟩ := (truthy_iff _).mp hreq.1
        refine ⟨?_, ?_⟩
        · show msg.username.getD "" ≠ ""
          rw [hx]; exact hne
        · rw [hrow]; rfl
  · simp only [show ("auth:change_password" = "auth:register") = False from by decide,
      show ("auth:change_password" = "auth:login") = False from by decide, if_false, if_true]
    split
    · exact ⟨Quiet_send _ _ _, fun p hp => by simp at hp⟩
    · split
      · exact ⟨Quiet_refl _, fun p hp => by simp at hp⟩
      · refine ⟨Quiet_refl _, fun p hp => ?_⟩
        simp only [Option.some.injEq] at hp
        subst hp
        trivial

theorem handleCommandStart_susp (st : State) (ws : SessionId) (msg : Msg)
    (uuid : String) (now : Nat) :
    Quiet st (handler.handleCommandStart st ws msg "command:send" uuid now).1.state ∧
      ∀ p, (handler.handleCommandStart st ws msg "command:send" uuid now).2 = some p →
        p.ok st.db := by
  unfold handler.handleCommandStart
  simp only [if_true]
  split
  · exact ⟨Quiet_send _ _ _, fun p hp => by simp at hp⟩
  · split
    · refine ⟨Quiet_refl _, fun p hp => ?_⟩
      simp only [Option.some.injEq] at hp
      subst hp
      trivial
    · refine ⟨Quiet_contextBroadcasts _ _, fun p hp => ?_⟩
      simp only [Option.some.injEq] at hp
      subst hp
      trivial

/-- A frame of a suspending type changes, in the turn it arrives in, at most what is
written to the sockets. -/
theorem onMessageStart_susp (env : Env) (st : State) (ws : SessionId) (msg : Msg)
    (ty uuid : String) (now : Nat) (hty : msg.type = .str ty) (hs : suspendingType ty) :
    Quiet st (handler.onMessageStart env st ws (.json msg) uuid now).1.state ∧
      ∀ p, (handler.onMessageStart env st ws (.json msg) uuid now).2 = some p → p.ok st.db := by
  unfold handler.onMessageStart
  simp only [protocol.parse, hty]
  rcases hs with rfl | rfl | rfl | rfl
  · simp only [show ("auth:register" = "") = False from by decide,
      show startsWith "auth:register" "auth:" = true from by decide, if_false, if_true]
    exact handleAuthStart_susp env st ws msg _ uuid now (Or.inl rfl)
  · simp only [show ("auth:login" = "") = False from by decide,
      show startsWith "auth:login" "auth:" = true from by decide, if_false, if_true]
    exact handleAuthStart_susp env st ws msg _ uuid now (Or.inr (Or.inl rfl))
  · simp only [show ("auth:change_password" = "") = False from by decide,
      show startsWith "auth:change_password" "auth:" = true from by decide, if_false, if_true]
    exact handleAuthStart_susp env st ws msg _ uuid now (Or.inr (Or.inr rfl))
  · simp only [show ("command:send" = "") = False from by decide,
      show startsWith "command:send" "auth:" = false from by decide,
      show startsWith "command:send" "room:" = false from by decide,
      show startsWith "command:send" "message:" = false from by decide,
      show startsWith "command:send" "dm:" = false from by decide,
      show startsWith "command:send" "command:" = true from by decide, if_false, if_true,
      Bool.false_eq_true]
    split
    · exact ⟨Quiet_send _ _ _, fun p hp => by simp at hp⟩
    · exact handleCommandStart_susp st ws msg uuid now

theorem Pending.ok_mono {d d' : Db} (h : ∀ u, (d.getUser u).isSome → (d'.getUser u).isSome)
    {p : Pending} (hp : p.ok d) : p.ok d' := by
  cases p with
  | register ws u pw => exact hp
  | login ws u pw row => exact ⟨hp.1, h u hp.2⟩
  | changeVerify ws o hh n => trivial
  | changeHash ws n => trivial
  | commandReply ws f => trivial

theorem getUser_append_isSome {d : Db} {u : String} (h : (d.getUser u).isSome)
    (extra : List UserRow) :
    (Db.getUser { d with users := d.users ++ extra } u).isSome := by
  rw [getUser_isSome_iff] at h ⊢
  obtain ⟨row, hm, hx⟩ := h
  exact ⟨row, List.mem_append_left _ hm, hx⟩

theorem createUser_keeps {d d' : Db} {u0 hp : String} {now : Nat}
    (hc : d.createUser u0 hp now = some d') {u : String} (h : (d.getUser u).isSome) :
    (d'.getUser u).isSome := by
  obtain ⟨rfl, _⟩ := createUser_spec hc
  exact getUser_append_isSome h _

theorem handleAuth_keepsUser (env : Env) (st : State) (ws : SessionId) (msg : Msg)
    (ty uuid : String) (now : Nat) (u : String) (h : (st.db.getUser u).isSome) :
    ((handler.handleAuth env st ws msg ty uuid now).state.db.getUser u).isSome := by
  unfold handler.handleAuth
  simp only []
  repeat' split
  all_goals first
    | exact h
    | (simp only [Outcome.state, db_send]; exact h)
    | exact createUser_keeps ‹_› h
    | (simp only [Outcome.state, db_send]; exact createUser_keeps ‹_› h)
    | (simp only [Outcome.state, db_send]
       exact (updatePassword_getUser_isSome _ _ _ _).mpr h)
    | (simp only [Outcome.state, db_send]
       exact (updateProfile_getUser_isSome _ _ _ _ _).mpr h)

theorem onMessage_keepsUser (env : Env) (st : State) (ws : SessionId) (raw : Raw)
    (uuid : String) (now : Nat) (u : String) (h : (st.db.getUser u).isSome) :
    ((handler.onMessage env st ws raw uuid now).state.db.getUser u).isSome := by
  unfold handler.onMessage
  repeat' split
  all_goals first
    | exact h
    | (simp only [Outcome.state, db_send]; exact h)
    | exact handleAuth_keepsUser env st ws _ _ uuid now u h
    | (rw [getUser_of_users_eq (handleRoom_users _ _ _ _ _ _)]; exact h)
    | (rw [getUser_of_users_eq (handleMessage_users _ _ _ _ _ _)]; exact h)
    | (rw [getUser_of_users_eq (handleDM_users _ _ _ _ _ _ _ _)]; exact h)
    | (rw [getUser_of_users_eq (handleCommand_users _ _ _ _ _ _)]; exact h)

theorem step_keepsUser (env : Env) (st : State) (e : Event) (u : String)
    (h : (st.db.getUser u).isSome) : ((step env st e).db.getUser u).isSome := by
  cases e with
  | connection => exact h
  | message ws raw uuid now =>
    simp only [step]
    split
    · exact onMessage_keepsUser env st ws raw uuid now u h
    · exact h
  | pong ws => simp only [step]; split <;> exact h
  | closing ws => simp only [step]; split <;> exact h
  | close ws =>
    simp only [step]
    split
    · rw [(closeSocket_spec st ws).1]; exact h
    · exact h
  | heartbeat =>
    show ((handler.heartbeat st).db.getUser u).isSome
    rw [heartbeat_db]; exact h

theorem afterAwait_keepsUser (env : Env) (st : State) (p : Pending) (uuid : String)
    (now : Nat) (u : String) (h : (st.db.getUser u).isSome) :
    ((handler.afterAwait env st p uuid now).1.state.db.getUser u).isSome := by
  unfold handler.afterAwait
  simp only []
  repeat' split
  all_goals first
    | exact h
    | (simp only [Outcome.state, db_send]; exact h)
    | exact createUser_keeps ‹_› h
    | (simp only [Outcome.state, db_send]; exact createUser_keeps ‹_› h)
    | (simp only [Outcome.state, db_send]
       exact (updatePassword_getUser_isSome _ _ _ _).mpr h)

theorem afterAwait_rc (env : Env) (st : State) (p : Pending) (uuid : String) (now : Nat) :
    (handler.afterAwait env st p uuid now).1.state.roomConnections = st.roomConnections := by
  unfold handler.afterAwait
  simp only []
  repeat' split
  all_goals first
    | rfl
    | exact rc_send _ _ _

theorem afterAwait_nextWs (env : Env) (st : State) (p : Pending) (uuid : String) (now : Nat) :
    (handler.afterAwait env st p uuid now).1.state.nextWs = st.nextWs := by
  unfold handler.afterAwait
  simp only []
  repeat' split
  all_goals first
    | rfl
    | exact nextWs_send _ _ _

theorem createUser_members {d d' : Db} {u0 hp : String} {now : Nat}
    (hc : d.createUser u0 hp now = some d') : d'.room_members = d.room_members := by
  obtain ⟨rfl, _⟩ := createUser_spec hc
  rfl

theorem afterAwait_members (env : Env) (st : State) (p : Pending) (uuid : String) (now : Nat) :
    (handler.afterAwait env st p uuid now).1.state.db.room_members = st.db.room_members := by
  unfold handler.afterAwait
  simp only []
  repeat' split
  all_goals
    simp only [Outcome.state, db_send]
  all_goals first
    | rfl
    | exact createUser_members ‹_›

theorem afterAwait_user (env : Env) (st : State) (p : Pending) (uuid : String) (now : Nat)
    (hok : p.ok st.db) (t : SessionId) :
    ((handler.afterAwait env st p uuid now).1.state.sessions t).user = (st.sessions t).user ∨
      (p.bindsOn t ∧
        ∃ u, u ≠ "" ∧ ((handler.afterAwait env st p uuid now).1.state.sessions t).user
          = some u) := by
  cases p with
  | register ws username password =>
    unfold handler.afterAwait
    simp only []
    split
    · exact Or.inl rfl
    · by_cases ht : t = ws
      · refine Or.inr ⟨ht.symm, username, hok, ?_⟩
        split
        · simp only [Outcome.state, user_setUser, if_pos ht]
        · simp only [Outcome.state, user_send, user_setUser, if_pos ht]
      · left
        split
        · simp only [Outcome.state, user_setUser, if_neg ht]; rfl
        · simp only [Outcome.state, user_send, user_setUser, if_neg ht]; rfl
  | login ws username password user =>
    unfold handler.afterAwait
    simp only []
    split
    · exact Or.inl (user_send _ _ _ _)
    · by_cases ht : t = ws
      · refine Or.inr ⟨ht.symm, username, hok.1, ?_⟩
        simp only [Outcome.state, user_send, user_setUser, if_pos ht]
      · left
        simp only [Outcome.state, user_send, user_setUser, if_neg ht]; rfl
  | changeVerify ws o hh n =>
    left
    unfold handler.afterAwait
    simp only []
    repeat' split
    all_goals first
      | rfl
      | exact user_send _ _ _ _
  | changeHash ws n =>
    left
    unfold handler.afterAwait
    simp only []
    repeat' split
    all_goals first
      | rfl
      | exact user_send _ _ _ _
  | commandReply ws f => exact Or.inl (user_send _ _ _ _)

theorem Inv_afterAwait (env : Env) {st : State} (h : Inv st) (p : Pending) (uuid : String)
    (now : Nat) (hok : p.ok st.db) : Inv (handler.afterAwait env st p uuid now).1.state := by
  cases p with
  | register ws username password =>
    unfold handler.afterAwait
    simp only []
    split
    · exact h
    · next db hdb =>
      obtain ⟨rfl, _⟩ := createUser_spec hdb
      have hrow : (Db.getUser { st.db with users := st.db.users ++
          [⟨username, env.hashPassword password, "", "", now⟩] } username).isSome := by
        rw [getUser_isSome_iff]
        exact ⟨_, List.mem_append_right _ (List.mem_singleton.mpr rfl), rfl⟩
      have h1 : Inv { st with db := { st.db with users := st.db.users ++
          [⟨username, env.hashPassword password, "", "", now⟩] } } :=
        Inv_setDb h _ (fun u hu => getUser_append_isSome hu _) (fun r => Iff.rfl)
      have h2 := Inv_setUser (Inv_createToken h1 uuid _ hrow) ws _ hok hrow
      split
      · exact h2
      · exact Inv_send h2 _ _
  | login ws username password user =>
    unfold handler.afterAwait
    simp only []
    split
    · exact Inv_send h _ _
    · exact Inv_send (Inv_setUser (Inv_createToken h uuid _ hok.2) ws _ hok.1 hok.2) _ _
  | changeVerify ws o hh n =>
    unfold handler.afterAwait
    simp only []
    repeat' split
    all_goals first
      | exact h
      | exact Inv_send h _ _
  | changeHash ws n =>
    unfold handler.afterAwait
    simp only []
    split
    · exact h
    · refine Inv_send (Inv_setDb h _ (fun u hu => ?_) (fun r => ?_)) _ _
      · split
        · exact hu
        · exact (updatePassword_getUser_isSome _ _ _ _).mpr hu
      · split
        · exact Iff.rfl
        · exact Iff.rfl
  | commandReply ws f => exact Inv_send h _ _

theorem afterAwait_pending (env : Env) (st : State) (p : Pending) (uuid : String) (now : Nat)
    (d : Db) (q : Pending) (hq : (handler.afterAwait env st p uuid now).2 = some q) :
    q.ok d := by
  unfold handler.afterAwait at hq
  cases p with
  | register ws username password =>
    simp only [] at hq
    repeat' split at hq
    all_goals simp at hq
  | login ws username password user =>
    simp only [] at hq
    repeat' split at hq
    all_goals simp at hq
  | changeVerify ws o hh n =>
    simp only [] at hq
    repeat' split at hq
    all_goals first
      | (simp only [Option.some.injEq] at hq; subst hq; trivial)
      | simp at hq
  | changeHash ws n =>
    simp only [] at hq
    repeat' split at hq
    all_goals simp at hq
  | commandReply ws f => simp at hq

theorem raw_cases (raw : Raw) :
    (∃ msg ty, raw = .json msg ∧ msg.type = .str ty ∧ suspendingType ty) ∨
      (∀ msg ty, raw = .json msg → msg.type = .str ty → ¬ suspendingType ty) := by
  by_cases h : ∃ msg ty, raw = .json msg ∧ msg.type = .str ty ∧ suspendingType ty
  · exact Or.inl h
  · exact Or.inr (fun msg ty h1 h2 h3 => h ⟨msg, ty, h1, h2, h3⟩)

theorem AInv_init : AInv AState.init := ⟨Inv_init, fun p hp => by simp [AState.init] at hp⟩

theorem AInv_astep (env : Env) {a : AState} (h : AInv a) (e : AEvent) : AInv (astep env a e) := by
  obtain ⟨hinv, hpend⟩ := h
  have other : ∀ e0 : Event, AInv ⟨step env a.st e0, a.pending⟩ := fun e0 =>
    ⟨Inv_step env hinv e0, fun p hp =>
      Pending.ok_mono (fun u hu => step_keepsUser env a.st e0 u hu) (hpend p hp)⟩
  cases e with
  | ev e0 =>
    cases e0 with
    | message ws raw uuid now =>
      simp only [astep]
      split
      · next hc =>
        rcases raw_cases raw with ⟨msg, ty, rfl, hty, hs⟩ | hsync
        · obtain ⟨hq, hnew⟩ := onMessageStart_susp env a.st ws msg ty uuid now hty hs
          refine ⟨Inv_quiet hinv hq, fun p hp => ?_⟩
          simp only [List.mem_append, Option.mem_toList, Option.mem_def] at hp
          rcases hp with hp | hp
          · exact Pending.ok_mono (fun u hu => by rw [hq.2.2.2.2.1]; exact hu) (hpend p hp)
          · exact Pending.ok_mono (fun u hu => by rw [hq.2.2.2.2.1]; exact hu) (hnew p hp)
        · rw [onMessageStart_sync env a.st ws raw uuid now hsync]
          refine ⟨Inv_onMessage env hinv ws hc raw uuid now, fun p hp => ?_⟩
          simp only [Option.toList, List.append_nil] at hp
          exact Pending.ok_mono (fun u hu => onMessage_keepsUser env a.st ws raw uuid now u hu)
            (hpend p hp)
      · exact ⟨hinv, hpend⟩
    | connection => exact other .connection
    | pong ws => exact other (.pong ws)
    | closing ws => exact other (.closing ws)
    | close ws => exact other (.close ws)
    | heartbeat => exact other .heartbeat
  | settle p uuid now =>
    simp only [astep]
    split
    · next hp =>
      refine ⟨Inv_afterAwait env hinv p uuid now (hpend p hp), fun q hq => ?_⟩
      simp only [List.mem_append, Option.mem_toList, Option.mem_def] at hq
      rcases hq with hq | hq
      · exact Pending.ok_mono (fun u hu => afterAwait_keepsUser env a.st p uuid now u hu)
          (hpend q (List.mem_of_mem_erase hq))
      · exact afterAwait_pending env a.st p uuid now _ q hq
    · exact ⟨hinv, hpend⟩

theorem AInv_arun (env : Env) {a : AState} (h : AInv a) (events : List AEvent) :
    AInv (arun env a events) := by
  induction events generalizing a with
  | nil => exact h
  | cons e es ih => exact ih (AInv_astep env h e)

theorem astep_nextWs (env : Env) (a : AState) (e : AEvent) :
    a.st.nextWs ≤ (astep env a e).st.nextWs := by
  cases e with
  | ev e0 =>
    cases e0 with
    | message ws raw uuid now =>
      simp only [astep]
      split
      · rcases raw_cases raw with ⟨msg, ty, rfl, hty, hs⟩ | hsync
        · exact le_of_eq (onMessageStart_susp env a.st ws msg ty uuid now hty hs).1.2.2.1.symm
        · rw [onMessageStart_sync env a.st ws raw uuid now hsync]
          exact le_of_eq (onMessage_nextWs _ _ _ _ _ _).symm
      · exact le_refl _
    | connection => exact step_nextWs env a.st .connection
    | pong ws => exact step_nextWs env a.st (.pong ws)
    | closing ws => exact step_nextWs env a.st (.closing ws)
    | close ws => exact step_nextWs env a.st (.close ws)
    | heartbeat => exact step_nextWs env a.st .heartbeat
  | settle p uuid now =>
    simp only [astep]
    split
    · exact le_of_eq (afterAwait_nextWs env a.st p uuid now).symm
    · exact le_refl _

theorem resume_of_bind_sync {ty : String} (hb : isBindType ty) (hs : ¬ suspendingType ty) :
    ty = "auth:resume" := by
  simp only [suspendingType, not_or] at hs
  rcases hb with h | h | h
  · exact absurd h hs.1
  · exact absurd h hs.2.1
  · exact h

theorem astep_user (env : Env) (a : AState) (e : AEvent) (ws : SessionId)
    (hok : ∀ p ∈ a.pending, p.ok a.st.db) (hlt : ws < a.st.nextWs) :
    ((astep env a e).st.sessions ws).user = (a.st.sessions ws).user ∨
      (e.isBindOn ws ∧ ∃ u, u ≠ "" ∧ ((astep env a e).st.sessions ws).user = some u) := by
  have other : ∀ e0 : Event, ¬ e0.isBindOn ws →
      ((step env a.st e0).sessions ws).user = (a.st.sessions ws).user := by
    intro e0 hn
    rcases step_user env a.st e0 ws hlt with h | ⟨h, _⟩
    · exact h
    · exact absurd h hn
  cases e with
  | ev e0 =>
    cases e0 with
    | message t raw uuid now =>
      simp only [astep]
      split
      · rcases raw_cases raw with ⟨msg, ty, rfl, hty, hs⟩ | hsync
        · left
          rw [(onMessageStart_susp env a.st t msg ty uuid now hty hs).1.1]
        · rw [onMessageStart_sync env a.st t raw uuid now hsync]
          rcases onMessage_user env a.st t raw uuid now ws with
            h | ⟨h1, ⟨msg, ty, h2, h3, h4⟩, h5⟩
          · exact Or.inl h
          · subst h2
            have hr := resume_of_bind_sync h4 (hsync msg ty rfl h3)
            subst hr
            exact Or.inr ⟨⟨h1.symm, h3⟩, h5⟩
      · exact Or.inl rfl
    | connection => exact Or.inl (other .connection (fun h => h))
    | pong t => exact Or.inl (other (.pong t) (fun h => h))
    | closing t => exact Or.inl (other (.closing t) (fun h => h))
    | close t => exact Or.inl (other (.close t) (fun h => h))
    | heartbeat => exact Or.inl (other .heartbeat (fun h => h))
  | settle p uuid now =>
    simp only [astep]
    split
    · next hp => exact afterAwait_user env a.st p uuid now (hok p hp) ws
    · exact Or.inl rfl

theorem LD_astep (env : Env) {a : AState} (hinv : AInv a) (h : LiveDurable a.st) (e : AEvent)
    (hg : e.keepsDurable a.st) : LiveDurable (astep env a e).st := by
  cases e with
  | ev e0 =>
    cases e0 with
    | message ws raw uuid now =>
      simp only [astep]
      split
      · rcases raw_cases raw with ⟨msg, ty, rfl, hty, hs⟩ | hsync
        · obtain ⟨hq, _⟩ := onMessageStart_susp env a.st ws msg ty uuid now hty hs
          exact LD_congr h hq.2.2.2.1 (fun t => by rw [hq.1]) (by rw [hq.2.2.2.2.1])
        · rw [onMessageStart_sync env a.st ws raw uuid now hsync]
          refine LD_onMessage env h ws raw uuid now ?_
          cases raw with
          | unparseable => trivial
          | null => trivial
          | json msg =>
            show frameKeepsDurable a.st ws msg msg.type
            cases hty : msg.type with
            | absent => trivial
            | other b => trivial
            | str ty =>
              have hg2 : (msg.type = .str "auth:resume" → (a.st.sessions ws).identity = none) ∧
                  (msg.type = .str "room:leave" → ∀ t ∈ live a.st (msg.room.getD ""), t ≠ ws →
                    (a.st.sessions t).identity ≠ (a.st.sessions ws).identity) := hg
              refine ⟨fun hb => ?_, fun hl => ?_⟩
              · have hr := resume_of_bind_sync hb (hsync msg ty rfl hty)
                exact hg2.1 (by rw [hty, hr])
              · exact hg2.2 (by rw [hty, hl])
      · exact h
    | connection => exact LD_step env hinv.1 h .connection trivial
    | pong ws => exact LD_step env hinv.1 h (.pong ws) trivial
    | closing ws => exact LD_step env hinv.1 h (.closing ws) trivial
    | close ws => exact LD_step env hinv.1 h (.close ws) trivial
    | heartbeat => exact LD_step env hinv.1 h .heartbeat trivial
  | settle p uuid now =>
    simp only [astep]
    split
    · next hp =>
      have hg2 : ∀ ws, p.bindsOn ws → (a.st.sessions ws).identity = none := by
        intro t ht
        cases p with
        | register ws u pw => cases ht; exact hg
        | login ws u pw row => cases ht; exact hg
        | changeVerify ws o hh n => exact absurd ht (fun h => h)
        | changeHash ws n => exact absurd ht (fun h => h)
        | commandReply ws f => exact absurd ht (fun h => h)
      intro r s hs
      have hl : live (handler.afterAwait env a.st p uuid now).1.state r = live a.st r := by
        simp [live, afterAwait_rc]
      rw [hl] at hs
      obtain ⟨u, hu, hmem⟩ := h r s hs
      refine ⟨u, ?_, ?_⟩
      · rcases afterAwait_user env a.st p uuid now (hinv.2 p hp) s with hsame | ⟨hb, _⟩
        · rw [identity_congr hsame]; exact hu
        · rw [hg2 s hb] at hu
          exact absurd hu (by simp)
      · unfold Db.isRoomMember at hmem ⊢
        rw [afterAwait_members]; exact hmem
    · exact h

theorem LD_arun (env : Env) (events : List AEvent) {a : AState} (hinv : AInv a)
    (h : LiveDurable a.st) (hg : durableTurns env a events) :
    LiveDurable (arun env a events).st := by
  induction events generalizing a with
  | nil => exact h
  | cons e es ih =>
    exact ih (AInv_astep env hinv e) (LD_astep env hinv h e hg.1) hg.2

theorem bound_arun (env : Env) (events : List AEvent) (a : AState) (hinv : AInv a)
    (ws : SessionId) (u : String) (hlt : ws < a.st.nextWs)
    (hu : (a.st.sessions ws).identity = some u) :
    ((arun env a events).st.sessions ws).identity.isSome = true ∧
      ((∀ e ∈ events, ¬ e.isBindOn ws) →
        ((arun env a events).st.sessions ws).identity = some u) := by
  induction events generalizing a u with
  | nil => exact ⟨by rw [show arun env a [] = a from rfl, hu]; rfl, fun _ => hu⟩
  | cons e es ih =>
    have hlt' : ws < (astep env a e).st.nextWs := lt_of_lt_of_le hlt (astep_nextWs env a e)
    have hinv' := AInv_astep env hinv e
    rcases astep_user env a e ws hinv.2 hlt with h | ⟨hb, v, hv, hv2⟩
    · have hu' : ((astep env a e).st.sessions ws).identity = some u := by
        rw [identity_congr h]; exact hu
      obtain ⟨h1, h2⟩ := ih (astep env a e) hinv' u hlt' hu'
      exact ⟨h1, fun hno => h2 (fun x hx => hno x (List.mem_cons_of_mem _ hx))⟩
    · have hv' : ((astep env a e).st.sessions ws).identity = some v := by
        unfold Session.identity
        rw [hv2]
        simp [truthy, hv]
      obtain ⟨h1, _⟩ := ih (astep env a e) hinv' v hlt' hv'
      exact ⟨h1, fun hno => absurd hb (hno e (List.mem_cons_self _ _))⟩

theorem AInv_of_reachable {env : Env} {a : AState} (h : AReachable env a) : AInv a := by
  obtain ⟨events, rfl⟩ := h
  exact AInv_arun env AInv_init events

/-! # The claims -/

/-- C1: in a reachable state, a `message:send` frame with a non-empty message from
an authenticated session `s` to a room `r` of its joined-room set (the id drawn
by `uuidv4` being new) persists exactly one row (sender the identity of `s`, room
`r`, the body, the metadata or the empty object) and writes one `message:new`
event with that id, timestamp, sender, room, body and metadata to every open
session of the live set of `r` and to no other; `s` is in that live set. -/
theorem C1_send_message_persists_and_fans_out (env : Env) (st : State)
    (hreach : Reachable env st) (s : SessionId) (msg : Msg) (r m u uuid : String) (now : Nat)
    (hty : msg.type = .str "message:send") (hroom : msg.room = some r)
    (hmsg : msg.message = some m) (hm : m ≠ "")
    (hu : (st.sessions s).identity = some u) (hjoined : r ∈ (st.sessions s).rooms)
    (hfresh : ∀ row ∈ st.db.messages, row.id ≠ uuid) :
    ∃ st', handler.onMessage env st s (.json msg) uuid now = .done st' ∧
      st'.db = { st.db with messages := st.db.messages ++
        [⟨uuid, r, u, m, msg.metadata.getD emptyObject, now⟩] } ∧
      (∀ t, st'.outbox t =
        if t ∈ live st r ∧ (st.sessions t).isOpen = true then
          st.outbox t ++
            [Frame.messageNew uuid (some u) (some r) now m (msg.metadata.getD emptyObject)]
        else st.outbox t) ∧
      s ∈ live st r ∧
      st'.roomConnections = st.roomConnections ∧ st'.sessions = st.sessions := by
  have hinv := Inv_of_reachable hreach
  obtain ⟨huser, hune, htr⟩ := truthy_of_identity hu
  have hrow := hinv.joined_exists s r hjoined
  have hrne : r ≠ "" := hinv.rooms_named r hrow
  have hurow := (hinv.user_ok s u huser).2
  have hlive : s ∈ live st r := (hinv.mirror s r).mpr hjoined
  rw [onMessage_message_send env st s msg uuid now hty htr]
  unfold messages.handleSendMessage
  have hc1 : (!truthy msg.room || !truthy msg.message) = false := by
    simp [hroom, hmsg, truthy, hrne, hm]
  have hc2 : (!(st.sessions s).rooms.has (msg.room.getD "")) = false := by
    simp [hroom, JSSet.has, JSSet.mem_iff] 
    exact hjoined
  simp only [hc1, hc2, Bool.false_eq_true, if_false]
  simp only [hroom, hmsg, huser, Option.getD_some]
  rw [saveMessage_ok st.db uuid r u m _ now hfresh hrow hurow]
  simp only []
  refine ⟨_, rfl, ?_, ?_, hlive, ?_, ?_⟩
  · rw [broadcastToRoom_eq]; rfl
  · intro t
    exact broadcast_outbox _ r _ t
  · rw [broadcastToRoom_eq]; rfl
  · rw [broadcastToRoom_eq]; rfl

/-- Witness of C1: Alice sends "hi" to `general`; Bob is written the event. -/
theorem C1_witness :
    (handler.onMessage demoEnv demoState 0 (.json (demoSend "general" "hi")) "m1" 6).state.outbox 1
      = demoState.outbox 1 ++
          [Frame.messageNew "m1" (some "alice") (some "general") 6 "hi" emptyObject] := by
  obtain ⟨st', hrun, _, hout, _, _, _⟩ :=
    C1_send_message_persists_and_fans_out demoEnv demoState ⟨demoEvents, rfl⟩ 0
      (demoSend "general" "hi") "general" "hi" "alice" "m1" 6 rfl rfl rfl (by decide)
      (by decide) (by decide) (by decide)
  rw [hrun]
  show st'.outbox 1 = _
  rw [hout 1, if_pos (by decide)]
  rfl

/-- Counterexample to C2 as stated: Bob has not joined `lobby`, and his `message:send`
frame for `lobby` without a message is answered with `Missing room or message`,
not with the not-joined error. -/
theorem C2_counterexample :
    (demoState.sessions 1).identity = some "bob" ∧ "lobby" ∉ (demoState.sessions 1).rooms ∧
      (handler.onMessage demoEnv demoState 1
          (.json { type := .str "message:send", room := some "lobby" }) "m1" 6).state.outbox 1
        = demoState.outbox 1 ++ [Frame.systemError "Missing room or message"] ∧
      (handler.onMessage demoEnv demoState 1
          (.json { type := .str "message:send", room := some "lobby" }) "m1" 6).state.outbox 1
        ≠ demoState.outbox 1 ++ [Frame.systemError "You have not joined this room"] := by
  decide

/-- C2 (amended): a `message:send` frame with a non-empty room name and a non-empty
message, sent by an authenticated session `s` to a room that is not in its
joined-room set, is answered to `s` with the error `You have not joined this room`;
the database, the registry and the sessions are unchanged and nothing is written
to any other socket. -/
theorem C2_not_joined_rejected (env : Env) (st : State) (s : SessionId) (msg : Msg)
    (r m u uuid : String) (now : Nat)
    (hty : msg.type = .str "message:send") (hroom : msg.room = some r) (hr : r ≠ "")
    (hmsg : msg.message = some m) (hm : m ≠ "")
    (hu : (st.sessions s).identity = some u) (hnot : r ∉ (st.sessions s).rooms) :
    ∃ st', handler.onMessage env st s (.json msg) uuid now = .done st' ∧
      st'.db = st.db ∧ st'.roomConnections = st.roomConnections ∧ st'.sessions = st.sessions ∧
      ∀ t, st'.outbox t =
        if t = s ∧ (st.sessions s).isOpen = true then
          st.outbox t ++ [Frame.systemError "You have not joined this room"]
        else st.outbox t := by
  obtain ⟨huser, hune, htr⟩ := truthy_of_identity hu
  rw [onMessage_message_send env st s msg uuid now hty htr]
  unfold messages.handleSendMessage
  have hc1 : (!truthy msg.room || !truthy msg.message) = false := by
    simp [hroom, hmsg, truthy, hr, hm]
  have hc2 : (!(st.sessions s).rooms.has (msg.room.getD "")) = true := by
    simp [hroom, JSSet.has, JSSet.mem_iff]
    exact hnot
  simp only [hc1, hc2, Bool.false_eq_true, if_false, if_true]
  refine ⟨_, rfl, ?_, ?_, ?_, ?_⟩
  · rw [send_eq]; rfl
  · rw [send_eq]; rfl
  · rw [send_eq]; rfl
  · intro t
    exact send_outbox st s _ t

/-- Witness of C2: Bob sends "x" to `lobby`, which he has not joined. -/
theorem C2_witness :
    (handler.onMessage demoEnv demoState 1 (.json (demoSend "lobby" "x")) "m1" 6).state.outbox 1
      = demoState.outbox 1 ++ [Frame.systemError "You have not joined this room"] := by
  obtain ⟨st', hrun, _, _, _, hout⟩ :=
    C2_not_joined_rejected demoEnv demoState 1 (demoSend "lobby" "x") "lobby" "x" "bob" "m1" 6
      rfl rfl (by decide) rfl (by decide) (by decide) (by decide)
  rw [hrun]
  show st'.outbox 1 = _
  rw [hout 1, if_pos (by decide)]

/-- C3: in a reachable state, `room:join r` by an authenticated session `s` bound
to `u`, for a durably recorded room `r`, leaves `(r, u)` in durable membership
(a row is added only when none was present), `s` in the live set of `r` and `r`
in the joined-room set of `s`, and writes `room:joined` for `r` and `u` to every
open session of the live set of `r`, `s` included, which also gets the direct reply. -/
theorem C3_join_room (env : Env) (st : State) (hreach : Reachable env st) (s : SessionId)
    (msg : Msg) (r u uuid : String) (now : Nat)
    (hty : msg.type = .str "room:join") (hroom : msg.room = some r)
    (hu : (st.sessions s).identity = some u) (hdur : (st.db.getRoom r).isSome) :
    ∃ st', handler.onMessage env st s (.json msg) uuid now = .done st' ∧
      st'.db.room_members =
        (if st.db.isRoomMember r u then st.db.room_members
         else st.db.room_members ++ [⟨r, u, now⟩]) ∧
      st'.db.isRoomMember r u = true ∧
      s ∈ live st' r ∧ r ∈ (st'.sessions s).rooms ∧
      ∀ t, st'.outbox t =
        st.outbox t ++
          (if t ∈ live st' r ∧ (st'.sessions t).isOpen = true then [Frame.roomJoined r (some u)]
           else []) ++
          (if t = s ∧ (st'.sessions s).isOpen = true then [Frame.roomJoined r (some u)]
           else []) := by
  have hinv := Inv_of_reachable hreach
  obtain ⟨huser, hune, htr⟩ := truthy_of_identity hu
  have hrne : r ≠ "" := hinv.rooms_named r hdur
  have hurow := (hinv.user_ok s u huser).2
  obtain ⟨d', hd'⟩ := addRoomMember_ok st.db r u now hdur hurow
  obtain ⟨x, hx, _, _, _, _, hmem⟩ := addRoomMember_spec hd'
  simp only [Option.some.injEq] at hx
  subst hx
  rw [onMessage_room env st s msg uuid now "room:join" hty (by decide) (by decide) (by decide) htr]
  unfold handler.handleRoom
  have e1 : ¬ ("room:join" = "room:list") := by decide
  have e2 : ¬ ("room:join" = "room:create") := by decide
  have hc1 : truthy (some r) = true := by simp [truthy, hrne]
  have hc2 : (st.db.getRoom r).isNone = false := by
    cases hg : st.db.getRoom r with
    | none => simp [hg] at hdur
    | some _ => rfl
  simp only [e1, e2, if_false, if_true, hc1, Bool.not_true, Bool.false_eq_true, hroom,
    Option.getD_some, hc2, huser, hd']
  refine ⟨_, rfl, ?_, ?_, ?_, ?_, ?_⟩
  · rw [send_eq, broadcastToRoom_eq]
    exact hmem
  · rw [send_eq, broadcastToRoom_eq]
    exact isRoomMember_addRoomMember hd'
  · rw [send_eq, broadcastToRoom_eq]
    show s ∈ live (rooms.joinRoom _ s r) r
    rw [mem_live_joinRoom]
    exact Or.inr ⟨rfl, rfl⟩
  · rw [send_eq, broadcastToRoom_eq]
    show r ∈ ((rooms.joinRoom _ s r).sessions s).rooms
    rw [mem_rooms_joinRoom]
    exact Or.inr ⟨rfl, rfl⟩
  · intro t
    rw [send_outbox, broadcast_outbox]
    have hl : live (protocol.send (rooms.broadcastToRoom (rooms.joinRoom { st with db := d' } s r) r
        (Frame.roomJoined r (some u)) none) s (Frame.roomJoined r (some u))) r =
        live (rooms.joinRoom { st with db := d' } s r) r := by
      rw [send_eq, broadcastToRoom_eq]; rfl
    have hs : (protocol.send (rooms.broadcastToRoom (rooms.joinRoom { st with db := d' } s r) r
        (Frame.roomJoined r (some u)) none) s (Frame.roomJoined r (some u))).sessions =
        (rooms.joinRoom { st with db := d' } s r).sessions := by
      rw [send_eq, broadcastToRoom_eq]; rfl
    have hs2 : (rooms.broadcastToRoom (rooms.joinRoom { st with db := d' } s r) r
        (Frame.roomJoined r (some u)) none).sessions =
        (rooms.joinRoom { st with db := d' } s r).sessions := by
      rw [broadcastToRoom_eq]; rfl
    rw [hl, hs, hs2]
    have ho : (rooms.joinRoom { st with db := d' } s r).outbox t = st.outbox t := rfl
    rw [ho]
    split <;> split <;> simp

/-- Witness of C3: Bob joins `general` again; Alice is written the event once. -/
theorem C3_witness :
    (handler.onMessage demoEnv demoState 1 (.json (demoJoin "general")) "u4" 6).state.outbox 0
      = demoState.outbox 0 ++ [Frame.roomJoined "general" (some "bob")] := by
  obtain ⟨st', hrun, _, _, hlive, _, hout⟩ :=
    C3_join_room demoEnv demoState ⟨demoEvents, rfl⟩ 1 (demoJoin "general") "general" "bob"
      "u4" 6 rfl rfl (by decide) (by decide)
  have h0 : st' = (handler.onMessage demoEnv demoState 1 (.json (demoJoin "general")) "u4"
      6).state := by rw [hrun]; rfl
  rw [← h0, hout 0]
  subst h0
  rw [if_pos (by decide), if_neg (by decide)]
  simp

/-- C4: `room:join r` by an authenticated session, for a non-empty name `r` that is
not durably recorded, is answered with the error `Room does not exist` and changes
nothing else: registry, sessions and database are as before and no other socket
is written to. -/
theorem C4_join_unknown_room (env : Env) (st : State) (s : SessionId) (msg : Msg)
    (r u uuid : String) (now : Nat)
    (hty : msg.type = .str "room:join") (hroom : msg.room = some r) (hr : r ≠ "")
    (hu : (st.sessions s).identity = some u) (hnone : st.db.getRoom r = none) :
    ∃ st', handler.onMessage env st s (.json msg) uuid now = .done st' ∧
      st'.roomConnections = st.roomConnections ∧ st'.sessions = st.sessions ∧
      st'.db = st.db ∧
      ∀ t, st'.outbox t =
        if t = s ∧ (st.sessions s).isOpen = true then
          st.outbox t ++ [Frame.roomError "Room does not exist"]
        else st.outbox t := by
  obtain ⟨huser, hune, htr⟩ := truthy_of_identity hu
  rw [onMessage_room env st s msg uuid now "room:join" hty (by decide) (by decide) (by decide) htr]
  unfold handler.handleRoom
  have e1 : ¬ ("room:join" = "room:list") := by decide
  have e2 : ¬ ("room:join" = "room:create") := by decide
  have hc1 : truthy (some r) = true := by simp [truthy, hr]
  simp only [e1, e2, if_false, if_true, hc1, Bool.not_true, Bool.false_eq_true, hroom,
    Option.getD_some, hnone, Option.isNone_none]
  refine ⟨_, rfl, ?_, ?_, ?_, ?_⟩
  · rw [send_eq]; rfl
  · rw [send_eq]; rfl
  · rw [send_eq]; rfl
  · intro t
    exact send_outbox st s _ t

/-- Witness of C4: Bob asks to join `lobby`, which was never created. -/
theorem C4_witness :
    (handler.onMessage demoEnv demoState 1 (.json (demoJoin "lobby")) "u4" 6).state.outbox 1
      = demoState.outbox 1 ++ [Frame.roomError "Room does not exist"] := by
  obtain ⟨st', hrun, _, _, _, hout⟩ :=
    C4_join_unknown_room demoEnv demoState 1 (demoJoin "lobby") "lobby" "bob" "u4" 6
      rfl rfl (by decide) (by decide) (by decide)
  rw [hrun]
  show st'.outbox 1 = _
  rw [hout 1, if_pos (by decide)]

/-- C5: in a reachable state, `room:leave r` by an authenticated, open session `s`
of the live set of `r` first broadcasts `room:left` to the room, which reaches `s`
because it is still a live member, then removes `s`: afterwards `s` is not in the
live set of `r`, `r` is not in its joined-room set and `(r, u)` is not in durable
membership. -/
theorem C5_leave_room (env : Env) (st : State) (hreach : Reachable env st) (s : SessionId)
    (msg : Msg) (r u uuid : String) (now : Nat)
    (hty : msg.type = .str "room:leave") (hroom : msg.room = some r)
    (hu : (st.sessions s).identity = some u) (hopen : (st.sessions s).isOpen = true)
    (hlive : s ∈ live st r) :
    ∃ st', handler.onMessage env st s (.json msg) uuid now = .done st' ∧
      st' = protocol.send
        { rooms.leaveRoom (rooms.broadcastToRoom st r (.roomLeft r (some u)) none) s r with
          db := st.db.removeRoomMember r (some u) } s (.roomLeft r (some u)) ∧
      (rooms.broadcastToRoom st r (.roomLeft r (some u)) none).outbox s =
        st.outbox s ++ [Frame.roomLeft r (some u)] ∧
      st'.outbox s = st.outbox s ++ [Frame.roomLeft r (some u), Frame.roomLeft r (some u)] ∧
      s ∉ live st' r ∧ r ∉ (st'.sessions s).rooms ∧ st'.db.isRoomMember r u = false := by
  have hinv := Inv_of_reachable hreach
  obtain ⟨huser, hune, htr⟩ := truthy_of_identity hu
  have hrne : r ≠ "" :=
    hinv.rooms_named r (hinv.joined_exists s r ((hinv.mirror s r).mp hlive))
  rw [onMessage_room env st s msg uuid now "room:leave" hty (by decide) (by decide) (by decide)
    htr]
  unfold handler.handleRoom
  have e1 : ¬ ("room:leave" = "room:list") := by decide
  have e2 : ¬ ("room:leave" = "room:create") := by decide
  have e3 : ¬ ("room:leave" = "room:join") := by decide
  have hc1 : truthy (some r) = true := by simp [truthy, hrne]
  simp only [e1, e2, e3, if_false, if_true, hc1, Bool.not_true, Bool.false_eq_true, hroom,
    Option.getD_some, huser]
  have hb : (rooms.broadcastToRoom st r (.roomLeft r (some u)) none).outbox s =
      st.outbox s ++ [Frame.roomLeft r (some u)] := by
    rw [broadcast_outbox, if_pos ⟨hlive, hopen⟩]
  have hdb : (rooms.leaveRoom (rooms.broadcastToRoom st r (.roomLeft r (some u)) none) s r).db
      = st.db := by
    rw [broadcastToRoom_eq]; rfl
  refine ⟨_, rfl, ?_, hb, ?_, ?_, ?_, ?_⟩
  · rw [hdb]
  · rw [send_outbox]
    have hrs : ((rooms.leaveRoom (rooms.broadcastToRoom st r (.roomLeft r (some u)) none) s
        r).sessions s).readyState = (st.sessions s).readyState := by
      rw [leaveRoom_readyState, broadcastToRoom_eq]; rfl
    have : (Session.isOpen ((rooms.leaveRoom (rooms.broadcastToRoom st r
        (.roomLeft r (some u)) none) s r).sessions s)) = true := by
      unfold Session.isOpen at hopen ⊢
      rw [hrs]; exact hopen
    rw [if_pos ⟨rfl, this⟩]
    show (rooms.broadcastToRoom st r (.roomLeft r (some u)) none).outbox s ++ _ = _
    rw [hb]; simp
  · rw [send_eq]
    show s ∉ live (rooms.leaveRoom _ s r) r
    rw [mem_live_leaveRoom]
    exact fun h => h.2 ⟨rfl, rfl⟩
  · rw [send_eq]
    show r ∉ ((rooms.leaveRoom _ s r).sessions s).rooms
    rw [mem_rooms_leaveRoom]
    exact fun h => h.2 ⟨rfl, rfl⟩
  · rw [send_eq]
    show Db.isRoomMember (Db.removeRoomMember _ r (some u)) r u = false
    exact isRoomMember_removeRoomMember _ r u

/-- Witness of C5: Bob leaves `general`. -/
theorem C5_witness :
    (handler.onMessage demoEnv demoState 1 (.json (demoLeave "general")) "u4" 6).state.outbox 1
      = demoState.outbox 1 ++
          [Frame.roomLeft "general" (some "bob"), Frame.roomLeft "general" (some "bob")] := by
  obtain ⟨st', hrun, _, _, hout, _⟩ :=
    C5_leave_room demoEnv demoState ⟨demoEvents, rfl⟩ 1 (demoLeave "general") "general" "bob"
      "u4" 6 rfl rfl (by decide) (by decide) (by decide)
  rw [hrun]
  exact hout

/-- C6: the close of the connection of a session `s` bound to `u` removes `s` from
the live set of every room of its joined-room set, empties that set, writes
`presence:offline` for `u` and `r` to every other open session of the live set of
each such room `r` and nothing to `s`, keeps the other sessions of every live set,
and leaves the database unchanged. -/
theorem C6_close_cleanup (env : Env) (st : State) (s : SessionId) (u : String)
    (hc : s ∈ st.clients) (hu : (st.sessions s).identity = some u) :
    (∀ r ∈ (st.sessions s).rooms, s ∉ live (step env st (.close s)) r) ∧
      ((step env st (.close s)).sessions s).rooms.elems = [] ∧
      (∀ t, (step env st (.close s)).outbox t =
        st.outbox t ++
          ((st.sessions s).rooms.elems.filter (fun r =>
            decide (t ∈ live st r ∧ t ≠ s ∧ (st.sessions t).isOpen = true))).map
            (fun r => Frame.presenceOffline (some u) r)) ∧
      (step env st (.close s)).outbox s = st.outbox s ∧
      (∀ t r, t ≠ s → (t ∈ live (step env st (.close s)) r ↔ t ∈ live st r)) ∧
      (step env st (.close s)).db = st.db := by
  obtain ⟨huser, hune, htr⟩ := truthy_of_identity hu
  have hstep : step env st (.close s) = closeSocket st s := by
    simp only [step, if_pos hc]
  rw [hstep]
  obtain ⟨h1, _, _, _, _, _, h7, h8, _, h10⟩ := closeSocket_spec st s
  have hout : ∀ t, (closeSocket st s).outbox t =
        st.outbox t ++
          ((st.sessions s).rooms.elems.filter (fun r =>
            decide (t ∈ live st r ∧ t ≠ s ∧ (st.sessions t).isOpen = true))).map
            (fun r => Frame.presenceOffline (some u) r) := by
    intro t
    rw [h10 t]
    unfold offlineFrames
    rw [if_pos htr, huser]
    simp only [Session.isOpen, decide_eq_true_eq]
  refine ⟨?_, ?_, hout, ?_, ?_, h1⟩
  · intro r hr hm
    exact ((h7 s r).mp hm).2 ⟨hr, rfl⟩
  · rw [List.eq_nil_iff_forall_not_mem]
    intro r hr
    exact ((h8 s r).mp hr).2 rfl
  · rw [hout s]
    have : ((st.sessions s).rooms.elems.filter (fun r =>
        decide (s ∈ live st r ∧ s ≠ s ∧ (st.sessions s).isOpen = true))) = [] := by
      rw [List.filter_eq_nil_iff]
      intro r _
      simp
    rw [this]; simp
  · intro t r hne
    rw [h7]
    constructor
    · exact fun h => h.1
    · exact fun h => ⟨h, fun h2 => hne h2.2⟩

/-- Witness of C6: the connection of Bob closes; Alice is told, Bob is not. -/
theorem C6_witness :
    (step demoEnv demoState (.close 1)).outbox 0
        = demoState.outbox 0 ++ [Frame.presenceOffline (some "bob") "general"] ∧
      (step demoEnv demoState (.close 1)).outbox 1 = demoState.outbox 1 := by
  obtain ⟨_, _, hout, hself, _, _⟩ :=
    C6_close_cleanup demoEnv demoState 1 "bob" (by decide) (by decide)
  refine ⟨?_, hself⟩
  rw [hout 0]
  decide

/-- Counterexample to C7 as stated: Alice is connected twice and both sessions
are in `general`; after the first session leaves, `alice` is still listed online. -/
theorem C7_counterexample :
    Reachable demoEnv twinState ∧ (twinState.sessions 0).identity = some "alice" ∧
      (twinState.db.getRoom "general").isSome = true ∧
      "alice" ∈ rooms.getOnlineUsers
        (step demoEnv twinState (.message 0 (.json (demoLeave "general")) "u9" 9)) "general" ∧
      "alice" ∈ rooms.getOnlineUsers (step demoEnv twinState (.close 0)) "general" :=
  ⟨⟨twinEvents, rfl⟩, by decide, by decide, by decide, by decide⟩

/-- C7 (amended): in a reachable state, for a connected session `s` bound to `u` and
an existing room `r`: after `room:join r` by `s`, `u` is in `getOnlineUsers(r)`;
after `room:leave r` by `s`, and after the close of its connection (by the client
or after the heartbeat terminated it), `u` is in `getOnlineUsers(r)` exactly when
another session of the live set of `r` is bound to `u`. -/
theorem C7_presence_follows_live_sessions (env : Env) (st : State)
    (hreach : Reachable env st) (s : SessionId) (u r uuid : String) (now : Nat)
    (joinMsg leaveMsg : Msg) (hc : s ∈ st.clients)
    (hu : (st.sessions s).identity = some u) (hdur : (st.db.getRoom r).isSome)
    (hj : joinMsg.type = .str "room:join") (hjr : joinMsg.room = some r)
    (hl : leaveMsg.type = .str "room:leave") (hlr : leaveMsg.room = some r) :
    u ∈ rooms.getOnlineUsers (step env st (.message s (.json joinMsg) uuid now)) r ∧
      (u ∈ rooms.getOnlineUsers (step env st (.message s (.json leaveMsg) uuid now)) r ↔
        ∃ t ∈ live st r, t ≠ s ∧ (st.sessions t).identity = some u) ∧
      (u ∈ rooms.getOnlineUsers (step env st (.close s)) r ↔
        ∃ t ∈ live st r, t ≠ s ∧ (st.sessions t).identity = some u) := by
  have hstepJ : step env st (.message s (.json joinMsg) uuid now) =
      (handler.onMessage env st s (.json joinMsg) uuid now).state := by
    simp only [step, if_pos hc]
  have hstepL : step env st (.message s (.json leaveMsg) uuid now) =
      (handler.onMessage env st s (.json leaveMsg) uuid now).state := by
    simp only [step, if_pos hc]
  have hstepC : step env st (.close s) = closeSocket st s := by
    simp only [step, if_pos hc]
  rw [hstepJ, hstepL, hstepC]
  have hinv := Inv_of_reachable hreach
  obtain ⟨huser, hune, htr⟩ := truthy_of_identity hu
  have hrne : r ≠ "" := hinv.rooms_named r hdur
  have hurow := (hinv.user_ok s u huser).2
  refine ⟨?_, ?_, ?_⟩
  · -- join
    obtain ⟨d', hd'⟩ := addRoomMember_ok st.db r u now hdur hurow
    rw [onMessage_room env st s joinMsg uuid now "room:join" hj (by decide) (by decide)
      (by decide) htr]
    unfold handler.handleRoom
    have e1 : ¬ ("room:join" = "room:list") := by decide
    have e2 : ¬ ("room:join" = "room:create") := by decide
    have hc1 : truthy (some r) = true := by simp [truthy, hrne]
    have hc2 : (st.db.getRoom r).isNone = false := by
      cases hg : st.db.getRoom r with
      | none => simp [hg] at hdur
      | some _ => rfl
    simp only [e1, e2, if_false, if_true, hc1, Bool.not_true, Bool.false_eq_true, hjr,
      Option.getD_some, hc2, huser, hd', Outcome.state]
    rw [getOnlineUsers_mem, send_eq, broadcastToRoom_eq]
    refine ⟨s, ?_, ?_⟩
    · show s ∈ live (rooms.joinRoom _ s r) r
      rw [mem_live_joinRoom]; exact Or.inr ⟨rfl, rfl⟩
    · show ((rooms.joinRoom _ s r).sessions s).identity = some u
      rw [identity_congr (joinRoom_user _ s s r)]
      exact hu
  · -- leave
    rw [onMessage_room env st s leaveMsg uuid now "room:leave" hl (by decide) (by decide)
      (by decide) htr]
    unfold handler.handleRoom
    have e1 : ¬ ("room:leave" = "room:list") := by decide
    have e2 : ¬ ("room:leave" = "room:create") := by decide
    have e3 : ¬ ("room:leave" = "room:join") := by decide
    have hc1 : truthy (some r) = true := by simp [truthy, hrne]
    simp only [e1, e2, e3, if_false, if_true, hc1, Bool.not_true, Bool.false_eq_true, hlr,
      Option.getD_some, huser, Outcome.state]
    rw [getOnlineUsers_mem, send_eq, broadcastToRoom_eq]
    constructor
    · rintro ⟨t, ht, hid⟩
      change t ∈ live (rooms.leaveRoom _ s r) r at ht
      change ((rooms.leaveRoom _ s r).sessions t).identity = some u at hid
      rw [mem_live_leaveRoom] at ht
      rw [identity_congr (leaveRoom_user _ s t r)] at hid
      exact ⟨t, ht.1, fun e => ht.2 ⟨rfl, e⟩, hid⟩
    · rintro ⟨t, ht, hne, hid⟩
      refine ⟨t, ?_, ?_⟩
      · show t ∈ live (rooms.leaveRoom _ s r) r
        rw [mem_live_leaveRoom]
        exact ⟨ht, fun e => hne e.2⟩
      · show ((rooms.leaveRoom _ s r).sessions t).identity = some u
        rw [identity_congr (leaveRoom_user _ s t r)]
        exact hid
  · -- close
    obtain ⟨_, _, _, _, h5, _, h7, _, _, _⟩ := closeSocket_spec st s
    rw [getOnlineUsers_mem]
    constructor
    · rintro ⟨t, ht, hid⟩
      rw [h7] at ht
      rw [identity_congr (h5 t)] at hid
      refine ⟨t, ht.1, fun e => ht.2 ⟨?_, e⟩, hid⟩
      subst e
      exact (hinv.mirror t r).mp ht.1
    · rintro ⟨t, ht, hne, hid⟩
      refine ⟨t, (h7 t r).mpr ⟨ht, fun e => hne e.2⟩, ?_⟩
      rw [identity_congr (h5 t)]
      exact hid

/-- Witness of C7: Bob is listed after his join and not after his leave. -/
theorem C7_witness :
    "bob" ∈ rooms.getOnlineUsers
        (step demoEnv demoState (.message 1 (.json (demoJoin "general")) "u4" 6)) "general" ∧
      "bob" ∉ rooms.getOnlineUsers
        (step demoEnv demoState (.message 1 (.json (demoLeave "general")) "u4" 6)) "general" ∧
      "bob" ∉ rooms.getOnlineUsers (step demoEnv demoState (.close 1)) "general" := by
  obtain ⟨hjoin, hleave, hclose⟩ :=
    C7_presence_follows_live_sessions demoEnv demoState ⟨demoEvents, rfl⟩ 1 "bob" "general"
      "u4" 6 (demoJoin "general") (demoLeave "general") (by decide) (by decide) (by decide)
      rfl rfl rfl rfl
  refine ⟨hjoin, ?_, ?_⟩
  · rw [hleave]
    decide
  · rw [hclose]
    decide

/-- C8: `getOnlineUsers(r)` has no duplicates and holds `u` exactly when a session
of the live set of `r` is bound to `u`; its length is the number of these distinct
identities, which is the `userCount` that `room:list` reports for each room, and it
does not depend on the durable membership table. -/
theorem C8_online_users (env : Env) (st : State) (r : String) (ws : SessionId) (msg : Msg)
    (uuid : String) (now : Nat) (hty : msg.type = .str "room:list")
    (hauth : ((st.sessions ws).identity).isSome) :
    (rooms.getOnlineUsers st r).Nodup ∧
      (∀ u, u ∈ rooms.getOnlineUsers st r ↔
        ∃ s ∈ live st r, (st.sessions s).identity = some u) ∧
      (rooms.getOnlineUsers st r).length = (onlineIdentities st r).card ∧
      handler.onMessage env st ws (.json msg) uuid now =
        .done (protocol.send st ws (.roomList (st.db.rooms.map (fun row =>
          ⟨row.name, row.description, row.metadata, (onlineIdentities st row.name).card⟩)))) ∧
      (∀ members,
        rooms.getOnlineUsers { st with db := { st.db with room_members := members } } r =
          rooms.getOnlineUsers st r) := by
  refine ⟨getOnlineUsers_nodup st r, getOnlineUsers_mem st r, getOnlineUsers_length st r, ?_,
    fun _ => rfl⟩
  have hu : truthy (st.sessions ws).user = true := by
    unfold Session.identity at hauth
    by_contra hc
    simp [hc] at hauth
  simp only [handler.onMessage, protocol.parse, hty]
  simp [sw_room_list, hu, handler.handleRoom, Db.getRooms, getOnlineUsers_length]

/-- Witness of C8: the listing Alice gets counts two users in `general`. -/
theorem C8_witness :
    (rooms.getOnlineUsers demoState "general").length = 2 ∧
      handler.onMessage demoEnv demoState 0 (.json { type := .str "room:list" }) "u4" 6 =
        .done (protocol.send demoState 0 (.roomList (demoState.db.rooms.map (fun row =>
          ⟨row.name, row.description, row.metadata,
            (onlineIdentities demoState row.name).card⟩)))) := by
  obtain ⟨_, _, hlen, hlist, _⟩ :=
    C8_online_users demoEnv demoState "general" 0 { type := .str "room:list" } "u4" 6 rfl
      (by decide)
  refine ⟨?_, hlist⟩
  rw [hlen]
  decide

/-- C9: `broadcastToRoom(r, e, x)` writes `e` exactly once to each session of the
live set of `r` that is open and is not `x`, writes nothing to any other session,
and leaves registry, sessions, clients, database and tokens unchanged. -/
theorem C9_broadcastToRoom_delivery (st : State) (r : String) (e : Frame)
    (x : Option SessionId) :
    (∀ t, (rooms.broadcastToRoom st r e x).outbox t =
        if t ∈ live st r ∧ (st.sessions t).isOpen = true ∧ some t ≠ x then st.outbox t ++ [e]
        else st.outbox t) ∧
      (rooms.broadcastToRoom st r e x).roomConnections = st.roomConnections ∧
      (rooms.broadcastToRoom st r e x).sessions = st.sessions ∧
      (rooms.broadcastToRoom st r e x).clients = st.clients ∧
      (rooms.broadcastToRoom st r e x).db = st.db ∧
      (rooms.broadcastToRoom st r e x).tokens = st.tokens := by
  rw [broadcastToRoom_eq]
  refine ⟨fun t => ?_, rfl, rfl, rfl, rfl, rfl⟩
  simp only [deliver, Session.isOpen, decide_eq_true_eq]
  by_cases h : t ∈ live st r ∧ some t ≠ x ∧ (st.sessions t).readyState = 1
  · rw [if_pos h, if_pos ⟨h.1, h.2.2, h.2.1⟩]
  · rw [if_neg h, if_neg (fun h2 => h ⟨h2.1, h2.2.2, h2.2.1⟩)]

/-- Counterexample to C10 as stated: Alice and Bob are open and in `general`
throughout; Alice sends `room:join general` again and is written `room:joined`
twice (broadcast and direct reply), Bob once. -/
theorem C10_counterexample :
    Reachable demoEnv demoState ∧
      presentThroughout demoEnv "general" 0 demoState
        [.message 0 (.json (demoJoin "general")) "u4" 6] ∧
      presentThroughout demoEnv "general" 1 demoState
        [.message 0 (.json (demoJoin "general")) "u4" 6] ∧
      roomEventsSince demoState
          (run demoEnv demoState [.message 0 (.json (demoJoin "general")) "u4" 6]) "general" 0
        = [Frame.roomJoined "general" (some "alice"), Frame.roomJoined "general" (some "alice")] ∧
      roomEventsSince demoState
          (run demoEnv demoState [.message 0 (.json (demoJoin "general")) "u4" 6]) "general" 1
        = [Frame.roomJoined "general" (some "alice")] :=
  ⟨⟨demoEvents, rfl⟩, by decide, by decide, by decide, by decide⟩

/-- C10 (amended): over any run of events, two sessions that are open and in the live
set of `r` in every state of the run, neither of which sends `room:join r` during
it, are written the same `room:joined`, `room:left`, `message:new` and
`presence:offline` events of `r`, in the same order and number. -/
theorem C10_room_events_same_order (env : Env) (st : State) (events : List Event)
    (r : String) (t1 t2 : SessionId)
    (h1 : presentThroughout env r t1 st events) (h2 : presentThroughout env r t2 st events)
    (hj : ∀ e ∈ events, ¬ e.isJoinBy r t1 ∧ ¬ e.isJoinBy r t2) :
    roomEventsSince st (run env st events) r t1 = roomEventsSince st (run env st events) r t2 := by
  obtain ⟨d1, d2, e1, e2, e3⟩ := Uniform_run env r t1 t2 events st h1 h2 hj
  unfold roomEventsSince
  rw [e1, e2, List.drop_left, List.drop_left]
  exact e3

/-- Witness of C10: Alice sends "hi", then Bob sends "yo"; both are written the
two messages in the same order. -/
theorem C10_witness :
    roomEventsSince demoState
        (run demoEnv demoState
          [.message 0 (.json (demoSend "general" "hi")) "m1" 6,
           .message 1 (.json (demoSend "general" "yo")) "m2" 7]) "general" 0
      = roomEventsSince demoState
        (run demoEnv demoState
          [.message 0 (.json (demoSend "general" "hi")) "m1" 6,
           .message 1 (.json (demoSend "general" "yo")) "m2" 7]) "general" 1 ∧
    roomEventsSince demoState
        (run demoEnv demoState
          [.message 0 (.json (demoSend "general" "hi")) "m1" 6,
           .message 1 (.json (demoSend "general" "yo")) "m2" 7]) "general" 1
      = [Frame.messageNew "m1" (some "alice") (some "general") 6 "hi" emptyObject,
         Frame.messageNew "m2" (some "bob") (some "general") 7 "yo" emptyObject] :=
  ⟨C10_room_events_same_order demoEnv demoState
    [.message 0 (.json (demoSend "general" "hi")) "m1" 6,
     .message 1 (.json (demoSend "general" "yo")) "m2" 7] "general" 0 1
    (by decide) (by decide)
    (by
      intro e he
      simp only [List.mem_cons, List.mem_singleton, List.not_mem_nil, or_false] at he
      rcases he with rfl | rfl <;> simp [Event.isJoinBy, demoSend]),
   by decide⟩

/-- Counterexample to C11 as stated: after `twinEvents` the sessions 0 and 1 are both in
the live set of `general` and both bound to Alice. -/
theorem C11_counterexample :
    Reachable demoEnv twinState ∧ 0 ∈ live twinState "general" ∧
      1 ∈ live twinState "general" ∧ (twinState.sessions 0).identity = some "alice" ∧
      (twinState.sessions 1).identity = some "alice" :=
  ⟨⟨twinEvents, rfl⟩, by decide, by decide, by decide, by decide⟩

/-- C11 (amended): in every reachable state, for every room r and identity u, the live
set of r holds no session twice, every session in it is a connected client that has r in
its joined-room set, and the sessions of the live set bound to u are at most as many as
the connected clients bound to u; so at most one session of the live set is bound to u
whenever at most one connected client is. -/
theorem C11_live_sessions_per_identity (env : Env) (st : State) (hreach : Reachable env st)
    (r u : String) :
    (live st r).Nodup ∧
      (∀ s ∈ live st r, s ∈ st.clients ∧ r ∈ (st.sessions s).rooms) ∧
      ((live st r).filter (fun s => decide ((st.sessions s).identity = some u))).length ≤
        (st.clients.elems.filter (fun s => decide ((st.sessions s).identity = some u))).length ∧
      ((∀ a ∈ st.clients, ∀ b ∈ st.clients, (st.sessions a).identity = some u →
          (st.sessions b).identity = some u → a = b) →
        ∀ a ∈ live st r, ∀ b ∈ live st r, (st.sessions a).identity = some u →
          (st.sessions b).identity = some u → a = b) := by
  have hinv := Inv_of_reachable hreach
  have hcl : ∀ s ∈ live st r, s ∈ st.clients ∧ r ∈ (st.sessions s).rooms := fun s hs =>
    ⟨hinv.joined_client s r ((hinv.mirror s r).mp hs), (hinv.mirror s r).mp hs⟩
  refine ⟨live_nodup st r, hcl, ?_, ?_⟩
  · apply filter_length_le_of_subset _ _ _ (live_nodup st r)
    intro s hs
    exact (JSSet.mem_iff _ _).mp (hcl s hs).1
  · intro huniq a ha b hb hua hub
    exact huniq a (hcl a ha).1 b (hcl b hb).1 hua hub

/-- Witness of C11: after `demoEvents` the live set of `general` holds one session
bound to Alice. -/
theorem C11_witness :
    ((live demoState "general").filter
      (fun s => decide ((demoState.sessions s).identity = some "alice"))).length ≤
      (demoState.clients.elems.filter
        (fun s => decide ((demoState.sessions s).identity = some "alice"))).length ∧
      (live demoState "general").Nodup :=
  ⟨(C11_live_sessions_per_identity demoEnv demoState ⟨demoEvents, rfl⟩ "general" "alice").2.2.1,
    by decide⟩

/-- Counterexample to C12 as stated. First run: Alice is bound to sockets 0 and 1, both
joined to `general`; after `room:leave` on socket 0, socket 1 is still in the live set of
`general` and bound to Alice, and the pair (general, alice) is no longer in
`room_members`. Second run: socket 2 sends login (Alice), resume (Bob), create and join
`lobby` back to back; it joins as Bob, then the login completes: socket 2 is in the live
set of `lobby` and bound to Alice, and the pair (lobby, alice) is not in `room_members`. -/
theorem C12_counterexample :
    (1 ∈ live (arun demoEnv demoTurnsState twinTurns).st "general" ∧
      ((arun demoEnv demoTurnsState twinTurns).st.sessions 1).identity = some "alice" ∧
      (arun demoEnv demoTurnsState twinTurns).st.db.isRoomMember "general" "alice" = false) ∧
    (2 ∈ live (astep demoEnv raceState (.settle (.login 2 "alice" "pw" aliceRow) "k2" 12)).st
        "lobby" ∧
      ((astep demoEnv raceState (.settle (.login 2 "alice" "pw" aliceRow) "k2" 12)).st.sessions
        2).identity = some "alice" ∧
      (astep demoEnv raceState (.settle (.login 2 "alice" "pw" aliceRow) "k2" 12)).st.db.isRoomMember
        "lobby" "alice" = false) := by
  decide

/-- C12 (amended): handlers stop at `await`, and the turns of a run are the events of
the sockets and of the timer and the completions of suspended handlers, in any order. In
every state reached from start-up by a run in which no `auth:resume` frame is handled on
a session that is bound, no register or login completes on a session that is bound, and
no `room:leave` frame is handled while another session of the room's live set is bound
to the same identity, every session in the live set of a room r is bound to an identity
u and the pair (r, u) is in `room_members`. -/
theorem C12_live_within_durable (env : Env) (events : List AEvent)
    (hrun : durableTurns env AState.init events) (r : String) (s : SessionId)
    (hs : s ∈ live (arun env AState.init events).st r) :
    ∃ u, ((arun env AState.init events).st.sessions s).identity = some u ∧
      (arun env AState.init events).st.db.isRoomMember r u = true :=
  LD_arun env events AInv_init LD_init hrun r s hs

/-- Witness of C12: after `demoTurns` and `raceTurns`, with Alice's login on socket 2
still suspended, socket 2 is in the live set of `lobby`, bound to Bob, and the pair
(lobby, bob) is durable. -/
theorem C12_witness :
    ∃ u, (raceState.st.sessions 2).identity = some u ∧
      raceState.st.db.isRoomMember "lobby" u = true :=
  C12_live_within_durable demoEnv (demoTurns ++ raceTurns) (by decide) "lobby" 2 (by decide)

/-- Counterexample to C13 as stated. Socket 1 is bound to Bob; an `auth:login` frame with
Alice's credentials on it succeeds and binds it to Alice. And socket 2, bound to Bob by
`auth:resume` while its login as Alice was suspended, becomes bound to Alice when that
login completes, without any further frame. -/
theorem C13_counterexample :
    ((demoTurnsState.st.sessions 1).identity = some "bob" ∧
      ((arun demoEnv demoTurnsState
          [.ev (.message 1 (.json { type := .str "auth:login", username := some "alice",
                                    password := some "pw" }) "n2" 8),
           .settle (.login 1 "alice" "pw" aliceRow) "k2" 9]).st.sessions 1).identity
        = some "alice") ∧
    ((raceState.st.sessions 2).identity = some "bob" ∧
      ((astep demoEnv raceState
          (.settle (.login 2 "alice" "pw" aliceRow) "k2" 12)).st.sessions 2).identity
        = some "alice") := by
  decide

/-- C13 (amended): handlers stop at `await`, and the turns of a run are the events of
the sockets and of the timer and the completions of suspended handlers, in any order.
Once an identity u is bound to a connected session, the session stays bound to some
identity along every run, and it stays bound to u as long as no `auth:resume` frame is
handled on it and no register or login of it completes. -/
theorem C13_identity_stays_bound (env : Env) (a : AState) (ha : AReachable env a)
    (events : List AEvent) (ws : SessionId) (u : String) (hlt : ws < a.st.nextWs)
    (hu : (a.st.sessions ws).identity = some u) :
    ((arun env a events).st.sessions ws).identity.isSome = true ∧
      ((∀ e ∈ events, ¬ e.isBindOn ws) →
        ((arun env a events).st.sessions ws).identity = some u) :=
  bound_arun env events a (AInv_of_reachable ha) ws u hlt hu

/-- Witness of C13: Bob's socket is still bound to Bob after Alice sends a message, Bob
sends an `auth:login` frame with Alice's credentials whose comparison does not complete,
and Bob leaves `general`. -/
theorem C13_witness :
    ((arun demoEnv demoTurnsState
        [.ev (.message 0 (.json (demoSend "general" "hi")) "m1" 8),
         .ev (.message 1 (.json { type := .str "auth:login", username := some "alice",
                                  password := some "pw" }) "n2" 9),
         .ev (.message 1 (.json (demoLeave "general")) "u4" 10)]).st.sessions 1).identity
      = some "bob" :=
  (C13_identity_stays_bound demoEnv demoTurnsState ⟨demoTurns, rfl⟩
    [.ev (.message 0 (.json (demoSend "general" "hi")) "m1" 8),
     .ev (.message 1 (.json { type := .str "auth:login", username := some "alice",
                              password := some "pw" }) "n2" 9),
     .ev (.message 1 (.json (demoLeave "general")) "u4" 10)] 1 "bob" (by decide)
    (by decide)).2 (by decide)

/-- C14: for a session with no bound identity, a frame of the room, message, dm or
command family, or of type `auth:change_password` or `auth:update_profile`, is answered
with one `Not authenticated` error written to that session (when it is open) and nothing
else: the live registry, every session record, the database, the token table and the
client set are unchanged, and no other socket is written to. -/
theorem C14_unauthenticated_rejected (env : Env) (st : State) (ws : SessionId) (msg : Msg)
    (ty uuid : String) (now : Nat)
    (hunb : (st.sessions ws).identity = none) (hty : msg.type = .str ty)
    (hfam : startsWith ty "room:" = true ∨ startsWith ty "message:" = true ∨
      startsWith ty "dm:" = true ∨ startsWith ty "command:" = true ∨
      ty = "auth:change_password" ∨ ty = "auth:update_profile") :
    ∃ f st', (f = Frame.systemError "Not authenticated" ∨
        f = Frame.authError "Not authenticated") ∧
      handler.onMessage env st ws (.json msg) uuid now = .done st' ∧
      st'.roomConnections = st.roomConnections ∧ st'.sessions = st.sessions ∧
      st'.db = st.db ∧ st'.tokens = st.tokens ∧ st'.clients = st.clients ∧
      ∀ t, st'.outbox t =
        if t = ws ∧ (st.sessions ws).isOpen = true then st.outbox t ++ [f]
        else st.outbox t := by
  have hu := not_truthy_of_identity_none hunb
  rw [onMessage_str env st ws msg uuid now ty hty]
  have hfam' : (startsWith ty "room:" = true ∨ startsWith ty "message:" = true ∨
      startsWith ty "dm:" = true ∨ startsWith ty "command:" = true) ∨
      ty = "auth:change_password" ∨ ty = "auth:update_profile" := by tauto
  rcases hfam' with h | h | h
  · obtain ⟨hne, hna⟩ := not_auth_of_family ty h
    refine ⟨.systemError "Not authenticated", protocol.send st ws _, Or.inl rfl, ?_,
      send_frame st ws _⟩
    simp [hne, hna, hu]
  · subst h
    refine ⟨.authError "Not authenticated", protocol.send st ws _, Or.inr rfl, ?_,
      send_frame st ws _⟩
    have h1 : startsWith "auth:change_password" "auth:" = true := by decide
    simp [h1, handler.handleAuth, hu]
  · subst h
    refine ⟨.authError "Not authenticated", protocol.send st ws _, Or.inr rfl, ?_,
      send_frame st ws _⟩
    have h1 : startsWith "auth:update_profile" "auth:" = true := by decide
    simp [h1, handler.handleAuth, hu]

/-- Witness of C14: a `room:join` frame on a fresh socket is answered with
`Not authenticated` and joins nothing. -/
theorem C14_witness :
    ∃ f, (f = Frame.systemError "Not authenticated" ∨ f = Frame.authError "Not authenticated") ∧
      (handler.onMessage demoEnv freshState 0 (.json (demoJoin "general")) "u0" 1).state.outbox 0
        = freshState.outbox 0 ++ [f] ∧
      (handler.onMessage demoEnv freshState 0 (.json (demoJoin "general")) "u0"
        1).state.roomConnections = freshState.roomConnections := by
  obtain ⟨f, st', hf, hrun, hrc, _, _, _, _, hout⟩ :=
    C14_unauthenticated_rejected demoEnv freshState 0 (demoJoin "general") "room:join" "u0" 1
      (by decide) rfl (Or.inl (by decide))
  refine ⟨f, hf, ?_, ?_⟩
  · rw [hrun]
    show st'.outbox 0 = _
    rw [hout 0, if_pos (by decide)]
  · rw [hrun]
    exact hrc

/-- Counterexample to C15 as stated: on a fresh, open, unbound socket a `ping` frame is
answered with `Not authenticated`, not with `pong`. -/
theorem C15_counterexample :
    (freshState.sessions 0).identity = none ∧ (freshState.sessions 0).isOpen = true ∧
      (handler.onMessage demoEnv freshState 0 (.json { type := .str "ping" }) "u0" 1).state.outbox 0
        = [Frame.systemError "Not authenticated"] ∧
      (handler.onMessage demoEnv freshState 0 (.json { type := .str "ping" }) "u0" 1).state.outbox 0
        ≠ [Frame.pong] := by
  decide

/-- C15 (amended): a `ping` frame changes no state besides the reply written to the
session (when it is open), and the reply is `pong` when an identity is bound to the
session and the `Not authenticated` error when none is. -/
theorem C15_ping_pong (env : Env) (st : State) (ws : SessionId) (msg : Msg)
    (uuid : String) (now : Nat) (hty : msg.type = .str "ping") :
    ∃ st', handler.onMessage env st ws (.json msg) uuid now = .done st' ∧
      st'.roomConnections = st.roomConnections ∧ st'.sessions = st.sessions ∧
      st'.db = st.db ∧ st'.tokens = st.tokens ∧ st'.clients = st.clients ∧
      ∀ t, st'.outbox t =
        if t = ws ∧ (st.sessions ws).isOpen = true then
          st.outbox t ++ [if (st.sessions ws).identity.isSome then Frame.pong
                          else Frame.systemError "Not authenticated"]
        else st.outbox t := by
  rw [onMessage_str env st ws msg uuid now "ping" hty]
  have h1 : startsWith "ping" "auth:" = false := by decide
  have h2 : startsWith "ping" "room:" = false := by decide
  have h3 : startsWith "ping" "message:" = false := by decide
  have h4 : startsWith "ping" "dm:" = false := by decide
  have h5 : startsWith "ping" "command:" = false := by decide
  have h6 : ¬ ("ping" = "") := by decide
  simp only [h1, h2, h3, h4, h5, h6, if_false, Bool.false_eq_true, if_true]
  cases hid : (st.sessions ws).identity with
  | none =>
    have hu := not_truthy_of_identity_none hid
    simp only [hu, Bool.not_false, if_true, Option.isSome_none, Bool.false_eq_true, if_false]
    exact ⟨_, rfl, send_frame st ws _⟩
  | some u =>
    obtain ⟨_, _, hu⟩ := truthy_of_identity hid
    simp only [hu, Bool.not_true, Bool.false_eq_true, if_false, Option.isSome_some, if_true]
    exact ⟨_, rfl, send_frame st ws _⟩

/-- Witness of C15: Alice's bound socket is answered `pong`. -/
theorem C15_witness :
    (handler.onMessage demoEnv demoState 0 (.json { type := .str "ping" }) "u0" 9).state.outbox 0
      = demoState.outbox 0 ++ [Frame.pong] := by
  obtain ⟨st', hrun, _, _, _, _, _, hout⟩ :=
    C15_ping_pong demoEnv demoState 0 { type := .str "ping" } "u0" 9 rfl
  rw [hrun]
  show st'.outbox 0 = _
  rw [hout 0, if_pos (by decide)]
  decide

/-- Counterexample to C16 as stated: on Alice's bound, open socket a frame of the
unrecognized type `foo:bar` gets no reply at all, and a frame whose type is a truthy
non-string makes the listener throw. -/
theorem C16_counterexample :
    (demoState.sessions 0).isOpen = true ∧
      recognizedFamily "foo:bar" = false ∧
      (handler.onMessage demoEnv demoState 0 (.json { type := .str "foo:bar" }) "u0"
        9).state.outbox 0 = demoState.outbox 0 ∧
      (handler.onMessage demoEnv demoState 0 (.json { type := .other true }) "u0" 9).returned
        = false := by
  decide

/-- C16 (amended): a payload that is unparseable, parses to null, or has a type that is
absent, a falsy non-string or the empty string is answered with `Invalid message` and
nothing else; a frame whose type is a non-empty string naming no recognized family
leaves the state as it is on a bound session and is answered with `Not authenticated`
on an unbound one; in all these cases the listener returns. -/
theorem C16_malformed_frames (env : Env) (st : State) (ws : SessionId) (uuid : String)
    (now : Nat) :
    (∀ raw, (raw = .unparseable ∨ raw = .null ∨
        ∃ msg, raw = .json msg ∧
          (msg.type = .absent ∨ msg.type = .other false ∨ msg.type = .str "")) →
      handler.onMessage env st ws raw uuid now =
        .done (protocol.send st ws (.systemError "Invalid message"))) ∧
    (∀ msg ty, msg.type = .str ty → ty ≠ "" → recognizedFamily ty = false →
      handler.onMessage env st ws (.json msg) uuid now =
        .done (if (st.sessions ws).identity.isSome then st
               else protocol.send st ws (.systemError "Not authenticated"))) := by
  constructor
  · intro raw h
    rcases h with rfl | rfl | ⟨msg, rfl, h | h | h⟩
    · rfl
    · rfl
    · simp only [handler.onMessage, protocol.parse, h]
    · simp only [handler.onMessage, protocol.parse, h]
    · simp only [handler.onMessage, protocol.parse, h, if_true]
  · intro msg ty hty hne hfam
    rw [onMessage_str env st ws msg uuid now ty hty]
    simp only [recognizedFamily, Bool.or_eq_false_iff, decide_eq_false_iff_not] at hfam
    obtain ⟨⟨⟨⟨⟨h1, h2⟩, h3⟩, h4⟩, h5⟩, h6⟩ := hfam
    simp only [hne, h1, h2, h3, h4, h5, h6, if_false, Bool.false_eq_true]
    cases hid : (st.sessions ws).identity with
    | none =>
      have hu := not_truthy_of_identity_none hid
      simp [hu]
    | some u =>
      obtain ⟨_, _, hu⟩ := truthy_of_identity hid
      simp [hu]

/-- Witness of C16: an unparseable payload on Alice's socket is answered with
`Invalid message`. -/
theorem C16_witness :
    handler.onMessage demoEnv demoState 0 .unparseable "u0" 9 =
      .done (protocol.send demoState 0 (.systemError "Invalid message")) :=
  (C16_malformed_frames demoEnv demoState 0 "u0" 9).1 .unparseable (Or.inl rfl)

/-- Counterexample to C17 as stated: `general` holds one persisted message, and a
`room:history` request with limit 0 is answered with that message, not with
min(1, 0) = 0 messages. -/
theorem C17_counterexample :
    (histState.db.messages.filter (fun m => decide (m.room = "general"))).length = 1 ∧
      (handler.onMessage demoEnv histState 0
          (.json { type := .str "room:history", room := some "general", limit := some 0 })
          "x" 7).state.outbox 0
        = histState.outbox 0 ++
            [Frame.roomHistory "general" [⟨"m1", "general", "alice", "hi", emptyObject, 6⟩]] := by
  decide

/-- C17 (amended): for every authenticated session, every room name r and every positive
limit L (given in the request, or HISTORY_LIMIT when the request gives none or gives 0),
the `room:history` reply lists min(n, L) rows of table `messages` with room r, n being
the number of such rows; the rows are in chronological order (older timestamp first,
equal timestamps by rowid), every row of r left out comes before every row listed, and
when timestamps do not decrease along the table the reply is exactly the last
min(n, L) rows of r in table order. -/
theorem C17_history_limit (env : Env) (st : State) (s : SessionId) (msg : Msg)
    (r u uuid : String) (now : Nat) (L : Int)
    (hty : msg.type = .str "room:history") (hroom : msg.room = some r) (hr : r ≠ "")
    (hu : (st.sessions s).identity = some u) (hL : 0 < L)
    (hlim : msg.limit = some L ∨
      ((msg.limit = none ∨ msg.limit = some 0) ∧ env.HISTORY_LIMIT = L)) :
    ∃ rows : List (Nat × MessageRow),
      handler.onMessage env st s (.json msg) uuid now =
          .done (protocol.send st s (.roomHistory r (rows.map (fun p => p.2)))) ∧
        rows.length =
          min (st.db.messages.filter (fun m => decide (m.room = r))).length L.toNat ∧
        (∀ p ∈ rows, st.db.messages[p.1]? = some p.2 ∧ p.2.room = r) ∧
        rows.Pairwise (chronological (fun m => m.timestamp)) ∧
        (∀ p ∈ rows, ∀ i m, st.db.messages[i]? = some m → m.room = r → (i, m) ∉ rows →
          chronological (fun m => m.timestamp) (i, m) p) ∧
        ((st.db.messages.filter (fun m => decide (m.room = r))).Pairwise
            (fun x y => x.timestamp ≤ y.timestamp) →
          rows.map (fun p => p.2) =
            (st.db.messages.filter (fun m => decide (m.room = r))).drop
              ((st.db.messages.filter (fun m => decide (m.room = r))).length - L.toNat)) := by
  have hlimit : (if msg.limit.getD 0 = 0 then env.HISTORY_LIMIT else msg.limit.getD 0) = L := by
    rcases hlim with h | ⟨h | h, hh⟩
    · rw [h]
      simp only [Option.getD_some]
      rw [if_neg (by omega)]
    · rw [h]; simpa using hh
    · rw [h]; simpa using hh
  have hL0 : (if L = 0 then env.HISTORY_LIMIT else L) = L := if_neg (by omega)
  have hmap := enum_filter_map_snd (fun m : MessageRow => decide (m.room = r)) st.db.messages
  have hlen : (st.db.messages.enum.filter (fun p => decide (p.2.room = r))).length =
      (st.db.messages.filter (fun m => decide (m.room = r))).length := by
    rw [← hmap, List.length_map]
  have hidx := enum_filter_idx (fun p : Nat × MessageRow => decide (p.2.room = r)) st.db.messages
  have hspec := pickRows_spec (fun m : MessageRow => m.timestamp) L
    (st.db.messages.enum.filter (fun p => decide (p.2.room = r))) hidx
  refine ⟨pickRows (fun m => m.timestamp) L
    (st.db.messages.enum.filter (fun p => decide (p.2.room = r))), ?_, ?_, ?_, hspec.2.1, ?_, ?_⟩
  · rw [onMessage_room_history env st s msg r u uuid now hty hroom hr hu, hlimit,
      getMessages_eq, hL0]
  · rw [hspec.2.2.1, if_neg (by omega), hlen, Nat.min_comm]
  · intro p hp
    have h := (mem_enum_filter (fun m : MessageRow => decide (m.room = r)) st.db.messages p).mp
      (hspec.1 p hp)
    exact ⟨h.1, of_decide_eq_true h.2⟩
  · intro p hp i m hi hm hnot
    refine hspec.2.2.2 p hp (i, m) ?_ hnot
    exact (mem_enum_filter (fun m : MessageRow => decide (m.room = r)) st.db.messages (i, m)).mpr
      ⟨hi, decide_eq_true hm⟩
  · intro hmono
    have hts : (st.db.messages.enum.filter (fun p => decide (p.2.room = r))).Pairwise
        (fun a b => a.2.timestamp ≤ b.2.timestamp) := by
      rw [← hmap, List.pairwise_map] at hmono
      exact hmono
    rw [pickRows_mono (fun m : MessageRow => m.timestamp) L _ (by omega) hidx hts,
      List.map_drop, hmap, hlen]

/-- Witness of C17: after Alice's message to `general`, her request for the last 5
messages is answered with that one message. -/
theorem C17_witness :
    ∃ rows : List (Nat × MessageRow),
      handler.onMessage demoEnv histState 0
          (.json { type := .str "room:history", room := some "general", limit := some 5 })
          "x" 7 =
        .done (protocol.send histState 0 (.roomHistory "general" (rows.map (fun p => p.2)))) ∧
      rows.length = 1 := by
  obtain ⟨rows, h1, h2, _⟩ := C17_history_limit demoEnv histState 0
    { type := .str "room:history", room := some "general", limit := some 5 }
    "general" "alice" "x" 7 5 rfl rfl (by decide) (by decide) (by decide) (Or.inl rfl)
  exact ⟨rows, h1, by rw [h2]; decide⟩

/-- C18: for every content of the tables, the lists returned by `getMessages` and by `getDMs`
are rows of the table listed so that of any two, the earlier in the list has the older
timestamp, or the same timestamp and the smaller rowid (it was inserted first); hence both
lists are non-decreasing by timestamp. -/
theorem C18_history_chronological (d : Db) (hl : Int) (room : String) (a : Option String)
    (b : String) (limit : Int) :
    (∃ rows : List (Nat × MessageRow),
        d.getMessages hl room limit = rows.map (fun p => p.2) ∧
        (∀ p ∈ rows, d.messages[p.1]? = some p.2) ∧
        rows.Pairwise (chronological (fun m => m.timestamp))) ∧
      (∃ rows : List (Nat × DMRow),
        d.getDMs hl a b limit = rows.map (fun p => p.2) ∧
        (∀ p ∈ rows, d.direct_messages[p.1]? = some p.2) ∧
        rows.Pairwise (chronological (fun m => m.timestamp))) ∧
      (d.getMessages hl room limit).Pairwise (fun x y => x.timestamp ≤ y.timestamp) ∧
      (d.getDMs hl a b limit).Pairwise (fun x y => x.timestamp ≤ y.timestamp) := by
  have hm := pickRows_spec (fun m : MessageRow => m.timestamp) (if limit = 0 then hl else limit)
    (d.messages.enum.filter (fun p => decide (p.2.room = room))) (enum_filter_idx _ _)
  have hd := pickRows_spec (fun m : DMRow => m.timestamp) (if limit = 0 then hl else limit)
    (d.direct_messages.enum.filter (fun p =>
      decide ((some p.2.sender = a ∧ p.2.recipient = b) ∨
        (p.2.sender = b ∧ some p.2.recipient = a)))) (enum_filter_idx _ _)
  refine ⟨⟨_, getMessages_eq d hl room limit, ?_, hm.2.1⟩,
    ⟨_, getDMs_eq d hl a b limit, ?_, hd.2.1⟩, ?_, ?_⟩
  · intro p hp
    have h := List.mem_of_mem_filter (hm.1 p hp)
    obtain ⟨i, x⟩ := p
    exact List.mk_mem_enum_iff_getElem?.mp h
  · intro p hp
    have h := List.mem_of_mem_filter (hd.1 p hp)
    obtain ⟨i, x⟩ := p
    exact List.mk_mem_enum_iff_getElem?.mp h
  · rw [getMessages_eq, List.pairwise_map]
    refine hm.2.1.imp ?_
    intro x y h
    unfold chronological at h
    simp only at h
    show x.2.timestamp ≤ y.2.timestamp
    omega
  · rw [getDMs_eq, List.pairwise_map]
    refine hd.2.1.imp ?_
    intro x y h
    unfold chronological at h
    simp only at h
    show x.2.timestamp ≤ y.2.timestamp
    omega

/-- Counterexample to C19 as stated: Alice's `dm:send` to the unregistered name `ghost`
without a message is answered with `Missing recipient or message`, not with
`User not found`. -/
theorem C19_counterexample :
    (demoState.sessions 0).identity = some "alice" ∧
      (demoState.db.getUser "ghost").isSome = false ∧
      (handler.onMessage demoEnv demoState 0
          (.json { type := .str "dm:send", to_ := some "ghost" }) "d1" 9).state.outbox 0
        = demoState.outbox 0 ++ [Frame.systemError "Missing recipient or message"] ∧
      (handler.onMessage demoEnv demoState 0
          (.json { type := .str "dm:send", to_ := some "ghost" }) "d1" 9).state.outbox 0
        ≠ demoState.outbox 0 ++ [Frame.systemError "User not found"] := by
  decide

/-- C19 (amended): for an authenticated session and a `dm:send` frame with a non-empty
target that is no registered identity and a non-empty message, the reply to the session
is `User not found`, the database and the rest of the state are unchanged, and no other
socket is written to. -/
theorem C19_unknown_recipient (env : Env) (st : State) (s : SessionId) (msg : Msg)
    (t m u uuid : String) (now : Nat)
    (hty : msg.type = .str "dm:send") (hto : msg.to_ = some t) (ht : t ≠ "")
    (hmsg : msg.message = some m) (hm : m ≠ "")
    (hu : (st.sessions s).identity = some u) (hnone : st.db.getUser t = none) :
    ∃ st', handler.onMessage env st s (.json msg) uuid now = .done st' ∧
      st'.roomConnections = st.roomConnections ∧ st'.sessions = st.sessions ∧
      st'.db = st.db ∧ st'.tokens = st.tokens ∧ st'.clients = st.clients ∧
      ∀ x, st'.outbox x =
        if x = s ∧ (st.sessions s).isOpen = true then
          st.outbox x ++ [Frame.systemError "User not found"]
        else st.outbox x := by
  obtain ⟨huser, hune, htr⟩ := truthy_of_identity hu
  rw [onMessage_dm_send env st s msg uuid now hty htr]
  unfold messages.handleDMSend
  have hc1 : truthy (some t) = true := by simp [truthy, ht]
  have hc2 : truthy (some m) = true := by simp [truthy, hm]
  simp only [hto, hmsg, hc1, hc2, Bool.not_true, Bool.or_self, Bool.false_eq_true, if_false,
    Option.getD_some, hnone, Option.isNone_none, if_true]
  exact ⟨_, rfl, send_frame st s _⟩

/-- Witness of C19: Alice's direct message to the unregistered name `ghost` is answered
with `User not found`. -/
theorem C19_witness :
    (handler.onMessage demoEnv demoState 0
        (.json { type := .str "dm:send", to_ := some "ghost", message := some "yo" })
        "d1" 9).state.outbox 0
      = demoState.outbox 0 ++ [Frame.systemError "User not found"] := by
  obtain ⟨st', hrun, _, _, _, _, _, hout⟩ :=
    C19_unknown_recipient demoEnv demoState 0
      { type := .str "dm:send", to_ := some "ghost", message := some "yo" }
      "ghost" "yo" "alice" "d1" 9 rfl rfl (by decide) rfl (by decide) (by decide) (by decide)
  rw [hrun]
  show st'.outbox 0 = _
  rw [hout 0, if_pos (by decide)]

/-- C20: in a reachable state, a `dm:send` frame of an authenticated session s with a
non-empty message to a registered identity t appends exactly one row to
`direct_messages`; the `dm:new` event with the same id, timestamp, sender, recipient,
message and metadata is written to the session `findUserWs` returns for t, if any, and
then to s itself when s is open; `findUserWs` returns an open connected session bound
to t whenever one exists; nothing else is written and nothing else changes. The id is
assumed not to be in the table yet. -/
theorem C20_direct_message (env : Env) (st : State) (hreach : Reachable env st)
    (s : SessionId) (msg : Msg) (t m u uuid : String) (now : Nat)
    (hty : msg.type = .str "dm:send") (hto : msg.to_ = some t)
    (hmsg : msg.message = some m) (hm : m ≠ "")
    (hu : (st.sessions s).identity = some u) (hreg : (st.db.getUser t).isSome)
    (hfresh : ∀ row ∈ st.db.direct_messages, row.id ≠ uuid) :
    ∃ st', handler.onMessage env st s (.json msg) uuid now = .done st' ∧
      st'.db = { st.db with direct_messages := st.db.direct_messages ++
        [⟨uuid, u, t, m, msg.metadata.getD emptyObject, now⟩] } ∧
      (∀ x, st'.outbox x =
        st.outbox x ++
          (if rooms.findUserWs st t st.clients = some x then
            [Frame.dmNew uuid (some u) t now m (msg.metadata.getD emptyObject)] else []) ++
          (if x = s ∧ (st.sessions s).isOpen = true then
            [Frame.dmNew uuid (some u) t now m (msg.metadata.getD emptyObject)] else [])) ∧
      (∀ y, rooms.findUserWs st t st.clients = some y →
        y ∈ st.clients ∧ (st.sessions y).user = some t ∧ (st.sessions y).isOpen = true) ∧
      ((∃ y ∈ st.clients, (st.sessions y).user = some t ∧ (st.sessions y).isOpen = true) →
        (rooms.findUserWs st t st.clients).isSome = true) ∧
      st'.roomConnections = st.roomConnections ∧ st'.sessions = st.sessions := by
  have hinv := Inv_of_reachable hreach
  obtain ⟨huser, hune, htr⟩ := truthy_of_identity hu
  have hurow := (hinv.user_ok s u huser).2
  have ht : t ≠ "" := by
    obtain ⟨row, hrow, hname⟩ := (getUser_isSome_iff _ _).mp hreg
    rw [← hname]
    exact usersNamed_of_reachable hreach row hrow
  obtain ⟨hf1, hf2⟩ := findUserWs_spec st t st.clients
  rw [onMessage_dm_send env st s msg uuid now hty htr]
  unfold messages.handleDMSend
  have hc1 : truthy (some t) = true := by simp [truthy, ht]
  have hc2 : truthy (some m) = true := by simp [truthy, hm]
  have hc3 : (st.db.getUser t).isNone = false := by
    cases hg : st.db.getUser t with
    | none => simp [hg] at hreg
    | some _ => rfl
  simp only [hto, hmsg, hc1, hc2, Bool.not_true, Bool.or_self, Bool.false_eq_true, if_false,
    Option.getD_some, hc3, huser]
  rw [saveDM_ok st.db uuid u t m _ now hfresh hurow hreg]
  simp only []
  have hfind : rooms.findUserWs { st with db := { st.db with direct_messages :=
      st.db.direct_messages ++ [⟨uuid, u, t, m, msg.metadata.getD emptyObject, now⟩] } } t
      st.clients = rooms.findUserWs st t st.clients := rfl
  rw [hfind]
  cases hfw : rooms.findUserWs st t st.clients with
  | none =>
    simp only []
    refine ⟨_, rfl, ?_, ?_, ?_, ?_, ?_, ?_⟩
    · rw [db_send]
    · intro x
      rw [send_outbox]
      simp only [reduceCtorEq, if_false, List.append_nil]
      split
      · rfl
      · simp
    · intro y hy; exact absurd hy (by simp)
    · intro h; have := hf2 h; rw [hfw] at this; exact this
    · rw [send_eq]; rfl
    · rw [send_eq]; rfl
  | some y =>
    simp only []
    obtain ⟨_, _, hyopen⟩ := hf1 y hfw
    refine ⟨_, rfl, ?_, ?_, ?_, ?_, ?_, ?_⟩
    · rw [db_send, db_send]
    · intro x
      rw [send_outbox, send_outbox]
      have hs1 : (protocol.send { st with db := { st.db with direct_messages :=
          st.db.direct_messages ++ [⟨uuid, u, t, m, msg.metadata.getD emptyObject, now⟩] } } y
          (Frame.dmNew uuid (some u) t now m (msg.metadata.getD emptyObject))).sessions
          = st.sessions := by
        rw [send_eq]; rfl
      rw [hs1]
      simp only [Option.some.injEq]
      by_cases hxy : x = y
      · subst hxy
        simp only [true_and, hyopen, if_true, eq_self_iff_true]
        split <;> simp
      · have hyx : ¬ y = x := fun e => hxy e.symm
        simp only [hxy, hyx, false_and, if_false, List.append_nil]
        split <;> simp
    · intro z hz
      simp only [Option.some.injEq] at hz
      subst hz
      exact hf1 y hfw
    · intro _; rfl
    · rw [send_eq, send_eq]; rfl
    · rw [send_eq, send_eq]; rfl

/-- Witness of C20: Alice's direct message to Bob is written to Bob's socket. -/
theorem C20_witness :
    (handler.onMessage demoEnv demoState 0
        (.json { type := .str "dm:send", to_ := some "bob", message := some "yo" })
        "d1" 9).state.outbox 1
      = demoState.outbox 1 ++ [Frame.dmNew "d1" (some "alice") "bob" 9 "yo" emptyObject] := by
  obtain ⟨st', hrun, _, hout, _⟩ :=
    C20_direct_message demoEnv demoState ⟨demoEvents, rfl⟩ 0
      { type := .str "dm:send", to_ := some "bob", message := some "yo" }
      "bob" "yo" "alice" "d1" 9 rfl rfl rfl (by decide) (by decide) (by decide) (by decide)
  rw [hrun]
  show st'.outbox 1 = _
  rw [hout 1]
  decide

/-- C21: in a reachable state, a `room:create` of an authenticated session for a free,
non-empty name n stores the room and replies `room:created`; after any later events, a
`room:create` for n by any authenticated session, with any description and metadata, is
answered with `Room already exists`, and the stored room still has the description,
metadata, creator and creation time of the first call. -/
theorem C21_create_twice (env : Env) (st : State) (hreach : Reachable env st)
    (s1 s2 : SessionId) (msg1 msg2 : Msg) (n u1 u2 uuid1 uuid2 : String) (now1 now2 : Nat)
    (events : List Event)
    (hty1 : msg1.type = .str "room:create") (hname1 : msg1.name = some n) (hn : n ≠ "")
    (hu1 : (st.sessions s1).identity = some u1) (hfree : st.db.getRoom n = none)
    (hty2 : msg2.type = .str "room:create") (hname2 : msg2.name = some n)
    (hu2 : ((run env (handler.onMessage env st s1 (.json msg1) uuid1 now1).state
      events).sessions s2).identity = some u2) :
    handler.onMessage env st s1 (.json msg1) uuid1 now1 =
        .done (protocol.send
          { st with db := { st.db with rooms := st.db.rooms ++
              [⟨n, orElse msg1.description "", msg1.metadata.getD emptyObject, u1, now1⟩] } } s1
          (.roomCreated (some ⟨n, orElse msg1.description "", msg1.metadata.getD emptyObject,
            u1, now1⟩))) ∧
      (run env (handler.onMessage env st s1 (.json msg1) uuid1 now1).state events).db.getRoom n =
        some ⟨n, orElse msg1.description "", msg1.metadata.getD emptyObject, u1, now1⟩ ∧
      handler.onMessage env (run env (handler.onMessage env st s1 (.json msg1) uuid1 now1).state
          events) s2 (.json msg2) uuid2 now2 =
        .done (protocol.send (run env (handler.onMessage env st s1 (.json msg1) uuid1 now1).state
          events) s2 (.roomError "Room already exists")) := by
  have hinv := Inv_of_reachable hreach
  have hrow := (hinv.user_ok s1 u1 (truthy_of_identity hu1).1).2
  have h1 := onMessage_create_free env st s1 msg1 n u1 uuid1 now1 hty1 hname1 hn hu1 hrow hfree
  have hget : (handler.onMessage env st s1 (.json msg1) uuid1 now1).state.db.getRoom n =
      some ⟨n, orElse msg1.description "", msg1.metadata.getD emptyObject, u1, now1⟩ := by
    rw [h1, Outcome.state, db_send]
    have hfind : List.find? (fun r : RoomRow => decide (r.name = n)) st.db.rooms = none := hfree
    simp [Db.getRoom, List.find?_append, hfind]
  have hrun := run_getRoom env events _ n _ hget
  refine ⟨h1, hrun, ?_⟩
  exact onMessage_create_taken env _ s2 msg2 n u2 uuid2 now2 hty2 hname2 hn hu2
    (by rw [hrun]; rfl)

/-- Witness of C21: Alice created `general`; after Bob's arrival his `room:create` for
`general` is answered with `Room already exists`. -/
theorem C21_witness :
    handler.onMessage demoEnv demoState 1
        (.json { type := .str "room:create", name := some "general" }) "u9" 9 =
      .done (protocol.send demoState 1 (.roomError "Room already exists")) :=
  (C21_create_twice demoEnv (run demoEnv State.init (demoEvents.take 2))
    ⟨demoEvents.take 2, rfl⟩ 0 1
    { type := .str "room:create", name := some "general" }
    { type := .str "room:create", name := some "general" }
    "general" "alice" "bob" "u1" "u9" 2 9 (demoEvents.drop 3)
    rfl rfl (by decide) (by decide) (by decide) rfl rfl (by decide)).2.2

/-- Counterexample to C22 as stated: Alice joined `general` on an earlier connection, so
the pair (general, alice) is durable; on her new connection, which is not in the live
set, `room:join` followed by `room:leave` deletes that pair. -/
theorem C22_counterexample :
    (rejoinState.sessions 1).identity = some "alice" ∧
      (rejoinState.db.getRoom "general").isSome = true ∧ 1 ∉ live rejoinState "general" ∧
      rejoinState.db.isRoomMember "general" "alice" = true ∧
      (run demoEnv rejoinState
        [.message 1 (.json (demoJoin "general")) "u3" 5,
         .message 1 (.json (demoLeave "general")) "u4" 6]).db.isRoomMember "general" "alice"
        = false := by
  decide

/-- C22 (amended): in a reachable state, for a stored room r and an authenticated session
s bound to u that is not in the live set of r, when the pair (r, u) is not in
`room_members`, handling `room:join r` and then `room:leave r` on s gives back the
registry, every session record (so the joined-room set of s) and the database exactly
as they were before the join. -/
theorem C22_join_then_leave (env : Env) (st : State) (hreach : Reachable env st)
    (s : SessionId) (jmsg lmsg : Msg) (r u uuid1 uuid2 : String) (now1 now2 : Nat)
    (hjty : jmsg.type = .str "room:join") (hjroom : jmsg.room = some r)
    (hlty : lmsg.type = .str "room:leave") (hlroom : lmsg.room = some r)
    (hu : (st.sessions s).identity = some u) (hdur : (st.db.getRoom r).isSome)
    (hnot : s ∉ live st r) (hnew : st.db.isRoomMember r u = false) :
    ∃ st1 st2, handler.onMessage env st s (.json jmsg) uuid1 now1 = .done st1 ∧
      handler.onMessage env st1 s (.json lmsg) uuid2 now2 = .done st2 ∧
      st2.roomConnections = st.roomConnections ∧ st2.sessions = st.sessions ∧
      st2.db = st.db := by
  have hinv := Inv_of_reachable hreach
  obtain ⟨huser, _, htr⟩ := truthy_of_identity hu
  have hrne : r ≠ "" := hinv.rooms_named r hdur
  have hurow := (hinv.user_ok s u huser).2
  have hadd : st.db.addRoomMember r (some u) now1 =
      some { st.db with room_members := st.db.room_members ++ [⟨r, u, now1⟩] } := by
    unfold Db.addRoomMember
    simp only [hnew, Bool.false_eq_true, if_false]
    rw [if_neg (not_isNone_of_isSome hdur), if_neg (not_isNone_of_isSome hurow)]
  have hjoin := onMessage_join_eq env st s jmsg r u uuid1 now1 _ hjty hjroom hrne hu hdur hadd
  have hu1 : ((protocol.send (rooms.broadcastToRoom (rooms.joinRoom
      { st with db := { st.db with room_members := st.db.room_members ++ [⟨r, u, now1⟩] } } s r)
      r (.roomJoined r (some u)) none) s (.roomJoined r (some u))).sessions s).identity
      = some u := by
    rw [identity_congr (user_send _ _ _ _), identity_congr (user_broadcast _ _ _ _ _),
      identity_congr (joinRoom_user _ _ _ _)]
    exact hu
  have hleave := onMessage_leave_eq env _ s lmsg r u uuid2 now2 hlty hlroom hrne hu1
  refine ⟨_, _, hjoin, hleave, ?_⟩
  have hback := leaveRoom_joinRoom st
    (rooms.broadcastToRoom (protocol.send (rooms.broadcastToRoom (rooms.joinRoom
      { st with db := { st.db with room_members := st.db.room_members ++ [⟨r, u, now1⟩] } } s r)
      r (.roomJoined r (some u)) none) s (.roomJoined r (some u))) r (.roomLeft r (some u)) none)
    s r (by rw [rc_broadcast, rc_send, rc_broadcast]; rfl)
    (by rw [sessions_broadcast, (send_frame _ _ _).2.1, sessions_broadcast]; rfl)
    hnot (fun h => hnot ((hinv.mirror s r).mpr h)) (hinv.nonempty r)
  refine ⟨?_, ?_, ?_⟩
  · rw [rc_send]; exact hback.1
  · rw [(send_frame _ _ _).2.1]; exact hback.2
  · rw [db_send]
    show Db.removeRoomMember (protocol.send _ _ _).db r (some u) = st.db
    rw [db_send, db_broadcast]
    exact removeRoomMember_append_new st.db r u now1 hnew

/-- Witness of C22: right after creating `general`, Alice joins and leaves it; the
database is again as it was. -/
theorem C22_witness :
    ∃ st1 st2,
      handler.onMessage demoEnv (run demoEnv State.init (demoEvents.take 3)) 0
        (.json (demoJoin "general")) "u2" 3 = .done st1 ∧
      handler.onMessage demoEnv st1 0 (.json (demoLeave "general")) "u9" 4 = .done st2 ∧
      st2.db = (run demoEnv State.init (demoEvents.take 3)).db := by
  obtain ⟨st1, st2, h1, h2, _, _, h5⟩ :=
    C22_join_then_leave demoEnv (run demoEnv State.init (demoEvents.take 3))
      ⟨demoEvents.take 3, rfl⟩ 0 (demoJoin "general") (demoLeave "general") "general" "alice"
      "u2" "u9" 3 4 rfl rfl rfl rfl (by decide) (by decide) (by decide) (by decide)
  exact ⟨st1, st2, h1, h2, h5⟩

/-- C23: an `auth:login` with non-empty username and password that fails because the
user is unknown and one that fails because the password does not verify are answered
with the same frame, `Invalid credentials`; in both cases every session record (so the
bound identity), the token table and the database are unchanged. -/
theorem C23_login_failures_indistinguishable (env : Env) (stA stB : State)
    (wsA wsB : SessionId) (msgA msgB : Msg) (uA pA uB pB uuidA uuidB : String)
    (nowA nowB : Nat) (row : UserRow)
    (htyA : msgA.type = .str "auth:login") (hA1 : msgA.username = some uA) (hA2 : uA ≠ "")
    (hA3 : msgA.password = some pA) (hA4 : pA ≠ "") (hunknown : stA.db.getUser uA = none)
    (htyB : msgB.type = .str "auth:login") (hB1 : msgB.username = some uB) (hB2 : uB ≠ "")
    (hB3 : msgB.password = some pB) (hB4 : pB ≠ "") (hknown : stB.db.getUser uB = some row)
    (hbad : env.verifyPassword pB row.password = false) :
    ∃ reply stA' stB', reply = Frame.authError "Invalid credentials" ∧
      handler.onMessage env stA wsA (.json msgA) uuidA nowA = .done stA' ∧
      handler.onMessage env stB wsB (.json msgB) uuidB nowB = .done stB' ∧
      stA' = protocol.send stA wsA reply ∧ stB' = protocol.send stB wsB reply ∧
      stA'.sessions = stA.sessions ∧ stA'.tokens = stA.tokens ∧ stA'.db = stA.db ∧
      stB'.sessions = stB.sessions ∧ stB'.tokens = stB.tokens ∧ stB'.db = stB.db := by
  refine ⟨_, _, _, rfl,
    onMessage_login_failed env stA wsA msgA uA pA uuidA nowA htyA hA1 hA2 hA3 hA4 (Or.inl hunknown),
    onMessage_login_failed env stB wsB msgB uB pB uuidB nowB htyB hB1 hB2 hB3 hB4
      (Or.inr ⟨row, hknown, hbad⟩), rfl, rfl, ?_⟩
  obtain ⟨_, a2, a3, a4, _⟩ := send_frame stA wsA (.authError "Invalid credentials")
  obtain ⟨_, b2, b3, b4, _⟩ := send_frame stB wsB (.authError "Invalid credentials")
  exact ⟨a2, a4, a3, b2, b4, b3⟩

/-- Witness of C23: on a fresh socket, a login as the unknown `ghost` and a login as
Alice with a wrong password get the same reply. -/
theorem C23_witness :
    handler.onMessage demoEnv demoState 1
        (.json { type := .str "auth:login", username := some "ghost", password := some "x" })
        "t8" 8 =
      handler.onMessage demoEnv demoState 1
        (.json { type := .str "auth:login", username := some "alice", password := some "x" })
        "t9" 9 := by
  obtain ⟨reply, stA, stB, _, hA, hB, hA2, hB2, _⟩ :=
    C23_login_failures_indistinguishable demoEnv demoState demoState 1 1
      { type := .str "auth:login", username := some "ghost", password := some "x" }
      { type := .str "auth:login", username := some "alice", password := some "x" }
      "ghost" "x" "alice" "x" "t8" "t9" 8 9 ⟨"alice", "h:pw", "", "", 1⟩
      rfl rfl (by decide) rfl (by decide) (by decide) rfl rfl (by decide) rfl (by decide)
      (by decide) (by decide)
  rw [hA, hB, hA2, hB2]

/-- C24: an `auth:register` frame with non-empty username and password is answered with
`Username is reserved` when the lower-cased username is a reserved name, and otherwise
with `Username already taken` when the username is in table `users`; in both cases the
database, the token table and every session record are unchanged. -/
theorem C24_register_rejected (env : Env) (st : State) (ws : SessionId) (msg : Msg)
    (u p uuid : String) (now : Nat) (hty : msg.type = .str "auth:register")
    (hu : msg.username = some u) (hune : u ≠ "") (hp : msg.password = some p) (hpne : p ≠ "") :
    (handler.RESERVED_USERNAMES.contains (toLowerCase u) = true →
        handler.onMessage env st ws (.json msg) uuid now =
          .done (protocol.send st ws (.authError "Username is reserved"))) ∧
      (handler.RESERVED_USERNAMES.contains (toLowerCase u) = false →
        (st.db.getUser u).isSome = true →
        handler.onMessage env st ws (.json msg) uuid now =
          .done (protocol.send st ws (.authError "Username already taken"))) ∧
      (∀ f, (protocol.send st ws f).db = st.db ∧ (protocol.send st ws f).tokens = st.tokens ∧
        (protocol.send st ws f).sessions = st.sessions) := by
  rw [onMessage_str env st ws msg uuid now "auth:register" hty]
  have h0 : ¬ ("auth:register" = "") := by decide
  have h1 : startsWith "auth:register" "auth:" = true := by decide
  have t1 : truthy (some u) = true := (truthy_iff _).mpr ⟨u, rfl, hune⟩
  have t2 : truthy (some p) = true := (truthy_iff _).mpr ⟨p, rfl, hpne⟩
  refine ⟨?_, ?_, ?_⟩
  · intro hres
    have hres2 : toLowerCase u ∈ handler.RESERVED_USERNAMES := by simpa using hres
    simp [h0, h1, handler.handleAuth, hu, hp, t1, t2, hres2]
  · intro hres hex
    have hres2 : toLowerCase u ∉ handler.RESERVED_USERNAMES := by simpa using hres
    simp [h0, h1, handler.handleAuth, hu, hp, t1, t2, hres2, hex]
  · intro f
    obtain ⟨_, a2, a3, a4, _⟩ := send_frame st ws f
    exact ⟨a3, a4, a2⟩

/-- Witness of C24: registering `System` is refused as reserved, registering `alice`
again as taken. -/
theorem C24_witness :
    handler.onMessage demoEnv demoState 1
        (.json { type := .str "auth:register", username := some "System",
                 password := some "x" }) "t8" 8 =
      .done (protocol.send demoState 1 (.authError "Username is reserved")) :=
  (C24_register_rejected demoEnv demoState 1
    { type := .str "auth:register", username := some "System", password := some "x" }
    "System" "x" "t8" 8 rfl rfl (by decide) rfl (by decide)).1 (by decide)

/-- C25: when `auth:register` of u succeeds on a connection with token t, then after any
later events that neither reuse the value t of `uuidv4()` nor update a profile (the close
of that connection and new connections among them), an `auth:resume` with t on any
connection binds it to u, replies with the token t and the same username, avatar and
about text as the registration reply, and leaves the token table as it is. -/
theorem C25_register_then_resume (env : Env) (st : State) (ws ws2 : SessionId)
    (msg rmsg : Msg) (u p t uuid2 : String) (now now2 : Nat) (events : List Event)
    (hty : msg.type = .str "auth:register") (hu : msg.username = some u) (hune : u ≠ "")
    (hp : msg.password = some p) (hpne : p ≠ "")
    (hres : handler.RESERVED_USERNAMES.contains (toLowerCase u) = false)
    (hfree : st.db.getUser u = none)
    (hev : ∀ e ∈ events, ¬ e.usesUuid t ∧ ¬ e.isProfileUpdate)
    (hrty : rmsg.type = .str "auth:resume") (hrtok : rmsg.token = some t) :
    ∃ st1 st3, handler.onMessage env st ws (.json msg) t now = .done st1 ∧
      st1 = protocol.send
        (handler.setUser (auth.createToken
          { st with db := { st.db with users := st.db.users ++
              [⟨u, env.hashPassword p, "", "", now⟩] } } t u) ws u) ws
        (.authSuccess t ⟨u, "", ""⟩) ∧
      handler.onMessage env (run env st1 events) ws2 (.json rmsg) uuid2 now2 = .done st3 ∧
      st3 = protocol.send (handler.setUser (run env st1 events) ws2 u) ws2
        (.authSuccess t ⟨u, "", ""⟩) ∧
      (st3.sessions ws2).identity = some u ∧ st3.tokens = (run env st1 events).tokens := by
  have hreg := onMessage_register_ok env st ws msg u p t now hty hu hune hp hpne hres hfree
  refine ⟨_, _, hreg, rfl, ?_, rfl, ?_, ?_⟩
  · have hfind : List.find? (fun x : UserRow => decide (x.username = u)) st.db.users = none :=
      hfree
    refine resume_after env _ ws2 rmsg u "" "" t uuid2 now2 events hune ?_ ?_ hev hrty hrtok
    · rw [tokens_send]
      show (Function.update st.tokens t (some u)) t = some u
      simp
    · rw [db_send]
      refine ⟨⟨u, env.hashPassword p, "", "", now⟩, ?_, rfl, rfl⟩
      show Db.getUser { st.db with users := st.db.users ++
        [⟨u, env.hashPassword p, "", "", now⟩] } u = _
      simp [Db.getUser, List.find?_append, hfind]
  · unfold Session.identity
    rw [user_send, user_setUser, if_pos rfl]
    simp [truthy, hune]
  · rw [tokens_send]
    rfl

/-- Witness of C25: Alice registers on socket 0 with token `t0` and disconnects; on the
new socket 1 the resume with `t0` binds her identity. -/
theorem C25_witness :
    ∃ st1 st3,
      handler.onMessage demoEnv freshState 0 (demoRegister "alice") "t0" 1 = .done st1 ∧
      handler.onMessage demoEnv (run demoEnv st1 [.close 0, .connection]) 1
        (.json { type := .str "auth:resume", token := some "t0" }) "t1" 2 = .done st3 ∧
      (st3.sessions 1).identity = some "alice" := by
  obtain ⟨st1, st3, h1, _, h3, _, h5, _⟩ :=
    C25_register_then_resume demoEnv freshState 0 1
      { type := .str "auth:register", username := some "alice", password := some "pw" }
      { type := .str "auth:resume", token := some "t0" } "alice" "pw" "t0" "t1" 1 2
      [.close 0, .connection] rfl rfl (by decide) rfl (by decide) (by decide) (by decide)
      (by simp [Event.usesUuid, Event.isProfileUpdate]) rfl rfl
  exact ⟨st1, st3, h1, h3, h5⟩

/-- C26 at an empty new password: Alice, registered with `pw`, changes her password to
the empty string, which `auth:change_password` accepts and stores hashed; afterwards a
login with the new password is answered `Username and password required` and a login
with the old one `Invalid credentials`. -/
theorem C26_empty_new_password :
    (demoState.db.getUser "alice").map (fun r => r.password) = some (demoEnv.hashPassword "pw") ∧
      emptyPasswordState.outbox 0 = demoState.outbox 0 ++ [Frame.authPasswordChanged] ∧
      (emptyPasswordState.db.getUser "alice").map (fun r => r.password) =
        some (demoEnv.hashPassword "") ∧
      (handler.onMessage demoEnv emptyPasswordState 1
          (.json { type := .str "auth:login", username := some "alice", password := some "" })
          "t8" 9).state.outbox 1 =
        emptyPasswordState.outbox 1 ++ [Frame.authError "Username and password required"] ∧
      (handler.onMessage demoEnv emptyPasswordState 1
          (.json { type := .str "auth:login", username := some "alice", password := some "pw" })
          "t9" 10).state.outbox 1 =
        emptyPasswordState.outbox 1 ++ [Frame.authError "Invalid credentials"] := by
  decide

/-- C27: a `command:send` frame of an authenticated session with a non-empty command
name n is answered with `command:error`, message `Unknown command` and the name n,
exactly when no registered command is named n, and then nothing else happens; otherwise
the broadcasts the registered handler makes are carried out and the reply is
`command:result` with the room field of the frame (a string, `null` or absent), the
name n and the value the handler returns for the arguments (the empty string when
absent) and the context, whose room is that same field. -/
theorem C27_command_send (env : Env) (st : State) (ws : SessionId) (msg : Msg)
    (n u uuid : String) (now : Nat) (hty : msg.type = .str "command:send")
    (hcmd : msg.command = some n) (hn : n ≠ "") (hu : (st.sessions ws).identity = some u) :
    ∃ st' reply, handler.onMessage env st ws (.json msg) uuid now =
        .done (protocol.send st' ws reply) ∧
      (reply = Frame.commandError (some n) "Unknown command" ↔
        ∀ c ∈ commands.registry, c.name ≠ n) ∧
      ((∀ c ∈ commands.registry, c.name ≠ n) → st' = st) ∧
      ((∃ c ∈ commands.registry, c.name = n) →
        ∃ cmd ∈ commands.registry, cmd.name = n ∧
          reply = Frame.commandResult msg.roomField n
            (cmd.handler commands.list (orElse msg.args "") ⟨some u, msg.roomField⟩ uuid
              now).2 ∧
          st' = (cmd.handler commands.list (orElse msg.args "") ⟨some u, msg.roomField⟩ uuid
            now).1.foldl handler.contextBroadcast st) := by
  obtain ⟨huser, _, htr⟩ := truthy_of_identity hu
  rw [onMessage_str env st ws msg uuid now "command:send" hty]
  have h0 : ¬ ("command:send" = "") := by decide
  have h1 : startsWith "command:send" "auth:" = false := by decide
  have h2 : startsWith "command:send" "room:" = false := by decide
  have h3 : startsWith "command:send" "message:" = false := by decide
  have h4 : startsWith "command:send" "dm:" = false := by decide
  have h5 : startsWith "command:send" "command:" = true := by decide
  have t1 : truthy (some n) = true := (truthy_iff _).mpr ⟨n, rfl, hn⟩
  have htr2 : truthy (some u) = true := by rw [← huser]; exact htr
  simp only [h0, h1, h2, h3, h4, h5, htr2, if_false, if_true, Bool.not_true, Bool.false_eq_true,
    handler.handleCommand, hcmd, t1, Option.getD_some, commands.execute, huser]
  cases hfind : commands.registry.find? (fun c => decide (c.name = n)) with
  | none =>
    have hnone : ∀ c ∈ commands.registry, c.name ≠ n := by
      intro c hc
      have := List.find?_eq_none.mp hfind c hc
      simpa using this
    refine ⟨st, _, rfl, ⟨fun _ => hnone, fun _ => rfl⟩, fun _ => rfl, ?_⟩
    rintro ⟨c, hc, hname⟩
    exact absurd hname (hnone c hc)
  | some cmd =>
    have hmem : cmd ∈ commands.registry := List.mem_of_find?_eq_some hfind
    have hname : cmd.name = n := by
      have := List.find?_some hfind
      simpa using this
    refine ⟨_, _, rfl, ⟨fun h => absurd h (by simp), fun h => absurd hname (h cmd hmem)⟩,
      fun h => absurd hname (h cmd hmem), fun _ => ⟨cmd, hmem, hname, rfl, rfl⟩⟩

/-- Witness of C27: the command `nope` is unknown; and the command `system` with
arguments `hello` in a frame whose room is `null` is answered with the result
`System message sent to #null`, in a frame without room with `#undefined`. -/
theorem C27_witness :
    (∃ st' reply, handler.onMessage demoEnv demoState 0
        (.json { type := .str "command:send", command := some "nope" }) "c1" 9 =
        .done (protocol.send st' 0 reply) ∧
      reply = Frame.commandError (some "nope") "Unknown command") ∧
    (handler.onMessage demoEnv demoState 0
        (.json { type := .str "command:send", command := some "system", args := some "hello",
                 roomNull := true }) "c2" 9).state.outbox 0 =
      demoState.outbox 0 ++
        [Frame.commandResult .null "system" "System message sent to #null"] ∧
    (handler.onMessage demoEnv demoState 0
        (.json { type := .str "command:send", command := some "system", args := some "hello" })
        "c3" 9).state.outbox 0 =
      demoState.outbox 0 ++
        [Frame.commandResult .absent "system" "System message sent to #undefined"] := by
  obtain ⟨st', reply, h1, h2, _⟩ :=
    C27_command_send demoEnv demoState 0 { type := .str "command:send", command := some "nope" }
      "nope" "alice" "c1" 9 rfl rfl (by decide) (by decide)
  exact ⟨⟨st', reply, h1, h2.mpr (by decide)⟩, by decide, by decide⟩

/-- C28: on a heartbeat tick in a reachable state, a connected client whose liveness flag
is false is terminated (it goes to `CLOSING`) and is sent no probe, and one whose flag is
true has the flag cleared, is not terminated and is sent a probe, which goes out when
the socket is open; sockets that are not connected clients are left alone. Hence a
client of which no pong is handled after a tick is terminated at any later tick at which
it is still connected, and a socket that has a pong handled between any two ticks is
never terminated by the monitor. -/
theorem C28_heartbeat_monitor (env : Env) (st : State) (hreach : Reachable env st)
    (ws : SessionId) (hc : ws ∈ st.clients) :
    ((st.sessions ws).isAlive = false →
        (step env st .heartbeat).terminations ws = st.terminations ws + 1 ∧
        (step env st .heartbeat).probes ws = st.probes ws ∧
        ((step env st .heartbeat).sessions ws).readyState = 2) ∧
      ((st.sessions ws).isAlive = true →
        ((step env st .heartbeat).sessions ws).isAlive = false ∧
        (step env st .heartbeat).terminations ws = st.terminations ws ∧
        ((step env st .heartbeat).sessions ws).readyState = (st.sessions ws).readyState ∧
        (step env st .heartbeat).probes ws =
          st.probes ws + (if (st.sessions ws).isOpen = true then 1 else 0)) ∧
      (∀ t, t ∉ st.clients →
        (step env st .heartbeat).terminations t = st.terminations t ∧
        (step env st .heartbeat).probes t = st.probes t) ∧
      (∀ events, (∀ e ∈ events, e ≠ Event.pong ws) →
        ws ∈ (run env (step env st .heartbeat) events).clients →
        (step env (run env (step env st .heartbeat) events) .heartbeat).terminations ws =
          (run env (step env st .heartbeat) events).terminations ws + 1) ∧
      (∀ events, (st.sessions ws).isAlive = true → answersEvery ws true events →
        (run env st events).terminations ws = st.terminations ws) := by
  have hnc := notClosed_of_reachable hreach
  have hinv := Inv_of_reachable hreach
  obtain ⟨hfalse, hf, htrue⟩ := heartbeat_client st ws hc
  refine ⟨?_, ?_, ?_, ?_, ?_⟩
  · intro ha
    obtain ⟨h1, h2, h3⟩ := hf ha
    rw [if_neg (hnc ws hc)] at h2 h3
    exact ⟨h2, h1, h3⟩
  · intro ha
    obtain ⟨h1, h2, h3⟩ := htrue ha
    refine ⟨hfalse, h2, h3, ?_⟩
    show (handler.heartbeat st).probes ws = _
    rw [h1]
    simp [Session.isOpen]
  · intro t ht
    have hv := heartbeat_nonclient st t ht
    exact ⟨mv_terminations hv, mv_probes hv⟩
  · intro events hq hc2
    have hreach1 : Reachable env (step env st .heartbeat) := reachable_run hreach [.heartbeat]
    have hreach2 := reachable_run hreach1 events
    have hlt : ws < (step env st .heartbeat).nextWs :=
      lt_of_lt_of_le (hinv.clients_lt ws hc) (step_nextWs env st .heartbeat)
    have ha := quiet_run env ws events (step env st .heartbeat) hlt hfalse hq
    obtain ⟨h1, h2, h3⟩ := (heartbeat_client _ ws hc2).2.1 ha
    rw [if_neg (notClosed_of_reachable hreach2 ws hc2)] at h2
    exact h2
  · intro events ha hans
    exact answered_run env ws events st true (fun _ _ => ha) hans

/-- Witness of C28: Alice's socket has its flag set after she connected, so the first
tick sends it a probe; with a pong before the second tick it is not terminated. -/
theorem C28_witness :
    (step demoEnv demoState .heartbeat).probes 0 = demoState.probes 0 + 1 ∧
      (run demoEnv demoState [.heartbeat, .pong 0, .heartbeat]).terminations 0 =
        demoState.terminations 0 := by
  obtain ⟨_, h2, _, _, h5⟩ := C28_heartbeat_monitor demoEnv demoState ⟨demoEvents, rfl⟩ 0
    (by decide)
  refine ⟨?_, h5 [.heartbeat, .pong 0, .heartbeat] (by decide) (by simp [answersEvery])⟩
  rw [(h2 (by decide)).2.2.2]
  decide

/-- C29: starting from an empty registry and empty joined-room sets, after any sequence
of calls of `joinRoom`, `leaveRoom` and `leaveAllRooms` a session ws is an element of
`roomConnections[r]` exactly when r is an element of `ws.rooms`, and `roomConnections`
maps no room to an empty set. -/
theorem C29_registry_mirrors_rooms (st0 : State) (hreg : ∀ r, st0.roomConnections r = none)
    (hrooms : ∀ ws, (st0.sessions ws).rooms = JSSet.empty) (calls : List RoomCall)
    (ws : SessionId) (r : String) :
    ((∃ c, (calls.foldl RoomCall.apply st0).roomConnections r = some c ∧ ws ∈ c) ↔
        r ∈ ((calls.foldl RoomCall.apply st0).sessions ws).rooms) ∧
      (∀ c, (calls.foldl RoomCall.apply st0).roomConnections r = some c → c.size ≠ 0) := by
  have hmain : ∀ (calls : List RoomCall) (st : State),
      (∀ ws r, ws ∈ live st r ↔ r ∈ (st.sessions ws).rooms) →
      (∀ r c, st.roomConnections r = some c → c.elems ≠ []) →
      (∀ ws r, ws ∈ live (calls.foldl RoomCall.apply st) r ↔
        r ∈ ((calls.foldl RoomCall.apply st).sessions ws).rooms) ∧
      (∀ r c, (calls.foldl RoomCall.apply st).roomConnections r = some c → c.elems ≠ []) := by
    intro calls
    induction calls with
    | nil => exact fun st h1 h2 => ⟨h1, h2⟩
    | cons c cs ih =>
      intro st h1 h2
      obtain ⟨h3, h4⟩ := mirror_apply st c h1 h2
      exact ih (c.apply st) h3 h4
  have h0 : ∀ ws r, ws ∈ live st0 r ↔ r ∈ (st0.sessions ws).rooms := by
    intro ws r
    rw [hrooms]
    simp [live, hreg, JSSet.not_mem_empty]
  have h0' : ∀ r c, st0.roomConnections r = some c → c.elems ≠ [] := by
    intro r c hc
    rw [hreg] at hc
    exact absurd hc (by simp)
  obtain ⟨h1, h2⟩ := hmain calls st0 h0 h0'
  refine ⟨?_, ?_⟩
  · rw [← mem_live_iff]; exact h1 ws r
  · intro c hc hsize
    exact h2 r c hc (List.length_eq_zero.mp hsize)

/-- Witness of C29: after socket 0 joins `general` and `lobby` and socket 1 joins and
leaves `general`, socket 0 is an element of the registry entry of `general` exactly when
`general` is in its joined-room set. -/
theorem C29_witness :
    (∃ c, ([RoomCall.join 0 "general", RoomCall.join 0 "lobby", RoomCall.join 1 "general",
        RoomCall.leave 1 "general"].foldl RoomCall.apply State.init).roomConnections "general"
        = some c ∧ 0 ∈ c) ↔
      "general" ∈ (([RoomCall.join 0 "general", RoomCall.join 0 "lobby",
        RoomCall.join 1 "general", RoomCall.leave 1 "general"].foldl RoomCall.apply
        State.init).sessions 0).rooms :=
  (C29_registry_mirrors_rooms State.init (fun _ => rfl) (fun _ => rfl)
    [RoomCall.join 0 "general", RoomCall.join 0 "lobby", RoomCall.join 1 "general",
      RoomCall.leave 1 "general"] 0 "general").1

/-- C30: in a reachable state, a `room:leave` frame of an authenticated session s bound
to u for a non-empty room name r that is not in the joined-room set of s, whether or not
the room exists and whoever else is live in it, is answered like any other leave: the
event `room:left` for r and u is written to every open session of the live set of r
and then to s, the pair (r, u) is deleted from `room_members` and no other pair is, and
the registry and the session records are unchanged. -/
theorem C30_leave_without_membership (env : Env) (st : State) (hreach : Reachable env st)
    (s : SessionId) (msg : Msg) (r u uuid : String) (now : Nat)
    (hty : msg.type = .str "room:leave") (hroom : msg.room = some r) (hr : r ≠ "")
    (hu : (st.sessions s).identity = some u) (hnot : r ∉ (st.sessions s).rooms) :
    ∃ st', handler.onMessage env st s (.json msg) uuid now = .done st' ∧
      st'.roomConnections = st.roomConnections ∧ st'.sessions = st.sessions ∧
      st'.db = st.db.removeRoomMember r (some u) ∧
      st'.db.isRoomMember r u = false ∧
      (∀ r' u', ¬ (r' = r ∧ u' = u) →
        st'.db.isRoomMember r' u' = st.db.isRoomMember r' u') ∧
      ∀ t, st'.outbox t =
        st.outbox t ++
          (if t ∈ live st r ∧ (st.sessions t).isOpen = true then [Frame.roomLeft r (some u)]
           else []) ++
          (if t = s ∧ (st.sessions s).isOpen = true then [Frame.roomLeft r (some u)]
           else []) := by
  have hinv := Inv_of_reachable hreach
  have hnl : s ∉ live st r := fun h => hnot ((hinv.mirror s r).mp h)
  have hsame := leaveRoom_not_member (rooms.broadcastToRoom st r (.roomLeft r (some u)) none) s r
    (by
      have : live (rooms.broadcastToRoom st r (.roomLeft r (some u)) none) r = live st r := by
        simp [live, rc_broadcast]
      rw [this]; exact hnl)
    (by rw [sessions_broadcast]; exact hnot)
    (by rw [rc_broadcast]; exact hinv.nonempty r)
  refine ⟨_, onMessage_leave_eq env st s msg r u uuid now hty hroom hr hu, ?_, ?_, ?_, ?_, ?_, ?_⟩
  · rw [rc_send]
    show (rooms.leaveRoom _ s r).roomConnections = _
    rw [hsame.1, rc_broadcast]
  · rw [(send_frame _ _ _).2.1]
    show (rooms.leaveRoom _ s r).sessions = _
    rw [hsame.2, sessions_broadcast]
  · rw [db_send]
  · rw [db_send]
    exact isRoomMember_removeRoomMember _ r u
  · intro r' u' hne
    rw [db_send]
    show (st.db.removeRoomMember r (some u)).isRoomMember r' u' = _
    rw [Bool.eq_iff_iff, isRoomMember_remove_iff]
    exact ⟨fun h => h.1, fun h => ⟨h, hne⟩⟩
  · intro t
    rw [send_outbox]
    have hs : ({ rooms.leaveRoom (rooms.broadcastToRoom st r (.roomLeft r (some u)) none) s r with
        db := st.db.removeRoomMember r (some u) } : State).sessions = st.sessions := by
      show (rooms.leaveRoom _ s r).sessions = _
      rw [hsame.2, sessions_broadcast]
    have ho : ({ rooms.leaveRoom (rooms.broadcastToRoom st r (.roomLeft r (some u)) none) s r with
        db := st.db.removeRoomMember r (some u) } : State).outbox t =
        (rooms.broadcastToRoom st r (.roomLeft r (some u)) none).outbox t := rfl
    rw [hs, ho, broadcast_outbox]
    split <;> split <;> simp

/-- Witness of C30: Bob, who is in `general` only, sends `room:leave` for `lobby`, a room
that does not exist, and is answered with `room:left`. -/
theorem C30_witness :
    (handler.onMessage demoEnv demoState 1 (.json (demoLeave "lobby")) "u4" 6).state.outbox 1
      = demoState.outbox 1 ++ [Frame.roomLeft "lobby" (some "bob")] := by
  obtain ⟨st', hrun, _, _, _, _, _, hout⟩ :=
    C30_leave_without_membership demoEnv demoState ⟨demoEvents, rfl⟩ 1 (demoLeave "lobby")
      "lobby" "bob" "u4" 6 rfl rfl (by decide) (by decide) (by decide)
  rw [hrun]
  show st'.outbox 1 = _
  rw [hout 1]
  decide

end AgentChat
